import Mathlib

/-! # goxdcr: settings registry, statistics manager and utilities

A shallow embedding of `metadata/settings_common.go`, of the statistics of
`pipeline_svc/statistics_manager.go` (the `changes_left` computation and the publication
of the metrics at a tick) and of functions of `utils/utils.go` (the high sequence numbers,
the HELO handshake, the retries with backoff, the preparation of a mutation for
filtering, the vBuckets of the servers of a bucket, the conversion of byte indices of a
key to rune indices), followed by theorems about them.

Conventions of the embedding

* A Go `map[K]T` is an association list `GoMap K T`; a Go map never holds a key twice,
  which is the predicate `GoMap.WF`.  A `for k, v := range m` loop is a fold over the
  entries, in the order of the list (the theorems hold for every order).
* A Go `interface{}` holding a setting value is a `Value`; `Value.nil` is the nil interface.
* A Go string held by a setting is the list of its bytes, which need not be valid UTF-8.
* A function that can panic returns an `Option` (`none` is the panic), or an
  `Except Panic` where the kind of the panic matters.
* A Go `(result, error)` pair is a pair whose second component is an `Option Error`
  (`none` is the nil error).
* The code runs on one goroutine: the events that change the counters and the time maps
  come between two calls, not during one.
-/

namespace Goxdcr

/-! ## Go maps -/

/-- A Go `map[κ]α`, as the list of its entries. -/
abbrev GoMap (κ α : Type) := List (κ × α)

namespace GoMap

variable {κ α : Type} [DecidableEq κ]

/-- The Go map invariant: no key occurs twice. -/
def WF (m : GoMap κ α) : Prop := (m.map Prod.fst).Nodup

instance decidableWF (m : GoMap κ α) : Decidable m.WF :=
  inferInstanceAs (Decidable (m.map Prod.fst).Nodup)

/-- The lookup `v, ok := m[k]`: `none` is `ok = false`. -/
def get : GoMap κ α → κ → Option α
  | [], _ => none
  | (k', v) :: m, k => if k' = k then some v else get m k

/-- The assignment `m[k] = v`. -/
def set : GoMap κ α → κ → α → GoMap κ α
  | [], k, v => [(k, v)]
  | (k', v') :: m, k, v => if k' = k then (k, v) :: m else (k', v') :: set m k v

/-- The builtin `delete(m, k)`. -/
def delete (m : GoMap κ α) (k : κ) : GoMap κ α :=
  m.filter (fun e => decide (e.1 ≠ k))

/-- The builtin `len(m)`. -/
def len (m : GoMap κ α) : Nat := m.length

end GoMap

/-! ## Go values held in `interface{}` -/

/-- An IEEE-754 binary64 value.  `finite m e` is the number `m * 2^e`; the two zeros are
not told apart (Go's `==` and `int(f)` do not tell them apart either). -/
inductive Float64 where
  | finite (mant : Int) (exp : Int)
  | inf (neg : Bool)
  | nan
  deriving DecidableEq, Repr

namespace Float64

/-- Search for the least `k` with `n / 2^k < 2^53`, starting at `k`. -/
def shiftFor (n : Nat) : Nat → Nat → Nat
  | 0, k => k
  | fuel + 1, k => if n / 2 ^ k < 2 ^ 53 then k else shiftFor n fuel (k + 1)

/-- The conversion `float64(v)` of a Go `int` (64 bits, so at most 11 low bits are lost):
the nearest binary64 value, ties to the even mantissa. -/
def ofInt (v : Int) : Float64 :=
  let n := v.natAbs
  let shift := shiftFor n 64 0
  let q := n / 2 ^ shift
  let r := n % 2 ^ shift
  let q' := if 2 ^ shift < 2 * r ∨ (2 ^ shift = 2 * r ∧ q % 2 = 1) then q + 1 else q
  finite (if v < 0 then -(q' : Int) else (q' : Int)) (shift : Int)

/-- The value given by the amd64 conversion instruction when the operand is a NaN, an
infinity or out of the range of `int64`. -/
def intIndefinite : Int := -(2 ^ 63)

/-- The conversion `int(f)` of Go on a 64-bit platform: the fraction is discarded
(truncation towards zero).  When the truncated value is not an `int64` the Go specification
leaves the result to the implementation; this is the amd64 one. -/
def toInt : Float64 → Int
  | finite m e =>
    let t := if 0 ≤ e then m * 2 ^ e.toNat else Int.tdiv m (2 ^ (-e).toNat)
    if -(2 ^ 63) ≤ t ∧ t < 2 ^ 63 then t else intIndefinite
  | inf _ => intIndefinite
  | nan => intIndefinite

/-- Go's `==` on two `float64`: numeric equality, and a NaN equals nothing. -/
def eq : Float64 → Float64 → Bool
  | finite m e, finite m' e' =>
    let k := min e e'
    decide (m * 2 ^ (e - k).toNat = m' * 2 ^ (e' - k).toNat)
  | inf a, inf b => a == b
  | _, _ => false

end Float64

/-! ## Go strings and UTF-8

A Go string is a sequence of bytes, which need not be valid UTF-8.  The string that a
setting holds, and the key of a document, are kept as their bytes (natural numbers below
256); the names of the settings and of the statistics, which are constants of the code,
and the texts handed to the parsers of `strconv` are Lean strings. -/

/-- The size that `utf8.DecodeRune(p)` returns with the rune: 0 for no byte, the length of
the encoding at the start of `p` when it is a valid one, and 1 otherwise (the rune is then
`RuneError`).  The bounds are those of the tables `first` and `acceptRanges` of the
package. -/
def utf8DecodeRuneSize (p : List Nat) : Nat :=
  match p with
  | [] => 0
  | p0 :: rest =>
    if p0 < 0x80 then 1
    else if p0 < 0xC2 then 1
    else if p0 ≤ 0xDF then
      match rest with
      | b1 :: _ => if b1 < 0x80 ∨ 0xBF < b1 then 1 else 2
      | _ => 1
    else if p0 ≤ 0xEF then
      match rest with
      | b1 :: b2 :: _ =>
        if b1 < (if p0 = 0xE0 then 0xA0 else 0x80) ∨ (if p0 = 0xED then 0x9F else 0xBF) < b1
        then 1
        else if b2 < 0x80 ∨ 0xBF < b2 then 1
        else 3
      | _ => 1
    else if p0 ≤ 0xF4 then
      match rest with
      | b1 :: b2 :: b3 :: _ =>
        if b1 < (if p0 = 0xF0 then 0x90 else 0x80) ∨ (if p0 = 0xF4 then 0x8F else 0xBF) < b1
        then 1
        else if b2 < 0x80 ∨ 0xBF < b2 then 1
        else if b3 < 0x80 ∨ 0xBF < b3 then 1
        else 4
      | _ => 1
    else 1

/-- A Unicode scalar value: a code point that is not a surrogate. -/
def IsScalarValue (r : Nat) : Prop := r < 0xD800 ∨ (0xE000 ≤ r ∧ r < 0x110000)

instance IsScalarValue.decidable (r : Nat) : Decidable (IsScalarValue r) :=
  inferInstanceAs (Decidable (r < 0xD800 ∨ (0xE000 ≤ r ∧ r < 0x110000)))

/-- The UTF-8 encoding of a scalar value (RFC 3629). -/
def utf8Encode (r : Nat) : List Nat :=
  if r < 0x80 then [r]
  else if r < 0x800 then [0xC0 + r / 64, 0x80 + r % 64]
  else if r < 0x10000 then [0xE0 + r / 4096, 0x80 + r / 64 % 64, 0x80 + r % 64]
  else [0xF0 + r / 262144, 0x80 + r / 4096 % 64, 0x80 + r / 64 % 64, 0x80 + r % 64]

/-- The UTF-8 encoding of a text, given by its scalar values: a valid UTF-8 string is
the encoding of some text. -/
def utf8EncodeAll : List Nat → List Nat
  | [] => []
  | r :: rest => utf8Encode r ++ utf8EncodeAll rest

/-- The bytes of the Go string that holds the text `s`: its UTF-8 encoding. -/
def goString (s : String) : List Nat := utf8EncodeAll (s.data.map Char.toNat)

/-- The dynamic types a setting value can have (`reflect.Type`).  `namedInt` is a user
defined type whose underlying type is `int`, such as `LogLevel`. -/
inductive GoType where
  | int
  | int64
  | float64
  | bool
  | string
  | namedInt (name : String)
  deriving DecidableEq, Repr

/-- The kinds of `reflect.Kind` met here. -/
inductive Kind where
  | Int
  | Int64
  | Float64
  | Bool
  | String
  deriving DecidableEq, Repr

/-- The method `Kind()` of a `reflect.Type`. -/
def GoType.Kind : GoType → Goxdcr.Kind
  | .int => .Int
  | .int64 => .Int64
  | .float64 => .Float64
  | .bool => .Bool
  | .string => .String
  | .namedInt _ => .Int

/-- A value of type `interface{}`; a string is given by its bytes. -/
inductive Value where
  | nil
  | int (v : Int)
  | int64 (v : Int)
  | float64 (f : Float64)
  | bool (b : Bool)
  | string (s : List Nat)
  | namedInt (name : String) (v : Int)
  deriving DecidableEq, Repr

/-- The call `reflect.TypeOf(v)`; it is `nil` (here `none`) for the nil interface. -/
def reflectTypeOf : Value → Option GoType
  | .nil => none
  | .int _ => some .int
  | .int64 _ => some .int64
  | .float64 _ => some .float64
  | .bool _ => some .bool
  | .string _ => some .string
  | .namedInt name _ => some (.namedInt name)

/-- The call `reflect.TypeOf(v).Kind()`; calling `Kind` on the nil type panics. -/
def reflectKindOf (v : Value) : Option Kind :=
  (reflectTypeOf v).map GoType.Kind

/-- Go's `==` on two interface values: the dynamic types are identical and the values
are equal. -/
def goEq : Value → Value → Bool
  | .nil, .nil => true
  | .int a, .int b => decide (a = b)
  | .int64 a, .int64 b => decide (a = b)
  | .float64 a, .float64 b => Float64.eq a b
  | .bool a, .bool b => a == b
  | .string a, .string b => decide (a = b)
  | .namedInt s a, .namedInt t b => decide (s = t) && decide (a = b)
  | _, _ => false

/-- Go's `!=` on two interface values. -/
def goNe (a b : Value) : Bool := !goEq a b

/-! ## Errors -/

/-- The error values built by the embedded code. -/
inductive Error where
  /-- The value `base.ErrorInvalidSettingsKey`. -/
  | ErrorInvalidSettingsKey
  /-- The value `base.IncorrectValueTypeError(expectedType)`. -/
  | IncorrectValueTypeError (expectedType : String)
  /-- The value `base.InvalidValueError(expectedType, minVal, maxVal)`. -/
  | InvalidValueError (expectedType : String) (minVal maxVal : Int)
  /-- The error of UpdateSettingsFromMap for a value whose type is not the expected one. -/
  | invalidTypeOfValue (key : String) (expected actual : Option GoType)
  /-- The error of the post-processing for a key outside the schema. -/
  | notAValidSetting
  /-- The error of handleIntTypeConversion for a value that is not a float64. -/
  | unexpectedDataType (actual : Option GoType)
  /-- The error of GetSettingValueOrDefaultValue for a key outside the schema. -/
  | notAValidReplicationSetting (key : String)
  /-- The error of enterpriseOnlyFeature. -/
  | enterpriseOnly
  /-- The error of nonCAPIOnlyFeature. -/
  | nonCapiOnly
  /-- The syntax error of strconv. -/
  | strconvSyntax
  /-- The range error of strconv. -/
  | strconvRange
  /-- The error of getHighSeqNos for a server without a connection. -/
  | connectionNotInitialized
  /-- An error returned by the memcached client. -/
  | client (msg : String)
  /-- The error of ParseHighSeqnoStat for a vBucket without a high seqno in the stats map. -/
  | cantFindHighSeqno (vbno : Nat)
  /-- The error of ParseHighSeqnoStat for a high seqno that is not a valid uint64. -/
  | highSeqnoNotValid (vbno : Nat) (highseqnostr : String)
  /-- The error of SendHELOWithFeatures for a response whose status is not SUCCESS. -/
  | heloUnexpectedStatus (userAgent : String) (status : Nat)
  /-- The error of SendHELOWithFeatures for a response body with an odd number of bytes. -/
  | heloOddBody (userAgent : String)
  /-- The error of ExponentialBackoffExecutor after the last retry: the name of the
  operation, the text of `base.ErrorFailedAfterRetry` and the last error. -/
  | failedAfterRetry (name : String) (lastError : Error)
  /-- The value `base.ErrorInvalidInput`. -/
  | ErrorInvalidInput
  /-- The value `base.ErrorFilterParsingError`. -/
  | ErrorFilterParsingError
  /-- The value `base.FilterForcePassThrough`. -/
  | FilterForcePassThrough
  /-- The value `base.ErrorCompressionUnableToInflate`. -/
  | ErrorCompressionUnableToInflate
  /-- The error of processXattribute for a total xattr size above the maximum document
  size. -/
  | xattrSizeInvalid (key : List Nat) (totalXattrSize : Nat)
  /-- The error of stripAndPrependXattribute when the end of an xattr key is not found. -/
  | xattrKeyNotFound (key : List Nat)
  /-- The error of stripAndPrependXattribute when the end of an xattr value is not found. -/
  | xattrValueNotFound (key : List Nat)
  /-- An error returned by a library or by a collaborator outside the sources at hand. -/
  | external (msg : String)
  /-- An error of GetServerVBucketsMap, given by the first sentence of its message. -/
  | serverVBucketsMap (problem : String)
  /-- The error of convertByteIndexToRuneIndex for a byte index that starts no rune. -/
  | invalidRuneIndex (key : List Nat) (index : Int)
  deriving DecidableEq, Repr

/-! ## `metadata/settings_common.go` -/

/-- The struct `Range`. -/
structure Range where
  MinValue : Int
  MaxValue : Int
  deriving DecidableEq, Repr

/-- The struct `SettingsConfig`; the embedded `*Range` may be nil. -/
structure SettingsConfig where
  defaultValue : Value
  Range : Option Range
  deriving DecidableEq, Repr

/-- The type `ConfigMapRetriever`. -/
abbrev ConfigMapRetriever := Unit → GoMap String SettingsConfig

/-- The struct `Settings`. -/
structure Settings where
  Values : GoMap String Value
  configMapRetriever : ConfigMapRetriever

/-- The type `ReplicationSettingsMap`. -/
abbrev ReplicationSettingsMap := GoMap String Value

/-- The constructor `EmptySettings`. -/
def EmptySettings (configMapRetriever : ConfigMapRetriever) : Settings :=
  { Values := [], configMapRetriever := configMapRetriever }

/-- The constructor `DefaultSettings`. -/
def DefaultSettings (configMapRetriever : ConfigMapRetriever) : Settings :=
  let settings := EmptySettings configMapRetriever
  { settings with
    Values := (settings.configMapRetriever ()).foldl
      (fun values e => values.set e.1 e.2.defaultValue) settings.Values }

/-- The method `Equals`, on two non-nil receivers. -/
def Settings.Equals (s s2 : Settings) : Bool :=
  if s.Values.len ≠ s2.Values.len then false
  else s.Values.all (fun e =>
    match s2.Values.get e.1 with
    | none => false
    | some value2 => !goNe e.2 value2)

/-- One iteration of the loop of `UpdateSettingsFromMap`: the state is
`(s.Values, changedSettingsMap, errorMap)`. -/
def UpdateSettingsFromMap.step (configMap : GoMap String SettingsConfig)
    (st : GoMap String Value × ReplicationSettingsMap × GoMap String Error) (e : String × Value) :
    GoMap String Value × ReplicationSettingsMap × GoMap String Error :=
  let settingKey := e.1
  let settingValue := e.2
  match configMap.get settingKey with
  | none => (st.1, st.2.1, st.2.2.set settingKey Error.ErrorInvalidSettingsKey)
  | some settingConfig =>
    let expectedType := reflectTypeOf settingConfig.defaultValue
    let actualType := reflectTypeOf settingValue
    if expectedType ≠ actualType then
      (st.1, st.2.1,
        st.2.2.set settingKey (Error.invalidTypeOfValue settingKey expectedType actualType))
    else
      match st.1.get settingKey with
      | none => (st.1.set settingKey settingValue, st.2.1.set settingKey settingValue, st.2.2)
      | some oldSettingValue =>
        if goNe settingValue oldSettingValue then
          (st.1.set settingKey settingValue, st.2.1.set settingKey settingValue, st.2.2)
        else st

/-- The method `UpdateSettingsFromMap`: the updated receiver, `changedSettingsMap` and
`errorMap`. -/
def Settings.UpdateSettingsFromMap (s : Settings) (settingsMap : GoMap String Value) :
    Settings × ReplicationSettingsMap × GoMap String Error :=
  let configMap := s.configMapRetriever ()
  let r := settingsMap.foldl (UpdateSettingsFromMap.step configMap) (s.Values, [], [])
  ({ s with Values := r.1 }, r.2.1, r.2.2)

/-- The function `handleIntTypeConversion`. -/
def handleIntTypeConversion (settingValue : Value) : Int × Option Error :=
  match settingValue with
  | .float64 floatValue => (floatValue.toInt, none)
  | _ => (0, some (Error.unexpectedDataType (reflectTypeOf settingValue)))

/-- One iteration of the first loop of `HandleDataTypeConversionAfterUnmarshalling`: the
state is `(s.Values, errorsMap)`; `none` is the panic of `Kind()` on the nil type. -/
def HandleDataTypeConversionAfterUnmarshalling.step (configMap : GoMap String SettingsConfig)
    (st : GoMap String Value × GoMap String Error) (e : String × Value) :
    Option (GoMap String Value × GoMap String Error) :=
  let settingKey := e.1
  let settingValue := e.2
  match configMap.get settingKey with
  | none => some (st.1, st.2.set settingKey Error.notAValidSetting)
  | some settingConfig =>
    match reflectKindOf settingConfig.defaultValue with
    | none => none
    | some valueTypeKind =>
      match valueTypeKind with
      | Kind.Int =>
        match handleIntTypeConversion settingValue with
        | (_, some err) => some (st.1, st.2.set settingKey err)
        | (intValue, none) => some (st.1.set settingKey (Value.int intValue), st.2)
      | _ => some st

/-- The method `HandleDataTypeConversionAfterUnmarshalling`. -/
def Settings.HandleDataTypeConversionAfterUnmarshalling (s : Settings) : Option Settings :=
  let configMap := s.configMapRetriever ()
  match s.Values.foldlM (HandleDataTypeConversionAfterUnmarshalling.step configMap)
      (s.Values, []) with
  | none => none
  | some (values, errorsMap) =>
    if errorsMap.len > 0 then
      some { s with
        Values := errorsMap.foldl (fun vs problematic => vs.delete problematic.1) values }
    else some { s with Values := values }

/-- The method `PostProcessAfterUnmarshalling`. -/
def Settings.PostProcessAfterUnmarshalling (s : Settings)
    (configMapRetriever : ConfigMapRetriever) : Option Settings :=
  Settings.HandleDataTypeConversionAfterUnmarshalling
    { s with configMapRetriever := configMapRetriever }

/-- The method `HandleUpgrade`. -/
def Settings.HandleUpgrade (s : Settings) : Settings :=
  { s with
    Values := (s.configMapRetriever ()).foldl
      (fun values e =>
        match values.get e.1 with
        | none => values.set e.1 e.2.defaultValue
        | some _ => values)
      s.Values }

/-- The method `GetSettingValueOrDefaultValue`. -/
def Settings.GetSettingValueOrDefaultValue (s : Settings) (key : String) :
    Value × Option Error :=
  match (s.configMapRetriever ()).get key with
  | none => (Value.nil, some (Error.notAValidReplicationSetting key))
  | some settingConfig =>
    match s.Values.get key with
    | none => (settingConfig.defaultValue, none)
    | some value => (value, none)

/-- The method `GetIntSettingValue`; `none` is the panic of the type assertion
`value.(int)`. -/
def Settings.GetIntSettingValue (s : Settings) (key : String) : Option Int :=
  match (s.GetSettingValueOrDefaultValue key).1 with
  | .int v => some v
  | _ => none

/-- The method `GetStringSettingValue`; `none` is the panic of `value.(string)`. -/
def Settings.GetStringSettingValue (s : Settings) (key : String) : Option (List Nat) :=
  match (s.GetSettingValueOrDefaultValue key).1 with
  | .string v => some v
  | _ => none

/-- The method `GetBoolSettingValue`; `none` is the panic of `value.(bool)`. -/
def Settings.GetBoolSettingValue (s : Settings) (key : String) : Option Bool :=
  match (s.GetSettingValueOrDefaultValue key).1 with
  | .bool v => some v
  | _ => none

/-- The function `RangeCheck`. -/
def RangeCheck (intValue : Int) (settingsConfig : SettingsConfig) : Option Error :=
  match settingsConfig.Range with
  | some r =>
    if intValue < r.MinValue ∨ intValue > r.MaxValue then
      some (Error.InvalidValueError "an integer" r.MinValue r.MaxValue)
    else none
  | none => none

/-- The function `enterpriseOnlyFeature`. -/
def enterpriseOnlyFeature (convertedValue defaultValue : Value) (isEnterprise : Bool) :
    Option Error :=
  if goNe convertedValue defaultValue then
    if !isEnterprise then some Error.enterpriseOnly else none
  else none

/-- The function `nonCAPIOnlyFeature`. -/
def nonCAPIOnlyFeature (convertedValue defaultValue : Value) (isCapi : Bool) :
    Option Error :=
  if goNe convertedValue defaultValue then
    if isCapi then some Error.nonCapiOnly else none
  else none

/-! ## Specification functions for UpdateSettingsFromMap -/

/-- What UpdateSettingsFromMap does with one entry, on the three lookups of its key:
`(s.Values[k], changedSettingsMap[k], errorMap[k])`. -/
def UpdateSettingsFromMap.atKey (configMap : GoMap String SettingsConfig) (k : String) (v : Value)
    (old : Option Value × Option Value × Option Error) :
    Option Value × Option Value × Option Error :=
  match configMap.get k with
  | none => (old.1, old.2.1, some Error.ErrorInvalidSettingsKey)
  | some c =>
    if reflectTypeOf c.defaultValue ≠ reflectTypeOf v then
      (old.1, old.2.1,
        some (Error.invalidTypeOfValue k (reflectTypeOf c.defaultValue) (reflectTypeOf v)))
    else
      match old.1 with
      | none => (some v, some v, old.2.2)
      | some oldSettingValue =>
        if goNe v oldSettingValue then (some v, some v, old.2.2) else old

/-- The three lookups of a key in a state of the loop. -/
def UpdateSettingsFromMap.lookups (st : GoMap String Value × ReplicationSettingsMap × GoMap String Error)
    (k : String) : Option Value × Option Value × Option Error :=
  (st.1.get k, st.2.1.get k, st.2.2.get k)

/-! ## Specification functions for HandleDataTypeConversionAfterUnmarshalling -/

/-- What the first loop of HandleDataTypeConversionAfterUnmarshalling decides for one entry:
the key is recorded in errorsMap, the value is replaced by an int, or nothing is done. -/
inductive Conversion where
  | drop (err : Error)
  | convert (intValue : Int)
  | keep
  deriving DecidableEq, Repr

/-- The decision of the first loop for the entry `(k, v)`; `none` is the panic. -/
def conversionOf (configMap : GoMap String SettingsConfig) (k : String) (v : Value) :
    Option Conversion :=
  match configMap.get k with
  | none => some (Conversion.drop Error.notAValidSetting)
  | some c =>
    match reflectKindOf c.defaultValue with
    | none => none
    | some Kind.Int =>
      match v with
      | .float64 f => some (Conversion.convert f.toInt)
      | _ => some (Conversion.drop (Error.unexpectedDataType (reflectTypeOf v)))
    | some _ => some Conversion.keep

/-- The state of the first loop after a decision for the key `k`. -/
def Conversion.apply (st : GoMap String Value × GoMap String Error) (k : String) :
    Conversion → GoMap String Value × GoMap String Error
  | .drop err => (st.1, st.2.set k err)
  | .convert intValue => (st.1.set k (Value.int intValue), st.2)
  | .keep => st

/-- The value found under a key after the post-processing, from the value `v` found
before: `none` when the key has been deleted. -/
def Conversion.result (v : Value) : Option Conversion → Option Value
  | some (.drop _) => none
  | some (.convert intValue) => some (Value.int intValue)
  | _ => some v

/-! ## Persisting settings as JSON -/

/-- The string that `json.Unmarshal` reads back from the text that `json.Marshal` wrote
for a string, by the bytes.  `Marshal` walks the string with `utf8.DecodeRuneInString`: a
byte at which there is no valid encoding is written as the escape of U+FFFD, which
`Unmarshal` reads as the three bytes of the encoding of U+FFFD; a valid encoding, written
as it is or as an escape, comes back as it was.  The first argument is the number of bytes
still to copy of the encoding being read. -/
def jsonReloadString (skip : Nat) (s : List Nat) : List Nat :=
  match s with
  | [] => []
  | b :: rest =>
    match skip with
    | skip + 1 => b :: jsonReloadString skip rest
    | 0 =>
      if b < 0x80 then b :: jsonReloadString 0 rest
      else
        let size := utf8DecodeRuneSize (b :: rest)
        if size = 1 then [0xEF, 0xBF, 0xBD] ++ jsonReloadString 0 rest
        else b :: jsonReloadString (size - 1) rest

/-- The value that `json.Unmarshal` stores in an `interface{}` when it reads back the text
that `json.Marshal` wrote for a value: a JSON number is read as a `float64`, so an integer
`v` comes back as `float64(v)`; a string comes back coerced to valid UTF-8; booleans and
null come back as they were. -/
def jsonReloadValue : Value → Value
  | .int v => .float64 (Float64.ofInt v)
  | .int64 v => .float64 (Float64.ofInt v)
  | .namedInt _ v => .float64 (Float64.ofInt v)
  | .float64 f => .float64 f
  | .bool b => .bool b
  | .string s => .string (jsonReloadString 0 s)
  | .nil => .nil

/-- The settings object read back from the JSON text written for `s`: only Values is
saved, and the reloaded object has no config map retriever until
`PostProcessAfterUnmarshalling` sets it (here the retriever of the empty schema). -/
def Settings.jsonReload (s : Settings) : Settings :=
  { Values := s.Values.map (fun e => (e.1, jsonReloadValue e.2)),
    configMapRetriever := fun _ => [] }

/-! ## Machine integers -/

/-- The value of a mathematical integer as a Go `uint64`: reduction modulo 2^64. -/
def wrapUint64 (x : Int) : Nat := (x % 2 ^ 64).toNat

/-- The value of a mathematical integer as a Go `int64`: two's complement, 64 bits. -/
def wrapInt64 (x : Int) : Int := (x + 2 ^ 63) % 2 ^ 64 - 2 ^ 63

/-! ## The functions of `strconv` used by the code

These are functions of the Go standard library; they are written after its sources, for
the arguments the code passes (a base between 2 and 36, a bit size between 1 and 64). -/

namespace strconv

/-- The value of a byte as a digit, in `ParseUint`: a decimal digit or a letter. -/
def digitVal (c : Char) : Option Nat :=
  if 48 ≤ c.toNat ∧ c.toNat ≤ 57 then some (c.toNat - 48)
  else if 97 ≤ c.toNat ∧ c.toNat ≤ 122 then some (c.toNat - 97 + 10)
  else if 65 ≤ c.toNat ∧ c.toNat ≤ 90 then some (c.toNat - 65 + 10)
  else none

/-- The loop of `ParseUint` over the bytes of the string; `n` is the value read so far. -/
def ParseUint.loop (base maxVal cutoff : Nat) : List Char → Nat → Nat × Option Error
  | [], n => (n, none)
  | c :: cs, n =>
    match digitVal c with
    | none => (0, some Error.strconvSyntax)
    | some d =>
      if d ≥ base then (0, some Error.strconvSyntax)
      else if n ≥ cutoff then (maxVal, some Error.strconvRange)
      else
        let n10 := wrapUint64 (n * base)
        let n1 := wrapUint64 (n10 + d)
        if n1 < n10 ∨ n1 > maxVal then (maxVal, some Error.strconvRange)
        else ParseUint.loop base maxVal cutoff cs n1

/-- The function `strconv.ParseUint(s, base, bitSize)`. -/
def ParseUint (s : List Char) (base bitSize : Nat) : Nat × Option Error :=
  if s = [] then (0, some Error.strconvSyntax)
  else
    let cutoff := (2 ^ 64 - 1) / base + 1
    let maxVal := 2 ^ bitSize - 1
    ParseUint.loop base maxVal cutoff s 0

/-- The function `strconv.ParseInt(s, base, bitSize)`, on the bytes of the string. -/
def ParseInt (s : List Char) (base bitSize : Nat) : Int × Option Error :=
  match s with
  | [] => (0, some Error.strconvSyntax)
  | c :: cs =>
    let neg := decide (c = '-')
    let rest := if c = '+' ∨ c = '-' then cs else s
    let r := ParseUint rest base bitSize
    if r.2 ≠ none ∧ r.2 ≠ some Error.strconvRange then (0, r.2)
    else
      let un := r.1
      let cutoff := 2 ^ (bitSize - 1)
      if !neg ∧ un ≥ cutoff then (((cutoff - 1 : Nat) : Int), some Error.strconvRange)
      else if neg ∧ un > cutoff then (-(cutoff : Int), some Error.strconvRange)
      else
        let n := wrapInt64 un
        (if neg then wrapInt64 (-n) else n, none)

/-- The function `strconv.ParseBool`. -/
def ParseBool (str : String) : Bool × Option Error :=
  if str = "1" ∨ str = "t" ∨ str = "T" ∨ str = "TRUE" ∨ str = "true" ∨ str = "True" then
    (true, none)
  else if str = "0" ∨ str = "f" ∨ str = "F" ∨ str = "FALSE" ∨ str = "false"
      ∨ str = "False" then
    (false, none)
  else (false, some Error.strconvSyntax)

end strconv

/-! ## `metadata/settings_common.go`: validation of the string form of a value -/

/-- The variable `base.ParseIntBase`. -/
def ParseIntBase : Nat := 10

/-- The variable `base.ParseIntBitSize`. -/
def ParseIntBitSize : Nat := 64

/-- The function `validateAndConvertIntValue`. -/
def validateAndConvertIntValue (value : String) (settingConfig : SettingsConfig) :
    Value × Option Error :=
  match strconv.ParseInt value.data ParseIntBase ParseIntBitSize with
  | (i, some _) => (Value.int64 i, some (Error.IncorrectValueTypeError "an integer"))
  | (i, none) => (Value.int i, RangeCheck i settingConfig)

/-- The function `validateAndConvertBoolValue`. -/
def validateAndConvertBoolValue (value : String) (_settingConfig : SettingsConfig) :
    Value × Option Error :=
  match strconv.ParseBool value with
  | (b, some _) => (Value.bool b, some (Error.IncorrectValueTypeError "a boolean"))
  | (b, none) => (Value.bool b, none)

/-- The function `ValidateAndConvertSettingsValue`; `none` is the panic of `Kind()` on the
nil type. -/
def ValidateAndConvertSettingsValue (key value : String)
    (configMap : GoMap String SettingsConfig) : Option (Value × Option Error) :=
  match configMap.get key with
  | none => some (Value.nil, some Error.ErrorInvalidSettingsKey)
  | some settingConfig =>
    match reflectKindOf settingConfig.defaultValue with
    | none => none
    | some valueTypeKind =>
      match valueTypeKind with
      | Kind.Int => some (validateAndConvertIntValue value settingConfig)
      | Kind.Bool => some (validateAndConvertBoolValue value settingConfig)
      | _ => some (Value.string (goString value), none)

/-- The value of a string of decimal digits. -/
def decimalValue (ds : List Char) : Nat :=
  ds.foldl (fun n c => 10 * n + (c.toNat - 48)) 0

/-- The string `s` is a base-10 integer literal of 64 bits with value `n`: an optional
sign, then one decimal digit or more, the value lying between -2^63 and 2^63 - 1. -/
def IsInt64Literal (s : String) (n : Int) : Prop :=
  ∃ ds : List Char, ds ≠ [] ∧ (∀ c ∈ ds, 48 ≤ c.toNat ∧ c.toNat ≤ 57) ∧
    (((s.data = ds ∨ s.data = '+' :: ds) ∧ n = (decimalValue ds : Int)) ∨
      (s.data = '-' :: ds ∧ n = -(decimalValue ds : Int))) ∧
    -(2 ^ 63) ≤ n ∧ n < 2 ^ 63

/-! ## `pipeline_svc/statistics_manager.go`: changes_left -/

/-- Modelled from the spec: the struct `base.VBTimestamp`, whose declaration is not among
the sources at hand: the vBucket number (`uint16`), the vBucket UUID, the sequence number
and the snapshot window (`uint64`). -/
structure VBTimestamp where
  Vbno : Nat
  Vbuuid : Nat
  Seqno : Nat
  SnapshotStart : Nat
  SnapshotEnd : Nat
  deriving DecidableEq, Repr

/-- The memcached client `mcc.Client`, an external collaborator, as far as the code uses
it: the answer of its method `StatsMap` to a statistics name. -/
structure Client where
  StatsMap : String → GoMap String String × Option Error

/-- The fields of the struct `StatisticsManager` read by the computation of changes_left.
In a map of pointers, an absent key stands for the nil pointer. -/
structure StatisticsManager where
  current_vb_start_ts : GoMap Nat VBTimestamp
  active_vbs : GoMap String (List Nat)
  kv_mem_clients : GoMap String Client

/-- The constant `VBUCKET_SEQNO_STAT_NAME`. -/
def VBUCKET_SEQNO_STAT_NAME : String := "vbucket-seqno"

/-- The string `fmt.Sprintf(VBUCKET_HIGH_SEQNO_STAT_KEY_FORMAT, vbno)`. -/
def highSeqnoStatKey (vbno : Nat) : String := "vb_" ++ toString vbno ++ ":high_seqno"

/-- How the body of a loop ends: the loop goes on with a new state, the function returns,
or the function panics. -/
inductive LoopStep (σ ρ : Type) where
  | next (state : σ)
  | ret (result : ρ)
  | panic
  deriving DecidableEq, Repr

/-- The loop of `getHighSeqNos` over the vBucket numbers; on a parse error the function
returns the nil map (here the empty map, which reads the same) and the error. -/
def getHighSeqNos.loop (stats_map : GoMap String String) :
    List Nat → GoMap Nat Nat → GoMap Nat Nat × Option Error
  | [], highseqno_map => (highseqno_map, none)
  | vbno :: vbnos, highseqno_map =>
    let stats_key := highSeqnoStatKey vbno
    let highseqnostr := (stats_map.get stats_key).getD ""
    match strconv.ParseUint highseqnostr.data 10 64 with
    | (_, some err) => ([], some err)
    | (highseqno, none) => getHighSeqNos.loop stats_map vbnos (highseqno_map.set vbno highseqno)

/-- The method `getHighSeqNos`. -/
def StatisticsManager.getHighSeqNos (stats_mgr : StatisticsManager) (serverAddr : String)
    (vbnos : List Nat) : GoMap Nat Nat × Option Error :=
  match stats_mgr.kv_mem_clients.get serverAddr with
  | none => ([], some Error.connectionNotInitialized)
  | some conn =>
    match conn.StatsMap VBUCKET_SEQNO_STAT_NAME with
    | (_, some err) => ([], some err)
    | (stats_map, none) => getHighSeqNos.loop stats_map vbnos []

/-- The inner loop of `calculateTotalChanges`, over the vBuckets of one server; the state
is `total_doc`, a `uint64`.  The field access `ts.Seqno` panics on the nil pointer. -/
def calculateTotalChanges.inner (stats_mgr : StatisticsManager) (highseqno_map : GoMap Nat Nat)
    (err : Option Error) : List Nat → Nat → LoopStep Nat (Int × Option Error)
  | [], total_doc => LoopStep.next total_doc
  | vbno :: vbnos, total_doc =>
    let ts := stats_mgr.current_vb_start_ts.get vbno
    let current_vb_highseqno := (highseqno_map.get vbno).getD 0
    match err with
    | some e => LoopStep.ret (0, some e)
    | none =>
      match ts with
      | none => LoopStep.panic
      | some ts =>
        calculateTotalChanges.inner stats_mgr highseqno_map err vbnos
          (wrapUint64 (wrapUint64 (total_doc + current_vb_highseqno) - ts.Seqno))

/-- The outer loop of `calculateTotalChanges`, over the source servers. -/
def calculateTotalChanges.outer (stats_mgr : StatisticsManager) :
    List (String × List Nat) → Nat → LoopStep Nat (Int × Option Error)
  | [], total_doc => LoopStep.next total_doc
  | (serverAddr, vbnos) :: rest, total_doc =>
    let r := stats_mgr.getHighSeqNos serverAddr vbnos
    match calculateTotalChanges.inner stats_mgr r.1 r.2 vbnos total_doc with
    | LoopStep.next total_doc => calculateTotalChanges.outer stats_mgr rest total_doc
    | LoopStep.ret result => LoopStep.ret result
    | LoopStep.panic => LoopStep.panic

/-- The method `calculateTotalChanges`; `none` is the panic. -/
def StatisticsManager.calculateTotalChanges (stats_mgr : StatisticsManager) :
    Option (Int × Option Error) :=
  match calculateTotalChanges.outer stats_mgr stats_mgr.active_vbs 0 with
  | LoopStep.next total_doc => some (wrapInt64 total_doc, none)
  | LoopStep.ret result => some result
  | LoopStep.panic => none

/-- The method `calculateChangesLeft`; `none` is the panic. -/
def StatisticsManager.calculateChangesLeft (stats_mgr : StatisticsManager)
    (docs_written : Int) : Option (Int × Option Error) :=
  match stats_mgr.calculateTotalChanges with
  | none => none
  | some (_, some err) => some (0, some err)
  | some (total_doc, none) => some (wrapInt64 (total_doc - docs_written), none)

/-- The high sequence number that `calculateTotalChanges` reads for a vBucket of a
server. -/
def StatisticsManager.highSeqnoOf (stats_mgr : StatisticsManager) (serverAddr : String)
    (vbnos : List Nat) (vbno : Nat) : Nat :=
  ((stats_mgr.getHighSeqNos serverAddr vbnos).1.get vbno).getD 0

/-- The start sequence number of a vBucket, the Seqno of `current_vb_start_ts[vbno]`. -/
def StatisticsManager.startSeqnoOf (stats_mgr : StatisticsManager) (vbno : Nat) : Nat :=
  ((stats_mgr.current_vb_start_ts.get vbno).map VBTimestamp.Seqno).getD 0

/-- The sum over the active vBuckets of all servers of high_seqno - start_seqno, in the
integers. -/
def StatisticsManager.signedTotalChanges (stats_mgr : StatisticsManager) : Int :=
  (stats_mgr.active_vbs.map (fun e =>
    (e.2.map (fun vbno =>
      (stats_mgr.highSeqnoOf e.1 e.2 vbno : Int) - (stats_mgr.startSeqnoOf vbno : Int))).sum)).sum

/-! ## `utils/utils.go`: ParseHighSeqnoStat -/

/-- The loop of `ParseHighSeqnoStat`; the state is the map `highseqno_map` of the caller,
which keeps the entries written before an error. -/
def ParseHighSeqnoStat.loop (stats_map : GoMap String String) :
    List Nat → GoMap Nat Nat → GoMap Nat Nat × Option Error
  | [], highseqno_map => (highseqno_map, none)
  | vbno :: vbnos, highseqno_map =>
    let stats_key := highSeqnoStatKey vbno
    match stats_map.get stats_key with
    | none => (highseqno_map, some (Error.cantFindHighSeqno vbno))
    | some highseqnostr =>
      if highseqnostr = "" then (highseqno_map, some (Error.cantFindHighSeqno vbno))
      else
        match strconv.ParseUint highseqnostr.data 10 64 with
        | (_, some _) => (highseqno_map, some (Error.highSeqnoNotValid vbno highseqnostr))
        | (highseqno, none) =>
          ParseHighSeqnoStat.loop stats_map vbnos (highseqno_map.set vbno highseqno)

/-- The method `ParseHighSeqnoStat`: the map `highseqno_map` after the call and the error
returned. -/
def ParseHighSeqnoStat (vbnos : List Nat) (stats_map : GoMap String String)
    (highseqno_map : GoMap Nat Nat) : GoMap Nat Nat × Option Error :=
  ParseHighSeqnoStat.loop stats_map vbnos highseqno_map

/-- The high sequence number written in the stats map of a server for a vBucket: the
number parsed from its entry `vb_N:high_seqno`. -/
def StatisticsManager.statHighSeqno (stats_mgr : StatisticsManager) (serverAddr : String)
    (vbno : Nat) : Nat :=
  match stats_mgr.kv_mem_clients.get serverAddr with
  | none => 0
  | some conn =>
    (strconv.ParseUint
      (((conn.StatsMap VBUCKET_SEQNO_STAT_NAME).1.get (highSeqnoStatKey vbno)).getD "").data
      10 64).1

/-- The sum over the active vBuckets of all servers of high_seqno - start_seqno, in the
integers, the high seqnos being those written in the stats maps. -/
def StatisticsManager.statTotalChanges (stats_mgr : StatisticsManager) : Int :=
  (stats_mgr.active_vbs.map (fun e =>
    (e.2.map (fun vbno =>
      (stats_mgr.statHighSeqno e.1 vbno : Int) - (stats_mgr.startSeqnoOf vbno : Int))).sum)).sum

/-! ## `utils/utils.go`: the HELO handshake

Byte slices are lists of bytes, a byte being a natural number below 256. -/

/-- The constants of the package `base` read by the HELO code, whose declarations are not
among the sources at hand: the three feature codes (`uint16`) and the two compression
types. -/
structure HeloConstants where
  HELO_FEATURE_TCP_NO_DELAY : Nat
  HELO_FEATURE_XATTR : Nat
  HELO_FEATURE_SNAPPY : Nat
  CompressionTypeNone : Int
  CompressionTypeSnappy : Int
  deriving DecidableEq, Repr

/-- Modelled from the spec: the constant `base.HELO_BYTES_PER_FEATURE`, whose declaration
is not among the sources at hand; the spec says that a feature code takes 2 bytes. -/
def HELO_BYTES_PER_FEATURE : Nat := 2

/-- The struct `HELOFeatures`, with the two fields the code reads; `CompressionType` is of
the integer type `base.CompressionType`. -/
structure HELOFeatures where
  Xattribute : Bool
  CompressionType : Int
  deriving DecidableEq, Repr

/-- The method `NumberOfActivatedFeatures`. -/
def HELOFeatures.NumberOfActivatedFeatures (c : HeloConstants) (f : HELOFeatures) : Nat :=
  let result := 0
  let result := if f.Xattribute then result + 1 else result
  let result := if f.CompressionType ≠ c.CompressionTypeNone then result + 1 else result
  result

/-- The call `binary.BigEndian.PutUint16(b[lo:hi], v)` on the slice `b`, of which it
returns the new content; `none` is the panic of a slice expression or of an index out of
range. -/
def PutUint16 (b : List Nat) (lo hi : Nat) (v : Nat) : Option (List Nat) :=
  if lo ≤ hi ∧ hi ≤ b.length ∧ 2 ≤ hi - lo then
    some ((b.set lo (v / 256 % 256)).set (lo + 1) (v % 256))
  else none

/-- The call `binary.BigEndian.Uint16(b[lo:hi])`; `none` is the panic of a slice expression
or of an index out of range. -/
def Uint16 (b : List Nat) (lo hi : Nat) : Option Nat :=
  if lo ≤ hi ∧ hi ≤ b.length ∧ 2 ≤ hi - lo then
    some (b.getD lo 0 * 256 + b.getD (lo + 1) 0)
  else none

/-- The opcode `mc.HELLO` of the memcached protocol. -/
def HELLO : Nat := 0x1f

/-- The status `mc.SUCCESS` of the memcached protocol. -/
def SUCCESS : Nat := 0

/-- The fields of `mc.MCRequest` set by the code; `Key` holds the bytes of the user
agent, kept as a string. -/
structure MCRequest where
  Key : String
  Opcode : Nat
  Body : List Nat
  deriving DecidableEq, Repr

/-- The fields of `mc.MCResponse` read by the code. -/
structure MCResponse where
  Status : Nat
  Body : List Nat
  deriving DecidableEq, Repr

/-- The method `ComposeHELORequest`; `none` is the panic of a slice expression out of
range. -/
def ComposeHELORequest (c : HeloConstants) (userAgent : String) (features : HELOFeatures) :
    Option MCRequest :=
  let numOfFeatures := features.NumberOfActivatedFeatures c
  let sliceIndex := 0
  let bytesToAllocate := HELO_BYTES_PER_FEATURE * (numOfFeatures + 1)
  let value := List.replicate bytesToAllocate 0
  match PutUint16 value sliceIndex (sliceIndex + HELO_BYTES_PER_FEATURE)
      c.HELO_FEATURE_TCP_NO_DELAY with
  | none => none
  | some value =>
    let sliceIndex := sliceIndex + HELO_BYTES_PER_FEATURE
    let afterXattr : Option (List Nat × Nat) :=
      if features.Xattribute then
        (PutUint16 value sliceIndex (sliceIndex + HELO_BYTES_PER_FEATURE)
          c.HELO_FEATURE_XATTR).map (fun value => (value, sliceIndex + HELO_BYTES_PER_FEATURE))
      else some (value, sliceIndex)
    match afterXattr with
    | none => none
    | some (value, sliceIndex) =>
      let afterSnappy : Option (List Nat × Nat) :=
        if features.CompressionType = c.CompressionTypeSnappy then
          (PutUint16 value sliceIndex (sliceIndex + HELO_BYTES_PER_FEATURE)
            c.HELO_FEATURE_SNAPPY).map
            (fun value => (value, sliceIndex + HELO_BYTES_PER_FEATURE))
        else some (value, sliceIndex)
      match afterSnappy with
      | none => none
      | some (value, _) => some { Key := userAgent, Opcode := HELLO, Body := value }

/-- The loop of `SendHELOWithFeatures` over the response body, from the position `pos`;
`none` is a panic, or the fuel running out (`bodyLen + 1` is enough fuel). -/
def SendHELOWithFeatures.loop (c : HeloConstants) (body : List Nat) (bodyLen : Nat) :
    Nat → Nat → HELOFeatures → Option HELOFeatures
  | 0, _, _ => none
  | fuel + 1, pos, respondedFeatures =>
    if pos ≥ bodyLen then some respondedFeatures
    else
      match Uint16 body pos (pos + 2) with
      | none => none
      | some feature =>
        let respondedFeatures :=
          if feature = c.HELO_FEATURE_XATTR then { respondedFeatures with Xattribute := true }
          else respondedFeatures
        let respondedFeatures :=
          if feature = c.HELO_FEATURE_SNAPPY then
            { respondedFeatures with CompressionType := c.CompressionTypeSnappy }
          else respondedFeatures
        SendHELOWithFeatures.loop c body bodyLen fuel (pos + 2) respondedFeatures

/-- The method `SendHELOWithFeatures`.  The argument `sendHELORequest` stands for the
exchange with the server through the client: it gives the response, or the error, for the
request sent.  `none` is a panic. -/
def SendHELOWithFeatures (c : HeloConstants)
    (sendHELORequest : MCRequest → Except Error MCResponse) (userAgent : String)
    (requestedFeatures : HELOFeatures) : Option (HELOFeatures × Option Error) :=
  let respondedFeatures : HELOFeatures :=
    { Xattribute := false, CompressionType := c.CompressionTypeNone }
  match ComposeHELORequest c userAgent requestedFeatures with
  | none => none
  | some heloReq =>
    match sendHELORequest heloReq with
    | Except.error err => some (respondedFeatures, some err)
    | Except.ok response =>
      if response.Status ≠ SUCCESS then
        some (respondedFeatures, some (Error.heloUnexpectedStatus userAgent response.Status))
      else
        let bodyLen := response.Body.length
        if bodyLen % 2 ≠ 0 then some (respondedFeatures, some (Error.heloOddBody userAgent))
        else
          match SendHELOWithFeatures.loop c response.Body bodyLen (bodyLen + 1) 0
              respondedFeatures with
          | none => none
          | some respondedFeatures => some (respondedFeatures, none)

/-- The two bytes of a feature code, the high byte first. -/
def featureWord (v : Nat) : List Nat := [v / 256 % 256, v % 256]

/-- The aligned word number `i` of a body: its bytes `2 i` and `2 i + 1` read as a
big-endian `uint16`. -/
def alignedWord (body : List Nat) (i : Nat) : Nat :=
  body.getD (2 * i) 0 * 256 + body.getD (2 * i + 1) 0

/-- Some aligned word of the body, from the word number `k` on, equals the code. -/
def HasFeature (body : List Nat) (k : Nat) (code : Nat) : Prop :=
  ∃ i, k ≤ i ∧ 2 * i + 1 < body.length ∧ alignedWord body i = code

/-! ## `utils/utils.go`: ExponentialBackoffExecutor -/

/-- What a call of `ExponentialBackoffExecutor` leaves behind: the error returned, the
state of the world after the last invocation of the operation, the number of invocations
made and the durations slept. -/
structure BackoffOutcome (σ : Type) where
  err : Option Error
  state : σ
  invocations : Nat
  sleeps : List Int

/-- The end of `ExponentialBackoffExecutor`, after its loop: the error built from the last
error; `none` is the panic of `opErr.Error()` on the nil error. -/
def ExponentialBackoffExecutor.finish {σ : Type} (name : String) (state : σ)
    (opErr : Option Error) (invocations : Nat) (sleeps : List Int) :
    Option (BackoffOutcome σ) :=
  match opErr with
  | none => none
  | some e =>
    some { err := some (Error.failedAfterRetry name e), state := state,
           invocations := invocations, sleeps := sleeps }

/-- The loop of `ExponentialBackoffExecutor`.  An operation of type `ExponentialOpFunc` is
a function from the state of the world to the error it returns and the new state.  The
arguments are the fuel, the loop counter `i` (an `int`), the state, `waitTime`, `opErr`,
and the invocations and sleeps so far.  `none` is a panic, or the fuel running out while
`i <= maxRetries`. -/
def ExponentialBackoffExecutor.loop {σ : Type} (name : String) (maxRetries factor : Int)
    (op : σ → Option Error × σ) (fuel : Nat) (i : Int) (state : σ) (waitTime : Int)
    (opErr : Option Error) (invocations : Nat) (sleeps : List Int) :
    Option (BackoffOutcome σ) :=
  match fuel with
  | 0 =>
    if i ≤ maxRetries then none
    else ExponentialBackoffExecutor.finish name state opErr invocations sleeps
  | fuel + 1 =>
    if i ≤ maxRetries then
      match op state with
      | (none, state) =>
        some { err := none, state := state, invocations := invocations + 1,
               sleeps := sleeps }
      | (some e, state) =>
        if i ≠ maxRetries then
          ExponentialBackoffExecutor.loop name maxRetries factor op fuel (wrapInt64 (i + 1))
            state (wrapInt64 (waitTime * factor)) (some e) (invocations + 1)
            (sleeps ++ [waitTime])
        else
          ExponentialBackoffExecutor.loop name maxRetries factor op fuel (wrapInt64 (i + 1))
            state waitTime (some e) (invocations + 1) sleeps
    else ExponentialBackoffExecutor.finish name state opErr invocations sleeps

/-- The method `ExponentialBackoffExecutor`, run on the state `state` of the world; the
fuel `maxRetries + 1` is the number of times the loop condition can hold. -/
def ExponentialBackoffExecutor {σ : Type} (name : String) (initialWait : Int)
    (maxRetries factor : Int) (op : σ → Option Error × σ) (state : σ) :
    Option (BackoffOutcome σ) :=
  ExponentialBackoffExecutor.loop name maxRetries factor op (maxRetries + 1).toNat 0 state
    initialWait none 0 []

/-- The state of the world after `n` invocations of the operation. -/
def opState {σ : Type} (op : σ → Option Error × σ) (state : σ) : Nat → σ
  | 0 => state
  | n + 1 => opState op (op state).2 n

/-- The error returned by the invocation number `n` of the operation, counted from 0. -/
def opResult {σ : Type} (op : σ → Option Error × σ) (state : σ) (n : Nat) : Option Error :=
  (op (opState op state n)).1

/-! ## `pipeline_svc/statistics_manager.go`: the registries and the publication of the
statistics

The metrics are those of the library go-metrics and the published variables are those of
the package expvar, as far as the code uses them.  A counter is an object shared between
a registry and the closures published in expvar: it is modelled by its address in the list
`counters` of the counts of all counter objects. -/

/-- The panics of the statistics manager. -/
inductive Panic where
  /-- A method call or a field access on nil. -/
  | nilDereference
  /-- A type assertion on nil or on a value of another type. -/
  | typeAssertion
  /-- The panic of processRawStats for a counter that goes backward. -/
  | counterGoesBackward (name : String)
  deriving DecidableEq, Repr

/-- A metric registered in a registry: a counter, given by the address of the counter
object, or a histogram, given by the values its sample was updated with since it was last
cleared. -/
inductive Metric where
  | counter (ref : Nat)
  | histogram (updates : List Int)
  deriving DecidableEq, Repr

/-- A registry of go-metrics (`metrics.Registry`). -/
abbrev Registry := GoMap String Metric

/-- A `float64` computed by the statistics manager, kept as the expression that computes
it: the mean of a histogram, or `float64(delta) / interval.Seconds()`. -/
inductive FloatExpr where
  | mean (updates : List Int)
  | perSecond (delta : Int) (interval : Int)
  deriving DecidableEq, Repr

/-- A variable of expvar that is not a map: an `expvar.Func` that returns the current
count of a counter object, an `expvar.Int`, an `expvar.Float`, an `expvar.String`, or the
map of the mean, max, min and count of a histogram. -/
inductive LeafVar where
  | func (ref : Nat)
  | int (v : Int)
  | float (x : FloatExpr)
  | string (s : String)
  | histogramDetails (updates : List Int)
  deriving DecidableEq, Repr

/-- A variable held by the expvar map of a pipeline: a leaf, or the map published for a
registry. -/
inductive Var where
  | leaf (v : LeafVar)
  | map (entries : GoMap String LeafVar)
  deriving DecidableEq, Repr

/-- The state on which the publication of the statistics works: the fields of
`StatisticsManager` (those of the changes_left computation are in `stats_mgr`; the times of
the two time maps are in nanoseconds), the counts of the counter objects, the expvar map
published under the topic of the pipeline (`none` when there is none), and the text that
`strconv.FormatFloat` prints for a float. -/
structure StatsState where
  stats_mgr : StatisticsManager
  registries : GoMap String Registry
  starttime_map : GoMap String Int
  endtime_map : GoMap String Int
  update_interval : Int
  counters : List Int
  expvar_stats_map : Option (GoMap String Var)
  formatFloat : FloatExpr → String

/-- The constant `DOCS_WRITTEN_METRIC`. -/
def DOCS_WRITTEN_METRIC : String := "docs_written"

/-- The constant `DATA_REPLICATED_METRIC`. -/
def DATA_REPLICATED_METRIC : String := "data_replicated"

/-- The constant `DOCS_FILTERED_METRIC`. -/
def DOCS_FILTERED_METRIC : String := "docs_filtered"

/-- The constant `CHANGES_LEFT_METRIC`. -/
def CHANGES_LEFT_METRIC : String := "changes_left"

/-- The constant `DOCS_LATENCY_METRIC`. -/
def DOCS_LATENCY_METRIC : String := "wtavg_docs_latency"

/-- The constant `RATE_REPLICATED`. -/
def RATE_REPLICATED : String := "rate_replicated"

/-- The constant `BANDWIDTH_USAGE`. -/
def BANDWIDTH_USAGE : String := "bandwidth_usage"

/-- The constant `OVERVIEW_METRICS_KEY`. -/
def OVERVIEW_METRICS_KEY : String := "Overview"

/-- The method `Count` of a counter. -/
def Counter.Count (counters : List Int) (ref : Nat) : Int := counters.getD ref 0

/-- The method `Inc` of a counter: an atomic addition on an `int64`. -/
def Counter.Inc (counters : List Int) (ref : Nat) (i : Int) : List Int :=
  counters.set ref (wrapInt64 (Counter.Count counters ref + i))

/-- The method `Dec` of a counter. -/
def Counter.Dec (counters : List Int) (ref : Nat) (i : Int) : List Int :=
  counters.set ref (wrapInt64 (Counter.Count counters ref - i))

/-- The function `metrics.NewCounter`: the address of the new counter object, whose count
is 0, and the new list of counts. -/
def NewCounter (counters : List Int) : Nat × List Int := (counters.length, counters ++ [0])

/-- The method `Register` of a registry; a name already registered is left as it is (the
code ignores the error returned). -/
def Registry.Register (r : Registry) (name : String) (i : Metric) : Registry :=
  match r.get name with
  | some _ => r
  | none => r.set name i

/-- The method `GetOrRegister` of a registry: the metric returned and the registry. -/
def Registry.GetOrRegister (r : Registry) (name : String) (i : Metric) : Metric × Registry :=
  match r.get name with
  | some metric => (metric, r)
  | none => (i, r.set name i)

/-- The method `getOverviewRegistry`; `none` is the nil registry. -/
def StatsState.getOverviewRegistry (s : StatsState) : Option Registry :=
  s.registries.get OVERVIEW_METRICS_KEY

/-- The method `initOverviewRegistry`. -/
def StatsState.initOverviewRegistry (s : StatsState) : StatsState :=
  let overview_registry : Registry := []
  let c1 := NewCounter s.counters
  let overview_registry := overview_registry.Register DOCS_WRITTEN_METRIC (Metric.counter c1.1)
  let c2 := NewCounter c1.2
  let overview_registry :=
    overview_registry.Register DATA_REPLICATED_METRIC (Metric.counter c2.1)
  let c3 := NewCounter c2.2
  let overview_registry := overview_registry.Register DOCS_FILTERED_METRIC (Metric.counter c3.1)
  { s with
    registries := s.registries.set OVERVIEW_METRICS_KEY overview_registry,
    counters := c3.2 }

/-- The method `Sub` of `time.Time`, on two times in nanoseconds: the difference, kept
within the range of a `Duration`. -/
def Time.Sub (t u : Int) : Int :=
  if t - u > 2 ^ 63 - 1 then 2 ^ 63 - 1
  else if t - u < -(2 ^ 63) then -(2 ^ 63)
  else t - u

/-- The value pushed by processTimeSample for a start time and an end time:
`rep_duration.Nanoseconds()/1000000`, an integer division that truncates towards zero. -/
def repDurationMillis (starttime endtime : Int) : Int :=
  Int.tdiv (Time.Sub endtime starttime) 1000000

/-- The loop of `processTimeSample` over the start times; the state is the list of the
values the sample has been updated with. -/
def processTimeSample.loop (endtime_map : GoMap String Int) :
    List (String × Int) → List Int → List Int
  | [], sample => sample
  | (name, starttime) :: rest, sample =>
    match endtime_map.get name with
    | some endtime =>
      processTimeSample.loop endtime_map rest (sample ++ [repDurationMillis starttime endtime])
    | none => processTimeSample.loop endtime_map rest sample

/-- The method `processTimeSample`. -/
def StatsState.processTimeSample (s : StatsState) : Except Panic StatsState :=
  match s.getOverviewRegistry with
  | none => Except.error Panic.nilDereference
  | some overview =>
    let r := overview.GetOrRegister DOCS_LATENCY_METRIC (Metric.histogram [])
    match r.1 with
    | Metric.counter _ => Except.error Panic.typeAssertion
    | Metric.histogram _ =>
      let sample := processTimeSample.loop s.endtime_map s.starttime_map []
      Except.ok { s with
        registries := s.registries.set OVERVIEW_METRICS_KEY
          (r.2.set DOCS_LATENCY_METRIC (Metric.histogram sample)),
        starttime_map := [],
        endtime_map := [] }

/-- The method `publishMetricToMap`, on the content of the expvar map. -/
def publishMetricToMap (expvar_map : GoMap String LeafVar) (name : String) (i : Metric)
    (includeDetails : Bool) : GoMap String LeafVar :=
  match i with
  | Metric.counter ref => expvar_map.set name (LeafVar.func ref)
  | Metric.histogram updates =>
    if includeDetails then expvar_map.set name (LeafVar.histogramDetails updates)
    else expvar_map.set name (LeafVar.float (FloatExpr.mean updates))

/-- The number that `strconv.ParseInt(v.String(), 10, 64)` gives, its error being ignored:
the current count for the closure over a counter, the value of an `expvar.Int`, what
ParseInt reads in the text of a float, and 0 for a string and for a map, whose texts start
with a quote and with a brace. -/
def LeafVar.parsedInt (formatFloat : FloatExpr → String) (counters : List Int) :
    LeafVar → Int
  | LeafVar.func ref => Counter.Count counters ref
  | LeafVar.int v => v
  | LeafVar.float x => (strconv.ParseInt (formatFloat x).data 10 64).1
  | LeafVar.string _ => 0
  | LeafVar.histogramDetails _ => 0

/-- The check of processRawStats on a counter of a part registry against the map
published for the registry at the previous tick (`none` when there is none). -/
def processRawStats.check (formatFloat : FloatExpr → String) (orig_registry : Option Var)
    (counters : List Int) (name : String) (ref : Nat) : Except Panic Unit :=
  match orig_registry with
  | none => Except.ok ()
  | some (Var.leaf _) => Except.error Panic.typeAssertion
  | some (Var.map orig) =>
    match orig.get name with
    | none => Except.error Panic.nilDereference
    | some v =>
      if Counter.Count counters ref < v.parsedInt formatFloat counters then
        Except.error (Panic.counterGoesBackward name)
      else Except.ok ()

/-- The callback that processRawStats passes to `Each` for a part registry, on one metric;
the state is `map_for_registry` and the counts of the counter objects. -/
def processRawStats.metric (formatFloat : FloatExpr → String) (overview : Option Registry)
    (orig_registry : Option Var) (st : GoMap String LeafVar × List Int)
    (e : String × Metric) : Except Panic (GoMap String LeafVar × List Int) :=
  let map_for_registry := publishMetricToMap st.1 e.1 e.2 true
  match e.2 with
  | Metric.histogram _ => Except.ok (map_for_registry, st.2)
  | Metric.counter ref =>
    match processRawStats.check formatFloat orig_registry st.2 e.1 ref with
    | Except.error p => Except.error p
    | Except.ok _ =>
      match overview with
      | none => Except.error Panic.nilDereference
      | some overview =>
        match overview.get e.1 with
        | none => Except.ok (map_for_registry, st.2)
        | some (Metric.histogram _) => Except.error Panic.typeAssertion
        | some (Metric.counter overviewRef) =>
          Except.ok (map_for_registry,
            Counter.Inc st.2 overviewRef (Counter.Count st.2 ref))

/-- The loop of `Each` over the metrics of a part registry. -/
def processRawStats.each (formatFloat : FloatExpr → String) (overview : Option Registry)
    (orig_registry : Option Var) :
    List (String × Metric) → GoMap String LeafVar × List Int →
      Except Panic (GoMap String LeafVar × List Int)
  | [], st => Except.ok st
  | e :: rest, st =>
    match processRawStats.metric formatFloat overview orig_registry st e with
    | Except.error p => Except.error p
    | Except.ok st => processRawStats.each formatFloat overview orig_registry rest st

/-- The loop of processRawStats over the registries; the state is the expvar map of the
pipeline and the counts of the counter objects. -/
def processRawStats.registries (formatFloat : FloatExpr → String)
    (overview : Option Registry) :
    List (String × Registry) → GoMap String Var × List Int →
      Except Panic (GoMap String Var × List Int)
  | [], st => Except.ok st
  | (registry_name, registry) :: rest, st =>
    if registry_name ≠ OVERVIEW_METRICS_KEY then
      let orig_registry := st.1.get registry_name
      match processRawStats.each formatFloat overview orig_registry registry ([], st.2) with
      | Except.error p => Except.error p
      | Except.ok r =>
        processRawStats.registries formatFloat overview rest
          (st.1.set registry_name (Var.map r.1), r.2)
    else processRawStats.registries formatFloat overview rest st

/-- The expression `registry.Get(name).(metrics.Counter).Count()`. -/
def Registry.counterCount (counters : List Int) (registry : Option Registry)
    (name : String) : Except Panic Int :=
  match registry with
  | none => Except.error Panic.nilDereference
  | some registry =>
    match registry.get name with
    | some (Metric.counter ref) => Except.ok (Counter.Count counters ref)
    | _ => Except.error Panic.typeAssertion

/-- The method `processCalculatedStats`: the content of the overview expvar map. -/
def StatsState.processCalculatedStats (s : StatsState) (oldSample : Option Registry)
    (overview_expvar_map : GoMap String LeafVar) : Except Panic (GoMap String LeafVar) :=
  match Registry.counterCount s.counters s.getOverviewRegistry DOCS_WRITTEN_METRIC with
  | Except.error p => Except.error p
  | Except.ok docs_written =>
    match s.stats_mgr.calculateChangesLeft docs_written with
    | none => Except.error Panic.nilDereference
    | some (changes_left_val, err) =>
      let overview_expvar_map :=
        if err = none then
          overview_expvar_map.set CHANGES_LEFT_METRIC (LeafVar.int changes_left_val)
        else overview_expvar_map
      match Registry.counterCount s.counters oldSample DOCS_WRITTEN_METRIC with
      | Except.error p => Except.error p
      | Except.ok docs_written_old =>
        let rate_replicated :=
          FloatExpr.perSecond (wrapInt64 (docs_written - docs_written_old)) s.update_interval
        let overview_expvar_map :=
          overview_expvar_map.set RATE_REPLICATED (LeafVar.float rate_replicated)
        match Registry.counterCount s.counters oldSample DATA_REPLICATED_METRIC with
        | Except.error p => Except.error p
        | Except.ok data_replicated_old =>
          match Registry.counterCount s.counters s.getOverviewRegistry
              DATA_REPLICATED_METRIC with
          | Except.error p => Except.error p
          | Except.ok data_replicated =>
            let bandwidth_usage :=
              FloatExpr.perSecond (wrapInt64 (data_replicated - data_replicated_old))
                s.update_interval
            Except.ok
              (overview_expvar_map.set BANDWIDTH_USAGE (LeafVar.float bandwidth_usage))

/-- The method `processRawStats`. -/
def StatsState.processRawStats (s : StatsState) : Except Panic StatsState :=
  let oldSample := s.getOverviewRegistry
  let s := s.initOverviewRegistry
  match s.expvar_stats_map with
  | none => Except.error Panic.typeAssertion
  | some expvar_stats_map =>
    match s.processTimeSample with
    | Except.error p => Except.error p
    | Except.ok s =>
      match processRawStats.registries s.formatFloat s.getOverviewRegistry s.registries
          (expvar_stats_map, s.counters) with
      | Except.error p => Except.error p
      | Except.ok r =>
        let s := { s with counters := r.2 }
        let map_for_overview :=
          ((s.getOverviewRegistry).getD []).foldl
            (fun m e => publishMetricToMap m e.1 e.2 false) []
        match s.processCalculatedStats oldSample map_for_overview with
        | Except.error p => Except.error p
        | Except.ok map_for_overview =>
          Except.ok { s with
            expvar_stats_map :=
              some (r.1.set OVERVIEW_METRICS_KEY (Var.map map_for_overview)) }

/-- The sum of the counts of the counters that a registry holds under a name. -/
def Registry.counterSum (counters : List Int) (name : String) : List (String × Metric) → Int
  | [] => 0
  | (n, Metric.counter ref) :: rest =>
    (if n = name then Counter.Count counters ref else 0) +
      Registry.counterSum counters name rest
  | (_, Metric.histogram _) :: rest => Registry.counterSum counters name rest

/-- The sum, over the registries other than the Overview registry, of the counts of the
counters held under a name. -/
def partsCounterSum (counters : List Int) (name : String) : List (String × Registry) → Int
  | [] => 0
  | (registry_name, registry) :: rest =>
    (if registry_name ≠ OVERVIEW_METRICS_KEY then Registry.counterSum counters name registry
      else 0) + partsCounterSum counters name rest

/-- The variables that processRawStats leaves in the expvar map of the pipeline for the
registries other than Overview: each registry has its map, and the map holds, under the
name of each counter of the registry, the closure over that counter. -/
def PublishedParts (registries : GoMap String Registry) (expvar_stats_map : GoMap String Var) :
    Prop :=
  ∀ registry_name registry, (registry_name, registry) ∈ registries →
    registry_name ≠ OVERVIEW_METRICS_KEY →
    ∃ orig, expvar_stats_map.get registry_name = some (Var.map orig) ∧
      ∀ name ref, (name, Metric.counter ref) ∈ registry →
        orig.get name = some (LeafVar.func ref)

/-! ## `utils/utils.go`: ProcessUprEventForFiltering

A byte slice that the code reslices, writes to or hands to the data pool is a `ByteSlice`:
the bytes of its backing array from the start of the slice up to its capacity, its length,
and where its memory comes from.  The key and the value of an event are only read: they are
lists of bytes.  The texts of `additionalErrDesc`, which are for the log, are left out.
Positions in a body (`int`) are integers; they stay far from the bounds of an `int`. -/

/-- Where the memory of a byte slice comes from: the data pool, which handed it out at
its call number `serial`, or an allocation of the code (`make`, a decoded block, a
`json.RawMessage`). -/
inductive SliceOrigin where
  | pool (serial : Nat)
  | heap
  deriving DecidableEq, Repr

/-- A Go `[]byte` that is not nil. -/
structure ByteSlice where
  array : List Nat
  len : Nat
  origin : SliceOrigin
  deriving DecidableEq, Repr

/-- The builtin `cap(s)`. -/
def ByteSlice.cap (s : ByteSlice) : Nat := s.array.length

/-- The bytes of the slice, `s[0]` to `s[len(s)-1]`. -/
def ByteSlice.bytes (s : ByteSlice) : List Nat := s.array.take s.len

/-- The index expression `s[i]` for an index of an unsigned type; `none` is the panic of
an index out of range. -/
def ByteSlice.index (s : ByteSlice) (i : Nat) : Option Nat :=
  if i < s.len then s.array[i]? else none

/-- The index expression `s[i]` for an `int` index. -/
def ByteSlice.indexInt (s : ByteSlice) (i : Int) : Option Nat :=
  if 0 ≤ i then s.index i.toNat else none

/-- The assignment `s[i] = b` for an `int` index; `none` is the panic. -/
def ByteSlice.setIndexInt (s : ByteSlice) (i : Int) (b : Nat) : Option ByteSlice :=
  if 0 ≤ i ∧ i.toNat < s.len then some { s with array := s.array.set i.toNat b } else none

/-- The slice expression `s[low:high]`; `none` is the panic of slice bounds out of
range. -/
def ByteSlice.slice (s : ByteSlice) (low high : Nat) : Option ByteSlice :=
  if low ≤ high ∧ high ≤ s.cap then
    some { array := s.array.drop low, len := high - low, origin := s.origin }
  else none

/-- The slice expression `s[low:]`. -/
def ByteSlice.sliceFrom (s : ByteSlice) (low : Nat) : Option ByteSlice :=
  if low ≤ s.len then
    some { array := s.array.drop low, len := s.len - low, origin := s.origin }
  else none

/-- The statement `copy(dst[off:], src)` (`copy(dst, src)` for `off = 0`), which writes
into the backing array of `dst`; `none` is the panic of the slice expression. -/
def ByteSlice.copyAt (dst : ByteSlice) (off : Int) (src : List Nat) : Option ByteSlice :=
  if 0 ≤ off ∧ off.toNat ≤ dst.len then
    let n := min (dst.len - off.toNat) src.length
    some { dst with
      array := dst.array.take off.toNat ++ src.take n ++ dst.array.drop (off.toNat + n) }
  else none

/-- The expression `make([]byte, len, cap)`. -/
def makeByteSlice (len cap : Nat) : ByteSlice :=
  { array := List.replicate cap 0, len := len, origin := SliceOrigin.heap }

/-- The call `binary.BigEndian.Uint32(s[low:high])`; `none` is a panic. -/
def Uint32 (s : ByteSlice) (low high : Nat) : Option Nat :=
  match s.slice low high with
  | none => none
  | some b =>
    match b.index 3, b.index 2, b.index 1, b.index 0 with
    | some b3, some b2, some b1, some b0 => some (b3 + b2 * 2 ^ 8 + b1 * 2 ^ 16 + b0 * 2 ^ 24)
    | _, _, _, _ => none

/-- The data type bit `JSONDataType` of gomemcached. -/
def JSONDataType : Nat := 1

/-- The data type bit `SnappyDataType` of gomemcached. -/
def SnappyDataType : Nat := 2

/-- The data type bit `XattrDataType` of gomemcached. -/
def XattrDataType : Nat := 4

/-- The fields of `mcc.UprEvent` that filtering reads. -/
structure UprEvent where
  DataType : Nat
  Key : List Nat
  Value : List Nat
  deriving DecidableEq, Repr

/-- The interface `DataPoolIface`: `GetByteSlice serial size` is what the call number
`serial` of `GetByteSlice(size)` returns, an error or the backing array and the length of a
slice. -/
structure DataPoolIface where
  GetByteSlice : Nat → Nat → Except Error (List Nat × Nat)

/-- The state that filtering changes: the slices of `*slicesToBeReleased` and the number
of calls of `GetByteSlice` made so far. -/
structure FilterState where
  slicesToBeReleased : List ByteSlice
  poolCalls : Nat
  deriving DecidableEq, Repr

/-- The call `dp.GetByteSlice(size)`. -/
def DataPoolIface.get (dp : DataPoolIface) (st : FilterState) (size : Nat) :
    Except Error ByteSlice × FilterState :=
  (match dp.GetByteSlice st.poolCalls size with
    | Except.error e => Except.error e
    | Except.ok r => Except.ok { array := r.1, len := r.2, origin := SliceOrigin.pool st.poolCalls },
   { st with poolCalls := st.poolCalls + 1 })

/-- The library snappy: `header` reads the length of the decoded block in the header of a
compressed block, and `block` decodes the block. -/
structure Snappy where
  header : List Nat → Except Error Nat
  block : List Nat → Except Error (List Nat)

/-- The function `snappy.DecodedLen`. -/
def Snappy.DecodedLen (snappy : Snappy) (src : List Nat) : Except Error Nat :=
  snappy.header src

/-- The function `snappy.Decode(dst, src)`: it fails unless the decoded block has the
length that the header gives, and returns the block in `dst` when `dst` is long enough, in
a new slice otherwise. -/
def Snappy.Decode (snappy : Snappy) (dst : ByteSlice) (src : List Nat) :
    Except Error ByteSlice :=
  match snappy.header src with
  | Except.error e => Except.error e
  | Except.ok dLen =>
    match snappy.block src with
    | Except.error e => Except.error e
    | Except.ok decoded =>
      if decoded.length ≠ dLen then Except.error (Error.external "snappy: corrupt input")
      else if dLen ≤ dst.len then
        Except.ok { array := decoded ++ dst.array.drop dLen, len := dLen, origin := dst.origin }
      else Except.ok { array := decoded, len := dLen, origin := SliceOrigin.heap }

/-- The constants and the functions of the package `base` that filtering uses.  The
package is not among the sources at hand, so that they are parameters: the theorems hold
for all of them.  `WriteJsonRawMsg` and `AddKeyToBeFiltered` return `none` for a panic. -/
structure FilterBase where
  MaxDocSizeByte : Nat
  AddFilterKeyExtraBytes : Int
  AddFilterXattrExtraBytes : Int
  FilterFlagSkipXattr : Nat
  FilterFlagSkipKey : Nat
  FilterFlagKeyOnly : Nat
  CachedInternalKeyXattrByteSlice : List Nat
  CachedInternalKeyXattrByteSize : Int
  CachedInternalKeyKeyByteSlice : List Nat
  CachedInternalKeyKeyByteSize : Int
  ExternalKeyKey : List Nat
  WriteJsonRawMsg : ByteSlice → List Nat → Int → Bool → Int → Bool → Bool →
    Option (ByteSlice × Int)
  AddKeyToBeFiltered : Option ByteSlice → List Nat → DataPoolIface → FilterState → Int →
    Option (Option ByteSlice × Option Error × Int × FilterState)

/-- The results of the functions that prepare a body: the body (`none` is nil), the
error, the count of bytes that the data pool failed to supply, the position of the end of
the body, and the state. -/
structure BodyResult where
  body : Option ByteSlice
  err : Option Error
  dpFailedCnt : Int
  endBodyPos : Int
  state : FilterState
  deriving DecidableEq, Repr

/-- The function `decompressSnappyBody`; `none` is a panic. -/
def decompressSnappyBody (c : FilterBase) (snappy : Snappy) (dp : DataPoolIface)
    (incomingBody key : List Nat) (st : FilterState) : Option BodyResult :=
  match snappy.DecodedLen incomingBody with
  | Except.error _ => some ⟨none, some Error.ErrorCompressionUnableToInflate, 0, 0 - 1, st⟩
  | Except.ok lenOfDecodedData =>
    let lastBodyPos : Int := (lenOfDecodedData : Int) - 1
    let uncompressedBodySize :=
      wrapUint64 ((lenOfDecodedData : Int) + (key.length : Int) + c.AddFilterKeyExtraBytes)
    let r := dp.get st uncompressedBodySize
    let alloc : ByteSlice × Int × FilterState :=
      match r.1 with
      | Except.error _ =>
        (makeByteSlice 0 uncompressedBodySize, wrapInt64 (uncompressedBodySize : Int), r.2)
      | Except.ok body =>
        (body, 0, { r.2 with slicesToBeReleased := r.2.slicesToBeReleased ++ [body] })
    match snappy.Decode alloc.1 incomingBody with
    | Except.error _ =>
      some ⟨none, some Error.ErrorCompressionUnableToInflate, alloc.2.1, lastBodyPos, alloc.2.2⟩
    | Except.ok body =>
      match body.indexInt lastBodyPos with
      | none => none
      | some b =>
        if b ≠ 125 then some ⟨none, some Error.ErrorInvalidInput, alloc.2.1, lastBodyPos, alloc.2.2⟩
        else some ⟨some body, none, alloc.2.1, lastBodyPos, alloc.2.2⟩

/-- The function `getBodySlice`; `none` is a panic. -/
def getBodySlice (c : FilterBase) (dp : DataPoolIface) (incomingBody key : List Nat)
    (st : FilterState) : Option BodyResult :=
  let incomingBodyLen : Int := (incomingBody.length : Int)
  let lastBodyPos := incomingBodyLen - 1
  let bodySize := wrapUint64 (incomingBodyLen + (key.length : Int) + c.AddFilterKeyExtraBytes)
  match (if 0 ≤ lastBodyPos then incomingBody[lastBodyPos.toNat]? else none) with
  | none => none
  | some b =>
    if b ≠ 125 then some ⟨none, some Error.ErrorInvalidInput, 0, lastBodyPos, st⟩
    else
      let r := dp.get st bodySize
      let alloc : ByteSlice × Int :=
        match r.1 with
        | Except.error _ => (makeByteSlice 0 bodySize, wrapInt64 (bodySize : Int))
        | Except.ok body => (body, 0)
      let st := { r.2 with slicesToBeReleased := r.2.slicesToBeReleased ++ [alloc.1] }
      match alloc.1.copyAt 0 incomingBody with
      | none => none
      | some body => some ⟨some body, none, alloc.2, lastBodyPos, st⟩

/-- The two inner loops of `stripAndPrependXattribute`, which look for the NUL byte that
ends a key or a value, from the position `separator`: `some (some separator)` is the
position found, `some none` is the return with an error, and `none` is the panic of an
index out of range.  The position is a `uint32`.  A turn of the loop goes on only from a
position inside the body, so that `len(body) + 1` turns are enough. -/
def stripAndPrependXattribute.scan (body : ByteSlice) (limit : Nat) :
    Nat → Nat → Option (Option Nat)
  | 0, _ => none
  | fuel + 1, separator =>
    match body.index separator with
    | none => none
    | some b =>
      if b ≠ 0 then
        if separator ≥ limit then some none
        else stripAndPrependXattribute.scan body limit fuel ((separator + 1) % 2 ^ 32)
      else some (some separator)

/-- The loop of `stripAndPrependXattribute` over the xattr entries, from the position
`pos`: the combined body and its position when the loop ends, or the error it returns with;
`none` is a panic. -/
def stripAndPrependXattribute.loop (c : FilterBase) (body : ByteSlice) (key : List Nat)
    (limit : Nat) : Nat → Nat → ByteSlice → Int → Option (Except Error (ByteSlice × Int))
  | 0, _, _, _ => none
  | fuel + 1, pos, combinedBody, combinedBodyPos =>
    if pos < limit then
      let pos := (pos + 4) % 2 ^ 32
      match stripAndPrependXattribute.scan body limit (body.len + 1) pos with
      | none => none
      | some none => some (Except.error (Error.xattrKeyNotFound key))
      | some (some separator) =>
        match body.slice pos separator with
        | none => none
        | some xattrKey =>
          match c.WriteJsonRawMsg combinedBody xattrKey.bytes combinedBodyPos true
              (xattrKey.len : Int) false (pos == 8) with
          | none => none
          | some w =>
            let pos := (separator + 1) % 2 ^ 32
            match stripAndPrependXattribute.scan body limit (body.len + 1) pos with
            | none => none
            | some none => some (Except.error (Error.xattrValueNotFound key))
            | some (some separator) =>
              match body.slice pos separator with
              | none => none
              | some xattrValue =>
                match c.WriteJsonRawMsg w.1 xattrValue.bytes w.2 false
                    (xattrValue.len : Int) false false with
                | none => none
                | some w =>
                  stripAndPrependXattribute.loop c body key limit fuel
                    ((separator + 1) % 2 ^ 32) w.1 w.2
    else some (Except.ok (combinedBody, combinedBodyPos))

/-- The function `stripAndPrependXattribute`; `none` is a panic.  `xattrSize` is a
`uint32`. -/
def stripAndPrependXattribute (c : FilterBase) (dp : DataPoolIface) (body : ByteSlice)
    (key : List Nat) (xattrSize : Nat) (st : FilterState) (endBodyPos : Int) :
    Option BodyResult :=
  match body.sliceFrom ((xattrSize + 4) % 2 ^ 32) with
  | none => none
  | some actualBody =>
    let endBodyPos := endBodyPos - (xattrSize : Int) - 4
    let bodySize :=
      wrapUint64 ((xattrSize : Int) + 4 + (body.len : Int) + c.AddFilterXattrExtraBytes)
    let r := dp.get st bodySize
    let alloc : ByteSlice × Int × FilterState :=
      match r.1 with
      | Except.error _ => (makeByteSlice 0 bodySize, wrapInt64 (bodySize : Int), r.2)
      | Except.ok combinedBody =>
        (combinedBody, 0,
          { r.2 with slicesToBeReleased := r.2.slicesToBeReleased ++ [combinedBody] })
    match actualBody.index 0 with
    | none => none
    | some b =>
      if b ≠ 123 then
        some ⟨none, some Error.ErrorInvalidInput, alloc.2.1, endBodyPos, alloc.2.2⟩
      else
        match c.WriteJsonRawMsg alloc.1 c.CachedInternalKeyXattrByteSlice 0 true
            c.CachedInternalKeyXattrByteSize false true with
        | none => none
        | some w =>
          match stripAndPrependXattribute.loop c body key ((xattrSize + 4) % 2 ^ 32)
              (body.len + 1) 4 w.1 w.2 with
          | none => none
          | some (Except.error e) => some ⟨none, some e, alloc.2.1, endBodyPos, alloc.2.2⟩
          | some (Except.ok w) =>
            let combinedBodyPos := w.2 + 1
            match w.1.setIndexInt combinedBodyPos 44 with
            | none => none
            | some combinedBody =>
              let endBodyPos := endBodyPos + combinedBodyPos
              let combinedBodyPos := combinedBodyPos + 1
              match actualBody.sliceFrom 1 with
              | none => none
              | some rest =>
                match combinedBody.copyAt combinedBodyPos rest.bytes with
                | none => none
                | some combinedBody =>
                  some ⟨some combinedBody, none, alloc.2.1, endBodyPos, alloc.2.2⟩

/-- The function `processXattribute`; `none` is a panic. -/
def processXattribute (c : FilterBase) (dp : DataPoolIface) (body : ByteSlice)
    (key : List Nat) (shouldSkipInsert : Bool) (st : FilterState) (endBodyPos : Int) :
    Option BodyResult :=
  match Uint32 body 0 4 with
  | none => none
  | some totalXattrSize =>
    if totalXattrSize > c.MaxDocSizeByte then
      some ⟨none, some (Error.xattrSizeInvalid key totalXattrSize), 0, endBodyPos, st⟩
    else if shouldSkipInsert then
      match body.sliceFrom ((totalXattrSize + 4) % 2 ^ 32) with
      | none => none
      | some newBody =>
        some ⟨some newBody, none, 0, endBodyPos - (totalXattrSize : Int) - 4, st⟩
    else
      match stripAndPrependXattribute c dp body key totalXattrSize st endBodyPos with
      | none => none
      | some r =>
        some { r with dpFailedCnt := if r.dpFailedCnt > 0 then wrapInt64 (0 + r.dpFailedCnt) else 0 }

/-- The function `processKeyOnlyForFiltering`: the body, the count of bytes that the data
pool failed to supply, and the state; `none` is a panic. -/
def processKeyOnlyForFiltering (c : FilterBase) (dp : DataPoolIface) (key : List Nat)
    (st : FilterState) : Option (ByteSlice × Int × FilterState) :=
  let docKeySize := wrapUint64 ((key.length : Int) + 2)
  let r1 := dp.get st docKeySize
  let second : Option ByteSlice × Except Error ByteSlice × FilterState :=
    match r1.1 with
    | Except.error e => (none, Except.error e, r1.2)
    | Except.ok newDocKeyBody =>
      let st := { r1.2 with slicesToBeReleased := r1.2.slicesToBeReleased ++ [newDocKeyBody] }
      let bodySize :=
        (docKeySize + wrapUint64 (5 + (c.ExternalKeyKey.length : Int))) % 2 ^ 64
      let r2 := dp.get st bodySize
      (some newDocKeyBody, r2.1, r2.2)
  match second.1, second.2.1 with
  | some newDocKeyBody, Except.ok body =>
    let st := { second.2.2 with
      slicesToBeReleased := second.2.2.slicesToBeReleased ++ [body] }
    match newDocKeyBody.setIndexInt 0 34 with
    | none => none
    | some newDocKeyBody =>
      match newDocKeyBody.copyAt 1 key with
      | none => none
      | some newDocKeyBody =>
        match newDocKeyBody.setIndexInt ((key.length : Int) + 1) 34 with
        | none => none
        | some newDocKeyBody =>
          match c.WriteJsonRawMsg body c.CachedInternalKeyKeyByteSlice 0 true
              c.CachedInternalKeyKeyByteSize false true with
          | none => none
          | some w =>
            match c.WriteJsonRawMsg w.1 newDocKeyBody.bytes w.2 false
                (wrapInt64 (docKeySize : Int)) false false with
            | none => none
            | some w => some (w.1, 0, st)
  | _, _ =>
    let text := [123, 34] ++ c.ExternalKeyKey ++ [34, 58, 34] ++ key ++ [34, 125]
    some ({ array := text, len := text.length, origin := SliceOrigin.heap },
      (text.length : Int), second.2.2)

/-- The results of `ProcessUprEventForFiltering`: the body (`none` is nil), the error,
whether the release function is not nil, the count of bytes that the data pool failed to
supply, and the state. -/
structure FilterResult where
  body : Option ByteSlice
  err : Option Error
  releaseFunc : Bool
  totalFailedCnt : Int
  state : FilterState
  deriving DecidableEq, Repr

/-- The function `releaseFunc` that `ProcessUprEventForFiltering` returns: the slices it
puts back to the data pool, in the order of the calls of `PutByteSlice`, and the state. -/
def releaseFunc (st : FilterState) : List ByteSlice × FilterState :=
  (st.slicesToBeReleased, { st with slicesToBeReleased := [] })

/-- The method `ProcessUprEventForFiltering`; a nil event and a nil data pool are `none`
arguments, and a `none` result is a panic. -/
def ProcessUprEventForFiltering (c : FilterBase) (snappy : Snappy) (uprEvent : Option UprEvent)
    (dp : Option DataPoolIface) (flags : Nat) (st : FilterState) : Option FilterResult :=
  match uprEvent, dp with
  | some uprEvent, some dp =>
    let bodyContainsXattr : Bool := uprEvent.DataType &&& XattrDataType > 0
    let shouldSkipXattr : Bool := flags &&& c.FilterFlagSkipXattr > 0
    let needToProcessBody : Bool := flags &&& c.FilterFlagKeyOnly = 0 ∧
      (bodyContainsXattr ∨ uprEvent.DataType &&& JSONDataType > 0)
    let shouldSkipKey : Bool := flags &&& c.FilterFlagSkipKey > 0
    let bodyIsCompressed : Bool := uprEvent.DataType &&& SnappyDataType > 0
    let prepared : Option BodyResult :=
      if needToProcessBody then
        if bodyIsCompressed then decompressSnappyBody c snappy dp uprEvent.Value uprEvent.Key st
        else getBodySlice c dp uprEvent.Value uprEvent.Key st
      else some ⟨none, none, 0, 0, st⟩
    match prepared with
    | none => none
    | some r =>
      if r.err ≠ none then some ⟨none, r.err, true, r.dpFailedCnt, r.state⟩
      else
        let processed : Option BodyResult :=
          if needToProcessBody ∧ bodyContainsXattr then
            match r.body with
            | none => none
            | some body =>
              match processXattribute c dp body uprEvent.Key shouldSkipXattr r.state
                  r.endBodyPos with
              | none => none
              | some x =>
                some { x with dpFailedCnt :=
                  if x.dpFailedCnt > 0 then wrapInt64 (r.dpFailedCnt + x.dpFailedCnt)
                  else r.dpFailedCnt }
          else some r
        match processed with
        | none => none
        | some x =>
          if x.err ≠ none then
            some ⟨none, some Error.ErrorFilterParsingError, true, x.dpFailedCnt, x.state⟩
          else if ¬ shouldSkipKey then
            if ¬ needToProcessBody then
              match processKeyOnlyForFiltering c dp uprEvent.Key x.state with
              | none => none
              | some k =>
                some ⟨some k.1, none, true,
                  if k.2.1 > 0 then wrapInt64 (x.dpFailedCnt + k.2.1) else x.dpFailedCnt, k.2.2⟩
            else
              match c.AddKeyToBeFiltered x.body uprEvent.Key dp x.state x.endBodyPos with
              | none => none
              | some k =>
                let totalFailedCnt :=
                  if k.2.2.1 > 0 then wrapInt64 (x.dpFailedCnt + k.2.2.1) else x.dpFailedCnt
                if k.2.1 ≠ none then
                  some ⟨none, some Error.ErrorFilterParsingError, true, totalFailedCnt, k.2.2.2⟩
                else some ⟨k.1, none, true, totalFailedCnt, k.2.2.2⟩
          else if ¬ needToProcessBody then
            some ⟨none, some Error.FilterForcePassThrough, true, x.dpFailedCnt, x.state⟩
          else some ⟨x.body, none, true, x.dpFailedCnt, x.state⟩
  | _, _ => some ⟨none, some Error.ErrorInvalidInput, false, 0, st⟩

/-! ## The format of an xattr section

The layout that `processXattribute` and `stripAndPrependXattribute` parse, as their
comments give it: a `uint32` with the size of the section, then, for each xattribute, a
`uint32` with the size of the pair, the key, a NUL byte, the value, a NUL byte. -/

/-- The four bytes of a `uint32`, in big-endian order. -/
def uint32Bytes (v : Nat) : List Nat :=
  [v / 2 ^ 24 % 256, v / 2 ^ 16 % 256, v / 2 ^ 8 % 256, v % 256]

/-- The bytes of one xattribute. -/
def xattrEntry (e : List Nat × List Nat) : List Nat :=
  uint32Bytes (e.1.length + e.2.length + 2) ++ e.1 ++ [0] ++ e.2 ++ [0]

/-- The bytes of the xattributes of a section, without its size. -/
def xattrEntries : List (List Nat × List Nat) → List Nat
  | [] => []
  | e :: rest => xattrEntry e ++ xattrEntries rest

/-- The bytes of a well-formed xattr section with the given keys and values. -/
def xattrSection (entries : List (List Nat × List Nat)) : List Nat :=
  uint32Bytes (xattrEntries entries).length ++ xattrEntries entries

/-- The Overview registry that a tick of processRawStats installs: the three fresh
counters of initOverviewRegistry and the latency histogram of processTimeSample. -/
def StatsState.nextOverview (s : StatsState) : Registry :=
  [(DOCS_WRITTEN_METRIC, Metric.counter s.counters.length),
   (DATA_REPLICATED_METRIC, Metric.counter (s.counters.length + 1)),
   (DOCS_FILTERED_METRIC, Metric.counter (s.counters.length + 2)),
   (DOCS_LATENCY_METRIC, Metric.histogram
     (processTimeSample.loop s.endtime_map s.starttime_map []))]

/-- The registries after initOverviewRegistry and processTimeSample in a tick. -/
def StatsState.nextRegistries (s : StatsState) : GoMap String Registry :=
  (s.registries.set OVERVIEW_METRICS_KEY
    [(DOCS_WRITTEN_METRIC, Metric.counter s.counters.length),
     (DATA_REPLICATED_METRIC, Metric.counter (s.counters.length + 1)),
     (DOCS_FILTERED_METRIC, Metric.counter (s.counters.length + 2))]).set
    OVERVIEW_METRICS_KEY s.nextOverview

/-! ## `utils/utils.go`: GetServerVBucketsMap -/

/-- A value that `json.Unmarshal` stores in an `interface{}`: nil, a bool, a float64, a
string, a `[]interface{}` or a `map[string]interface{}`. -/
inductive JsonValue where
  | null
  | bool (b : Bool)
  | number (f : Float64)
  | string (s : String)
  | array (items : List JsonValue)
  | object (fields : List (String × JsonValue))

/-- The keys of a bucket info that GetServerVBucketsMap reads, constants of the package
`base` whose declarations are not among the sources at hand. -/
structure BucketInfoKeys where
  VBucketServerMapKey : String
  ServerListKey : String
  VBucketMapKey : String
  deriving DecidableEq, Repr

/-- The first loop of `GetServerVBucketsMap`, which copies the names of the servers;
`none` is the return with the error of a server name of a wrong type. -/
def GetServerVBucketsMap.servers : List JsonValue → Option (List String)
  | [] => some []
  | JsonValue.string serverNameStr :: rest =>
    (GetServerVBucketsMap.servers rest).map (fun servers => serverNameStr :: servers)
  | _ :: _ => none

/-- The second loop of `GetServerVBucketsMap`, over the vBucket map from the vBucket
number `vbno` on. -/
def GetServerVBucketsMap.loop (servers : List String) :
    List JsonValue → Nat → GoMap String (List Nat) → Except Error (GoMap String (List Nat))
  | [], _, serverVBMap => Except.ok serverVBMap
  | indexListObj :: rest, vbno, serverVBMap =>
    match indexListObj with
    | JsonValue.array indexList =>
      match indexList with
      | [] => Except.error (Error.serverVBucketsMap "Index list is empty.")
      | first :: _ =>
        match first with
        | JsonValue.number indexFloat =>
          let indexInt := indexFloat.toInt
          if indexInt ≥ (servers.length : Int) then
            Except.error (Error.serverVBucketsMap "Master index is out of range.")
          else if indexInt < 0 then
            Except.error (Error.serverVBucketsMap "Master index is negative.")
          else
            let server := servers.getD indexInt.toNat ""
            let vbList := (serverVBMap.get server).getD []
            GetServerVBucketsMap.loop servers rest (vbno + 1)
              (serverVBMap.set server (vbList ++ [vbno % 65536]))
        | _ => Except.error (Error.serverVBucketsMap "Master index is of wrong type.")
    | _ => Except.error (Error.serverVBucketsMap "Index list is of wrong type.")

/-- The method `GetServerVBucketsMap`; the arguments `connStr` and `bucketName` only
enter the texts of the errors. -/
def GetServerVBucketsMap (keys : BucketInfoKeys) (bucketInfo : GoMap String JsonValue) :
    Except Error (GoMap String (List Nat)) :=
  match bucketInfo.get keys.VBucketServerMapKey with
  | none =>
    Except.error (Error.serverVBucketsMap
      "Error getting vbucket server map from bucket info.")
  | some (JsonValue.object vbucketServerMap) =>
    match GoMap.get vbucketServerMap keys.ServerListKey with
    | none =>
      Except.error (Error.serverVBucketsMap
        "Error getting server list from vbucket server map.")
    | some (JsonValue.array serverList) =>
      match GetServerVBucketsMap.servers serverList with
      | none => Except.error (Error.serverVBucketsMap "Server name is of wrong type.")
      | some servers =>
        match GoMap.get vbucketServerMap keys.VBucketMapKey with
        | none =>
          Except.error (Error.serverVBucketsMap
            "Error getting vbucket map from vbucket server map.")
        | some (JsonValue.array vbucketMap) =>
          GetServerVBucketsMap.loop servers vbucketMap 0 []
        | some _ => Except.error (Error.serverVBucketsMap "Vbucket map is of wrong type.")
    | some _ => Except.error (Error.serverVBucketsMap "Server list is of wrong type.")
  | some _ => Except.error (Error.serverVBucketsMap "Vbucket server map is of wrong type.")

/-- The master index of an entry of the vBucket map, `int(M[i][0])`, when the entry is a
list that starts with a number. -/
def masterIndex : JsonValue → Option Int
  | JsonValue.array (JsonValue.number indexFloat :: _) => some indexFloat.toInt
  | _ => none

/-- The server that an entry of the vBucket map gives as the master, when the entry has a
master index within the server list. -/
def masterServer (servers : List String) (entry : JsonValue) : Option String :=
  match masterIndex entry with
  | some indexInt =>
    if 0 ≤ indexInt ∧ indexInt < (servers.length : Int) then servers[indexInt.toNat]?
    else none
  | none => none

/-- The numbers of the vBuckets whose master is the server, among the entries of the
vBucket map from number `vbno` on, in the order of the map and as `uint16`. -/
def ownedVBuckets (servers : List String) (server : String) : List JsonValue → Nat → List Nat
  | [], _ => []
  | entry :: rest, vbno =>
    (if masterServer servers entry = some server then [vbno % 65536] else []) ++
      ownedVBuckets servers server rest (vbno + 1)

/-! ## `utils/utils.go`: convertByteIndexToRuneIndex -/

/-- The first loop of `convertByteIndexToRuneIndex`, which builds `indexMap`; `none` is
the fuel running out (`len(key) + 1` turns are enough, as a rune takes at least one
byte). -/
def convertByteIndexToRuneIndex.buildIndexMap (keyBytes : List Nat) :
    Nat → Nat → Nat → GoMap Int Int → Option (GoMap Int Int)
  | 0, _, _, _ => none
  | fuel + 1, byteIndex, runeIndex, indexMap =>
    let indexMap := indexMap.set (byteIndex : Int) (runeIndex : Int)
    if byteIndex < keyBytes.length then
      let runeLen := utf8DecodeRuneSize (keyBytes.drop byteIndex)
      convertByteIndexToRuneIndex.buildIndexMap keyBytes fuel (byteIndex + runeLen)
        (runeIndex + 1) indexMap
    else some indexMap

/-- The second loop of `convertByteIndexToRuneIndex`, over the matches; `none` is the
panic of an index out of range in a match with less than two numbers. -/
def convertByteIndexToRuneIndex.convert (key : List Nat) (indexMap : GoMap Int Int) :
    List (List Int) → List (List Int) → Option (Option (List (List Int)) × Option Error)
  | [], convertedMatches => some (some convertedMatches, none)
  | m :: rest, convertedMatches =>
    match m[0]? with
    | none => none
    | some m0 =>
      match indexMap.get m0 with
      | none => some (none, some (Error.invalidRuneIndex key m0))
      | some c0 =>
        match m[1]? with
        | none => none
        | some m1 =>
          match indexMap.get m1 with
          | none => some (none, some (Error.invalidRuneIndex key m1))
          | some c1 =>
            convertByteIndexToRuneIndex.convert key indexMap rest
              (convertedMatches ++ [[c0, c1]])

/-- The method `convertByteIndexToRuneIndex`, on the bytes of the key and the list
`matches`; `none` is a panic. -/
def convertByteIndexToRuneIndex (key : List Nat) (matchList : List (List Int)) :
    Option (Option (List (List Int)) × Option Error) :=
  if key.length = 0 ∨ matchList.length = 0 then some (some matchList, none)
  else
    match convertByteIndexToRuneIndex.buildIndexMap key (key.length + 1) 0 0 [] with
    | none => none
    | some indexMap => convertByteIndexToRuneIndex.convert key indexMap matchList []

/-- The byte index `b` is where the rune number `k` of the text starts in its encoding, or
is the length of the encoding when `k` is the number of runes: `k` is then the number of
runes in the first `b` bytes. -/
def RuneStart (runes : List Nat) (b : Int) (k : Nat) : Prop :=
  k ≤ runes.length ∧ b = ((utf8EncodeAll (runes.take k)).length : Int)

/-- The entries that the first loop adds to `indexMap` for a text that starts at the byte
index `byteIndex` and the rune index `runeIndex`. -/
def runeOffsets : List Nat → Nat → Nat → GoMap Int Int
  | [], byteIndex, runeIndex => [((byteIndex : Int), (runeIndex : Int))]
  | r :: rest, byteIndex, runeIndex =>
    ((byteIndex : Int), (runeIndex : Int)) ::
      runeOffsets rest (byteIndex + (utf8Encode r).length) (runeIndex + 1)

/-! # Theorems -/

/-! ## Lemmas on Go maps -/

namespace GoMap

variable {κ α : Type} [DecidableEq κ]

theorem get_set_self (m : GoMap κ α) (k : κ) (v : α) : (m.set k v).get k = some v := by
  induction m with
  | nil => simp [set, get]
  | cons e m ih =>
    obtain ⟨k', v'⟩ := e
    by_cases h : k' = k
    · simp [set, get, h]
    · simp [set, get, h, ih]

theorem get_set_ne (m : GoMap κ α) (k k0 : κ) (v : α) (hne : k ≠ k0) :
    (m.set k v).get k0 = m.get k0 := by
  induction m with
  | nil => simp [set, get, hne]
  | cons e m ih =>
    obtain ⟨k', v'⟩ := e
    by_cases h : k' = k
    · subst h; simp [set, get, hne]
    · by_cases h0 : k' = k0
      · subst h0
        simp [set, get, h]
      · simp [set, get, h, h0, ih]

theorem get_delete_self (m : GoMap κ α) (k : κ) : (m.delete k).get k = none := by
  induction m with
  | nil => simp [delete, get]
  | cons e m ih =>
    obtain ⟨k', v'⟩ := e
    by_cases h : k' = k
    · simpa [delete, List.filter_cons, h] using ih
    · simpa [delete, List.filter_cons, h, get] using ih

theorem get_delete_ne (m : GoMap κ α) (k k0 : κ) (hne : k ≠ k0) :
    (m.delete k).get k0 = m.get k0 := by
  induction m with
  | nil => simp [delete, get]
  | cons e m ih =>
    obtain ⟨k', v'⟩ := e
    by_cases h : k' = k
    · subst h
      simpa [delete, List.filter_cons, get, hne] using ih
    · by_cases h0 : k' = k0
      · subst h0
        simp [delete, List.filter_cons, h, get]
      · simpa [delete, List.filter_cons, h, get, h0] using ih

theorem get_eq_none_iff (m : GoMap κ α) (k : κ) :
    m.get k = none ↔ k ∉ m.map Prod.fst := by
  induction m with
  | nil => simp [get]
  | cons e m ih =>
    obtain ⟨k', v'⟩ := e
    by_cases h : k' = k
    · simp [get, h]
    · simp only [get, h, if_false, ih, List.map_cons, List.mem_cons]
      constructor
      · intro hm hor
        rcases hor with hk | hk
        · exact h hk.symm
        · exact hm hk
      · intro hm hk
        exact hm (Or.inr hk)

theorem get_of_mem (m : GoMap κ α) (hwf : m.WF) (k : κ) (v : α) (hmem : (k, v) ∈ m) :
    m.get k = some v := by
  induction m with
  | nil => simp at hmem
  | cons e m ih =>
    obtain ⟨k', v'⟩ := e
    have hnd : k' ∉ m.map Prod.fst ∧ (m.map Prod.fst).Nodup := by
      simpa [WF] using hwf
    rcases List.mem_cons.mp hmem with heq | hin
    · cases heq
      simp [get]
    · have hk : k' ≠ k := by
        intro hkk
        apply hnd.1
        rw [hkk]
        exact List.mem_map_of_mem Prod.fst hin
      simp only [get, hk, if_false]
      exact ih hnd.2 hin

theorem mem_of_get (m : GoMap κ α) (k : κ) (v : α) (h : m.get k = some v) :
    (k, v) ∈ m := by
  induction m with
  | nil => simp [get] at h
  | cons e m ih =>
    obtain ⟨k', v'⟩ := e
    by_cases hk : k' = k
    · simp [get, hk] at h
      simp [hk, h]
    · simp only [get, hk, if_false] at h
      exact List.mem_cons_of_mem _ (ih h)

theorem keys_set_of_get (m : GoMap κ α) (k : κ) (v : α) (h : m.get k ≠ none) :
    (m.set k v).map Prod.fst = m.map Prod.fst := by
  induction m with
  | nil => simp [get] at h
  | cons e m ih =>
    obtain ⟨k', v'⟩ := e
    by_cases hk : k' = k
    · simp [set, hk]
    · simp only [get, hk, if_false] at h
      simp [set, hk, ih h]

end GoMap
/-! ## HandleUpgrade -/

theorem HandleUpgrade.fold_get (cfg : GoMap String SettingsConfig) (values : GoMap String Value)
    (k : String) :
    (cfg.foldl
      (fun values e =>
        match values.get e.1 with
        | none => values.set e.1 e.2.defaultValue
        | some _ => values)
      values).get k =
      match values.get k with
      | some v => some v
      | none => (cfg.get k).map SettingsConfig.defaultValue := by
  induction cfg generalizing values with
  | nil => cases h : values.get k <;> simp [GoMap.get, h]
  | cons e cfg ih =>
    obtain ⟨k', c⟩ := e
    rw [List.foldl_cons, ih]
    cases hk' : values.get k' with
    | some w =>
      simp only
      cases hk : values.get k with
      | some v => rfl
      | none =>
        have hne : k' ≠ k := by
          intro h; rw [h, hk] at hk'; cases hk'
        simp [GoMap.get, hne]
    | none =>
      simp only
      by_cases hkk : k' = k
      · subst hkk
        rw [GoMap.get_set_self, hk']
        simp [GoMap.get]
      · rw [GoMap.get_set_ne _ _ _ _ hkk]
        cases hk : values.get k with
        | some v => rfl
        | none => simp [GoMap.get, hkk]

/-- C6: after HandleUpgrade every schema key is present in Values; a key that was present
keeps its value, a schema key that was absent holds its schema default, and a key outside
the schema is neither added nor changed. -/
theorem HandleUpgrade_fills_absent_schema_keys (s : Settings) (k : String) :
    (∀ c, (s.configMapRetriever ()).get k = some c →
      ∃ v, s.HandleUpgrade.Values.get k = some v) ∧
    (∀ v, s.Values.get k = some v → s.HandleUpgrade.Values.get k = some v) ∧
    (∀ c, s.Values.get k = none → (s.configMapRetriever ()).get k = some c →
      s.HandleUpgrade.Values.get k = some c.defaultValue) ∧
    ((s.configMapRetriever ()).get k = none →
      s.HandleUpgrade.Values.get k = s.Values.get k) := by
  have key := HandleUpgrade.fold_get (s.configMapRetriever ()) s.Values k
  refine ⟨?_, ?_, ?_, ?_⟩
  · intro c hc
    unfold Settings.HandleUpgrade
    simp only
    rw [key]
    cases hv : s.Values.get k with
    | some v => exact ⟨v, rfl⟩
    | none => exact ⟨c.defaultValue, by simp [hc]⟩
  · intro v hv
    unfold Settings.HandleUpgrade
    simp only
    rw [key, hv]
  · intro c hv hc
    unfold Settings.HandleUpgrade
    simp only
    rw [key, hv]
    simp [hc]
  · intro hc
    unfold Settings.HandleUpgrade
    simp only
    rw [key]
    cases hv : s.Values.get k with
    | some v => rfl
    | none => simp [hc]

/-- An instance of C6: the schema has the keys n and b, Values holds n only. -/
theorem HandleUpgrade_fills_absent_schema_keys_witness :
    (Settings.HandleUpgrade
      ⟨[("n", Value.int 5)],
        fun _ => [("n", ⟨Value.int 0, none⟩), ("b", ⟨Value.bool true, none⟩)]⟩).Values.get "b"
      = some (Value.bool true) :=
  (HandleUpgrade_fills_absent_schema_keys
    ⟨[("n", Value.int 5)],
      fun _ => [("n", ⟨Value.int 0, none⟩), ("b", ⟨Value.bool true, none⟩)]⟩ "b").2.2.1
    ⟨Value.bool true, none⟩ (by decide) (by decide)

/-! ## The edition and mode validators -/

/-- C8: enterpriseOnlyFeature fails exactly when the value differs from the default and the
edition is not enterprise; nonCAPIOnlyFeature fails exactly when the value differs from the
default and the replication is CAPI; a value equal to the default never fails. -/
theorem feature_validators_fail_iff (v d : Value) (flag : Bool) :
    (enterpriseOnlyFeature v d flag ≠ none ↔ (goNe v d = true ∧ flag = false)) ∧
    (nonCAPIOnlyFeature v d flag ≠ none ↔ (goNe v d = true ∧ flag = true)) ∧
    (goEq v d = true →
      enterpriseOnlyFeature v d flag = none ∧ nonCAPIOnlyFeature v d flag = none) := by
  unfold enterpriseOnlyFeature nonCAPIOnlyFeature goNe
  cases goEq v d <;> cases flag <;> simp

/-- An instance of C8: the default value passes in the community edition and in CAPI mode. -/
theorem feature_validators_fail_iff_witness :
    enterpriseOnlyFeature (Value.int 3) (Value.int 3) false = none ∧
    nonCAPIOnlyFeature (Value.int 3) (Value.int 3) true = none :=
  ⟨((feature_validators_fail_iff (Value.int 3) (Value.int 3) false).2.2 (by decide)).1,
   ((feature_validators_fail_iff (Value.int 3) (Value.int 3) true).2.2 (by decide)).2⟩

/-! ## The typed accessors -/

/-- C7, as stated, fails: for a key outside the schema GetSettingValueOrDefaultValue returns
the nil interface and the type assertion of GetIntSettingValue panics. -/
theorem GetIntSettingValue_panics_outside_schema :
    Settings.GetIntSettingValue
      ⟨[("n", Value.int 5)], fun _ => [("n", ⟨Value.int 0, none⟩)]⟩ "m" = none := by
  decide

/-- The value read by the accessors: the stored value when the key is set in Values, the
schema default when it is unset. -/
theorem GetSettingValueOrDefaultValue_eq (s : Settings) (key : String) (x : Value)
    (hx : x ≠ Value.nil) :
    (s.GetSettingValueOrDefaultValue key).1 = x ↔
      ∃ c, (s.configMapRetriever ()).get key = some c ∧
        (s.Values.get key = some x ∨ (s.Values.get key = none ∧ c.defaultValue = x)) := by
  unfold Settings.GetSettingValueOrDefaultValue
  cases hc : (s.configMapRetriever ()).get key with
  | none =>
    constructor
    · intro h
      exact absurd h.symm hx
    · rintro ⟨c, h, _⟩
      cases h
  | some c =>
    cases hv : s.Values.get key with
    | none => simp
    | some v => simp

/-- C7, amended: each accessor returns a value, without panicking, exactly when the key is
a schema key and either the key is set in Values to a value of the accessor's type, which is
then returned, or the key is unset and the schema default has the accessor's type, which is
then returned; in every other case (a key outside the schema, a value of another type) the
type assertion panics. -/
theorem typed_accessors_return_iff (s : Settings) (key : String) :
    (∀ n, s.GetIntSettingValue key = some n ↔
      ∃ c, (s.configMapRetriever ()).get key = some c ∧
        (s.Values.get key = some (Value.int n) ∨
          (s.Values.get key = none ∧ c.defaultValue = Value.int n))) ∧
    (∀ x, s.GetStringSettingValue key = some x ↔
      ∃ c, (s.configMapRetriever ()).get key = some c ∧
        (s.Values.get key = some (Value.string x) ∨
          (s.Values.get key = none ∧ c.defaultValue = Value.string x))) ∧
    (∀ b, s.GetBoolSettingValue key = some b ↔
      ∃ c, (s.configMapRetriever ()).get key = some c ∧
        (s.Values.get key = some (Value.bool b) ∨
          (s.Values.get key = none ∧ c.defaultValue = Value.bool b))) := by
  refine ⟨?_, ?_, ?_⟩
  · intro n
    rw [← GetSettingValueOrDefaultValue_eq s key (Value.int n) (by simp)]
    unfold Settings.GetIntSettingValue
    cases (s.GetSettingValueOrDefaultValue key).1 <;> simp
  · intro x
    rw [← GetSettingValueOrDefaultValue_eq s key (Value.string x) (by simp)]
    unfold Settings.GetStringSettingValue
    cases (s.GetSettingValueOrDefaultValue key).1 <;> simp
  · intro b
    rw [← GetSettingValueOrDefaultValue_eq s key (Value.bool b) (by simp)]
    unfold Settings.GetBoolSettingValue
    cases (s.GetSettingValueOrDefaultValue key).1 <;> simp

/-! ## UpdateSettingsFromMap -/

theorem UpdateSettingsFromMap.step_other (configMap : GoMap String SettingsConfig)
    (st : GoMap String Value × ReplicationSettingsMap × GoMap String Error) (e : String × Value)
    (k : String) (hne : e.1 ≠ k) :
    UpdateSettingsFromMap.lookups (UpdateSettingsFromMap.step configMap st e) k =
      UpdateSettingsFromMap.lookups st k := by
  obtain ⟨k', v'⟩ := e
  simp only at hne
  unfold UpdateSettingsFromMap.step UpdateSettingsFromMap.lookups
  simp only
  cases configMap.get k' with
  | none => simp [GoMap.get_set_ne _ _ _ _ hne]
  | some c =>
    simp only
    split
    · simp [GoMap.get_set_ne _ _ _ _ hne]
    · cases st.1.get k' with
      | none => simp [GoMap.get_set_ne _ _ _ _ hne]
      | some old =>
        simp only
        split
        · simp [GoMap.get_set_ne _ _ _ _ hne]
        · rfl

theorem UpdateSettingsFromMap.step_self (configMap : GoMap String SettingsConfig)
    (st : GoMap String Value × ReplicationSettingsMap × GoMap String Error) (k : String) (v : Value) :
    UpdateSettingsFromMap.lookups (UpdateSettingsFromMap.step configMap st (k, v)) k =
      UpdateSettingsFromMap.atKey configMap k v (UpdateSettingsFromMap.lookups st k) := by
  unfold UpdateSettingsFromMap.step UpdateSettingsFromMap.lookups UpdateSettingsFromMap.atKey
  simp only
  cases configMap.get k with
  | none => simp [GoMap.get_set_self]
  | some c =>
    simp only
    split
    · simp [GoMap.get_set_self]
    · cases hold : st.1.get k with
      | none => simp [GoMap.get_set_self]
      | some old =>
        simp only
        split
        · simp [GoMap.get_set_self]
        · simp [hold]

theorem UpdateSettingsFromMap.fold_other (configMap : GoMap String SettingsConfig)
    (m : GoMap String Value) (st : GoMap String Value × ReplicationSettingsMap × GoMap String Error)
    (k : String) (hk : k ∉ m.map Prod.fst) :
    UpdateSettingsFromMap.lookups (m.foldl (UpdateSettingsFromMap.step configMap) st) k =
      UpdateSettingsFromMap.lookups st k := by
  induction m generalizing st with
  | nil => rfl
  | cons e m ih =>
    simp only [List.map_cons, List.mem_cons, not_or] at hk
    rw [List.foldl_cons, ih _ hk.2]
    exact UpdateSettingsFromMap.step_other configMap st e k (fun h => hk.1 h.symm)

theorem UpdateSettingsFromMap.fold_entry (configMap : GoMap String SettingsConfig)
    (m : GoMap String Value) (hwf : m.WF) (st : GoMap String Value × ReplicationSettingsMap × GoMap String Error)
    (k : String) (v : Value) (hmem : (k, v) ∈ m) :
    UpdateSettingsFromMap.lookups (m.foldl (UpdateSettingsFromMap.step configMap) st) k =
      UpdateSettingsFromMap.atKey configMap k v (UpdateSettingsFromMap.lookups st k) := by
  induction m generalizing st with
  | nil => simp at hmem
  | cons e m ih =>
    have hnd : e.1 ∉ m.map Prod.fst ∧ (m.map Prod.fst).Nodup := by
      simpa [GoMap.WF] using hwf
    rw [List.foldl_cons]
    rcases List.mem_cons.mp hmem with heq | hin
    · subst heq
      rw [UpdateSettingsFromMap.fold_other configMap m _ k hnd.1]
      exact UpdateSettingsFromMap.step_self configMap st k v
    · have hne : e.1 ≠ k := by
        intro h
        apply hnd.1
        rw [h]
        exact List.mem_map_of_mem Prod.fst hin
      rw [ih hnd.2 _ hin, UpdateSettingsFromMap.step_other configMap st e k hne]

/-- The effect of UpdateSettingsFromMap on the key of an entry of its argument. -/
theorem UpdateSettingsFromMap.entry (s : Settings) (settingsMap : GoMap String Value)
    (hwf : settingsMap.WF) (k : String) (v : Value) (hmem : (k, v) ∈ settingsMap) :
    ((s.UpdateSettingsFromMap settingsMap).1.Values.get k,
      (s.UpdateSettingsFromMap settingsMap).2.1.get k,
      (s.UpdateSettingsFromMap settingsMap).2.2.get k) =
      UpdateSettingsFromMap.atKey (s.configMapRetriever ()) k v (s.Values.get k, none, none) :=
  UpdateSettingsFromMap.fold_entry (s.configMapRetriever ()) settingsMap hwf
    (s.Values, [], []) k v hmem

/-- C3: for an entry (k, v) of the map passed to UpdateSettingsFromMap, the entry is
rejected (errorMap[k] is set, Values[k] is as before the call and k is not in the changed
set) if and only if k is not a schema key or the dynamic type of v differs from the type of
the schema default of k; for a key outside the schema the error is ErrorInvalidSettingsKey;
every other entry produces no error. -/
theorem UpdateSettingsFromMap_rejects_iff (s : Settings) (settingsMap : GoMap String Value)
    (hwf : settingsMap.WF) (k : String) (v : Value) (hmem : (k, v) ∈ settingsMap) :
    (((s.UpdateSettingsFromMap settingsMap).2.2.get k ≠ none ∧
        (s.UpdateSettingsFromMap settingsMap).1.Values.get k = s.Values.get k ∧
        (s.UpdateSettingsFromMap settingsMap).2.1.get k = none) ↔
      ((s.configMapRetriever ()).get k = none ∨
        ∃ c, (s.configMapRetriever ()).get k = some c ∧
          reflectTypeOf v ≠ reflectTypeOf c.defaultValue)) ∧
    ((s.configMapRetriever ()).get k = none →
      (s.UpdateSettingsFromMap settingsMap).2.2.get k = some Error.ErrorInvalidSettingsKey) ∧
    (¬ ((s.configMapRetriever ()).get k = none ∨
        ∃ c, (s.configMapRetriever ()).get k = some c ∧
          reflectTypeOf v ≠ reflectTypeOf c.defaultValue) →
      (s.UpdateSettingsFromMap settingsMap).2.2.get k = none) := by
  have h := UpdateSettingsFromMap.entry s settingsMap hwf k v hmem
  unfold UpdateSettingsFromMap.atKey at h
  cases hc : (s.configMapRetriever ()).get k with
  | none =>
    rw [hc] at h
    simp only [Prod.mk.injEq] at h
    simp [h.1, h.2.1, h.2.2]
  | some c =>
    rw [hc] at h
    simp only at h
    by_cases ht : reflectTypeOf c.defaultValue = reflectTypeOf v
    · simp only [ht, ne_eq, not_true_eq_false, if_false] at h
      have herr : (s.UpdateSettingsFromMap settingsMap).2.2.get k = none := by
        cases hv : s.Values.get k with
        | none =>
          rw [hv] at h
          simp only [Prod.mk.injEq] at h
          exact h.2.2
        | some old =>
          rw [hv] at h
          simp only at h
          split at h
          · simp only [Prod.mk.injEq] at h
            exact h.2.2
          · simp only [Prod.mk.injEq] at h
            exact h.2.2
      simp [herr, ht]
    · simp only [ht, ne_eq, not_false_eq_true, if_true, Prod.mk.injEq] at h
      have ht' : ¬ reflectTypeOf v = reflectTypeOf c.defaultValue := fun e => ht e.symm
      simp [h.1, h.2.1, h.2.2, ht']

/-- An instance of C3: the key x is outside the schema and is rejected. -/
theorem UpdateSettingsFromMap_rejects_iff_witness :
    (Settings.UpdateSettingsFromMap
      ⟨[("n", Value.int 5)], fun _ => [("n", ⟨Value.int 0, none⟩)]⟩
      [("n", Value.int 6), ("x", Value.bool true)]).2.2.get "x"
      = some Error.ErrorInvalidSettingsKey :=
  (UpdateSettingsFromMap_rejects_iff
    ⟨[("n", Value.int 5)], fun _ => [("n", ⟨Value.int 0, none⟩)]⟩
    [("n", Value.int 6), ("x", Value.bool true)] (by decide) "x" (Value.bool true)
    (by decide)).2.1 (by decide)

theorem goEq_eq_of_kind_int (v old : Value) (hkind : reflectKindOf v = some Kind.Int)
    (h : goEq v old = true) : old = v := by
  cases v <;> cases old <;>
    simp_all [goEq, reflectKindOf, reflectTypeOf, GoType.Kind]

theorem goEq_self_of_kind_int (v : Value) (hkind : reflectKindOf v = some Kind.Int) :
    goEq v v = true := by
  cases v <;> simp_all [goEq, reflectKindOf, reflectTypeOf, GoType.Kind]

/-- C2, as stated, fails: the key n has the range 1..10, the value 100 is above MaxValue,
and UpdateSettingsFromMap reports no error for n, stores 100 and lists n as changed. -/
theorem UpdateSettingsFromMap_stores_out_of_range :
    (10 : Int) < 100 ∧
    (Settings.UpdateSettingsFromMap
      ⟨[("n", Value.int 5)], fun _ => [("n", ⟨Value.int 0, some ⟨1, 10⟩⟩)]⟩
      [("n", Value.int 100)]).2.2.get "n" = none ∧
    (Settings.UpdateSettingsFromMap
      ⟨[("n", Value.int 5)], fun _ => [("n", ⟨Value.int 0, some ⟨1, 10⟩⟩)]⟩
      [("n", Value.int 100)]).1.Values.get "n" = some (Value.int 100) ∧
    (Settings.UpdateSettingsFromMap
      ⟨[("n", Value.int 5)], fun _ => [("n", ⟨Value.int 0, some ⟨1, 10⟩⟩)]⟩
      [("n", Value.int 100)]).2.1.get "n" = some (Value.int 100) := by
  decide

/-- C2, amended: UpdateSettingsFromMap applies no range check.  For an integer-kind schema
key, with or without a Range, and a value of the type of the schema default, whatever its
size, the call reports no error for the key, Values holds the value under the key after the
call, and the key is listed in the changed set unless Values already held that value. -/
theorem UpdateSettingsFromMap_no_range_check (s : Settings) (settingsMap : GoMap String Value)
    (hwf : settingsMap.WF) (k : String) (v : Value) (hmem : (k, v) ∈ settingsMap)
    (c : SettingsConfig) (hc : (s.configMapRetriever ()).get k = some c)
    (hkind : reflectKindOf c.defaultValue = some Kind.Int)
    (hty : reflectTypeOf v = reflectTypeOf c.defaultValue) :
    (s.UpdateSettingsFromMap settingsMap).2.2.get k = none ∧
    (s.UpdateSettingsFromMap settingsMap).1.Values.get k = some v ∧
    (s.UpdateSettingsFromMap settingsMap).2.1.get k =
      if s.Values.get k = some v then none else some v := by
  have h := UpdateSettingsFromMap.entry s settingsMap hwf k v hmem
  unfold UpdateSettingsFromMap.atKey at h
  rw [hc] at h
  simp only [hty, ne_eq, not_true_eq_false, if_false] at h
  have hkv : reflectKindOf v = some Kind.Int := by
    unfold reflectKindOf at hkind ⊢
    rw [hty]
    exact hkind
  cases hv : s.Values.get k with
  | none =>
    rw [hv] at h
    simp only [Prod.mk.injEq] at h
    simp [h.1, h.2.1, h.2.2]
  | some old =>
    rw [hv] at h
    simp only at h
    by_cases hne : goNe v old = true
    · simp only [hne, if_true, Prod.mk.injEq] at h
      have hov : ¬ old = v := by
        intro e
        subst e
        have hself := goEq_self_of_kind_int old hkv
        simp [goNe, hself] at hne
      simp [h.1, h.2.1, h.2.2, hov]
    · simp only [hne, Bool.false_eq_true, if_false, Prod.mk.injEq] at h
      have hov : old = v := by
        apply goEq_eq_of_kind_int v old hkv
        simpa [goNe] using hne
      simp [h.1, h.2.1, h.2.2, hov]

/-- An instance of the amended C2: the value 100 is outside the range 1..10 of the key. -/
theorem UpdateSettingsFromMap_no_range_check_witness :
    (Settings.UpdateSettingsFromMap
      ⟨[("n", Value.int 5)], fun _ => [("n", ⟨Value.int 0, some ⟨1, 10⟩⟩)]⟩
      [("n", Value.int 100)]).2.2.get "n" = none :=
  (UpdateSettingsFromMap_no_range_check
    ⟨[("n", Value.int 5)], fun _ => [("n", ⟨Value.int 0, some ⟨1, 10⟩⟩)]⟩
    [("n", Value.int 100)] (by decide) "n" (Value.int 100) (by decide)
    ⟨Value.int 0, some ⟨1, 10⟩⟩ (by decide) (by decide) (by decide)).1

/-- C4, as stated, fails: the key n is an integer key and the value 5 is supplied as a
float64; UpdateSettingsFromMap reports a type error for n and does not store the value. -/
theorem UpdateSettingsFromMap_rejects_float64 :
    (Settings.UpdateSettingsFromMap
      ⟨[], fun _ => [("n", ⟨Value.int 0, none⟩)]⟩
      [("n", Value.float64 (Float64.ofInt 5))]).2.2.get "n"
      = some (Error.invalidTypeOfValue "n" (some GoType.int) (some GoType.float64)) ∧
    (Settings.UpdateSettingsFromMap
      ⟨[], fun _ => [("n", ⟨Value.int 0, none⟩)]⟩
      [("n", Value.float64 (Float64.ofInt 5))]).1.Values.get "n" = none := by
  decide

/-- C4, amended: UpdateSettingsFromMap does not coerce.  For an integer-kind schema key and
a value supplied as a float64, integral or not, the call reports the type error for the key,
leaves Values as it was under the key and does not list the key in the changed set. -/
theorem UpdateSettingsFromMap_no_coercion (s : Settings) (settingsMap : GoMap String Value)
    (hwf : settingsMap.WF) (k : String) (f : Float64)
    (hmem : (k, Value.float64 f) ∈ settingsMap)
    (c : SettingsConfig) (hc : (s.configMapRetriever ()).get k = some c)
    (hkind : reflectKindOf c.defaultValue = some Kind.Int) :
    (s.UpdateSettingsFromMap settingsMap).2.2.get k =
      some (Error.invalidTypeOfValue k (reflectTypeOf c.defaultValue) (some GoType.float64)) ∧
    (s.UpdateSettingsFromMap settingsMap).1.Values.get k = s.Values.get k ∧
    (s.UpdateSettingsFromMap settingsMap).2.1.get k = none := by
  have h := UpdateSettingsFromMap.entry s settingsMap hwf k (Value.float64 f) hmem
  unfold UpdateSettingsFromMap.atKey at h
  rw [hc] at h
  have hty : reflectTypeOf c.defaultValue ≠ reflectTypeOf (Value.float64 f) := by
    intro e
    unfold reflectKindOf at hkind
    rw [e] at hkind
    simp [reflectTypeOf, GoType.Kind] at hkind
  simp only [hty, ne_eq, not_false_eq_true, if_true, Prod.mk.injEq] at h
  exact ⟨by rw [h.2.2]; rfl, h.1, h.2.1⟩

/-- An instance of the amended C4. -/
theorem UpdateSettingsFromMap_no_coercion_witness :
    (Settings.UpdateSettingsFromMap
      ⟨[("n", Value.int 5)], fun _ => [("n", ⟨Value.int 0, none⟩)]⟩
      [("n", Value.float64 (Float64.ofInt 7))]).1.Values.get "n" = some (Value.int 5) :=
  (UpdateSettingsFromMap_no_coercion
    ⟨[("n", Value.int 5)], fun _ => [("n", ⟨Value.int 0, none⟩)]⟩
    [("n", Value.float64 (Float64.ofInt 7))] (by decide) "n" (Float64.ofInt 7) (by decide)
    ⟨Value.int 0, none⟩ (by decide) (by decide)).2.1

/-! ## HandleDataTypeConversionAfterUnmarshalling -/

theorem HandleDataTypeConversionAfterUnmarshalling.step_eq (configMap : GoMap String SettingsConfig)
    (st : GoMap String Value × GoMap String Error) (k : String) (v : Value) :
    HandleDataTypeConversionAfterUnmarshalling.step configMap st (k, v) =
      (conversionOf configMap k v).map (Conversion.apply st k) := by
  unfold HandleDataTypeConversionAfterUnmarshalling.step conversionOf
  simp only
  cases configMap.get k with
  | none => rfl
  | some c =>
    simp only
    cases reflectKindOf c.defaultValue with
    | none => rfl
    | some kind =>
      cases kind <;> simp only [Option.map, Conversion.apply]
      cases v <;> simp [handleIntTypeConversion, Conversion.apply]

theorem Conversion.apply_get_other (st : GoMap String Value × GoMap String Error) (k k0 : String)
    (hne : k ≠ k0) (o : Conversion) :
    (o.apply st k).1.get k0 = st.1.get k0 ∧ (o.apply st k).2.get k0 = st.2.get k0 := by
  cases o <;> simp [Conversion.apply, GoMap.get_set_ne _ _ _ _ hne]

theorem HandleDataTypeConversionAfterUnmarshalling.fold_spec
    (configMap : GoMap String SettingsConfig) (l : GoMap String Value) (hwf : l.WF)
    (hok : ∀ e ∈ l, conversionOf configMap e.1 e.2 ≠ none)
    (st : GoMap String Value × GoMap String Error) :
    ∃ st', l.foldlM (HandleDataTypeConversionAfterUnmarshalling.step configMap) st = some st' ∧
      (∀ k, st'.1.get k =
        match l.get k with
        | some v =>
          (match conversionOf configMap k v with
          | some (Conversion.convert n) => some (Value.int n)
          | _ => st.1.get k)
        | none => st.1.get k) ∧
      (∀ k, st'.2.get k =
        match l.get k with
        | some v =>
          (match conversionOf configMap k v with
          | some (Conversion.drop err) => some err
          | _ => st.2.get k)
        | none => st.2.get k) := by
  induction l generalizing st with
  | nil => exact ⟨st, rfl, fun k => rfl, fun k => rfl⟩
  | cons e l ih =>
    obtain ⟨k0, v0⟩ := e
    have hnd : k0 ∉ l.map Prod.fst ∧ (l.map Prod.fst).Nodup := by
      simpa [GoMap.WF] using hwf
    have hok0 := hok (k0, v0) (List.mem_cons_self _ _)
    simp only at hok0
    obtain ⟨o, ho⟩ := Option.ne_none_iff_exists'.mp hok0
    obtain ⟨st', hfold, hv, he⟩ :=
      ih hnd.2 (fun e he => hok e (List.mem_cons_of_mem _ he)) (o.apply st k0)
    refine ⟨st', ?_, ?_, ?_⟩
    · rw [List.foldlM_cons, HandleDataTypeConversionAfterUnmarshalling.step_eq, ho]
      exact hfold
    · intro k
      rw [hv k]
      by_cases hk : k0 = k
      · subst hk
        have hnone : GoMap.get l k0 = none := (GoMap.get_eq_none_iff l k0).mpr hnd.1
        rw [hnone]
        simp only [GoMap.get, if_true, ho]
        cases o <;> simp [Conversion.apply, GoMap.get_set_self]
      · simp only [GoMap.get, hk, if_false]
        rw [(Conversion.apply_get_other st k0 k hk o).1]
    · intro k
      rw [he k]
      by_cases hk : k0 = k
      · subst hk
        have hnone : GoMap.get l k0 = none := (GoMap.get_eq_none_iff l k0).mpr hnd.1
        rw [hnone]
        simp only [GoMap.get, if_true, ho]
        cases o <;> simp [Conversion.apply, GoMap.get_set_self]
      · simp only [GoMap.get, hk, if_false]
        rw [(Conversion.apply_get_other st k0 k hk o).2]

theorem HandleDataTypeConversionAfterUnmarshalling.delete_fold (errorsMap : GoMap String Error)
    (values : GoMap String Value) (k : String) :
    (errorsMap.foldl (fun vs problematic => vs.delete problematic.1) values).get k =
      if errorsMap.get k = none then values.get k else none := by
  induction errorsMap generalizing values with
  | nil => simp [GoMap.get]
  | cons e errorsMap ih =>
    obtain ⟨k0, err⟩ := e
    rw [List.foldl_cons, ih]
    by_cases hk : k0 = k
    · subst hk
      simp [GoMap.get, GoMap.get_delete_self]
    · simp [GoMap.get, hk, GoMap.get_delete_ne _ _ _ hk]

/-- The lookups in Values after HandleDataTypeConversionAfterUnmarshalling, which returns
when no schema default met by the loop is the nil interface. -/
theorem HandleDataTypeConversionAfterUnmarshalling.spec (s : Settings) (hwf : s.Values.WF)
    (hok : ∀ e ∈ s.Values, conversionOf (s.configMapRetriever ()) e.1 e.2 ≠ none) :
    ∃ s', s.HandleDataTypeConversionAfterUnmarshalling = some s' ∧
      s'.configMapRetriever = s.configMapRetriever ∧
      ∀ k, s'.Values.get k =
        match s.Values.get k with
        | none => none
        | some v => Conversion.result v (conversionOf (s.configMapRetriever ()) k v) := by
  obtain ⟨st', hfold, hv, he⟩ :=
    HandleDataTypeConversionAfterUnmarshalling.fold_spec (s.configMapRetriever ()) s.Values
      hwf hok (s.Values, [])
  have hget : ∀ k,
      (st'.2.foldl (fun vs problematic => vs.delete problematic.1) st'.1).get k =
        match s.Values.get k with
        | none => none
        | some v => Conversion.result v (conversionOf (s.configMapRetriever ()) k v) := by
    intro k
    rw [HandleDataTypeConversionAfterUnmarshalling.delete_fold, he k, hv k]
    cases hk : s.Values.get k with
    | none => simp [GoMap.get]
    | some v =>
      simp only
      cases hc : conversionOf (s.configMapRetriever ()) k v with
      | none => simp [GoMap.get, Conversion.result]
      | some o => cases o <;> simp [GoMap.get, Conversion.result]
  unfold Settings.HandleDataTypeConversionAfterUnmarshalling
  simp only [hfold]
  split
  · exact ⟨_, rfl, rfl, hget⟩
  · rename_i hlen
    have hnil : st'.2 = [] := by
      cases hst : st'.2 with
      | nil => rfl
      | cons a l => rw [hst] at hlen; simp [GoMap.len] at hlen
    refine ⟨_, rfl, rfl, ?_⟩
    intro k
    rw [← hget k, hnil]
    rfl

theorem conversionOf_ne_none (configMap : GoMap String SettingsConfig)
    (hdef : ∀ k c, configMap.get k = some c → c.defaultValue ≠ Value.nil)
    (k : String) (v : Value) : conversionOf configMap k v ≠ none := by
  unfold conversionOf
  cases hc : configMap.get k with
  | none => simp
  | some c =>
    have hnil := hdef k c hc
    cases hd : c.defaultValue with
    | nil => exact absurd hd hnil
    | int n => cases v <;> simp [hd, reflectKindOf, reflectTypeOf, GoType.Kind]
    | namedInt name n => cases v <;> simp [hd, reflectKindOf, reflectTypeOf, GoType.Kind]
    | int64 n => simp [hd, reflectKindOf, reflectTypeOf, GoType.Kind]
    | float64 f => simp [hd, reflectKindOf, reflectTypeOf, GoType.Kind]
    | bool b => simp [hd, reflectKindOf, reflectTypeOf, GoType.Kind]
    | string x => simp [hd, reflectKindOf, reflectTypeOf, GoType.Kind]

theorem conversionOf_drop_iff (configMap : GoMap String SettingsConfig) (k : String) (v : Value)
    (hne : conversionOf configMap k v ≠ none) :
    Conversion.result v (conversionOf configMap k v) = none ↔
      (configMap.get k = none ∨
        ∃ c, configMap.get k = some c ∧ reflectKindOf c.defaultValue = some Kind.Int ∧
          ∀ f, v ≠ Value.float64 f) := by
  unfold conversionOf at hne ⊢
  cases hc : configMap.get k with
  | none => simp [Conversion.result]
  | some c =>
    rw [hc] at hne
    simp only at hne ⊢
    cases hk : reflectKindOf c.defaultValue with
    | none => rw [hk] at hne; exact absurd rfl hne
    | some kind =>
      cases kind <;> simp [Conversion.result, hk]
      cases v <;> simp [Conversion.result]

/-- C5: provided no schema default is the nil interface (on which the kind lookup panics),
HandleDataTypeConversionAfterUnmarshalling returns, and a key of Values has been removed if
and only if it is not in the schema or it is an integer-kind key whose value is not a
float64; every other key is still present; and for a removed key that is a schema key,
GetSettingValueOrDefaultValue then returns the schema default with a nil error. -/
theorem HandleDataTypeConversionAfterUnmarshalling_drops_unconvertible (s : Settings)
    (hwf : s.Values.WF)
    (hdef : ∀ k c, (s.configMapRetriever ()).get k = some c → c.defaultValue ≠ Value.nil) :
    ∃ s', s.HandleDataTypeConversionAfterUnmarshalling = some s' ∧
      ∀ k v, s.Values.get k = some v →
        ((s'.Values.get k = none ↔
          ((s.configMapRetriever ()).get k = none ∨
            ∃ c, (s.configMapRetriever ()).get k = some c ∧
              reflectKindOf c.defaultValue = some Kind.Int ∧ ∀ f, v ≠ Value.float64 f)) ∧
        (∀ c, (s.configMapRetriever ()).get k = some c → s'.Values.get k = none →
          s'.GetSettingValueOrDefaultValue k = (c.defaultValue, none))) := by
  obtain ⟨s', hs', hcfg, hget⟩ := HandleDataTypeConversionAfterUnmarshalling.spec s hwf
    (fun e _ => conversionOf_ne_none _ hdef e.1 e.2)
  refine ⟨s', hs', ?_⟩
  intro k v hv
  constructor
  · rw [hget k, hv]
    exact conversionOf_drop_iff _ k v (conversionOf_ne_none _ hdef k v)
  · intro c hc hnone
    unfold Settings.GetSettingValueOrDefaultValue
    rw [hcfg, hc, hnone]

/-- An instance of C5: the integer key n holds a string and is removed, after which it
reads as its default. -/
theorem HandleDataTypeConversionAfterUnmarshalling_drops_unconvertible_witness :
    ∃ s', Settings.HandleDataTypeConversionAfterUnmarshalling
        ⟨[("n", Value.string [120]), ("b", Value.bool true)],
          fun _ => [("n", ⟨Value.int 3, none⟩), ("b", ⟨Value.bool false, none⟩)]⟩ = some s' ∧
      ∀ k v, GoMap.get [("n", Value.string [120]), ("b", Value.bool true)] k = some v →
        ((s'.Values.get k = none ↔
          (GoMap.get [("n", (⟨Value.int 3, none⟩ : SettingsConfig)),
              ("b", ⟨Value.bool false, none⟩)] k = none ∨
            ∃ c, GoMap.get [("n", (⟨Value.int 3, none⟩ : SettingsConfig)),
                ("b", ⟨Value.bool false, none⟩)] k = some c ∧
              reflectKindOf c.defaultValue = some Kind.Int ∧ ∀ f, v ≠ Value.float64 f)) ∧
        (∀ c, GoMap.get [("n", (⟨Value.int 3, none⟩ : SettingsConfig)),
              ("b", ⟨Value.bool false, none⟩)] k = some c → s'.Values.get k = none →
          s'.GetSettingValueOrDefaultValue k = (c.defaultValue, none))) :=
  HandleDataTypeConversionAfterUnmarshalling_drops_unconvertible
    ⟨[("n", Value.string [120]), ("b", Value.bool true)],
      fun _ => [("n", ⟨Value.int 3, none⟩), ("b", ⟨Value.bool false, none⟩)]⟩
    (by decide)
    (by
      intro k c hc
      simp only [GoMap.get] at hc
      split at hc
      · cases hc; simp
      · split at hc
        · cases hc; simp
        · cases hc)

/-! ## The JSON round trip of settings -/

theorem Float64.ofInt_small (v : Int) (h : v.natAbs < 2 ^ 53) :
    Float64.ofInt v = Float64.finite v 0 := by
  have hshift : Float64.shiftFor v.natAbs 64 0 = 0 := by
    show (if v.natAbs / 2 ^ 0 < 2 ^ 53 then 0 else Float64.shiftFor v.natAbs 63 (0 + 1)) = 0
    rw [if_pos (by simpa using h)]
  unfold Float64.ofInt
  simp only [hshift, pow_zero, Nat.div_one, Nat.mod_one]
  have hcond : ¬ (1 < 2 * 0 ∨ (1 = 2 * 0 ∧ v.natAbs % 2 = 1)) := by omega
  rw [if_neg hcond]
  have hv : (if v < 0 then -((v.natAbs : Nat) : Int) else ((v.natAbs : Nat) : Int)) = v := by
    split <;> omega
  rw [hv]
  rfl

theorem Float64.toInt_finite_zero (v : Int) (h : -(2 ^ 63) ≤ v ∧ v < 2 ^ 63) :
    (Float64.finite v 0).toInt = v := by
  unfold Float64.toInt
  simp only [le_refl, if_true, Int.toNat_zero, pow_zero, mul_one]
  rw [if_pos h]

theorem Float64.toInt_ofInt (v : Int) (h : v.natAbs ≤ 2 ^ 53) :
    (Float64.ofInt v).toInt = v := by
  rcases Nat.lt_or_ge v.natAbs (2 ^ 53) with hlt | hge
  · rw [Float64.ofInt_small v hlt]
    apply Float64.toInt_finite_zero
    constructor <;> omega
  · have heq : v.natAbs = 2 ^ 53 := le_antisymm h hge
    have hcases : v = 2 ^ 53 ∨ v = -(2 ^ 53) := by omega
    rcases hcases with hv | hv
    · subst hv; decide
    · subst hv; decide

theorem GoMap.get_map_value {κ α β : Type} [DecidableEq κ] (m : GoMap κ α) (f : α → β) (k : κ) :
    GoMap.get (m.map (fun e => (e.1, f e.2))) k = (GoMap.get m k).map f := by
  induction m with
  | nil => rfl
  | cons e m ih =>
    obtain ⟨k', v'⟩ := e
    by_cases h : k' = k
    · simp [GoMap.get, h]
    · simp [GoMap.get, h, ih]

theorem GoMap.keys_map_value {κ α β : Type} (m : GoMap κ α) (f : α → β) :
    (m.map (fun e => (e.1, f e.2))).map Prod.fst = m.map Prod.fst := by
  simp [List.map_map, Function.comp_def]

theorem Conversion.apply_keys (st : GoMap String Value × GoMap String Error) (k : String)
    (hk : st.1.get k ≠ none) (o : Conversion) :
    (o.apply st k).1.map Prod.fst = st.1.map Prod.fst := by
  cases o with
  | drop err => rfl
  | convert n => exact GoMap.keys_set_of_get st.1 k (Value.int n) hk
  | keep => rfl

theorem HandleDataTypeConversionAfterUnmarshalling.fold_keys
    (configMap : GoMap String SettingsConfig) (l : GoMap String Value)
    (st st' : GoMap String Value × GoMap String Error)
    (h : l.foldlM (HandleDataTypeConversionAfterUnmarshalling.step configMap) st = some st')
    (hpres : ∀ e ∈ l, st.1.get e.1 ≠ none) :
    st'.1.map Prod.fst = st.1.map Prod.fst := by
  induction l generalizing st with
  | nil =>
    simp only [List.foldlM_nil] at h
    cases h
    rfl
  | cons e l ih =>
    obtain ⟨k0, v0⟩ := e
    rw [List.foldlM_cons, HandleDataTypeConversionAfterUnmarshalling.step_eq] at h
    cases ho : conversionOf configMap k0 v0 with
    | none => rw [ho] at h; cases h
    | some o =>
      rw [ho] at h
      have hk0 : st.1.get k0 ≠ none := hpres (k0, v0) (List.mem_cons_self _ _)
      have hkeys := Conversion.apply_keys st k0 hk0 o
      have h' : l.foldlM (HandleDataTypeConversionAfterUnmarshalling.step configMap)
          (o.apply st k0) = some st' := h
      rw [ih (o.apply st k0) h', hkeys]
      intro e he
      have hmem : e.1 ∈ st.1.map Prod.fst := by
        by_contra hcon
        exact hpres e (List.mem_cons_of_mem _ he) ((GoMap.get_eq_none_iff _ _).mpr hcon)
      intro hnone
      rw [GoMap.get_eq_none_iff, hkeys] at hnone
      exact hnone hmem

/-- When no entry is dropped, the post-processing keeps the keys of Values. -/
theorem HandleDataTypeConversionAfterUnmarshalling.spec_keys (s s' : Settings)
    (hwf : s.Values.WF)
    (hok : ∀ e ∈ s.Values, conversionOf (s.configMapRetriever ()) e.1 e.2 ≠ none)
    (hkeep : ∀ e ∈ s.Values, ∀ err,
      conversionOf (s.configMapRetriever ()) e.1 e.2 ≠ some (Conversion.drop err))
    (h : s.HandleDataTypeConversionAfterUnmarshalling = some s') :
    s'.Values.map Prod.fst = s.Values.map Prod.fst := by
  obtain ⟨st', hfold, _, he⟩ :=
    HandleDataTypeConversionAfterUnmarshalling.fold_spec (s.configMapRetriever ()) s.Values
      hwf hok (s.Values, [])
  have hnil : st'.2 = [] := by
    cases hst : st'.2 with
    | nil => rfl
    | cons a l =>
      exfalso
      have hea := he a.1
      rw [hst] at hea
      simp only [GoMap.get, if_true] at hea
      cases hv : s.Values.get a.1 with
      | none => rw [hv] at hea; cases hea
      | some v =>
        rw [hv] at hea
        simp only at hea
        have hmem := GoMap.mem_of_get _ _ _ hv
        cases hc : conversionOf (s.configMapRetriever ()) a.1 v with
        | none => rw [hc] at hea; cases hea
        | some o =>
          cases o with
          | drop err => exact hkeep (a.1, v) hmem err hc
          | convert n => rw [hc] at hea; cases hea
          | keep => rw [hc] at hea; cases hea
  have hkeys := HandleDataTypeConversionAfterUnmarshalling.fold_keys
    (s.configMapRetriever ()) s.Values (s.Values, []) st' hfold
    (fun e he hnone => by
      rw [GoMap.get_of_mem s.Values hwf e.1 e.2 he] at hnone
      cases hnone)
  unfold Settings.HandleDataTypeConversionAfterUnmarshalling at h
  simp only [hfold, hnil, GoMap.len, List.length_nil, gt_iff_lt, Nat.lt_irrefl, if_false,
    Option.some.injEq] at h
  rw [← h]
  exact hkeys

theorem Settings.Equals_of_get_eq (a b : Settings) (hwf : a.Values.WF)
    (hkeys : b.Values.map Prod.fst = a.Values.map Prod.fst)
    (hget : ∀ k, b.Values.get k = a.Values.get k)
    (hrefl : ∀ e ∈ a.Values, goEq e.2 e.2 = true) : a.Equals b = true := by
  have hlen : a.Values.len = b.Values.len := by
    have := congrArg List.length hkeys
    simp only [List.length_map] at this
    exact this.symm
  unfold Settings.Equals
  rw [if_neg (by simpa using hlen)]
  rw [List.all_eq_true]
  intro e he
  rw [hget e.1, GoMap.get_of_mem a.Values hwf e.1 e.2 he]
  simp [goNe, hrefl e he]

theorem utf8Encode_length_pos (r : Nat) : 1 ≤ (utf8Encode r).length := by
  unfold utf8Encode
  split_ifs <;> simp

theorem utf8DecodeRuneSize_encode (r : Nat) (tail : List Nat) (h : IsScalarValue r) :
    utf8DecodeRuneSize (utf8Encode r ++ tail) = (utf8Encode r).length := by
  unfold IsScalarValue at h
  unfold utf8Encode
  by_cases h1 : r < 0x80
  · rw [if_pos h1]
    simp [utf8DecodeRuneSize, h1]
  · rw [if_neg h1]
    by_cases h2 : r < 0x800
    · rw [if_pos h2]
      simp only [utf8DecodeRuneSize, List.cons_append, List.nil_append, List.length_cons,
        List.length_nil]
      rw [if_neg (by omega), if_neg (by omega), if_pos (by omega), if_neg (by omega)]
    · rw [if_neg h2]
      by_cases h3 : r < 0x10000
      · rw [if_pos h3]
        simp only [utf8DecodeRuneSize, List.cons_append, List.nil_append, List.length_cons,
          List.length_nil]
        rw [if_neg (by omega), if_neg (by omega), if_neg (by omega), if_pos (by omega)]
        rw [if_neg, if_neg (by omega)]
        intro hb
        split_ifs at hb <;> omega
      · rw [if_neg h3]
        simp only [utf8DecodeRuneSize, List.cons_append, List.nil_append, List.length_cons,
          List.length_nil]
        rw [if_neg (by omega), if_neg (by omega), if_neg (by omega), if_neg (by omega),
          if_pos (by omega)]
        rw [if_neg, if_neg (by omega), if_neg (by omega)]
        intro hb
        split_ifs at hb <;> omega

theorem jsonReloadString_copy (pre tail : List Nat) :
    jsonReloadString pre.length (pre ++ tail) = pre ++ jsonReloadString 0 tail := by
  induction pre with
  | nil => rfl
  | cons b pre ih =>
    rw [List.cons_append, List.length_cons, jsonReloadString]
    simp only [ih, List.cons_append]

theorem jsonReloadString_encode (r : Nat) (tail : List Nat) (h : IsScalarValue r) :
    jsonReloadString 0 (utf8Encode r ++ tail) = utf8Encode r ++ jsonReloadString 0 tail := by
  have hsize := utf8DecodeRuneSize_encode r tail h
  obtain ⟨b, pre, hbp, hb⟩ : ∃ b pre, utf8Encode r = b :: pre ∧
      (b < 0x80 → pre = []) ∧ (¬ b < 0x80 → pre ≠ []) := by
    unfold utf8Encode
    split_ifs with h1 h2 h3
    · exact ⟨_, _, rfl, fun _ => rfl, fun hn => absurd h1 hn⟩
    · exact ⟨_, _, rfl, fun hlt => by omega, fun _ => by simp⟩
    · exact ⟨_, _, rfl, fun hlt => by omega, fun _ => by simp⟩
    · exact ⟨_, _, rfl, fun hlt => by omega, fun _ => by simp⟩
  rw [hbp] at hsize ⊢
  rw [List.cons_append] at hsize ⊢
  rw [jsonReloadString]
  simp only
  by_cases hlt : b < 0x80
  · rw [if_pos hlt, hb.1 hlt]
    rfl
  · rw [if_neg hlt, hsize]
    have hpre : pre ≠ [] := hb.2 hlt
    have hlen : (b :: pre).length ≠ 1 := by
      cases pre with
      | nil => exact absurd rfl hpre
      | cons c cs => simp
    rw [if_neg hlen, List.length_cons, Nat.add_sub_cancel, jsonReloadString_copy]
    rfl

theorem jsonReloadString_of_valid (runes : List Nat) (h : ∀ r ∈ runes, IsScalarValue r) :
    jsonReloadString 0 (utf8EncodeAll runes) = utf8EncodeAll runes := by
  induction runes with
  | nil => rfl
  | cons r rest ih =>
    rw [utf8EncodeAll, jsonReloadString_encode r _ (h r (List.mem_cons_self _ _)),
      ih (fun r' hr' => h r' (List.mem_cons_of_mem _ hr'))]

/-- A string that is not valid UTF-8 does not come back: the string setting x holds the
byte 0xFF, which is reloaded as the three bytes of U+FFFD, and the result does not equal
the original. -/
theorem settings_json_round_trip_rewrites_invalid_string :
    jsonReloadValue (Value.string [0xFF]) = Value.string [0xEF, 0xBF, 0xBD] ∧
    (Settings.PostProcessAfterUnmarshalling
      (Settings.jsonReload
        ⟨[("x", Value.string [0xFF])], fun _ => [("x", ⟨Value.string [], none⟩)]⟩)
      (fun _ => [("x", ⟨Value.string [], none⟩)])).map
      (fun reloaded =>
        (reloaded.Values,
          reloaded.Equals
            ⟨[("x", Value.string [0xFF])], fun _ => [("x", ⟨Value.string [], none⟩)]⟩))
      = some ([("x", Value.string [0xEF, 0xBF, 0xBD])], false) := by
  decide

theorem jsonReload_entry (configMap : GoMap String SettingsConfig) (k : String) (v : Value)
    (ht : ∃ c kind, configMap.get k = some c ∧ reflectKindOf c.defaultValue = some kind ∧
      ((kind = Kind.Int ∧ ∃ n : Int, v = Value.int n ∧ n.natAbs ≤ 2 ^ 53) ∨
        (kind ≠ Kind.Int ∧ ((∃ b, v = Value.bool b) ∨
          ∃ runes, (∀ r ∈ runes, IsScalarValue r) ∧ v = Value.string (utf8EncodeAll runes))))) :
    goEq v v = true ∧
    ∃ o, conversionOf configMap k (jsonReloadValue v) = some o ∧
      (∀ err, o ≠ Conversion.drop err) ∧
      Conversion.result (jsonReloadValue v) (some o) = some v := by
  obtain ⟨c, kind, hc, hkind, hcase⟩ := ht
  unfold conversionOf
  rw [hc]
  simp only [hkind]
  rcases hcase with ⟨hk, n, hv, hn⟩ | ⟨hk, hv⟩
  · subst hk hv
    refine ⟨by simp [goEq], Conversion.convert (Float64.ofInt n).toInt, rfl, ?_, ?_⟩
    · intro err h; cases h
    · simp [Conversion.result, Float64.toInt_ofInt n hn]
  · have hself : goEq v v = true := by
      rcases hv with ⟨b, hb⟩ | ⟨runes, _, hx⟩
      · subst hb; simp [goEq]
      · subst hx; simp [goEq]
    have hres : Conversion.result (jsonReloadValue v) (some Conversion.keep) = some v := by
      rcases hv with ⟨b, hb⟩ | ⟨runes, hr, hx⟩
      · subst hb; rfl
      · subst hx
        simp only [jsonReloadValue, jsonReloadString_of_valid runes hr]
        rfl
    refine ⟨hself, ?_⟩
    cases kind with
    | Int => exact absurd rfl hk
    | Int64 => exact ⟨Conversion.keep, rfl, fun err h => (by cases h), hres⟩
    | Float64 => exact ⟨Conversion.keep, rfl, fun err h => (by cases h), hres⟩
    | Bool => exact ⟨Conversion.keep, rfl, fun err h => (by cases h), hres⟩
    | String => exact ⟨Conversion.keep, rfl, fun err h => (by cases h), hres⟩

/-- C1, as stated, fails: the integer key n holds 2^53 + 1, which no float64 represents;
it is reloaded as the float64 2^53 and converted to the int 2^53, and the result does not
equal the original. -/
theorem settings_json_round_trip_loses_large_int :
    (Settings.PostProcessAfterUnmarshalling
      (Settings.jsonReload
        ⟨[("n", Value.int (2 ^ 53 + 1))], fun _ => [("n", ⟨Value.int 0, none⟩)]⟩)
      (fun _ => [("n", ⟨Value.int 0, none⟩)])).map
      (fun reloaded =>
        (reloaded.Values,
          reloaded.Equals
            ⟨[("n", Value.int (2 ^ 53 + 1))], fun _ => [("n", ⟨Value.int 0, none⟩)]⟩))
      = some ([("n", Value.int (2 ^ 53))], false) := by
  decide

/-- C1, amended: for a settings object in which every key of Values is a schema key, every
integer-kind key holds a Go int of absolute value at most 2^53 and every other key holds a
bool or a string that is valid UTF-8 (the encoding of a list of Unicode scalar values),
persisting Values as JSON, reloading them and running PostProcessAfterUnmarshalling yields
a settings object that Equals the original: every key holds again the value it held. -/
theorem settings_json_round_trip (s : Settings) (hwf : s.Values.WF)
    (htyped : ∀ e ∈ s.Values, ∃ c kind,
      (s.configMapRetriever ()).get e.1 = some c ∧
      reflectKindOf c.defaultValue = some kind ∧
      ((kind = Kind.Int ∧ ∃ n : Int, e.2 = Value.int n ∧ n.natAbs ≤ 2 ^ 53) ∨
        (kind ≠ Kind.Int ∧ ((∃ b, e.2 = Value.bool b) ∨
          ∃ runes, (∀ r ∈ runes, IsScalarValue r) ∧
            e.2 = Value.string (utf8EncodeAll runes))))) :
    ∃ s', s.jsonReload.PostProcessAfterUnmarshalling s.configMapRetriever = some s' ∧
      s'.Equals s = true ∧ s.Equals s' = true ∧
      ∀ k, s'.Values.get k = s.Values.get k := by
  have hwfr : GoMap.WF (s.Values.map (fun e => (e.1, jsonReloadValue e.2))) := by
    unfold GoMap.WF
    rw [GoMap.keys_map_value]
    exact hwf
  have hentry : ∀ e ∈ s.Values.map (fun e => (e.1, jsonReloadValue e.2)),
      ∃ v, (e.1, v) ∈ s.Values ∧ e.2 = jsonReloadValue v := by
    intro e he
    obtain ⟨e0, he0, rfl⟩ := List.mem_map.mp he
    exact ⟨e0.2, he0, rfl⟩
  obtain ⟨s', hs', hcfg, hget⟩ := HandleDataTypeConversionAfterUnmarshalling.spec
    { s.jsonReload with configMapRetriever := s.configMapRetriever } hwfr
    (by
      intro e he
      obtain ⟨v, hv, hev⟩ := hentry e he
      obtain ⟨_, o, ho, _, _⟩ := jsonReload_entry (s.configMapRetriever ()) e.1 v
        (htyped (e.1, v) hv)
      rw [hev]
      show conversionOf (s.configMapRetriever ()) e.1 (jsonReloadValue v) ≠ none
      rw [ho]
      exact Option.some_ne_none o)
  have hkeys := HandleDataTypeConversionAfterUnmarshalling.spec_keys
    { s.jsonReload with configMapRetriever := s.configMapRetriever } s' hwfr
    (by
      intro e he
      obtain ⟨v, hv, hev⟩ := hentry e he
      obtain ⟨_, o, ho, _, _⟩ := jsonReload_entry (s.configMapRetriever ()) e.1 v
        (htyped (e.1, v) hv)
      rw [hev]
      show conversionOf (s.configMapRetriever ()) e.1 (jsonReloadValue v) ≠ none
      rw [ho]
      exact Option.some_ne_none o)
    (by
      intro e he err
      obtain ⟨v, hv, hev⟩ := hentry e he
      obtain ⟨_, o, ho, hnd, _⟩ := jsonReload_entry (s.configMapRetriever ()) e.1 v
        (htyped (e.1, v) hv)
      rw [hev]
      show conversionOf (s.configMapRetriever ()) e.1 (jsonReloadValue v) ≠ _
      rw [ho]
      intro h
      exact hnd err (Option.some.inj h))
    hs'
  have hkeys' : s'.Values.map Prod.fst = s.Values.map Prod.fst := by
    rw [hkeys]
    exact GoMap.keys_map_value s.Values jsonReloadValue
  have hsame : ∀ k, s'.Values.get k = s.Values.get k := by
    intro k
    rw [hget k]
    show (match GoMap.get (s.Values.map (fun e => (e.1, jsonReloadValue e.2))) k with
      | none => none
      | some v => Conversion.result v (conversionOf (s.configMapRetriever ()) k v)) = _
    rw [GoMap.get_map_value]
    cases hk : s.Values.get k with
    | none => rfl
    | some v =>
      obtain ⟨_, o, ho, _, hres⟩ := jsonReload_entry (s.configMapRetriever ()) k v
        (htyped (k, v) (GoMap.mem_of_get _ _ _ hk))
      simp only [Option.map]
      rw [ho]
      exact hres
  have hwf' : s'.Values.WF := by
    unfold GoMap.WF
    rw [hkeys']
    exact hwf
  have hrefl : ∀ e ∈ s.Values, goEq e.2 e.2 = true := fun e he =>
    (jsonReload_entry (s.configMapRetriever ()) e.1 e.2 (htyped e he)).1
  refine ⟨s', hs', ?_, ?_, hsame⟩
  · apply Settings.Equals_of_get_eq s' s hwf' hkeys'.symm (fun k => (hsame k).symm)
    intro e he
    have hin : (e.1, e.2) ∈ s.Values := by
      apply GoMap.mem_of_get
      rw [← hsame e.1]
      exact GoMap.get_of_mem _ hwf' _ _ he
    exact hrefl (e.1, e.2) hin
  · exact Settings.Equals_of_get_eq s s' hwf hkeys' hsame hrefl

/-- An instance of the amended C1: an integer, a boolean and a string setting. -/
theorem settings_json_round_trip_witness :
    ∃ s', Settings.PostProcessAfterUnmarshalling
        (Settings.jsonReload
          ⟨[("n", Value.int 250), ("b", Value.bool true), ("x", Value.string [97])],
            fun _ => [("n", ⟨Value.int 0, none⟩), ("b", ⟨Value.bool false, none⟩),
              ("x", ⟨Value.string [], none⟩)]⟩)
        (fun _ => [("n", ⟨Value.int 0, none⟩), ("b", ⟨Value.bool false, none⟩),
          ("x", ⟨Value.string [], none⟩)]) = some s' ∧
      s'.Equals
        ⟨[("n", Value.int 250), ("b", Value.bool true), ("x", Value.string [97])],
          fun _ => [("n", ⟨Value.int 0, none⟩), ("b", ⟨Value.bool false, none⟩),
            ("x", ⟨Value.string [], none⟩)]⟩ = true := by
  obtain ⟨s', h, heq, _, _⟩ := settings_json_round_trip
    ⟨[("n", Value.int 250), ("b", Value.bool true), ("x", Value.string [97])],
      fun _ => [("n", ⟨Value.int 0, none⟩), ("b", ⟨Value.bool false, none⟩),
        ("x", ⟨Value.string [], none⟩)]⟩
    (by decide)
    (by
      intro e he
      simp only [List.mem_cons, List.mem_singleton, List.not_mem_nil, or_false] at he
      rcases he with rfl | rfl | rfl
      · exact ⟨⟨Value.int 0, none⟩, Kind.Int, by decide, by decide,
          Or.inl ⟨rfl, 250, rfl, by decide⟩⟩
      · exact ⟨⟨Value.bool false, none⟩, Kind.Bool, by decide, by decide,
          Or.inr ⟨by decide, Or.inl ⟨true, rfl⟩⟩⟩
      · exact ⟨⟨Value.string [], none⟩, Kind.String, by decide, by decide,
          Or.inr ⟨by decide, Or.inr ⟨[97], by decide, rfl⟩⟩⟩)
  exact ⟨s', h, heq⟩

/-! ## ValidateAndConvertSettingsValue -/

theorem wrapUint64_natCast (m : Nat) : wrapUint64 (m : Int) = m % 2 ^ 64 := by
  unfold wrapUint64
  omega

theorem wrapInt64_of_range (x : Int) (h : -(2 ^ 63) ≤ x ∧ x < 2 ^ 63) : wrapInt64 x = x := by
  unfold wrapInt64
  omega

/-- The value read by the loop of ParseUint from the digits `ds` after the value `n`. -/
theorem decimalFold_ge (ds : List Char) (n : Nat) :
    n ≤ ds.foldl (fun n c => 10 * n + (c.toNat - 48)) n := by
  induction ds generalizing n with
  | nil => exact le_refl n
  | cons c cs ih =>
    rw [List.foldl_cons]
    exact le_trans (by omega) (ih (10 * n + (c.toNat - 48)))

theorem strconv.digitVal_of_digit (c : Char) (h : 48 ≤ c.toNat ∧ c.toNat ≤ 57) :
    strconv.digitVal c = some (c.toNat - 48) := by
  unfold strconv.digitVal
  rw [if_pos h]

theorem strconv.digitVal_of_not_digit (c : Char) (h : ¬ (48 ≤ c.toNat ∧ c.toNat ≤ 57)) :
    strconv.digitVal c = none ∨ ∃ d, strconv.digitVal c = some d ∧ d ≥ 10 := by
  unfold strconv.digitVal
  rw [if_neg h]
  split
  · exact Or.inr ⟨_, rfl, by omega⟩
  · split
    · exact Or.inr ⟨_, rfl, by omega⟩
    · exact Or.inl rfl

theorem strconv.ParseUint.loop_ok_iff (ds : List Char) (n : Nat) (hn : n < 2 ^ 64) (v : Nat) :
    strconv.ParseUint.loop 10 (2 ^ 64 - 1) ((2 ^ 64 - 1) / 10 + 1) ds n = (v, none) ↔
      (∀ c ∈ ds, 48 ≤ c.toNat ∧ c.toNat ≤ 57) ∧
        v = ds.foldl (fun n c => 10 * n + (c.toNat - 48)) n ∧ v < 2 ^ 64 := by
  induction ds generalizing n with
  | nil =>
    simp only [strconv.ParseUint.loop, Prod.mk.injEq, and_true, List.not_mem_nil,
      false_imp_iff, implies_true, true_and, List.foldl_nil]
    constructor
    · intro h; subst h; exact ⟨rfl, hn⟩
    · intro h; exact h.1.symm
  | cons c cs ih =>
    have hge := decimalFold_ge cs (10 * n + (c.toNat - 48))
    by_cases hc : 48 ≤ c.toNat ∧ c.toNat ≤ 57
    · have hd : ¬ (c.toNat - 48 ≥ 10) := by omega
      simp only [strconv.ParseUint.loop, strconv.digitVal_of_digit c hc, hd, if_false,
        List.foldl_cons]
      by_cases hcut : n ≥ (2 ^ 64 - 1) / 10 + 1
      · rw [if_pos hcut]
        constructor
        · intro h; cases h
        · rintro ⟨_, hv, hlt⟩
          omega
      · rw [if_neg hcut]
        have h10 : wrapUint64 ((n : Int) * ((10 : Nat) : Int)) = n * 10 := by
          have := wrapUint64_natCast (n * 10)
          rw [Nat.cast_mul] at this
          rw [this]
          omega
        rw [h10]
        have h1 : wrapUint64 (((n * 10 : Nat) : Int) + ((c.toNat - 48 : Nat) : Int))
            = (n * 10 + (c.toNat - 48)) % 2 ^ 64 := by
          have := wrapUint64_natCast (n * 10 + (c.toNat - 48))
          rw [Nat.cast_add] at this
          exact this
        rw [h1]
        by_cases hov : n * 10 + (c.toNat - 48) < 2 ^ 64
        · have hmod : (n * 10 + (c.toNat - 48)) % 2 ^ 64 = n * 10 + (c.toNat - 48) :=
            Nat.mod_eq_of_lt hov
          rw [hmod]
          have hno : ¬ (n * 10 + (c.toNat - 48) < n * 10 ∨
              n * 10 + (c.toNat - 48) > 2 ^ 64 - 1) := by omega
          rw [if_neg hno, ih (n * 10 + (c.toNat - 48)) hov]
          have hcomm : 10 * n + (c.toNat - 48) = n * 10 + (c.toNat - 48) := by omega
          rw [hcomm]
          constructor
          · rintro ⟨hall, hv⟩
            refine ⟨?_, hv⟩
            intro c' hc'
            rcases List.mem_cons.mp hc' with rfl | hin
            · exact hc
            · exact hall c' hin
          · rintro ⟨hall, hv⟩
            exact ⟨fun c' hc' => hall c' (List.mem_cons_of_mem _ hc'), hv⟩
        · have hyes : (n * 10 + (c.toNat - 48)) % 2 ^ 64 < n * 10 ∨
              (n * 10 + (c.toNat - 48)) % 2 ^ 64 > 2 ^ 64 - 1 := by omega
          rw [if_pos hyes]
          constructor
          · intro h; cases h
          · rintro ⟨_, hv, hlt⟩
            omega
    · have hfalse : ¬ (∀ c' ∈ c :: cs, 48 ≤ c'.toNat ∧ c'.toNat ≤ 57) :=
        fun h => hc (h c (List.mem_cons_self _ _))
      rcases strconv.digitVal_of_not_digit c hc with hnone | ⟨d, hsome, hd⟩
      · simp only [strconv.ParseUint.loop, hnone]
        constructor
        · intro h; cases h
        · rintro ⟨hall, _⟩; exact absurd hall hfalse
      · simp only [strconv.ParseUint.loop, hsome, hd, if_true]
        constructor
        · intro h; cases h
        · rintro ⟨hall, _⟩; exact absurd hall hfalse

theorem strconv.ParseUint.loop_shape (ds : List Char) (n : Nat) :
    (strconv.ParseUint.loop 10 (2 ^ 64 - 1) ((2 ^ 64 - 1) / 10 + 1) ds n).2 = none ∨
    strconv.ParseUint.loop 10 (2 ^ 64 - 1) ((2 ^ 64 - 1) / 10 + 1) ds n
      = (0, some Error.strconvSyntax) ∨
    strconv.ParseUint.loop 10 (2 ^ 64 - 1) ((2 ^ 64 - 1) / 10 + 1) ds n
      = (2 ^ 64 - 1, some Error.strconvRange) := by
  induction ds generalizing n with
  | nil => exact Or.inl rfl
  | cons c cs ih =>
    unfold strconv.ParseUint.loop
    cases strconv.digitVal c with
    | none => exact Or.inr (Or.inl rfl)
    | some d =>
      simp only
      split
      · exact Or.inr (Or.inl rfl)
      · split
        · exact Or.inr (Or.inr rfl)
        · split
          · exact Or.inr (Or.inr rfl)
          · exact ih _

theorem strconv.ParseUint_ok_iff (s : List Char) (v : Nat) :
    strconv.ParseUint s 10 64 = (v, none) ↔
      s ≠ [] ∧ (∀ c ∈ s, 48 ≤ c.toNat ∧ c.toNat ≤ 57) ∧ v = decimalValue s ∧ v < 2 ^ 64 := by
  unfold strconv.ParseUint
  by_cases hs : s = []
  · rw [if_pos hs]
    constructor
    · intro h; cases h
    · intro h; exact absurd hs h.1
  · rw [if_neg hs]
    simp only
    rw [strconv.ParseUint.loop_ok_iff s 0 (by norm_num) v]
    unfold decimalValue
    constructor
    · intro h; exact ⟨hs, h⟩
    · intro h; exact h.2

theorem strconv.ParseUint_shape (s : List Char) :
    (strconv.ParseUint s 10 64).2 = none ∨
    strconv.ParseUint s 10 64 = (0, some Error.strconvSyntax) ∨
    strconv.ParseUint s 10 64 = (2 ^ 64 - 1, some Error.strconvRange) := by
  unfold strconv.ParseUint
  split
  · exact Or.inr (Or.inl rfl)
  · exact strconv.ParseUint.loop_shape s 0

theorem strconv.ParseInt_tail_rhs_false (neg : Bool) (rest : List Char) (i : Int)
    (herr : (strconv.ParseUint rest 10 64).2 ≠ none) :
    ¬ (rest ≠ [] ∧ (∀ c ∈ rest, 48 ≤ c.toNat ∧ c.toNat ≤ 57) ∧
        i = (if neg then -(decimalValue rest : Int) else (decimalValue rest : Int)) ∧
        -(2 ^ 63) ≤ i ∧ i < 2 ^ 63) := by
  rintro ⟨hne, hall, hi, hge, hlt⟩
  have hdv : decimalValue rest < 2 ^ 64 := by
    cases neg with
    | false => simp only [Bool.false_eq_true, if_false] at hi; omega
    | true => simp only [if_true] at hi; omega
  have hok := (strconv.ParseUint_ok_iff rest (decimalValue rest)).mpr ⟨hne, hall, rfl, hdv⟩
  rw [hok] at herr
  exact herr rfl

/-- The result of ParseInt after the sign has been taken off: `neg` tells a minus sign and
`rest` is the string without its sign. -/
theorem strconv.ParseInt_tail_ok_iff (neg : Bool) (rest : List Char) (i : Int) :
    (if (strconv.ParseUint rest 10 64).2 ≠ none ∧
          (strconv.ParseUint rest 10 64).2 ≠ some Error.strconvRange then
        ((0 : Int), (strconv.ParseUint rest 10 64).2)
      else if !neg ∧ (strconv.ParseUint rest 10 64).1 ≥ 2 ^ (64 - 1) then
        (((2 ^ (64 - 1) - 1 : Nat) : Int), some Error.strconvRange)
      else if neg ∧ (strconv.ParseUint rest 10 64).1 > 2 ^ (64 - 1) then
        (-((2 ^ (64 - 1) : Nat) : Int), some Error.strconvRange)
      else
        (if neg then wrapInt64 (-(wrapInt64 (strconv.ParseUint rest 10 64).1))
          else wrapInt64 (strconv.ParseUint rest 10 64).1, none)) = (i, none) ↔
      rest ≠ [] ∧ (∀ c ∈ rest, 48 ≤ c.toNat ∧ c.toNat ≤ 57) ∧
        i = (if neg then -(decimalValue rest : Int) else (decimalValue rest : Int)) ∧
        -(2 ^ 63) ≤ i ∧ i < 2 ^ 63 := by
  rcases strconv.ParseUint_shape rest with hnone | hsyn | hrange
  · obtain ⟨un, hun⟩ : ∃ un, strconv.ParseUint rest 10 64 = (un, none) :=
      ⟨(strconv.ParseUint rest 10 64).1, Prod.ext rfl hnone⟩
    have hspec := (strconv.ParseUint_ok_iff rest un).mp hun
    obtain ⟨hne, hall, hval, hlt⟩ := hspec
    rw [hun]
    simp only [ne_eq, not_true_eq_false, false_and, if_false]
    cases neg with
    | false =>
      simp only [Bool.not_false, true_and, Bool.false_eq_true, false_and, if_false]
      by_cases hcut : un ≥ 2 ^ (64 - 1)
      · rw [if_pos hcut]
        constructor
        · intro h; cases h
        · rintro ⟨_, _, hi, _, hlt'⟩
          rw [← hval] at hi
          norm_num at hcut
          omega
      · rw [if_neg hcut]
        norm_num at hcut
        rw [wrapInt64_of_range (un : Int) (by constructor <;> omega)]
        constructor
        · intro h
          simp only [Prod.mk.injEq, and_true] at h
          refine ⟨hne, hall, ?_, ?_, ?_⟩
          · rw [← hval]; exact h.symm
          · omega
          · omega
        · rintro ⟨_, _, hi, _, _⟩
          rw [← hval] at hi
          rw [hi]
    | true =>
      simp only [Bool.not_true, Bool.false_eq_true, false_and, if_false, true_and, if_true]
      by_cases hcut : un > 2 ^ (64 - 1)
      · rw [if_pos hcut]
        constructor
        · intro h; cases h
        · rintro ⟨_, _, hi, hge', _⟩
          rw [← hval] at hi
          norm_num at hcut
          omega
      · rw [if_neg hcut]
        norm_num at hcut
        have hw : wrapInt64 (-(wrapInt64 (un : Int))) = -(un : Int) := by
          unfold wrapInt64
          omega
        rw [hw]
        constructor
        · intro h
          simp only [Prod.mk.injEq, and_true] at h
          refine ⟨hne, hall, ?_, ?_, ?_⟩
          · rw [← hval]; exact h.symm
          · omega
          · omega
        · rintro ⟨_, _, hi, _, _⟩
          rw [← hval] at hi
          rw [hi]
  · have hrhs := strconv.ParseInt_tail_rhs_false neg rest i (by rw [hsyn]; simp)
    rw [hsyn]
    simp only [ne_eq, not_false_eq_true, reduceCtorEq, and_self, if_true]
    constructor
    · intro h; cases h
    · intro h; exact absurd h hrhs
  · have hrhs := strconv.ParseInt_tail_rhs_false neg rest i (by rw [hrange]; simp)
    rw [hrange]
    simp only [ne_eq, not_true_eq_false, and_false, if_false]
    cases neg with
    | false =>
      have hcut : (2 : Nat) ^ 64 - 1 ≥ 2 ^ (64 - 1) := by norm_num
      simp only [Bool.not_false, true_and, hcut, if_true]
      constructor
      · intro h; cases h
      · intro h; exact absurd h hrhs
    | true =>
      have hcut : (2 : Nat) ^ 64 - 1 > 2 ^ (64 - 1) := by norm_num
      simp only [Bool.not_true, Bool.false_eq_true, false_and, if_false, true_and, hcut,
        if_true]
      constructor
      · intro h; cases h
      · intro h; exact absurd h hrhs

theorem strconv.ParseInt_ok_iff (s : String) (i : Int) :
    strconv.ParseInt s.data 10 64 = (i, none) ↔ IsInt64Literal s i := by
  unfold IsInt64Literal
  cases hs : s.data with
  | nil =>
    constructor
    · intro h; cases h
    · rintro ⟨ds, hne, _, hshape, _⟩
      rcases hshape with ⟨h | h, _⟩ | ⟨h, _⟩
      · exact absurd h.symm hne
      · cases h
      · cases h
  | cons c cs =>
    have htail := strconv.ParseInt_tail_ok_iff (decide (c = '-'))
      (if c = '+' ∨ c = '-' then cs else c :: cs) i
    have hparse : strconv.ParseInt (c :: cs) 10 64 = (i, none) ↔
        (if c = '+' ∨ c = '-' then cs else c :: cs) ≠ [] ∧
        (∀ c' ∈ (if c = '+' ∨ c = '-' then cs else c :: cs),
          48 ≤ c'.toNat ∧ c'.toNat ≤ 57) ∧
        i = (if decide (c = '-') = true then
              -(decimalValue (if c = '+' ∨ c = '-' then cs else c :: cs) : Int)
            else (decimalValue (if c = '+' ∨ c = '-' then cs else c :: cs) : Int)) ∧
        -(2 ^ 63) ≤ i ∧ i < 2 ^ 63 := by
      rw [← htail]
      rfl
    rw [hparse]
    by_cases hplus : c = '+'
    · subst hplus
      simp only [true_or, if_true, show decide ('+' = '-') = false by decide,
        Bool.false_eq_true, if_false]
      constructor
      · rintro ⟨hne, hall, hi, hr⟩
        exact ⟨cs, hne, hall, Or.inl ⟨Or.inr rfl, hi⟩, hr⟩
      · rintro ⟨ds, hne, hall, hshape, hr⟩
        rcases hshape with ⟨h | h, hi⟩ | ⟨h, _⟩
        · have := hall '+' (by rw [← h]; exact List.mem_cons_self _ _)
          exact absurd this (by decide)
        · have hcs : cs = ds := (List.cons.inj h).2
          subst hcs
          exact ⟨hne, hall, hi, hr⟩
        · exact absurd (List.cons.inj h).1 (by decide)
    · by_cases hminus : c = '-'
      · subst hminus
        simp only [or_true, if_true, decide_True]
        constructor
        · rintro ⟨hne, hall, hi, hr⟩
          exact ⟨cs, hne, hall, Or.inr ⟨rfl, hi⟩, hr⟩
        · rintro ⟨ds, hne, hall, hshape, hr⟩
          rcases hshape with ⟨h | h, hi⟩ | ⟨h, hi⟩
          · have := hall '-' (by rw [← h]; exact List.mem_cons_self _ _)
            exact absurd this (by decide)
          · exact absurd (List.cons.inj h).1 (by decide)
          · have hcs : cs = ds := (List.cons.inj h).2
            subst hcs
            exact ⟨hne, hall, hi, hr⟩
      · have hor : ¬ (c = '+' ∨ c = '-') := by
          rintro (h | h)
          · exact hplus h
          · exact hminus h
        rw [if_neg hor]
        simp only [hminus, decide_False, Bool.false_eq_true, if_false]
        constructor
        · rintro ⟨hne, hall, hi, hr⟩
          exact ⟨c :: cs, hne, hall, Or.inl ⟨Or.inl rfl, hi⟩, hr⟩
        · rintro ⟨ds, hne, hall, hshape, hr⟩
          rcases hshape with ⟨h | h, hi⟩ | ⟨h, hi⟩
          · subst h
            exact ⟨hne, hall, hi, hr⟩
          · exact absurd (List.cons.inj h).1 hplus
          · exact absurd (List.cons.inj h).1 hminus

theorem strconv.ParseInt_err_iff (s : String) :
    (strconv.ParseInt s.data 10 64).2 ≠ none ↔ ¬ ∃ n, IsInt64Literal s n := by
  constructor
  · rintro herr ⟨n, hn⟩
    rw [(strconv.ParseInt_ok_iff s n).mpr hn] at herr
    exact herr rfl
  · intro hno herr
    exact hno ⟨(strconv.ParseInt s.data 10 64).1,
      (strconv.ParseInt_ok_iff s _).mp (Prod.ext rfl herr)⟩

theorem RangeCheck_eq_none_iff (n : Int) (c : SettingsConfig) :
    RangeCheck n c = none ↔
      (c.Range = none ∨ ∃ r, c.Range = some r ∧ r.MinValue ≤ n ∧ n ≤ r.MaxValue) := by
  unfold RangeCheck
  cases hr : c.Range with
  | none => simp
  | some r =>
    simp only
    by_cases hout : n < r.MinValue ∨ n > r.MaxValue
    · rw [if_pos hout]
      constructor
      · intro h; cases h
      · rintro (h | ⟨r', hr', hmin, hmax⟩)
        · cases h
        · cases hr'
          omega
    · rw [if_neg hout]
      constructor
      · intro _
        exact Or.inr ⟨r, rfl, by omega, by omega⟩
      · intro _; rfl

theorem validateAndConvertIntValue_of_literal (value : String) (c : SettingsConfig) (n : Int)
    (hn : IsInt64Literal value n) :
    validateAndConvertIntValue value c = (Value.int n, RangeCheck n c) := by
  unfold validateAndConvertIntValue ParseIntBase ParseIntBitSize
  rw [(strconv.ParseInt_ok_iff value n).mpr hn]

theorem validateAndConvertIntValue_of_not_literal (value : String) (c : SettingsConfig)
    (hn : ¬ ∃ n, IsInt64Literal value n) :
    validateAndConvertIntValue value c =
      (Value.int64 (strconv.ParseInt value.data 10 64).1,
        some (Error.IncorrectValueTypeError "an integer")) := by
  have herr := (strconv.ParseInt_err_iff value).mpr hn
  unfold validateAndConvertIntValue ParseIntBase ParseIntBitSize
  cases hp : strconv.ParseInt value.data 10 64 with
  | mk i e =>
    cases e with
    | none => rw [hp] at herr; exact absurd rfl herr
    | some e => rfl

/-- C9: for a key outside configMap, ValidateAndConvertSettingsValue returns
ErrorInvalidSettingsKey; for an integer-kind schema key it returns a value with a nil error
if and only if the value is the int n, the string is a base-10 integer literal of 64 bits
with value n, and the key has no Range or MinValue <= n <= MaxValue; it returns
IncorrectValueTypeError when the string is not such a literal and InvalidValueError when n is
outside the range. -/
theorem ValidateAndConvertSettingsValue_int_key (key value : String)
    (configMap : GoMap String SettingsConfig) :
    (configMap.get key = none →
      ValidateAndConvertSettingsValue key value configMap
        = some (Value.nil, some Error.ErrorInvalidSettingsKey)) ∧
    (∀ c, configMap.get key = some c → reflectKindOf c.defaultValue = some Kind.Int →
      (∀ x, ValidateAndConvertSettingsValue key value configMap = some (x, none) ↔
        ∃ n, x = Value.int n ∧ IsInt64Literal value n ∧
          (c.Range = none ∨ ∃ r, c.Range = some r ∧ r.MinValue ≤ n ∧ n ≤ r.MaxValue)) ∧
      ((¬ ∃ n, IsInt64Literal value n) →
        (ValidateAndConvertSettingsValue key value configMap).map Prod.snd
          = some (some (Error.IncorrectValueTypeError "an integer"))) ∧
      (∀ n r, IsInt64Literal value n → c.Range = some r →
        (n < r.MinValue ∨ n > r.MaxValue) →
        ValidateAndConvertSettingsValue key value configMap
          = some (Value.int n,
              some (Error.InvalidValueError "an integer" r.MinValue r.MaxValue)))) := by
  constructor
  · intro hc
    unfold ValidateAndConvertSettingsValue
    rw [hc]
  · intro c hc hkind
    have hval : ValidateAndConvertSettingsValue key value configMap
        = some (validateAndConvertIntValue value c) := by
      unfold ValidateAndConvertSettingsValue
      rw [hc]
      simp only [hkind]
    rw [hval]
    refine ⟨?_, ?_, ?_⟩
    · intro x
      by_cases hlit : ∃ n, IsInt64Literal value n
      · obtain ⟨n, hn⟩ := hlit
        rw [validateAndConvertIntValue_of_literal value c n hn]
        constructor
        · intro h
          simp only [Option.some.injEq, Prod.mk.injEq] at h
          exact ⟨n, h.1.symm, hn, (RangeCheck_eq_none_iff n c).mp h.2⟩
        · rintro ⟨m, hx, hm, hrange⟩
          have hmn : m = n := by
            have h1 := (strconv.ParseInt_ok_iff value m).mpr hm
            have h2 := (strconv.ParseInt_ok_iff value n).mpr hn
            rw [h1] at h2
            exact (Prod.mk.inj h2).1
          subst hmn
          rw [hx, (RangeCheck_eq_none_iff m c).mpr hrange]
      · rw [validateAndConvertIntValue_of_not_literal value c hlit]
        constructor
        · intro h
          simp at h
        · rintro ⟨n, _, hn, _⟩
          exact absurd ⟨n, hn⟩ hlit
    · intro hlit
      rw [validateAndConvertIntValue_of_not_literal value c hlit]
      rfl
    · intro n r hn hr hout
      rw [validateAndConvertIntValue_of_literal value c n hn]
      unfold RangeCheck
      rw [hr]
      simp only
      rw [if_pos hout]

/-- An instance of C9: the string 12 is a literal outside the range 1..10 of the key. -/
theorem ValidateAndConvertSettingsValue_int_key_witness :
    ValidateAndConvertSettingsValue "n" "12" [("n", ⟨Value.int 0, some ⟨1, 10⟩⟩)]
      = some (Value.int 12, some (Error.InvalidValueError "an integer" 1 10)) :=
  (ValidateAndConvertSettingsValue_int_key "n" "12"
    [("n", ⟨Value.int 0, some ⟨1, 10⟩⟩)]).2 ⟨Value.int 0, some ⟨1, 10⟩⟩
    (by decide) (by decide) |>.2.2 12 ⟨1, 10⟩
    ⟨['1', '2'], by decide, by decide, Or.inl ⟨Or.inl rfl, by decide⟩, by decide, by decide⟩
    rfl (Or.inr (by decide))

/-! ## changes_left -/

theorem wrapUint64_lt (x : Int) : wrapUint64 x < 2 ^ 64 := by
  unfold wrapUint64
  omega

theorem wrapUint64_add_wrap (x y : Int) :
    wrapUint64 ((wrapUint64 x : Int) + y) = wrapUint64 (x + y) := by
  unfold wrapUint64
  omega

theorem wrapInt64_sub_wrap (x y : Int) :
    wrapInt64 (wrapInt64 ((wrapUint64 x : Nat) : Int) - y) = wrapInt64 (x - y) := by
  unfold wrapInt64 wrapUint64
  omega

theorem calculateTotalChanges.inner_eq (stats_mgr : StatisticsManager)
    (highseqno_map : GoMap Nat Nat) (vbnos : List Nat) (total_doc : Nat)
    (htotal : total_doc < 2 ^ 64)
    (hts : ∀ vbno ∈ vbnos, ∃ ts, stats_mgr.current_vb_start_ts.get vbno = some ts) :
    calculateTotalChanges.inner stats_mgr highseqno_map none vbnos total_doc =
      LoopStep.next (wrapUint64 ((total_doc : Int) +
        (vbnos.map (fun vbno => (((highseqno_map.get vbno).getD 0 : Nat) : Int)
          - (stats_mgr.startSeqnoOf vbno : Int))).sum)) := by
  induction vbnos generalizing total_doc with
  | nil =>
    simp only [calculateTotalChanges.inner, List.map_nil, List.sum_nil, add_zero]
    rw [wrapUint64_natCast, Nat.mod_eq_of_lt htotal]
  | cons vbno vbnos ih =>
    obtain ⟨ts, hget⟩ := hts vbno (List.mem_cons_self _ _)
    have hstart : stats_mgr.startSeqnoOf vbno = ts.Seqno := by
      unfold StatisticsManager.startSeqnoOf
      rw [hget]
      rfl
    simp only [calculateTotalChanges.inner, hget, List.map_cons, List.sum_cons]
    rw [ih _ (wrapUint64_lt _) (fun v hv => hts v (List.mem_cons_of_mem _ hv))]
    rw [wrapUint64_add_wrap, hstart, sub_add_eq_add_sub, add_sub_assoc, wrapUint64_add_wrap]
    congr 2
    ring

theorem calculateTotalChanges.outer_eq (stats_mgr : StatisticsManager)
    (servers : List (String × List Nat)) (total_doc : Nat) (htotal : total_doc < 2 ^ 64)
    (hlookup : ∀ e ∈ servers, (stats_mgr.getHighSeqNos e.1 e.2).2 = none)
    (hts : ∀ e ∈ servers, ∀ vbno ∈ e.2,
      ∃ ts, stats_mgr.current_vb_start_ts.get vbno = some ts) :
    calculateTotalChanges.outer stats_mgr servers total_doc =
      LoopStep.next (wrapUint64 ((total_doc : Int) +
        (servers.map (fun e =>
          (e.2.map (fun vbno =>
            (stats_mgr.highSeqnoOf e.1 e.2 vbno : Int)
              - (stats_mgr.startSeqnoOf vbno : Int))).sum)).sum)) := by
  induction servers generalizing total_doc with
  | nil =>
    simp only [calculateTotalChanges.outer, List.map_nil, List.sum_nil, add_zero]
    rw [wrapUint64_natCast, Nat.mod_eq_of_lt htotal]
  | cons e servers ih =>
    obtain ⟨serverAddr, vbnos⟩ := e
    have herr := hlookup (serverAddr, vbnos) (List.mem_cons_self _ _)
    simp only at herr
    simp only [calculateTotalChanges.outer, herr, List.map_cons, List.sum_cons]
    rw [calculateTotalChanges.inner_eq stats_mgr _ vbnos total_doc htotal
      (hts (serverAddr, vbnos) (List.mem_cons_self _ _))]
    simp only
    rw [ih _ (wrapUint64_lt _) (fun e he => hlookup e (List.mem_cons_of_mem _ he))
      (fun e he => hts e (List.mem_cons_of_mem _ he))]
    rw [wrapUint64_add_wrap, add_assoc]
    rfl

/-- C10, as stated, fails: the vBucket 0 starts at seqno 5 and its high_seqno is 3; the
unsigned total wraps around to 2^64 - 2 and calculateChangesLeft returns -2. -/
theorem calculateChangesLeft_wraps_and_is_negative :
    calculateTotalChanges.outer
      { current_vb_start_ts := [(0, ⟨0, 0, 5, 0, 0⟩)],
        active_vbs := [("s", [0])],
        kv_mem_clients := [("s", ⟨fun _ => ([("vb_0:high_seqno", "3")], none)⟩)] }
      [("s", [0])] 0 = LoopStep.next (2 ^ 64 - 2) ∧
    StatisticsManager.calculateChangesLeft
      { current_vb_start_ts := [(0, ⟨0, 0, 5, 0, 0⟩)],
        active_vbs := [("s", [0])],
        kv_mem_clients := [("s", ⟨fun _ => ([("vb_0:high_seqno", "3")], none)⟩)] }
      0 = some (-2, none) := by
  decide

/-- C10, amended: calculateChangesLeft does not clamp.  When the high-seqno lookup succeeds
for every source server and every active vBucket has a start timestamp, it returns, with a
nil error, the 64-bit two's complement value of the sum over the active vBuckets of
high_seqno - start_seqno, minus docs_written: a vBucket whose start seqno exceeds its
high_seqno contributes the negative difference, and the result is negative when the sum
is. -/
theorem calculateChangesLeft_wraps (stats_mgr : StatisticsManager) (docs_written : Int)
    (hlookup : ∀ e ∈ stats_mgr.active_vbs, (stats_mgr.getHighSeqNos e.1 e.2).2 = none)
    (hts : ∀ e ∈ stats_mgr.active_vbs, ∀ vbno ∈ e.2,
      stats_mgr.current_vb_start_ts.get vbno ≠ none) :
    stats_mgr.calculateChangesLeft docs_written =
      some (wrapInt64 (stats_mgr.signedTotalChanges - docs_written), none) ∧
    (-(2 ^ 63) ≤ stats_mgr.signedTotalChanges - docs_written →
      stats_mgr.signedTotalChanges - docs_written < 0 →
      stats_mgr.calculateChangesLeft docs_written =
        some (stats_mgr.signedTotalChanges - docs_written, none)) := by
  have houter := calculateTotalChanges.outer_eq stats_mgr stats_mgr.active_vbs 0
    (by norm_num) hlookup
    (fun e he vbno hv => Option.ne_none_iff_exists'.mp (hts e he vbno hv))
  have hmain : stats_mgr.calculateChangesLeft docs_written =
      some (wrapInt64 (stats_mgr.signedTotalChanges - docs_written), none) := by
    unfold StatisticsManager.calculateChangesLeft StatisticsManager.calculateTotalChanges
    rw [houter]
    simp only [Nat.cast_zero, zero_add]
    rw [wrapInt64_sub_wrap]
    rfl
  refine ⟨hmain, ?_⟩
  intro hlo hneg
  rw [hmain, wrapInt64_of_range _ ⟨hlo, by omega⟩]

/-- An instance of the amended C10: high_seqno 3, start seqno 5, docs_written 0. -/
theorem calculateChangesLeft_wraps_witness :
    StatisticsManager.calculateChangesLeft
      { current_vb_start_ts := [(0, ⟨0, 0, 5, 0, 0⟩)],
        active_vbs := [("s", [0])],
        kv_mem_clients := [("s", ⟨fun _ => ([("vb_0:high_seqno", "3")], none)⟩)] }
      0 = some (wrapInt64 (-2 - 0), none) :=
  (calculateChangesLeft_wraps
    { current_vb_start_ts := [(0, ⟨0, 0, 5, 0, 0⟩)],
      active_vbs := [("s", [0])],
      kv_mem_clients := [("s", ⟨fun _ => ([("vb_0:high_seqno", "3")], none)⟩)] }
    0 (by decide) (by decide)).1

/-! ## changes_left: the high sequence numbers of the stats maps -/

theorem getHighSeqNos.loop_get (stats_map : GoMap String String) (vbnos : List Nat)
    (m m' : GoMap Nat Nat) (h : getHighSeqNos.loop stats_map vbnos m = (m', none))
    (vbno : Nat) :
    m'.get vbno =
      if vbno ∈ vbnos then
        some (strconv.ParseUint ((stats_map.get (highSeqnoStatKey vbno)).getD "").data 10 64).1
      else m.get vbno := by
  induction vbnos generalizing m with
  | nil =>
    simp only [getHighSeqNos.loop, Prod.mk.injEq, and_true] at h
    simp [h]
  | cons v vs ih =>
    unfold getHighSeqNos.loop at h
    simp only at h
    cases hp : strconv.ParseUint ((stats_map.get (highSeqnoStatKey v)).getD "").data 10 64 with
    | mk hs e =>
      rw [hp] at h
      cases e with
      | some err => simp at h
      | none =>
        simp only at h
        rw [ih (GoMap.set m v hs) h]
        by_cases hin : vbno ∈ vs
        · simp [hin]
        · by_cases hv : v = vbno
          · subst hv
            simp [hin, GoMap.get_set_self, hp]
          · have hne : ¬ vbno = v := fun e => hv e.symm
            simp [hin, hne, GoMap.get_set_ne _ _ _ _ hv]

theorem StatisticsManager.highSeqnoOf_eq_stat (stats_mgr : StatisticsManager)
    (serverAddr : String) (vbnos : List Nat)
    (hlookup : (stats_mgr.getHighSeqNos serverAddr vbnos).2 = none)
    (vbno : Nat) (hv : vbno ∈ vbnos) :
    stats_mgr.highSeqnoOf serverAddr vbnos vbno = stats_mgr.statHighSeqno serverAddr vbno := by
  unfold StatisticsManager.highSeqnoOf StatisticsManager.statHighSeqno
  unfold StatisticsManager.getHighSeqNos at hlookup ⊢
  cases hc : stats_mgr.kv_mem_clients.get serverAddr with
  | none => rw [hc] at hlookup; simp at hlookup
  | some conn =>
    rw [hc] at hlookup
    simp only at hlookup ⊢
    cases hs : conn.StatsMap VBUCKET_SEQNO_STAT_NAME with
    | mk stats_map e =>
      rw [hs] at hlookup
      cases e with
      | some err => simp at hlookup
      | none =>
        simp only at hlookup ⊢
        have hloop : getHighSeqNos.loop stats_map vbnos [] =
            ((getHighSeqNos.loop stats_map vbnos []).1, none) := Prod.ext rfl hlookup
        rw [getHighSeqNos.loop_get stats_map vbnos [] _ hloop vbno, if_pos hv]
        rfl

theorem StatisticsManager.signedTotalChanges_eq_stat (stats_mgr : StatisticsManager)
    (hlookup : ∀ e ∈ stats_mgr.active_vbs, (stats_mgr.getHighSeqNos e.1 e.2).2 = none) :
    stats_mgr.signedTotalChanges = stats_mgr.statTotalChanges := by
  unfold StatisticsManager.signedTotalChanges StatisticsManager.statTotalChanges
  congr 1
  apply List.map_congr_left
  intro e he
  congr 1
  apply List.map_congr_left
  intro vbno hv
  rw [StatisticsManager.highSeqnoOf_eq_stat stats_mgr e.1 e.2 (hlookup e he) vbno hv]

theorem StatisticsManager.calculateChangesLeft_eq (stats_mgr : StatisticsManager)
    (docs_written : Int)
    (hlookup : ∀ e ∈ stats_mgr.active_vbs, (stats_mgr.getHighSeqNos e.1 e.2).2 = none)
    (hts : ∀ e ∈ stats_mgr.active_vbs, ∀ vbno ∈ e.2,
      stats_mgr.current_vb_start_ts.get vbno ≠ none) :
    stats_mgr.calculateChangesLeft docs_written =
      some (wrapInt64 (stats_mgr.signedTotalChanges - docs_written), none) := by
  have houter := calculateTotalChanges.outer_eq stats_mgr stats_mgr.active_vbs 0
    (by norm_num) hlookup
    (fun e he vbno hv => Option.ne_none_iff_exists'.mp (hts e he vbno hv))
  unfold StatisticsManager.calculateChangesLeft StatisticsManager.calculateTotalChanges
  rw [houter]
  simp only [Nat.cast_zero, zero_add]
  rw [wrapInt64_sub_wrap]
  rfl

/-- C11, as stated, fails in two ways.  With a high_seqno of 2^63, a start seqno of 0 and
docs_written 0 the lookup succeeds and the sum is 2^63, yet calculateChangesLeft returns
-2^63; and when the active vBucket has no entry in current_vb_start_ts, the lookup succeeds
and calculateChangesLeft panics on the nil timestamp. -/
theorem calculateChangesLeft_overflows_or_panics :
    (StatisticsManager.getHighSeqNos
      { current_vb_start_ts := [(0, ⟨0, 0, 0, 0, 0⟩)],
        active_vbs := [("s", [0])],
        kv_mem_clients :=
          [("s", ⟨fun _ => ([("vb_0:high_seqno", "9223372036854775808")], none)⟩)] }
      "s" [0] = ([(0, 2 ^ 63)], none) ∧
    StatisticsManager.calculateChangesLeft
      { current_vb_start_ts := [(0, ⟨0, 0, 0, 0, 0⟩)],
        active_vbs := [("s", [0])],
        kv_mem_clients :=
          [("s", ⟨fun _ => ([("vb_0:high_seqno", "9223372036854775808")], none)⟩)] }
      0 = some (-(2 ^ 63), none)) ∧
    (StatisticsManager.getHighSeqNos
      { current_vb_start_ts := [],
        active_vbs := [("s", [0])],
        kv_mem_clients := [("s", ⟨fun _ => ([("vb_0:high_seqno", "7")], none)⟩)] }
      "s" [0] = ([(0, 7)], none) ∧
    StatisticsManager.calculateChangesLeft
      { current_vb_start_ts := [],
        active_vbs := [("s", [0])],
        kv_mem_clients := [("s", ⟨fun _ => ([("vb_0:high_seqno", "7")], none)⟩)] }
      0 = none) := by
  decide

/-- C11, amended: when the high-seqno lookup succeeds for every source server, every
active vBucket has an entry in current_vb_start_ts, and the sum over all active vBuckets of
all servers of (high_seqno - start_seqno), minus docs_written, lies in the range of int64,
calculateChangesLeft returns that number with a nil error; high_seqno is the number written
in the entry vb_N:high_seqno of the stats map of the server and start_seqno is the Seqno of
current_vb_start_ts[vb]. -/
theorem calculateChangesLeft_returns_sum (stats_mgr : StatisticsManager) (docs_written : Int)
    (hlookup : ∀ e ∈ stats_mgr.active_vbs, (stats_mgr.getHighSeqNos e.1 e.2).2 = none)
    (hts : ∀ e ∈ stats_mgr.active_vbs, ∀ vbno ∈ e.2,
      stats_mgr.current_vb_start_ts.get vbno ≠ none)
    (hrange : -(2 ^ 63) ≤ stats_mgr.statTotalChanges - docs_written ∧
      stats_mgr.statTotalChanges - docs_written < 2 ^ 63) :
    stats_mgr.calculateChangesLeft docs_written =
      some (stats_mgr.statTotalChanges - docs_written, none) := by
  rw [StatisticsManager.calculateChangesLeft_eq stats_mgr docs_written hlookup hts,
    StatisticsManager.signedTotalChanges_eq_stat stats_mgr hlookup,
    wrapInt64_of_range _ hrange]

/-- An instance of the amended C11: two servers, three vBuckets, four documents written. -/
theorem calculateChangesLeft_returns_sum_witness :
    StatisticsManager.calculateChangesLeft
      { current_vb_start_ts := [(0, ⟨0, 0, 2, 0, 0⟩), (1, ⟨1, 0, 0, 0, 0⟩), (2, ⟨2, 0, 5, 0, 0⟩)],
        active_vbs := [("s", [0, 1]), ("t", [2])],
        kv_mem_clients :=
          [("s", ⟨fun _ => ([("vb_0:high_seqno", "7"), ("vb_1:high_seqno", "10")], none)⟩),
           ("t", ⟨fun _ => ([("vb_2:high_seqno", "6")], none)⟩)] }
      4 = some (16 - 4, none) :=
  calculateChangesLeft_returns_sum
    { current_vb_start_ts := [(0, ⟨0, 0, 2, 0, 0⟩), (1, ⟨1, 0, 0, 0, 0⟩), (2, ⟨2, 0, 5, 0, 0⟩)],
      active_vbs := [("s", [0, 1]), ("t", [2])],
      kv_mem_clients :=
        [("s", ⟨fun _ => ([("vb_0:high_seqno", "7"), ("vb_1:high_seqno", "10")], none)⟩),
         ("t", ⟨fun _ => ([("vb_2:high_seqno", "6")], none)⟩)] }
    4 (by decide) (by decide) (by decide)

/-! ## A vBucket missing from the stats map -/

theorem getHighSeqNos.loop_missing (stats_map : GoMap String String) (vbnos : List Nat)
    (m : GoMap Nat Nat) (vbno : Nat) (hv : vbno ∈ vbnos)
    (hmiss : stats_map.get (highSeqnoStatKey vbno) = none) :
    (getHighSeqNos.loop stats_map vbnos m).1 = [] ∧
    (getHighSeqNos.loop stats_map vbnos m).2 ≠ none := by
  induction vbnos generalizing m with
  | nil => simp at hv
  | cons v vs ih =>
    unfold getHighSeqNos.loop
    simp only
    cases hp : strconv.ParseUint ((stats_map.get (highSeqnoStatKey v)).getD "").data 10 64 with
    | mk hs e =>
      cases e with
      | some err => simp
      | none =>
        simp only
        rcases List.mem_cons.mp hv with heq | hin
        · subst heq
          rw [hmiss] at hp
          have hsyn : strconv.ParseUint ((none : Option String).getD "").data 10 64
              = (0, some Error.strconvSyntax) := by decide
          rw [hsyn] at hp
          cases hp
        · exact ih _ hin

/-- The call of getHighSeqNos fails as a whole when the stats map of the server lacks the
entry of one of the vBuckets asked for. -/
theorem StatisticsManager.getHighSeqNos_missing (stats_mgr : StatisticsManager)
    (serverAddr : String) (vbnos : List Nat) (conn : Client)
    (hconn : stats_mgr.kv_mem_clients.get serverAddr = some conn)
    (vbno : Nat) (hv : vbno ∈ vbnos)
    (hmiss : (conn.StatsMap VBUCKET_SEQNO_STAT_NAME).1.get (highSeqnoStatKey vbno) = none) :
    (stats_mgr.getHighSeqNos serverAddr vbnos).1 = [] ∧
    (stats_mgr.getHighSeqNos serverAddr vbnos).2 ≠ none := by
  unfold StatisticsManager.getHighSeqNos
  rw [hconn]
  simp only
  cases hs : conn.StatsMap VBUCKET_SEQNO_STAT_NAME with
  | mk stats_map e =>
    rw [hs] at hmiss
    cases e with
    | some err => simp
    | none => exact getHighSeqNos.loop_missing stats_map vbnos [] vbno hv hmiss

theorem calculateTotalChanges.inner_of_error (stats_mgr : StatisticsManager)
    (highseqno_map : GoMap Nat Nat) (err : Error) (vbnos : List Nat) (hne : vbnos ≠ [])
    (total_doc : Nat) :
    calculateTotalChanges.inner stats_mgr highseqno_map (some err) vbnos total_doc =
      LoopStep.ret (0, some err) := by
  cases vbnos with
  | nil => exact absurd rfl hne
  | cons v vs => rfl

theorem calculateTotalChanges.outer_of_error (stats_mgr : StatisticsManager)
    (servers : List (String × List Nat)) (total_doc : Nat)
    (e : String × List Nat) (he : e ∈ servers) (hne : e.2 ≠ [])
    (herr : (stats_mgr.getHighSeqNos e.1 e.2).2 ≠ none) :
    ∀ total, calculateTotalChanges.outer stats_mgr servers total_doc ≠ LoopStep.next total := by
  induction servers generalizing total_doc with
  | nil => simp at he
  | cons s servers ih =>
    obtain ⟨serverAddr, vbnos⟩ := s
    intro total
    unfold calculateTotalChanges.outer
    simp only
    rcases List.mem_cons.mp he with heq | hin
    · subst heq
      obtain ⟨err, herr'⟩ := Option.ne_none_iff_exists'.mp herr
      simp only at herr' hne
      rw [herr', calculateTotalChanges.inner_of_error stats_mgr _ err vbnos hne]
      simp
    · cases hinner : calculateTotalChanges.inner stats_mgr
          (stats_mgr.getHighSeqNos serverAddr vbnos).1
          (stats_mgr.getHighSeqNos serverAddr vbnos).2 vbnos total_doc with
      | next t => exact ih t hin total
      | ret r => simp
      | panic => simp

theorem calculateTotalChanges.inner_ret (stats_mgr : StatisticsManager)
    (highseqno_map : GoMap Nat Nat) (err : Option Error) (vbnos : List Nat) (total_doc : Nat)
    (r : Int × Option Error)
    (h : calculateTotalChanges.inner stats_mgr highseqno_map err vbnos total_doc
      = LoopStep.ret r) : r.2 ≠ none := by
  induction vbnos generalizing total_doc with
  | nil => simp [calculateTotalChanges.inner] at h
  | cons v vs ih =>
    unfold calculateTotalChanges.inner at h
    simp only at h
    cases err with
    | some e =>
      simp only [LoopStep.ret.injEq] at h
      rw [← h]
      simp
    | none =>
      simp only at h
      cases hts : stats_mgr.current_vb_start_ts.get v with
      | none => rw [hts] at h; simp at h
      | some ts =>
        rw [hts] at h
        exact ih _ h

theorem calculateTotalChanges.outer_ret (stats_mgr : StatisticsManager)
    (servers : List (String × List Nat)) (total_doc : Nat) (r : Int × Option Error)
    (h : calculateTotalChanges.outer stats_mgr servers total_doc = LoopStep.ret r) :
    r.2 ≠ none := by
  induction servers generalizing total_doc with
  | nil => simp [calculateTotalChanges.outer] at h
  | cons s servers ih =>
    obtain ⟨serverAddr, vbnos⟩ := s
    unfold calculateTotalChanges.outer at h
    simp only at h
    cases hinner : calculateTotalChanges.inner stats_mgr
        (stats_mgr.getHighSeqNos serverAddr vbnos).1
        (stats_mgr.getHighSeqNos serverAddr vbnos).2 vbnos total_doc with
    | next t => rw [hinner] at h; exact ih t h
    | ret r' =>
      rw [hinner] at h
      simp only [LoopStep.ret.injEq] at h
      rw [← h]
      exact calculateTotalChanges.inner_ret stats_mgr _ _ vbnos total_doc r' hinner
    | panic => rw [hinner] at h; simp at h

theorem ParseHighSeqnoStat.loop_of_missing_stat (stats_map : GoMap String String) (vbnos : List Nat)
    (m : GoMap Nat Nat) (vbno : Nat) (hv : vbno ∈ vbnos)
    (hmiss : stats_map.get (highSeqnoStatKey vbno) = none) :
    (ParseHighSeqnoStat.loop stats_map vbnos m).2 ≠ none := by
  induction vbnos generalizing m with
  | nil => simp at hv
  | cons v vs ih =>
    unfold ParseHighSeqnoStat.loop
    simp only
    cases hg : stats_map.get (highSeqnoStatKey v) with
    | none => simp
    | some str =>
      simp only
      split
      · simp
      · cases hp : strconv.ParseUint str.data 10 64 with
        | mk hs e =>
          cases e with
          | some err => simp
          | none =>
            simp only
            rcases List.mem_cons.mp hv with heq | hin
            · subst heq
              rw [hmiss] at hg
              cases hg
            · exact ih _ hin

/-- C12, as stated, fails: the server owns the vBuckets 0 and 1 and its stats map has the
entry of vBucket 0 only.  getHighSeqNos returns an error and no map, ParseHighSeqnoStat
returns an error, and calculateChangesLeft returns the error instead of a value. -/
theorem missing_high_seqno_is_an_error :
    StatisticsManager.getHighSeqNos
      { current_vb_start_ts := [(0, ⟨0, 0, 2, 0, 0⟩), (1, ⟨1, 0, 0, 0, 0⟩)],
        active_vbs := [("s", [0, 1])],
        kv_mem_clients := [("s", ⟨fun _ => ([("vb_0:high_seqno", "7")], none)⟩)] }
      "s" [0, 1] = ([], some Error.strconvSyntax) ∧
    ParseHighSeqnoStat [0, 1] [("vb_0:high_seqno", "7")] []
      = ([(0, 7)], some (Error.cantFindHighSeqno 1)) ∧
    StatisticsManager.calculateChangesLeft
      { current_vb_start_ts := [(0, ⟨0, 0, 2, 0, 0⟩), (1, ⟨1, 0, 0, 0, 0⟩)],
        active_vbs := [("s", [0, 1])],
        kv_mem_clients := [("s", ⟨fun _ => ([("vb_0:high_seqno", "7")], none)⟩)] }
      0 = some (0, some Error.strconvSyntax) := by
  decide

/-! ## The HELO request -/

/-- The body of the HELO request for a compression type that is None or Snappy: the feature
codes and nothing else. -/
theorem ComposeHELORequest_of_known_compression (c : HeloConstants) (userAgent : String)
    (features : HELOFeatures)
    (hdistinct : c.CompressionTypeNone ≠ c.CompressionTypeSnappy)
    (hknown : features.CompressionType = c.CompressionTypeNone ∨
      features.CompressionType = c.CompressionTypeSnappy) :
    ComposeHELORequest c userAgent features =
      some { Key := userAgent, Opcode := HELLO,
             Body := featureWord c.HELO_FEATURE_TCP_NO_DELAY ++
               (if features.Xattribute then featureWord c.HELO_FEATURE_XATTR else []) ++
               (if features.CompressionType = c.CompressionTypeSnappy then
                 featureWord c.HELO_FEATURE_SNAPPY else []) } := by
  obtain ⟨x, ct⟩ := features
  simp only at hknown ⊢
  have hd' : c.CompressionTypeSnappy ≠ c.CompressionTypeNone := fun e => hdistinct e.symm
  rcases hknown with h | h <;> subst h <;> cases x <;>
    simp [ComposeHELORequest, HELOFeatures.NumberOfActivatedFeatures, PutUint16,
      HELO_BYTES_PER_FEATURE, List.replicate, featureWord, hdistinct, hd']

/-- C16, on the code: for a compression type that is neither None nor Snappy, such as the
zero value of the type when None is not 0, NumberOfActivatedFeatures counts a feature that
ComposeHELORequest does not write, and the body ends with two bytes 0 that are no feature
code written by the function. -/
theorem ComposeHELORequest_trailing_zero_bytes (c : HeloConstants) (userAgent : String)
    (features : HELOFeatures)
    (hnone : features.CompressionType ≠ c.CompressionTypeNone)
    (hsnappy : features.CompressionType ≠ c.CompressionTypeSnappy) :
    ComposeHELORequest c userAgent features =
      some { Key := userAgent, Opcode := HELLO,
             Body := featureWord c.HELO_FEATURE_TCP_NO_DELAY ++
               (if features.Xattribute then featureWord c.HELO_FEATURE_XATTR else []) ++
               [0, 0] } := by
  obtain ⟨x, ct⟩ := features
  simp only at hnone hsnappy ⊢
  cases x <;>
    simp [ComposeHELORequest, HELOFeatures.NumberOfActivatedFeatures, PutUint16,
      HELO_BYTES_PER_FEATURE, List.replicate, featureWord, hnone, hsnappy]

/-- An instance of C16 on the code: the codes of the memcached protocol, None = 1,
Snappy = 2, and the zero value of HELOFeatures: the body has 4 bytes for one feature code. -/
theorem ComposeHELORequest_trailing_zero_bytes_witness :
    ComposeHELORequest ⟨3, 6, 10, 1, 2⟩ "ua" ⟨false, 0⟩
      = some { Key := "ua", Opcode := HELLO, Body := [0, 3] ++ [] ++ [0, 0] } :=
  ComposeHELORequest_trailing_zero_bytes ⟨3, 6, 10, 1, 2⟩ "ua" ⟨false, 0⟩
    (by decide) (by decide)

/-! ## The HELO response -/

theorem HasFeature_step (body : List Nat) (k code : Nat) (hk : 2 * k + 1 < body.length) :
    HasFeature body k code ↔ alignedWord body k = code ∨ HasFeature body (k + 1) code := by
  unfold HasFeature
  constructor
  · rintro ⟨i, hi, hlt, hw⟩
    rcases Nat.eq_or_lt_of_le hi with heq | hlt'
    · subst heq; exact Or.inl hw
    · exact Or.inr ⟨i, hlt', hlt, hw⟩
  · rintro (hw | ⟨i, hi, hlt, hw⟩)
    · exact ⟨k, le_refl k, hk, hw⟩
    · exact ⟨i, by omega, hlt, hw⟩

theorem HasFeature_end (body : List Nat) (k code : Nat) (hk : body.length ≤ 2 * k) :
    ¬ HasFeature body k code := by
  rintro ⟨i, hi, hlt, _⟩
  omega

theorem SendHELOWithFeatures.step_facts (c : HeloConstants) (f : HELOFeatures) (w : Nat) :
    ((if w = c.HELO_FEATURE_SNAPPY then
        { (if w = c.HELO_FEATURE_XATTR then { f with Xattribute := true } else f) with
          CompressionType := c.CompressionTypeSnappy }
      else (if w = c.HELO_FEATURE_XATTR then { f with Xattribute := true } else f)).Xattribute
        = true ↔ f.Xattribute = true ∨ w = c.HELO_FEATURE_XATTR) ∧
    (w = c.HELO_FEATURE_SNAPPY →
      (if w = c.HELO_FEATURE_SNAPPY then
        { (if w = c.HELO_FEATURE_XATTR then { f with Xattribute := true } else f) with
          CompressionType := c.CompressionTypeSnappy }
      else (if w = c.HELO_FEATURE_XATTR then { f with Xattribute := true } else f)).CompressionType
        = c.CompressionTypeSnappy) ∧
    (¬ w = c.HELO_FEATURE_SNAPPY →
      (if w = c.HELO_FEATURE_SNAPPY then
        { (if w = c.HELO_FEATURE_XATTR then { f with Xattribute := true } else f) with
          CompressionType := c.CompressionTypeSnappy }
      else (if w = c.HELO_FEATURE_XATTR then { f with Xattribute := true } else f)).CompressionType
        = f.CompressionType) := by
  by_cases hs : w = c.HELO_FEATURE_SNAPPY
  · rw [if_pos hs]
    by_cases hx : w = c.HELO_FEATURE_XATTR
    · rw [if_pos hx]
      exact ⟨by simp [hx], fun _ => rfl, fun h => absurd hs h⟩
    · rw [if_neg hx]
      refine ⟨?_, fun _ => rfl, fun h => absurd hs h⟩
      constructor
      · intro h; exact Or.inl h
      · rintro (h | h)
        · exact h
        · exact absurd h hx
  · rw [if_neg hs]
    by_cases hx : w = c.HELO_FEATURE_XATTR
    · rw [if_pos hx]
      exact ⟨by simp [hx], fun h => absurd h hs, fun _ => rfl⟩
    · rw [if_neg hx]
      refine ⟨?_, fun h => absurd h hs, fun _ => rfl⟩
      constructor
      · intro h; exact Or.inl h
      · rintro (h | h)
        · exact h
        · exact absurd h hx

theorem SendHELOWithFeatures.loop_spec (c : HeloConstants) (body : List Nat)
    (heven : body.length % 2 = 0) (fuel k : Nat) (f : HELOFeatures)
    (hfuel : body.length + 2 ≤ 2 * k + 2 * fuel) (hpos : 0 < fuel) :
    ∃ f', SendHELOWithFeatures.loop c body body.length fuel (2 * k) f = some f' ∧
      (f'.Xattribute = true ↔
        f.Xattribute = true ∨ HasFeature body k c.HELO_FEATURE_XATTR) ∧
      (HasFeature body k c.HELO_FEATURE_SNAPPY →
        f'.CompressionType = c.CompressionTypeSnappy) ∧
      (¬ HasFeature body k c.HELO_FEATURE_SNAPPY →
        f'.CompressionType = f.CompressionType) := by
  induction fuel generalizing k f with
  | zero => exact absurd hpos (Nat.lt_irrefl 0)
  | succ fuel ih =>
    unfold SendHELOWithFeatures.loop
    by_cases hend : 2 * k ≥ body.length
    · rw [if_pos hend]
      have hx := HasFeature_end body k c.HELO_FEATURE_XATTR hend
      have hs := HasFeature_end body k c.HELO_FEATURE_SNAPPY hend
      exact ⟨f, rfl, by simp [hx], fun h => absurd h hs, fun _ => rfl⟩
    · rw [if_neg hend]
      have hk : 2 * k + 1 < body.length := by omega
      have hword : Uint16 body (2 * k) (2 * k + 2) = some (alignedWord body k) := by
        unfold Uint16 alignedWord
        rw [if_pos ⟨by omega, by omega, by omega⟩]
      simp only [hword]
      obtain ⟨hf1, hf2, hf3⟩ := SendHELOWithFeatures.step_facts c f (alignedWord body k)
      obtain ⟨f', hloop, hxa, hsn, hnsn⟩ := ih (k + 1)
        (if alignedWord body k = c.HELO_FEATURE_SNAPPY then
          { (if alignedWord body k = c.HELO_FEATURE_XATTR then
              { f with Xattribute := true } else f) with
            CompressionType := c.CompressionTypeSnappy }
        else (if alignedWord body k = c.HELO_FEATURE_XATTR then
          { f with Xattribute := true } else f))
        (by omega) (by omega)
      have h2 : 2 * (k + 1) = 2 * k + 2 := by ring
      rw [h2] at hloop
      refine ⟨f', hloop, ?_, ?_, ?_⟩
      · rw [hxa, HasFeature_step body k _ hk, hf1, or_assoc]
      · intro hhas
        rw [HasFeature_step body k _ hk] at hhas
        by_cases hnext : HasFeature body (k + 1) c.HELO_FEATURE_SNAPPY
        · exact hsn hnext
        · rw [hnsn hnext]
          rcases hhas with hw | hw
          · exact hf2 hw
          · exact absurd hw hnext
      · intro hhas
        rw [HasFeature_step body k _ hk] at hhas
        have hw : ¬ alignedWord body k = c.HELO_FEATURE_SNAPPY := fun h => hhas (Or.inl h)
        have hnext : ¬ HasFeature body (k + 1) c.HELO_FEATURE_SNAPPY :=
          fun h => hhas (Or.inr h)
        rw [hnsn hnext]
        exact hf3 hw

/-- C17: for a HELO response with status SUCCESS, SendHELOWithFeatures returns an error if
and only if the response body has an odd number of bytes; for a body of even length the
responded features have Xattribute = true iff some aligned 2-byte big-endian word of the
body equals the XATTR code, and CompressionType is Snappy if some aligned word equals the
SNAPPY code and None otherwise. -/
theorem SendHELOWithFeatures_parses_response (c : HeloConstants)
    (sendHELORequest : MCRequest → Except Error MCResponse) (userAgent : String)
    (requestedFeatures : HELOFeatures) (heloReq : MCRequest) (response : MCResponse)
    (hreq : ComposeHELORequest c userAgent requestedFeatures = some heloReq)
    (hsend : sendHELORequest heloReq = Except.ok response)
    (hstatus : response.Status = SUCCESS) :
    ∃ respondedFeatures err,
      SendHELOWithFeatures c sendHELORequest userAgent requestedFeatures
        = some (respondedFeatures, err) ∧
      (err ≠ none ↔ response.Body.length % 2 = 1) ∧
      (response.Body.length % 2 = 0 →
        (respondedFeatures.Xattribute = true ↔
          HasFeature response.Body 0 c.HELO_FEATURE_XATTR) ∧
        (HasFeature response.Body 0 c.HELO_FEATURE_SNAPPY →
          respondedFeatures.CompressionType = c.CompressionTypeSnappy) ∧
        (¬ HasFeature response.Body 0 c.HELO_FEATURE_SNAPPY →
          respondedFeatures.CompressionType = c.CompressionTypeNone)) := by
  unfold SendHELOWithFeatures
  simp only [hreq, hsend, hstatus, ne_eq, not_true_eq_false, if_false]
  by_cases hodd : response.Body.length % 2 = 0
  · obtain ⟨f', hloop, hxa, hsn, hnsn⟩ := SendHELOWithFeatures.loop_spec c response.Body hodd
      (response.Body.length + 1) 0 ⟨false, c.CompressionTypeNone⟩ (by omega) (by omega)
    simp only [Nat.mul_zero] at hloop
    simp only [hodd, not_true_eq_false, if_false, hloop]
    refine ⟨f', none, rfl, ?_, ?_⟩
    · simp [hodd]
    · intro _
      refine ⟨?_, hsn, hnsn⟩
      rw [hxa]
      simp
  · simp only [hodd, not_false_eq_true, if_true]
    refine ⟨_, _, rfl, ?_, ?_⟩
    · have h1 : response.Body.length % 2 = 1 := by omega
      simp [h1]
    · intro h; exact False.elim h

/-- An instance of C17: the server answers with TCP_NO_DELAY and SNAPPY. -/
theorem SendHELOWithFeatures_parses_response_witness :
    ∃ respondedFeatures err,
      SendHELOWithFeatures ⟨3, 6, 10, 1, 2⟩ (fun _ => Except.ok ⟨SUCCESS, [0, 3, 0, 10]⟩) "ua"
        ⟨true, 2⟩ = some (respondedFeatures, err) ∧
      (err ≠ none ↔ [0, 3, 0, 10].length % 2 = 1) ∧
      ([0, 3, 0, 10].length % 2 = 0 →
        (respondedFeatures.Xattribute = true ↔ HasFeature [0, 3, 0, 10] 0 6) ∧
        (HasFeature [0, 3, 0, 10] 0 10 → respondedFeatures.CompressionType = 2) ∧
        (¬ HasFeature [0, 3, 0, 10] 0 10 → respondedFeatures.CompressionType = 1)) :=
  SendHELOWithFeatures_parses_response ⟨3, 6, 10, 1, 2⟩
    (fun _ => Except.ok ⟨SUCCESS, [0, 3, 0, 10]⟩) "ua" ⟨true, 2⟩
    ⟨"ua", HELLO, [0, 3, 0, 6, 0, 10]⟩ ⟨SUCCESS, [0, 3, 0, 10]⟩ (by decide) rfl rfl

/-! ## ExponentialBackoffExecutor -/

theorem opResult_succ {σ : Type} (op : σ → Option Error × σ) (state : σ) (n : Nat) :
    opResult op state (n + 1) = opResult op (op state).2 n := rfl

theorem ExponentialBackoffExecutor.loop_retries {σ : Type} (name : String)
    (maxRetries factor : Int) (op : σ → Option Error × σ) (hmax : maxRetries < 2 ^ 63 - 1)
    (fuel : Nat) (i : Int) (hi0 : 0 ≤ i) (hi : i ≤ maxRetries)
    (hfuel : fuel = (maxRetries + 1 - i).toNat)
    (state : σ) (waitTime : Int) (opErr : Option Error) (invocations : Nat)
    (sleeps : List Int) :
    ∃ r, ∃ m : Nat, ExponentialBackoffExecutor.loop name maxRetries factor op fuel i state waitTime
        opErr invocations sleeps = some r ∧
      1 ≤ m ∧ (m : Int) ≤ maxRetries + 1 - i ∧
      r.invocations = invocations + m ∧
      r.state = opState op state m ∧
      (∀ j, j + 1 < m → opResult op state j ≠ none) ∧
      ((r.err = none ∧ opResult op state (m - 1) = none) ∨
        ((m : Int) = maxRetries + 1 - i ∧
          ∃ e, opResult op state (m - 1) = some e ∧
            r.err = some (Error.failedAfterRetry name e))) := by
  induction fuel generalizing i state waitTime opErr invocations sleeps with
  | zero => omega
  | succ fuel ih =>
    unfold ExponentialBackoffExecutor.loop
    rw [if_pos hi]
    have hwrap : wrapInt64 (i + 1) = i + 1 := wrapInt64_of_range _ ⟨by omega, by omega⟩
    cases hop : op state with
    | mk res state' =>
      cases res with
      | none =>
        refine ⟨_, 1, rfl, le_refl 1, by omega, rfl, ?_, ?_, ?_⟩
        · show state' = opState op (op state).2 0
          rw [hop]; rfl
        · intro j hj; omega
        · left
          refine ⟨rfl, ?_⟩
          show (op state).1 = none
          rw [hop]
      | some e =>
        simp only [hwrap]
        by_cases hlast : i = maxRetries
        · have hfuel0 : fuel = 0 := by omega
          subst hfuel0
          subst hlast
          have hnot : ¬ (i + 1 ≤ i) := by omega
          simp only [ne_eq, not_true_eq_false, if_false]
          unfold ExponentialBackoffExecutor.loop
          rw [if_neg hnot]
          unfold ExponentialBackoffExecutor.finish
          refine ⟨_, 1, rfl, le_refl 1, by omega, rfl, ?_, ?_, ?_⟩
          · show state' = opState op (op state).2 0
            rw [hop]; rfl
          · intro j hj; omega
          · right
            refine ⟨by omega, e, ?_, rfl⟩
            show (op state).1 = some e
            rw [hop]
        · have hlt : i + 1 ≤ maxRetries := by omega
          have hfuel' : fuel = (maxRetries + 1 - (i + 1)).toNat := by omega
          simp only [ne_eq, hlast, not_false_eq_true, if_true]
          obtain ⟨r, m, hloop, hm1, hm2, hinv, hst, hprev, hres⟩ :=
            ih (i + 1) (by omega) hlt hfuel' state' (wrapInt64 (waitTime * factor)) (some e)
              (invocations + 1) (sleeps ++ [waitTime])
          have hstate' : state' = (op state).2 := by rw [hop]
          refine ⟨r, m + 1, hloop, by omega, by omega, by omega, ?_, ?_, ?_⟩
          · rw [hst, hstate']; rfl
          · intro j hj
            cases j with
            | zero =>
              show (op state).1 ≠ none
              rw [hop]; simp
            | succ j =>
              rw [opResult_succ, ← hstate']
              exact hprev j (by omega)
          · have hm : m + 1 - 1 = (m - 1) + 1 := by omega
            rw [hm, opResult_succ, ← hstate']
            rcases hres with h | ⟨h1, h2⟩
            · exact Or.inl h
            · exact Or.inr ⟨by omega, h2⟩

/-- C18, amended: for every maxRetries >= 0 below the largest int (so that the loop
counter does not overflow) and every operation, ExponentialBackoffExecutor returns after m
invocations of the operation with 1 <= m <= maxRetries + 1; no invocation before the last
one returned nil; it returns nil if and only if some invocation returned nil, which is then
the last one; otherwise m = maxRetries + 1 and the error returned is built from the error
of the last invocation. -/
theorem ExponentialBackoffExecutor_retries {σ : Type} (name : String)
    (initialWait maxRetries factor : Int) (op : σ → Option Error × σ) (state : σ)
    (hnonneg : 0 ≤ maxRetries) (hmax : maxRetries < 2 ^ 63 - 1) :
    ∃ r, ExponentialBackoffExecutor name initialWait maxRetries factor op state = some r ∧
      1 ≤ r.invocations ∧ (r.invocations : Int) ≤ maxRetries + 1 ∧
      r.state = opState op state r.invocations ∧
      (∀ j, j + 1 < r.invocations → opResult op state j ≠ none) ∧
      (r.err = none ↔ ∃ j, j < r.invocations ∧ opResult op state j = none) ∧
      (r.err ≠ none →
        (r.invocations : Int) = maxRetries + 1 ∧
        ∃ e, opResult op state (r.invocations - 1) = some e ∧
          r.err = some (Error.failedAfterRetry name e)) := by
  obtain ⟨r, m, hloop, hm1, hm2, hinv, hst, hprev, hres⟩ :=
    ExponentialBackoffExecutor.loop_retries name maxRetries factor op hmax
      (maxRetries + 1).toNat 0 (le_refl 0) hnonneg (by omega) state initialWait none 0 []
  have hm : r.invocations = m := by omega
  refine ⟨r, hloop, by omega, by omega, by rw [hm]; exact hst, by rw [hm]; exact hprev,
    ?_, ?_⟩
  · rw [hm]
    constructor
    · intro herr
      rcases hres with ⟨_, h⟩ | ⟨_, e, _, h⟩
      · exact ⟨m - 1, by omega, h⟩
      · rw [h] at herr; cases herr
    · rintro ⟨j, hj, hnil⟩
      rcases hres with ⟨h, _⟩ | ⟨_, e, he, _⟩
      · exact h
      · exfalso
        by_cases hjl : j + 1 < m
        · exact hprev j hjl hnil
        · have hjm : j = m - 1 := by omega
          rw [hjm, he] at hnil
          cases hnil
  · intro herr
    rw [hm]
    rcases hres with ⟨h, _⟩ | ⟨h1, h2⟩
    · exact absurd h herr
    · exact ⟨by omega, h2⟩

/-- An instance of C18: the operation fails twice and then succeeds, with three retries
allowed. -/
theorem ExponentialBackoffExecutor_retries_witness :
    ∃ r, ExponentialBackoffExecutor "op" 10 3 2
        (fun n : Nat => (if n < 2 then some (Error.external "busy") else none, n + 1)) 0
        = some r ∧
      1 ≤ r.invocations ∧ (r.invocations : Int) ≤ 3 + 1 :=
  let ⟨r, h, h1, h2, _⟩ := ExponentialBackoffExecutor_retries "op" 10 3 2
    (fun n : Nat => (if n < 2 then some (Error.external "busy") else none, n + 1)) 0
    (by decide) (by decide)
  ⟨r, h, h1, h2⟩

/-! ## processTimeSample -/

theorem processTimeSample.loop_eq (endtime_map : GoMap String Int)
    (starttime_map : List (String × Int)) (sample : List Int) :
    processTimeSample.loop endtime_map starttime_map sample =
      sample ++ starttime_map.filterMap
        (fun e => (endtime_map.get e.1).map (fun endtime => repDurationMillis e.2 endtime)) := by
  induction starttime_map generalizing sample with
  | nil => simp [processTimeSample.loop]
  | cons e rest ih =>
    obtain ⟨name, starttime⟩ := e
    cases h : GoMap.get endtime_map name with
    | none => simp [processTimeSample.loop, h, ih, List.filterMap_cons]
    | some endtime => simp [processTimeSample.loop, h, ih, List.filterMap_cons]

/-- C15: in a state whose Overview registry exists and holds no counter under
wtavg_docs_latency (the state in which processRawStats calls it), processTimeSample
returns; the latency histogram of the Overview registry then holds exactly the values
pushed, one for each entry of starttime_map whose key is also in endtime_map and none for
the other keys of either map; both maps are empty afterwards; and the value pushed for a
start time and an end time is the difference end - start in whole milliseconds (the
nanoseconds divided by 1000000, truncated) whenever the difference fits a Duration. -/
theorem processTimeSample_pushes_paired_durations (s : StatsState) (overview : Registry)
    (hov : s.getOverviewRegistry = some overview)
    (hlat : ∀ ref, overview.get DOCS_LATENCY_METRIC ≠ some (Metric.counter ref)) :
    ∃ s', s.processTimeSample = Except.ok s' ∧
      (∃ overview', s'.getOverviewRegistry = some overview' ∧
        overview'.get DOCS_LATENCY_METRIC = some (Metric.histogram
          (s.starttime_map.filterMap (fun e =>
            (s.endtime_map.get e.1).map (fun endtime => repDurationMillis e.2 endtime))))) ∧
      s'.starttime_map = [] ∧ s'.endtime_map = [] ∧
      ∀ starttime endtime : Int, -(2 ^ 63) ≤ endtime - starttime →
        endtime - starttime < 2 ^ 63 →
        repDurationMillis starttime endtime = Int.tdiv (endtime - starttime) 1000000 := by
  have hlast : ∀ starttime endtime : Int, -(2 ^ 63) ≤ endtime - starttime →
      endtime - starttime < 2 ^ 63 →
      repDurationMillis starttime endtime = Int.tdiv (endtime - starttime) 1000000 := by
    intro starttime endtime h1 h2
    unfold repDurationMillis Time.Sub
    rw [if_neg (by omega), if_neg (by omega)]
  unfold StatsState.processTimeSample
  rw [hov]
  cases hm : (overview.GetOrRegister DOCS_LATENCY_METRIC (Metric.histogram [])).1 with
  | counter ref =>
    exfalso
    unfold Registry.GetOrRegister at hm
    cases hg : GoMap.get overview DOCS_LATENCY_METRIC with
    | none => rw [hg] at hm; cases hm
    | some metric =>
      rw [hg] at hm
      simp only at hm
      rw [hm] at hg
      exact hlat ref hg
  | histogram updates =>
    simp only [hm]
    refine ⟨_, rfl, ⟨_, GoMap.get_set_self _ _ _, ?_⟩, rfl, rfl, hlast⟩
    rw [GoMap.get_set_self, processTimeSample.loop_eq]
    simp

theorem processTimeSample_pushes_paired_durations_witness :
    ∃ s', (StatsState.mk ⟨[], [], []⟩ [("Overview", [])]
        [("1", 1000000), ("2", 5000000)] [("2", 9500000), ("3", 1)] 1000000000 []
        none (fun _ => "")).processTimeSample = Except.ok s' ∧
      (∃ overview', s'.getOverviewRegistry = some overview' ∧
        overview'.get DOCS_LATENCY_METRIC = some (Metric.histogram [4])) ∧
      s'.starttime_map = [] ∧ s'.endtime_map = [] := by
  obtain ⟨s', h1, h2, h3, h4, _⟩ := processTimeSample_pushes_paired_durations
    (StatsState.mk ⟨[], [], []⟩ [("Overview", [])]
        [("1", 1000000), ("2", 5000000)] [("2", 9500000), ("3", 1)] 1000000000 []
        none (fun _ => "")) [] (by decide) (fun ref => by simp [GoMap.get])
  refine ⟨s', h1, ?_, h3, h4⟩
  obtain ⟨overview', h5, h6⟩ := h2
  refine ⟨overview', h5, ?_⟩
  rw [h6]
  decide

/-! ## processRawStats: the counters of the Overview registry -/

theorem Counter.Count_Inc (counters : List Int) (ref r : Nat) (i : Int) :
    Counter.Count (Counter.Inc counters ref i) r =
      if r = ref ∧ ref < counters.length then wrapInt64 (Counter.Count counters ref + i)
      else Counter.Count counters r := by
  unfold Counter.Inc Counter.Count
  simp only [List.getD_eq_getElem?_getD, List.getElem?_set]
  by_cases h : ref = r
  · subst h
    by_cases hl : ref < counters.length
    · simp [hl]
    · have hn : counters[ref]? = none := List.getElem?_eq_none (not_lt.mp hl)
      simp [hl, hn]
  · have h' : ¬ r = ref := fun e => h e.symm
    simp [h, h']

theorem Counter.length_Inc (counters : List Int) (ref : Nat) (i : Int) :
    (Counter.Inc counters ref i).length = counters.length := by
  simp [Counter.Inc]

theorem wrapInt64_add_wrap (x y : Int) : wrapInt64 (wrapInt64 x + y) = wrapInt64 (x + y) := by
  unfold wrapInt64
  omega
theorem wrapInt64_idem (x : Int) : wrapInt64 (wrapInt64 x) = wrapInt64 x := by
  unfold wrapInt64
  omega

theorem processRawStats.metric_spec (formatFloat : FloatExpr → String) (ov : Registry)
    (orig_registry : Option Var) (name : String) (oref bound : Nat) (c0 : List Int)
    (hget : ov.get name = some (Metric.counter oref))
    (hinj : ∀ n o, ov.get n = some (Metric.counter o) → bound ≤ o ∧ (o = oref → n = name))
    (e : String × Metric) (st st' : GoMap String LeafVar × List Int)
    (hrefs : ∀ ref, e.2 = Metric.counter ref → ref < bound)
    (hlen : oref < st.2.length)
    (hrange : wrapInt64 (Counter.Count st.2 oref) = Counter.Count st.2 oref)
    (hsame : ∀ r, r < bound → Counter.Count st.2 r = Counter.Count c0 r)
    (h : processRawStats.metric formatFloat (some ov) orig_registry st e = Except.ok st') :
    oref < st'.2.length ∧
      wrapInt64 (Counter.Count st'.2 oref) = Counter.Count st'.2 oref ∧
      (∀ r, r < bound → Counter.Count st'.2 r = Counter.Count c0 r) ∧
      Counter.Count st'.2 oref =
        wrapInt64 (Counter.Count st.2 oref + Registry.counterSum c0 name [e]) := by
  obtain ⟨n, metric⟩ := e
  cases metric with
  | histogram updates =>
    simp only [processRawStats.metric, Except.ok.injEq] at h
    subst h
    exact ⟨hlen, hrange, hsame, by simp [Registry.counterSum, hrange]⟩
  | counter ref =>
    have href : ref < bound := hrefs ref rfl
    simp only [processRawStats.metric] at h
    cases hc : processRawStats.check formatFloat orig_registry st.2 n ref with
    | error p => rw [hc] at h; cases h
    | ok u =>
      rw [hc] at h
      simp only at h
      cases hg : GoMap.get ov n with
      | none =>
        rw [hg] at h
        simp only [Except.ok.injEq] at h
        subst h
        have hne : ¬ n = name := by
          intro e
          rw [e, hget] at hg
          cases hg
        exact ⟨hlen, hrange, hsame, by simp [Registry.counterSum, hrange, hne]⟩
      | some m =>
        rw [hg] at h
        cases m with
        | histogram updates => cases h
        | counter o =>
          simp only [Except.ok.injEq] at h
          subst h
          obtain ⟨hbo, himp⟩ := hinj n o hg
          dsimp only
          refine ⟨by simp [Counter.length_Inc, hlen], ?_, ?_, ?_⟩
          · rw [Counter.Count_Inc]
            split
            · exact wrapInt64_idem _
            · exact hrange
          · intro r hr
            rw [Counter.Count_Inc, if_neg (by omega)]
            exact hsame r hr
          · rw [Counter.Count_Inc]
            by_cases hn : n = name
            · have ho : o = oref := by
                rw [hn, hget] at hg
                injection hg with hg
                injection hg with hg
                exact hg.symm
              subst ho
              rw [if_pos ⟨rfl, hlen⟩, hsame ref href]
              simp [Registry.counterSum, hn]
            · have ho : ¬ oref = o := fun e => hn (himp e.symm)
              rw [if_neg (fun hh => ho hh.1)]
              simp [Registry.counterSum, hn, hrange]

theorem Registry.counterSum_cons (c0 : List Int) (name : String) (e : String × Metric)
    (rest : List (String × Metric)) :
    Registry.counterSum c0 name (e :: rest) =
      Registry.counterSum c0 name [e] + Registry.counterSum c0 name rest := by
  obtain ⟨n, metric⟩ := e
  cases metric <;> simp [Registry.counterSum]

theorem processRawStats.each_spec (formatFloat : FloatExpr → String) (ov : Registry)
    (orig_registry : Option Var) (name : String) (oref bound : Nat) (c0 : List Int)
    (hget : ov.get name = some (Metric.counter oref))
    (hinj : ∀ n o, ov.get n = some (Metric.counter o) → bound ≤ o ∧ (o = oref → n = name))
    (registry : List (String × Metric)) (st st' : GoMap String LeafVar × List Int)
    (hrefs : ∀ m ∈ registry, ∀ ref, m.2 = Metric.counter ref → ref < bound)
    (hlen : oref < st.2.length)
    (hrange : wrapInt64 (Counter.Count st.2 oref) = Counter.Count st.2 oref)
    (hsame : ∀ r, r < bound → Counter.Count st.2 r = Counter.Count c0 r)
    (h : processRawStats.each formatFloat (some ov) orig_registry registry st = Except.ok st') :
    oref < st'.2.length ∧
      wrapInt64 (Counter.Count st'.2 oref) = Counter.Count st'.2 oref ∧
      (∀ r, r < bound → Counter.Count st'.2 r = Counter.Count c0 r) ∧
      Counter.Count st'.2 oref =
        wrapInt64 (Counter.Count st.2 oref + Registry.counterSum c0 name registry) := by
  induction registry generalizing st with
  | nil =>
    simp only [processRawStats.each, Except.ok.injEq] at h
    subst h
    exact ⟨hlen, hrange, hsame, by simp [Registry.counterSum, hrange]⟩
  | cons e rest ih =>
    simp only [processRawStats.each] at h
    cases hm : processRawStats.metric formatFloat (some ov) orig_registry st e with
    | error p => rw [hm] at h; cases h
    | ok st1 =>
      rw [hm] at h
      simp only at h
      obtain ⟨h1, h2, h3, h4⟩ := processRawStats.metric_spec formatFloat ov orig_registry name
        oref bound c0 hget hinj e st st1 (hrefs e (List.mem_cons_self _ _)) hlen hrange hsame hm
      obtain ⟨k1, k2, k3, k4⟩ := ih st1
        (fun m hm' => hrefs m (List.mem_cons_of_mem _ hm')) h1 h2 h3 h
      refine ⟨k1, k2, k3, ?_⟩
      rw [k4, h4, wrapInt64_add_wrap, add_assoc, ← Registry.counterSum_cons]

theorem processRawStats.registries_spec (formatFloat : FloatExpr → String) (ov : Registry)
    (name : String) (oref bound : Nat) (c0 : List Int)
    (hget : ov.get name = some (Metric.counter oref))
    (hinj : ∀ n o, ov.get n = some (Metric.counter o) → bound ≤ o ∧ (o = oref → n = name))
    (regs : List (String × Registry)) (st st' : GoMap String Var × List Int)
    (hrefs : ∀ e ∈ regs, e.1 ≠ OVERVIEW_METRICS_KEY →
      ∀ m ∈ e.2, ∀ ref, m.2 = Metric.counter ref → ref < bound)
    (hlen : oref < st.2.length)
    (hrange : wrapInt64 (Counter.Count st.2 oref) = Counter.Count st.2 oref)
    (hsame : ∀ r, r < bound → Counter.Count st.2 r = Counter.Count c0 r)
    (h : processRawStats.registries formatFloat (some ov) regs st = Except.ok st') :
    oref < st'.2.length ∧
      wrapInt64 (Counter.Count st'.2 oref) = Counter.Count st'.2 oref ∧
      (∀ r, r < bound → Counter.Count st'.2 r = Counter.Count c0 r) ∧
      Counter.Count st'.2 oref =
        wrapInt64 (Counter.Count st.2 oref + partsCounterSum c0 name regs) := by
  induction regs generalizing st with
  | nil =>
    simp only [processRawStats.registries, Except.ok.injEq] at h
    subst h
    exact ⟨hlen, hrange, hsame, by simp [partsCounterSum, hrange]⟩
  | cons e rest ih =>
    obtain ⟨registry_name, registry⟩ := e
    simp only [processRawStats.registries] at h
    by_cases hn : registry_name = OVERVIEW_METRICS_KEY
    · rw [if_neg (by simp [hn])] at h
      obtain ⟨k1, k2, k3, k4⟩ := ih st
        (fun e he => hrefs e (List.mem_cons_of_mem _ he)) hlen hrange hsame h
      refine ⟨k1, k2, k3, ?_⟩
      rw [k4]
      simp [partsCounterSum, hn]
    · rw [if_pos hn] at h
      cases he : processRawStats.each formatFloat (some ov) (GoMap.get st.1 registry_name)
          registry ([], st.2) with
      | error p => rw [he] at h; cases h
      | ok r =>
        rw [he] at h
        simp only at h
        obtain ⟨h1, h2, h3, h4⟩ := processRawStats.each_spec formatFloat ov _ name oref bound c0
          hget hinj registry ([], st.2) r
          (hrefs (registry_name, registry) (List.mem_cons_self _ _) hn) hlen hrange hsame he
        obtain ⟨k1, k2, k3, k4⟩ := ih (GoMap.set st.1 registry_name (Var.map r.1), r.2)
          (fun e he => hrefs e (List.mem_cons_of_mem _ he)) h1 h2 h3 h
        refine ⟨k1, k2, k3, ?_⟩
        rw [k4]
        dsimp only
        rw [h4, wrapInt64_add_wrap, add_assoc]
        simp [partsCounterSum, hn]

theorem Registry.counterSum_congr (c c0 : List Int) (name : String) (bound : Nat)
    (registry : List (String × Metric))
    (hrefs : ∀ m ∈ registry, ∀ ref, m.2 = Metric.counter ref → ref < bound)
    (hsame : ∀ r, r < bound → Counter.Count c r = Counter.Count c0 r) :
    Registry.counterSum c name registry = Registry.counterSum c0 name registry := by
  induction registry with
  | nil => rfl
  | cons e rest ih =>
    obtain ⟨n, metric⟩ := e
    have ih' := ih (fun m hm => hrefs m (List.mem_cons_of_mem _ hm))
    cases metric with
    | histogram updates => simpa [Registry.counterSum] using ih'
    | counter ref =>
      have href : ref < bound := hrefs (n, Metric.counter ref) (List.mem_cons_self _ _) ref rfl
      simp [Registry.counterSum, ih', hsame ref href]

theorem partsCounterSum_congr (c c0 : List Int) (name : String) (bound : Nat)
    (regs : List (String × Registry))
    (hrefs : ∀ e ∈ regs, e.1 ≠ OVERVIEW_METRICS_KEY →
      ∀ m ∈ e.2, ∀ ref, m.2 = Metric.counter ref → ref < bound)
    (hsame : ∀ r, r < bound → Counter.Count c r = Counter.Count c0 r) :
    partsCounterSum c name regs = partsCounterSum c0 name regs := by
  induction regs with
  | nil => rfl
  | cons e rest ih =>
    obtain ⟨registry_name, registry⟩ := e
    have ih' := ih (fun e he => hrefs e (List.mem_cons_of_mem _ he))
    by_cases hn : registry_name = OVERVIEW_METRICS_KEY
    · simp [partsCounterSum, hn, ih']
    · simp only [partsCounterSum, ih', if_pos hn, ne_eq, not_false_eq_true]
      rw [Registry.counterSum_congr c c0 name bound registry
        (hrefs (registry_name, registry) (List.mem_cons_self _ _) hn) hsame]

theorem partsCounterSum_set_overview (c : List Int) (name : String)
    (regs : List (String × Registry)) (v : Registry) :
    partsCounterSum c name (GoMap.set regs OVERVIEW_METRICS_KEY v) =
      partsCounterSum c name regs := by
  induction regs with
  | nil => simp [GoMap.set, partsCounterSum]
  | cons e rest ih =>
    obtain ⟨registry_name, registry⟩ := e
    by_cases hn : registry_name = OVERVIEW_METRICS_KEY
    · simp [GoMap.set, partsCounterSum, hn]
    · simp [GoMap.set, partsCounterSum, hn, ih]

theorem GoMap.mem_set {κ α : Type} [DecidableEq κ] (m : GoMap κ α) (k : κ) (v : α)
    (e : κ × α) (he : e ∈ GoMap.set m k v) : e = (k, v) ∨ e ∈ m := by
  induction m with
  | nil =>
    simp only [GoMap.set, List.mem_singleton] at he
    exact Or.inl he
  | cons e' rest ih =>
    obtain ⟨k', v'⟩ := e'
    by_cases hk : k' = k
    · simp only [GoMap.set, hk, if_true, List.mem_cons] at he
      rcases he with he | he
      · exact Or.inl he
      · exact Or.inr (List.mem_cons_of_mem _ he)
    · simp only [GoMap.set, hk, if_false, List.mem_cons] at he
      rcases he with he | he
      · exact Or.inr (he ▸ List.mem_cons_self _ _)
      · rcases ih he with h | h
        · exact Or.inl h
        · exact Or.inr (List.mem_cons_of_mem _ h)

theorem StatsState.initOverviewRegistry_eq (s : StatsState) :
    s.initOverviewRegistry = { s with
      registries := s.registries.set OVERVIEW_METRICS_KEY
        [(DOCS_WRITTEN_METRIC, Metric.counter s.counters.length),
         (DATA_REPLICATED_METRIC, Metric.counter (s.counters.length + 1)),
         (DOCS_FILTERED_METRIC, Metric.counter (s.counters.length + 2))],
      counters := s.counters ++ [0, 0, 0] } := by
  simp [StatsState.initOverviewRegistry, NewCounter, Registry.Register, GoMap.get, GoMap.set,
    DOCS_WRITTEN_METRIC, DATA_REPLICATED_METRIC, DOCS_FILTERED_METRIC, add_assoc]

theorem StatsState.processTimeSample_init (s : StatsState) :
    s.initOverviewRegistry.processTimeSample = Except.ok { s with
      registries := (s.registries.set OVERVIEW_METRICS_KEY
        [(DOCS_WRITTEN_METRIC, Metric.counter s.counters.length),
         (DATA_REPLICATED_METRIC, Metric.counter (s.counters.length + 1)),
         (DOCS_FILTERED_METRIC, Metric.counter (s.counters.length + 2))]).set
        OVERVIEW_METRICS_KEY
        [(DOCS_WRITTEN_METRIC, Metric.counter s.counters.length),
         (DATA_REPLICATED_METRIC, Metric.counter (s.counters.length + 1)),
         (DOCS_FILTERED_METRIC, Metric.counter (s.counters.length + 2)),
         (DOCS_LATENCY_METRIC, Metric.histogram
           (processTimeSample.loop s.endtime_map s.starttime_map []))],
      starttime_map := [],
      endtime_map := [],
      counters := s.counters ++ [0, 0, 0] } := by
  rw [StatsState.initOverviewRegistry_eq]
  simp [StatsState.processTimeSample, StatsState.getOverviewRegistry, GoMap.get_set_self,
    Registry.GetOrRegister, GoMap.get, GoMap.set,
    DOCS_WRITTEN_METRIC, DATA_REPLICATED_METRIC, DOCS_FILTERED_METRIC, DOCS_LATENCY_METRIC]

theorem StatsState.processRawStats_inv (s s' : StatsState)
    (h : s.processRawStats = Except.ok s') :
    ∃ ov1 ov expvar0 r m,
      ov1 = [(DOCS_WRITTEN_METRIC, Metric.counter s.counters.length),
         (DATA_REPLICATED_METRIC, Metric.counter (s.counters.length + 1)),
         (DOCS_FILTERED_METRIC, Metric.counter (s.counters.length + 2))] ∧
      ov = [(DOCS_WRITTEN_METRIC, Metric.counter s.counters.length),
         (DATA_REPLICATED_METRIC, Metric.counter (s.counters.length + 1)),
         (DOCS_FILTERED_METRIC, Metric.counter (s.counters.length + 2)),
         (DOCS_LATENCY_METRIC, Metric.histogram
           (processTimeSample.loop s.endtime_map s.starttime_map []))] ∧
      s.expvar_stats_map = some expvar0 ∧
      s'.registries = (s.registries.set OVERVIEW_METRICS_KEY ov1).set OVERVIEW_METRICS_KEY ov ∧
      s'.getOverviewRegistry = some ov ∧
      processRawStats.registries s.formatFloat (some ov) s'.registries
        (expvar0, s.counters ++ [0, 0, 0]) = Except.ok r ∧
      s'.counters = r.2 ∧
      StatsState.processCalculatedStats { s' with expvar_stats_map := s.expvar_stats_map }
        s.getOverviewRegistry
        (ov.foldl (fun m e => publishMetricToMap m e.1 e.2 false) []) = Except.ok m ∧
      s'.expvar_stats_map = some (r.1.set OVERVIEW_METRICS_KEY (Var.map m)) ∧
      s'.starttime_map = [] ∧ s'.endtime_map = [] ∧ s'.stats_mgr = s.stats_mgr ∧
      s'.update_interval = s.update_interval ∧ s'.formatFloat = s.formatFloat := by
  unfold StatsState.processRawStats at h
  simp only [StatsState.processTimeSample_init] at h
  have hexp : (s.initOverviewRegistry).expvar_stats_map = s.expvar_stats_map := by
    rw [StatsState.initOverviewRegistry_eq]
  rw [hexp] at h
  cases he : s.expvar_stats_map with
  | none => rw [he] at h; cases h
  | some expvar0 =>
    rw [he] at h
    simp only [StatsState.getOverviewRegistry, GoMap.get_set_self] at h
    revert h
    generalize hr : processRawStats.registries _ _ _ _ = res
    intro h
    cases res with
    | error p => cases h
    | ok r =>
      simp only [Option.getD_some] at h
      revert h
      generalize hm : StatsState.processCalculatedStats _ _ _ = res
      intro h
      cases res with
      | error p => cases h
      | ok m =>
        simp only [Except.ok.injEq] at h
        subst h
        refine ⟨_, _, expvar0, r, m, rfl, rfl, rfl, rfl, ?_, hr, rfl, ?_, rfl, rfl, rfl, rfl,
          rfl, rfl⟩
        · exact GoMap.get_set_self _ _ _
        · simpa [he] using hm

theorem Counter.Count_append_new (c : List Int) (r : Nat) (hr : c.length ≤ r) :
    Counter.Count (c ++ [0, 0, 0]) r = 0 := by
  unfold Counter.Count
  rw [List.getD_append_right _ _ _ _ hr]
  rcases Nat.lt_or_ge (r - c.length) 3 with h | h
  · interval_cases (r - c.length) <;> rfl
  · exact List.getD_eq_default _ _ (by simpa using h)

theorem Counter.Count_append_old (c : List Int) (r : Nat) (hr : r < c.length) :
    Counter.Count (c ++ [0, 0, 0]) r = Counter.Count c r := by
  unfold Counter.Count
  exact List.getD_append _ _ _ _ hr

theorem processRawStats.overview_inj (len : Nat) (sample : List Int) (name : String)
    (oref : Nat)
    (hname : (name = DOCS_WRITTEN_METRIC ∧ oref = len) ∨
      (name = DATA_REPLICATED_METRIC ∧ oref = len + 1) ∨
      (name = DOCS_FILTERED_METRIC ∧ oref = len + 2)) :
    GoMap.get [(DOCS_WRITTEN_METRIC, Metric.counter len),
         (DATA_REPLICATED_METRIC, Metric.counter (len + 1)),
         (DOCS_FILTERED_METRIC, Metric.counter (len + 2)),
         (DOCS_LATENCY_METRIC, Metric.histogram sample)] name = some (Metric.counter oref) ∧
    ∀ n o, GoMap.get [(DOCS_WRITTEN_METRIC, Metric.counter len),
         (DATA_REPLICATED_METRIC, Metric.counter (len + 1)),
         (DOCS_FILTERED_METRIC, Metric.counter (len + 2)),
         (DOCS_LATENCY_METRIC, Metric.histogram sample)] n = some (Metric.counter o) →
      len ≤ o ∧ (o = oref → n = name) := by
  constructor
  · rcases hname with ⟨h1, h2⟩ | ⟨h1, h2⟩ | ⟨h1, h2⟩ <;> subst h1 <;> subst h2 <;>
      simp [GoMap.get, DOCS_WRITTEN_METRIC, DATA_REPLICATED_METRIC, DOCS_FILTERED_METRIC]
  · intro n o hg
    simp only [GoMap.get] at hg
    split_ifs at hg with c1 c2 c3 c4
    · injection hg with hg; injection hg with hg
      subst hg; subst c1
      refine ⟨le_refl _, fun ho => ?_⟩
      rcases hname with ⟨h1, h2⟩ | ⟨h1, h2⟩ | ⟨h1, h2⟩
      · exact h1.symm
      · omega
      · omega
    · injection hg with hg; injection hg with hg
      subst hg; subst c2
      refine ⟨by omega, fun ho => ?_⟩
      rcases hname with ⟨h1, h2⟩ | ⟨h1, h2⟩ | ⟨h1, h2⟩
      · omega
      · exact h1.symm
      · omega
    · injection hg with hg; injection hg with hg
      subst hg; subst c3
      refine ⟨by omega, fun ho => ?_⟩
      rcases hname with ⟨h1, h2⟩ | ⟨h1, h2⟩ | ⟨h1, h2⟩
      · omega
      · omega
      · exact h1.symm
    · cases hg

/-- C14: whenever processRawStats returns, each of the three counters docs_written,
data_replicated and docs_filtered of the Overview registry holds the sum of the counts of
the counters of that name in the registries other than Overview, the sum being taken in
int64 arithmetic (it is the exact sum when that fits an int64); the sum is over the part
counters alone, which the call leaves as they were, so nothing of an earlier Overview
registry enters it. -/
theorem processRawStats_overview_is_sum_of_parts (s s' : StatsState) (name : String)
    (hrefs : ∀ e ∈ s.registries, e.1 ≠ OVERVIEW_METRICS_KEY →
      ∀ m ∈ e.2, ∀ ref, m.2 = Metric.counter ref → ref < s.counters.length)
    (hname : name = DOCS_WRITTEN_METRIC ∨ name = DATA_REPLICATED_METRIC ∨
      name = DOCS_FILTERED_METRIC)
    (h : s.processRawStats = Except.ok s') :
    Registry.counterCount s'.counters s'.getOverviewRegistry name =
        Except.ok (wrapInt64 (partsCounterSum s'.counters name s'.registries)) ∧
      (-(2 ^ 63) ≤ partsCounterSum s'.counters name s'.registries →
        partsCounterSum s'.counters name s'.registries < 2 ^ 63 →
        Registry.counterCount s'.counters s'.getOverviewRegistry name =
          Except.ok (partsCounterSum s'.counters name s'.registries)) ∧
      partsCounterSum s'.counters name s'.registries =
        partsCounterSum s.counters name s.registries := by
  obtain ⟨ov1, ov, expvar0, r, m, hov1, hov, -, hregs, hgetov, hloop, hcounters, -⟩ :=
    StatsState.processRawStats_inv s s' h
  have hex : ∃ oref, (name = DOCS_WRITTEN_METRIC ∧ oref = s.counters.length) ∨
      (name = DATA_REPLICATED_METRIC ∧ oref = s.counters.length + 1) ∨
      (name = DOCS_FILTERED_METRIC ∧ oref = s.counters.length + 2) := by
    rcases hname with h1 | h1 | h1
    · exact ⟨_, Or.inl ⟨h1, rfl⟩⟩
    · exact ⟨_, Or.inr (Or.inl ⟨h1, rfl⟩)⟩
    · exact ⟨_, Or.inr (Or.inr ⟨h1, rfl⟩)⟩
  obtain ⟨oref, horef⟩ := hex
  obtain ⟨hget, hinj⟩ := processRawStats.overview_inj s.counters.length
    (processTimeSample.loop s.endtime_map s.starttime_map []) name oref horef
  rw [← hov] at hget hinj
  have hge : s.counters.length ≤ oref := (hinj name oref hget).1
  have hlt : oref < s.counters.length + 3 := by
    rcases horef with ⟨_, h2⟩ | ⟨_, h2⟩ | ⟨_, h2⟩ <;> omega
  have hrefs' : ∀ e ∈ s'.registries, e.1 ≠ OVERVIEW_METRICS_KEY →
      ∀ m ∈ e.2, ∀ ref, m.2 = Metric.counter ref → ref < s.counters.length := by
    intro e he hne
    rw [hregs] at he
    rcases GoMap.mem_set _ _ _ _ he with h1 | h1
    · exact absurd (by rw [h1]) hne
    · rcases GoMap.mem_set _ _ _ _ h1 with h2 | h2
      · exact absurd (by rw [h2]) hne
      · exact hrefs e h2 hne
  have h0 : Counter.Count (s.counters ++ [0, 0, 0]) oref = 0 :=
    Counter.Count_append_new _ _ hge
  obtain ⟨-, -, k3, k4⟩ := processRawStats.registries_spec s.formatFloat ov name oref
    s.counters.length (s.counters ++ [0, 0, 0]) hget hinj s'.registries
    (expvar0, s.counters ++ [0, 0, 0]) r hrefs'
    (by simp only [List.length_append, List.length_cons, List.length_nil]; omega)
    (by simp only [h0]; decide) (fun _ _ => rfl) hloop
  have hsum1 : partsCounterSum s'.counters name s'.registries =
      partsCounterSum (s.counters ++ [0, 0, 0]) name s'.registries := by
    rw [hcounters]
    exact partsCounterSum_congr _ _ name s.counters.length _ hrefs' k3
  have hsum2 : partsCounterSum (s.counters ++ [0, 0, 0]) name s'.registries =
      partsCounterSum s.counters name s'.registries :=
    partsCounterSum_congr _ _ name s.counters.length _ hrefs'
      (fun r hr => Counter.Count_append_old _ _ hr)
  have hsum3 : partsCounterSum s.counters name s'.registries =
      partsCounterSum s.counters name s.registries := by
    rw [hregs, partsCounterSum_set_overview, partsCounterSum_set_overview]
  have hcount : Registry.counterCount s'.counters s'.getOverviewRegistry name =
      Except.ok (wrapInt64 (partsCounterSum s'.counters name s'.registries)) := by
    rw [hgetov]
    simp only [Registry.counterCount, hget]
    rw [hsum1, hcounters, k4, h0, zero_add]
  refine ⟨hcount, fun hlo hhi => ?_, ?_⟩
  · rw [hcount, wrapInt64_of_range _ ⟨hlo, hhi⟩]
  · rw [hsum1, hsum2, hsum3]

theorem processRawStats_overview_is_sum_of_parts_witness :
    ∃ s', (StatsState.mk ⟨[], [], []⟩
        [("xmem1", [("docs_written", Metric.counter 0)]),
         ("Overview", [("docs_written", Metric.counter 1),
           ("data_replicated", Metric.counter 2)]),
         ("xmem2", [("docs_written", Metric.counter 3)])]
        [] [] 1000000000 [5, 7, 7, 4] (some []) (fun _ => "")).processRawStats =
          Except.ok s' ∧
      Registry.counterCount s'.counters s'.getOverviewRegistry DOCS_WRITTEN_METRIC =
        Except.ok 9 :=
  ⟨_, rfl, (processRawStats_overview_is_sum_of_parts
    (StatsState.mk ⟨[], [], []⟩
        [("xmem1", [("docs_written", Metric.counter 0)]),
         ("Overview", [("docs_written", Metric.counter 1),
           ("data_replicated", Metric.counter 2)]),
         ("xmem2", [("docs_written", Metric.counter 3)])]
        [] [] 1000000000 [5, 7, 7, 4] (some []) (fun _ => "")) _ DOCS_WRITTEN_METRIC
    (by
      intro e he hne m hm ref href
      simp only [List.mem_cons, List.mem_singleton, List.not_mem_nil, or_false] at he
      rcases he with he | he | he
      · subst he
        simp only [List.mem_singleton] at hm
        subst hm
        cases href
        decide
      · subst he
        exact absurd rfl hne
      · subst he
        simp only [List.mem_singleton] at hm
        subst hm
        cases href
        decide)
    (Or.inl rfl) rfl).1.trans (congrArg Except.ok (by decide))⟩

/-! ## processRawStats: the check on counters that go backward -/

theorem GoMap.keys_set {κ α : Type} [DecidableEq κ] (m : GoMap κ α) (k k0 : κ) (v : α)
    (h : k0 ∈ (GoMap.set m k v).map Prod.fst) : k0 = k ∨ k0 ∈ m.map Prod.fst := by
  obtain ⟨e, he, hk⟩ := List.mem_map.mp h
  rcases GoMap.mem_set m k v e he with h1 | h1
  · left; rw [← hk, h1]
  · right; exact List.mem_map.mpr ⟨e, h1, hk⟩

theorem GoMap.WF_set {κ α : Type} [DecidableEq κ] (m : GoMap κ α) (k : κ) (v : α)
    (hwf : m.WF) : (GoMap.set m k v).WF := by
  induction m with
  | nil => simp [GoMap.set, GoMap.WF]
  | cons e rest ih =>
    obtain ⟨k', v'⟩ := e
    have hw : k' ∉ rest.map Prod.fst ∧ GoMap.WF rest := by
      simpa [GoMap.WF] using hwf
    by_cases hk : k' = k
    · subst hk
      simpa [GoMap.set, GoMap.WF] using hwf
    · have hnot : k' ∉ (GoMap.set rest k v).map Prod.fst := by
        intro hmem
        rcases GoMap.keys_set rest k k' v hmem with h1 | h1
        · exact hk h1
        · exact hw.1 h1
      have ih' := ih hw.2
      simp only [GoMap.set, hk, if_false, GoMap.WF, List.map_cons, List.nodup_cons]
      exact ⟨hnot, ih'⟩

theorem publishMetricToMap_get_other (m : GoMap String LeafVar) (n : String) (i : Metric)
    (k : String) (hk : n ≠ k) : (publishMetricToMap m n i true).get k = m.get k := by
  cases i with
  | counter ref => exact GoMap.get_set_ne _ _ _ _ hk
  | histogram updates =>
    simp only [publishMetricToMap, if_true]
    exact GoMap.get_set_ne _ _ _ _ hk

theorem publishAll_get_other (registry : List (String × Metric)) (acc : GoMap String LeafVar)
    (k : String) (hk : k ∉ registry.map Prod.fst) :
    (registry.foldl (fun m e => publishMetricToMap m e.1 e.2 true) acc).get k = acc.get k := by
  induction registry generalizing acc with
  | nil => rfl
  | cons e rest ih =>
    have h1 : e.1 ≠ k := fun h => hk (by simp [h])
    have h2 : k ∉ rest.map Prod.fst := fun h => hk (by simp [List.mem_map] at h ⊢; exact Or.inr h)
    rw [List.foldl_cons, ih _ h2]
    exact publishMetricToMap_get_other _ _ _ _ h1

theorem publishAll_get_counter (registry : List (String × Metric))
    (acc : GoMap String LeafVar) (hwf : GoMap.WF registry) (n : String) (ref : Nat)
    (hmem : (n, Metric.counter ref) ∈ registry) :
    (registry.foldl (fun m e => publishMetricToMap m e.1 e.2 true) acc).get n =
      some (LeafVar.func ref) := by
  induction registry generalizing acc with
  | nil => cases hmem
  | cons e rest ih =>
    have hw : e.1 ∉ rest.map Prod.fst ∧ GoMap.WF rest := by
      simpa [GoMap.WF] using hwf
    rw [List.foldl_cons]
    rcases List.mem_cons.mp hmem with h | h
    · subst h
      rw [publishAll_get_other _ _ _ hw.1]
      exact GoMap.get_set_self _ _ _
    · exact ih _ hw.2 h

theorem processRawStats.metric_map (formatFloat : FloatExpr → String)
    (overview : Option Registry) (orig_registry : Option Var)
    (st st' : GoMap String LeafVar × List Int) (e : String × Metric)
    (h : processRawStats.metric formatFloat overview orig_registry st e = Except.ok st') :
    st'.1 = publishMetricToMap st.1 e.1 e.2 true := by
  obtain ⟨n, metric⟩ := e
  cases metric with
  | histogram updates =>
    simp only [processRawStats.metric, Except.ok.injEq] at h
    rw [← h]
  | counter ref =>
    simp only [processRawStats.metric] at h
    cases hc : processRawStats.check formatFloat orig_registry st.2 n ref with
    | error p => rw [hc] at h; cases h
    | ok u =>
      rw [hc] at h
      simp only at h
      cases overview with
      | none => cases h
      | some ov =>
        simp only at h
        cases hg : GoMap.get ov n with
        | none =>
          rw [hg] at h
          simp only [Except.ok.injEq] at h
          rw [← h]
        | some m =>
          rw [hg] at h
          cases m with
          | histogram updates => cases h
          | counter o =>
            simp only [Except.ok.injEq] at h
            rw [← h]

theorem processRawStats.each_map (formatFloat : FloatExpr → String)
    (overview : Option Registry) (orig_registry : Option Var)
    (registry : List (String × Metric)) (st st' : GoMap String LeafVar × List Int)
    (h : processRawStats.each formatFloat overview orig_registry registry st = Except.ok st') :
    st'.1 = registry.foldl (fun m e => publishMetricToMap m e.1 e.2 true) st.1 := by
  induction registry generalizing st with
  | nil =>
    simp only [processRawStats.each, Except.ok.injEq] at h
    rw [← h]
    rfl
  | cons e rest ih =>
    simp only [processRawStats.each] at h
    cases hm : processRawStats.metric formatFloat overview orig_registry st e with
    | error p => rw [hm] at h; cases h
    | ok st1 =>
      rw [hm] at h
      simp only at h
      rw [ih st1 h, processRawStats.metric_map _ _ _ _ _ _ hm]
      rfl

theorem processRawStats.registries_get_other (formatFloat : FloatExpr → String)
    (overview : Option Registry) (regs : List (String × Registry))
    (st st' : GoMap String Var × List Int) (k : String) (hk : k ∉ regs.map Prod.fst)
    (h : processRawStats.registries formatFloat overview regs st = Except.ok st') :
    st'.1.get k = st.1.get k := by
  induction regs generalizing st with
  | nil =>
    simp only [processRawStats.registries, Except.ok.injEq] at h
    rw [← h]
  | cons e rest ih =>
    obtain ⟨registry_name, registry⟩ := e
    have h1 : registry_name ≠ k := fun h => hk (by simp [h])
    have h2 : k ∉ rest.map Prod.fst := fun h => hk (by simp [List.mem_map] at h ⊢; exact Or.inr h)
    simp only [processRawStats.registries] at h
    by_cases hn : registry_name = OVERVIEW_METRICS_KEY
    · rw [if_neg (by simp [hn])] at h
      exact ih st h2 h
    · rw [if_pos hn] at h
      cases he : processRawStats.each formatFloat overview (GoMap.get st.1 registry_name)
          registry ([], st.2) with
      | error p => rw [he] at h; cases h
      | ok r =>
        rw [he] at h
        simp only at h
        rw [ih _ h2 h]
        exact GoMap.get_set_ne _ _ _ _ h1

theorem processRawStats.registries_published (formatFloat : FloatExpr → String)
    (overview : Option Registry) (regs : List (String × Registry))
    (st st' : GoMap String Var × List Int) (hwf : GoMap.WF regs)
    (h : processRawStats.registries formatFloat overview regs st = Except.ok st')
    (registry_name : String) (registry : Registry) (hmem : (registry_name, registry) ∈ regs)
    (hne : registry_name ≠ OVERVIEW_METRICS_KEY) :
    st'.1.get registry_name =
      some (Var.map (registry.foldl (fun m e => publishMetricToMap m e.1 e.2 true) [])) := by
  induction regs generalizing st with
  | nil => cases hmem
  | cons e rest ih =>
    obtain ⟨rn0, reg0⟩ := e
    have hw : rn0 ∉ rest.map Prod.fst ∧ GoMap.WF rest := by
      simpa [GoMap.WF] using hwf
    simp only [processRawStats.registries] at h
    by_cases hn : rn0 = OVERVIEW_METRICS_KEY
    · rw [if_neg (by simp [hn])] at h
      rcases List.mem_cons.mp hmem with hm | hm
      · injection hm with hm1 hm2
        exact absurd (hm1.trans hn) hne
      · exact ih st hw.2 h hm
    · rw [if_pos hn] at h
      cases he : processRawStats.each formatFloat overview (GoMap.get st.1 rn0)
          reg0 ([], st.2) with
      | error p => rw [he] at h; cases h
      | ok r =>
        rw [he] at h
        simp only at h
        rcases List.mem_cons.mp hmem with hm | hm
        · injection hm with hm1 hm2
          subst hm1; subst hm2
          rw [processRawStats.registries_get_other _ _ _ _ _ _ hw.1 h]
          rw [GoMap.get_set_self, processRawStats.each_map _ _ _ _ _ _ he]
        · exact ih _ hw.2 h hm

theorem processRawStats.check_closure (formatFloat : FloatExpr → String)
    (orig : GoMap String LeafVar) (counters : List Int) (n : String) (ref : Nat)
    (h : orig.get n = some (LeafVar.func ref)) :
    processRawStats.check formatFloat (some (Var.map orig)) counters n ref = Except.ok () := by
  simp [processRawStats.check, h, LeafVar.parsedInt]

theorem processRawStats.metric_closure (formatFloat : FloatExpr → String)
    (overview : Option Registry) (orig : GoMap String LeafVar)
    (st : GoMap String LeafVar × List Int) (e : String × Metric) (name : String)
    (horig : ∀ ref, e.2 = Metric.counter ref → orig.get e.1 = some (LeafVar.func ref)) :
    processRawStats.metric formatFloat overview (some (Var.map orig)) st e ≠
      Except.error (Panic.counterGoesBackward name) := by
  obtain ⟨n, metric⟩ := e
  cases metric with
  | histogram updates => simp [processRawStats.metric]
  | counter ref =>
    simp only [processRawStats.metric,
      processRawStats.check_closure formatFloat orig st.2 n ref (horig ref rfl)]
    cases overview with
    | none => simp
    | some ov =>
      simp only
      cases hg : GoMap.get ov n with
      | none => simp
      | some m => cases m <;> simp

theorem processRawStats.each_closure (formatFloat : FloatExpr → String)
    (overview : Option Registry) (orig : GoMap String LeafVar)
    (registry : List (String × Metric)) (st : GoMap String LeafVar × List Int)
    (name : String)
    (horig : ∀ n ref, (n, Metric.counter ref) ∈ registry →
      orig.get n = some (LeafVar.func ref)) :
    processRawStats.each formatFloat overview (some (Var.map orig)) registry st ≠
      Except.error (Panic.counterGoesBackward name) := by
  induction registry generalizing st with
  | nil => simp [processRawStats.each]
  | cons e rest ih =>
    simp only [processRawStats.each]
    have hm := processRawStats.metric_closure formatFloat overview orig st e name
      (fun ref he => horig e.1 ref (by rw [← he]; exact List.mem_cons_self _ _))
    cases hr : processRawStats.metric formatFloat overview (some (Var.map orig)) st e with
    | error p =>
      rw [hr] at hm
      simpa using hm
    | ok st1 =>
      exact ih st1 (fun n ref h => horig n ref (List.mem_cons_of_mem _ h))

theorem processRawStats.registries_closure (formatFloat : FloatExpr → String)
    (overview : Option Registry) (regs : List (String × Registry))
    (st : GoMap String Var × List Int) (name : String) (hwf : GoMap.WF regs)
    (hpub : PublishedParts regs st.1) :
    processRawStats.registries formatFloat overview regs st ≠
      Except.error (Panic.counterGoesBackward name) := by
  induction regs generalizing st with
  | nil => simp [processRawStats.registries]
  | cons e rest ih =>
    obtain ⟨rn0, reg0⟩ := e
    have hw : rn0 ∉ rest.map Prod.fst ∧ GoMap.WF rest := by
      simpa [GoMap.WF] using hwf
    simp only [processRawStats.registries]
    by_cases hn : rn0 = OVERVIEW_METRICS_KEY
    · rw [if_neg (by simp [hn])]
      exact ih st hw.2 (fun rn reg hmem hne => hpub rn reg (List.mem_cons_of_mem _ hmem) hne)
    · rw [if_pos hn]
      obtain ⟨orig, horig, hcl⟩ := hpub rn0 reg0 (List.mem_cons_self _ _) hn
      rw [horig]
      have he := processRawStats.each_closure formatFloat overview orig reg0 ([], st.2) name hcl
      cases hr : processRawStats.each formatFloat overview (some (Var.map orig)) reg0
          ([], st.2) with
      | error p =>
        rw [hr] at he
        simpa using he
      | ok r =>
        refine ih _ hw.2 (fun rn reg hmem hne => ?_)
        have hrn : rn0 ≠ rn := by
          intro hh
          exact hw.1 (List.mem_map.mpr ⟨(rn, reg), hmem, hh.symm⟩)
        obtain ⟨o, ho, hc⟩ := hpub rn reg (List.mem_cons_of_mem _ hmem) hne
        exact ⟨o, by rw [GoMap.get_set_ne _ _ _ _ hrn]; exact ho, hc⟩

theorem Registry.counterCount_closure (counters : List Int) (registry : Option Registry)
    (n name : String) :
    Registry.counterCount counters registry n ≠
      Except.error (Panic.counterGoesBackward name) := by
  unfold Registry.counterCount
  cases registry with
  | none => simp
  | some r =>
    simp only
    cases hg : GoMap.get r n with
    | none => simp
    | some m => cases m <;> simp

theorem StatsState.processCalculatedStats_closure (s : StatsState)
    (oldSample : Option Registry) (m : GoMap String LeafVar) (name : String) :
    s.processCalculatedStats oldSample m ≠ Except.error (Panic.counterGoesBackward name) := by
  unfold StatsState.processCalculatedStats
  have h1 := Registry.counterCount_closure s.counters s.getOverviewRegistry
    DOCS_WRITTEN_METRIC name
  cases hc1 : Registry.counterCount s.counters s.getOverviewRegistry DOCS_WRITTEN_METRIC with
  | error p => rw [hc1] at h1; simpa using h1
  | ok docs_written =>
    simp only
    cases hcl : s.stats_mgr.calculateChangesLeft docs_written with
    | none => simp
    | some res =>
      obtain ⟨changes_left_val, err⟩ := res
      simp only
      have h2 := Registry.counterCount_closure s.counters oldSample DOCS_WRITTEN_METRIC name
      cases hc2 : Registry.counterCount s.counters oldSample DOCS_WRITTEN_METRIC with
      | error p => rw [hc2] at h2; simpa using h2
      | ok docs_written_old =>
        simp only
        have h3 := Registry.counterCount_closure s.counters oldSample
          DATA_REPLICATED_METRIC name
        cases hc3 : Registry.counterCount s.counters oldSample DATA_REPLICATED_METRIC with
        | error p => rw [hc3] at h3; simpa using h3
        | ok data_replicated_old =>
          simp only
          have h4 := Registry.counterCount_closure s.counters s.getOverviewRegistry
            DATA_REPLICATED_METRIC name
          cases hc4 : Registry.counterCount s.counters s.getOverviewRegistry
              DATA_REPLICATED_METRIC with
          | error p => rw [hc4] at h4; simpa using h4
          | ok data_replicated => simp

theorem PublishedParts_set_overview (regs : GoMap String Registry) (ov : Registry)
    (expvar_stats_map : GoMap String Var) (hpub : PublishedParts regs expvar_stats_map) :
    PublishedParts (GoMap.set regs OVERVIEW_METRICS_KEY ov) expvar_stats_map := by
  intro rn reg hmem hne
  rcases GoMap.mem_set _ _ _ _ hmem with h | h
  · injection h with h1 h2
    exact absurd h1 hne
  · exact hpub rn reg h hne

theorem StatsState.processRawStats_closure (s : StatsState) (name : String)
    (hwf : GoMap.WF s.registries)
    (hpub : ∀ expvar_stats_map, s.expvar_stats_map = some expvar_stats_map →
      PublishedParts s.registries expvar_stats_map) :
    s.processRawStats ≠ Except.error (Panic.counterGoesBackward name) := by
  unfold StatsState.processRawStats
  simp only [StatsState.processTimeSample_init]
  have hexp : (s.initOverviewRegistry).expvar_stats_map = s.expvar_stats_map := by
    rw [StatsState.initOverviewRegistry_eq]
  rw [hexp]
  cases he : s.expvar_stats_map with
  | none => simp
  | some expvar0 =>
    simp only
    have hloop := processRawStats.registries_closure s.formatFloat
      (GoMap.get ((s.registries.set OVERVIEW_METRICS_KEY
        [(DOCS_WRITTEN_METRIC, Metric.counter s.counters.length),
         (DATA_REPLICATED_METRIC, Metric.counter (s.counters.length + 1)),
         (DOCS_FILTERED_METRIC, Metric.counter (s.counters.length + 2))]).set
        OVERVIEW_METRICS_KEY
        [(DOCS_WRITTEN_METRIC, Metric.counter s.counters.length),
         (DATA_REPLICATED_METRIC, Metric.counter (s.counters.length + 1)),
         (DOCS_FILTERED_METRIC, Metric.counter (s.counters.length + 2)),
         (DOCS_LATENCY_METRIC, Metric.histogram
           (processTimeSample.loop s.endtime_map s.starttime_map []))]) OVERVIEW_METRICS_KEY)
      ((s.registries.set OVERVIEW_METRICS_KEY
        [(DOCS_WRITTEN_METRIC, Metric.counter s.counters.length),
         (DATA_REPLICATED_METRIC, Metric.counter (s.counters.length + 1)),
         (DOCS_FILTERED_METRIC, Metric.counter (s.counters.length + 2))]).set
        OVERVIEW_METRICS_KEY
        [(DOCS_WRITTEN_METRIC, Metric.counter s.counters.length),
         (DATA_REPLICATED_METRIC, Metric.counter (s.counters.length + 1)),
         (DOCS_FILTERED_METRIC, Metric.counter (s.counters.length + 2)),
         (DOCS_LATENCY_METRIC, Metric.histogram
           (processTimeSample.loop s.endtime_map s.starttime_map []))])
      (expvar0, s.counters ++ [0, 0, 0]) name
      (GoMap.WF_set _ _ _ (GoMap.WF_set _ _ _ hwf))
      (PublishedParts_set_overview _ _ _ (PublishedParts_set_overview _ _ _ (hpub expvar0 he)))
    simp only [StatsState.getOverviewRegistry]
    revert hloop
    generalize processRawStats.registries _ _ _ _ = res
    intro hloop
    cases res with
    | error p => simpa using hloop
    | ok r =>
      simp only
      generalize hm : StatsState.processCalculatedStats _ _ _ = res
      have hc : res ≠ Except.error (Panic.counterGoesBackward name) := by
        rw [← hm]
        exact StatsState.processCalculatedStats_closure _ _ _ name
      cases res with
      | error p => simpa using hc
      | ok m => simp

/-- C13, on the code: after a publish tick that returned, the next tick never panics with
"counter goes backward", whatever the counts of the counters have become in between, lower
ones included: the variable published for a counter is a closure that reads the counter
when it is asked, so that the check compares the current count with itself. -/
theorem processRawStats_decrease_is_not_detected (s0 s1 : StatsState) (counters : List Int)
    (name : String) (hwf : GoMap.WF s0.registries)
    (hwf' : ∀ e ∈ s0.registries, GoMap.WF e.2)
    (h : s0.processRawStats = Except.ok s1) :
    ({ s1 with counters := counters } : StatsState).processRawStats ≠
      Except.error (Panic.counterGoesBackward name) := by
  obtain ⟨ov1, ov, expvar0, r, m, -, -, -, hregs, -, hloop, -, -, hexp, -⟩ :=
    StatsState.processRawStats_inv s0 s1 h
  have hwf1 : GoMap.WF s1.registries := by
    rw [hregs]
    exact GoMap.WF_set _ _ _ (GoMap.WF_set _ _ _ hwf)
  refine StatsState.processRawStats_closure _ name hwf1 ?_
  intro expvar_stats_map he
  have he' : expvar_stats_map = GoMap.set r.1 OVERVIEW_METRICS_KEY (Var.map m) := by
    have h2 : s1.expvar_stats_map = some expvar_stats_map := he
    rw [hexp] at h2
    injection h2 with h2
    exact h2.symm
  subst he'
  intro rn reg hmem hne
  have hmem0 : (rn, reg) ∈ s0.registries := by
    have hmem1 : (rn, reg) ∈ s1.registries := hmem
    rw [hregs] at hmem1
    rcases GoMap.mem_set _ _ _ _ hmem1 with h1 | h1
    · injection h1 with h1 _
      exact absurd h1 hne
    · rcases GoMap.mem_set _ _ _ _ h1 with h2 | h2
      · injection h2 with h2 _
        exact absurd h2 hne
      · exact h2
  refine ⟨reg.foldl (fun m e => publishMetricToMap m e.1 e.2 true) [], ?_, ?_⟩
  · rw [GoMap.get_set_ne _ _ _ _ (fun hh => hne hh.symm)]
    exact processRawStats.registries_published _ _ _ _ _ hwf1 hloop rn reg hmem hne
  · intro n ref hn
    exact publishAll_get_counter reg [] (hwf' (rn, reg) hmem0) n ref hn

theorem processRawStats_decrease_is_not_detected_witness :
    ∃ s1 s2, (StatsState.mk ⟨[], [], []⟩
        [("xmem1", [("docs_written", Metric.counter 0)]),
         ("Overview", [("docs_written", Metric.counter 1),
           ("data_replicated", Metric.counter 2)])]
        [] [] 1000000000 [5, 0, 0] (some []) (fun _ => "")).processRawStats =
          Except.ok s1 ∧
      Counter.Count s1.counters 0 = 5 ∧
      Counter.Count (Counter.Dec s1.counters 0 2) 0 = 3 ∧
      ({ s1 with counters := Counter.Dec s1.counters 0 2 } : StatsState).processRawStats =
        Except.ok s2 ∧
      ({ s1 with counters := Counter.Dec s1.counters 0 2 } : StatsState).processRawStats ≠
        Except.error (Panic.counterGoesBackward "docs_written") :=
  ⟨_, _, rfl, rfl, rfl, rfl, processRawStats_decrease_is_not_detected
    (StatsState.mk ⟨[], [], []⟩
        [("xmem1", [("docs_written", Metric.counter 0)]),
         ("Overview", [("docs_written", Metric.counter 1),
           ("data_replicated", Metric.counter 2)])]
        [] [] 1000000000 [5, 0, 0] (some []) (fun _ => "")) _ _ "docs_written"
    (by decide) (by decide) rfl⟩

theorem processRawStats.check_fires_on_other_counter :
    (StatsState.mk ⟨[], [], []⟩
        [("xmem1", [("docs_written", Metric.counter 0)]),
         ("Overview", [("docs_written", Metric.counter 1),
           ("data_replicated", Metric.counter 2)])]
        [] [] 1000000000 [3, 0, 0, 5]
        (some [("xmem1", Var.map [("docs_written", LeafVar.func 3)])])
        (fun _ => "")).processRawStats =
      Except.error (Panic.counterGoesBackward "docs_written") := by
  rfl

/-! ## ProcessUprEventForFiltering: bodies that are rejected -/

theorem ProcessUprEventForFiltering_of_body_error (c : FilterBase) (snappy : Snappy)
    (uprEvent : UprEvent) (dp : DataPoolIface) (flags : Nat) (st : FilterState)
    (r : BodyResult) (hflag : flags &&& c.FilterFlagKeyOnly = 0)
    (htype : uprEvent.DataType &&& XattrDataType > 0 ∨
      uprEvent.DataType &&& JSONDataType > 0)
    (hprep : (if uprEvent.DataType &&& SnappyDataType > 0 then
        decompressSnappyBody c snappy dp uprEvent.Value uprEvent.Key st
      else getBodySlice c dp uprEvent.Value uprEvent.Key st) = some r)
    (herr : r.err ≠ none) :
    ProcessUprEventForFiltering c snappy (some uprEvent) (some dp) flags st =
      some ⟨none, r.err, true, r.dpFailedCnt, r.state⟩ := by
  unfold ProcessUprEventForFiltering
  have hneed : (decide (flags &&& c.FilterFlagKeyOnly = 0 ∧
      ((decide (uprEvent.DataType &&& XattrDataType > 0) : Bool) = true ∨
        uprEvent.DataType &&& JSONDataType > 0))) = true := by
    rw [decide_eq_true_iff]
    refine ⟨hflag, ?_⟩
    rcases htype with h | h
    · exact Or.inl (decide_eq_true h)
    · exact Or.inr h
  simp only [hneed, if_true]
  by_cases hc : uprEvent.DataType &&& SnappyDataType > 0
  · rw [if_pos hc] at hprep
    simp only [decide_eq_true hc, if_true, hprep, herr, ne_eq, not_false_eq_true]
  · rw [if_neg hc] at hprep
    simp only [decide_eq_false hc, hprep, herr, ne_eq, not_false_eq_true, if_true]
    simp
    intro h
    exact absurd h herr

theorem getLast_index (body : List Nat) (last : Nat) (h : body.getLast? = some last) :
    0 ≤ (body.length : Int) - 1 ∧ body[((body.length : Int) - 1).toNat]? = some last := by
  have hne : body ≠ [] := by
    intro e
    rw [e] at h
    cases h
  have hpos : 0 < body.length := List.length_pos.mpr hne
  have hidx : ((body.length : Int) - 1).toNat = body.length - 1 := by omega
  refine ⟨by omega, ?_⟩
  rw [hidx, ← List.getLast?_eq_getElem?]
  exact h

theorem getBodySlice_not_json (c : FilterBase) (dp : DataPoolIface)
    (incomingBody key : List Nat) (st : FilterState) (last : Nat)
    (hlast : incomingBody.getLast? = some last) (hne : last ≠ 125) :
    getBodySlice c dp incomingBody key st =
      some ⟨none, some Error.ErrorInvalidInput, 0, (incomingBody.length : Int) - 1, st⟩ := by
  obtain ⟨h0, hi⟩ := getLast_index incomingBody last hlast
  unfold getBodySlice
  simp only [h0, if_true, hi, ne_eq, hne, not_false_eq_true]

theorem Snappy.Decode_index (snappy : Snappy) (dst : ByteSlice) (src decoded : List Nat)
    (hheader : snappy.header src = Except.ok decoded.length)
    (hblock : snappy.block src = Except.ok decoded) :
    ∃ body, snappy.Decode dst src = Except.ok body ∧ body.len = decoded.length ∧
      ∀ i, i < decoded.length → body.array[i]? = decoded[i]? := by
  unfold Snappy.Decode
  simp only [hheader, hblock, ne_eq, not_true_eq_false, if_false]
  by_cases hd : decoded.length ≤ dst.len
  · rw [if_pos hd]
    refine ⟨_, rfl, rfl, fun i hi => ?_⟩
    exact List.getElem?_append_left hi
  · rw [if_neg hd]
    exact ⟨_, rfl, rfl, fun i _ => rfl⟩

theorem decompressSnappyBody_not_json (c : FilterBase) (snappy : Snappy) (dp : DataPoolIface)
    (incomingBody key decoded : List Nat) (st : FilterState) (last : Nat)
    (hheader : snappy.header incomingBody = Except.ok decoded.length)
    (hblock : snappy.block incomingBody = Except.ok decoded)
    (hlast : decoded.getLast? = some last) (hne : last ≠ 125) :
    ∃ r, decompressSnappyBody c snappy dp incomingBody key st = some r ∧
      r.body = none ∧ r.err = some Error.ErrorInvalidInput := by
  obtain ⟨h0, hi⟩ := getLast_index decoded last hlast
  unfold decompressSnappyBody
  simp only [Snappy.DecodedLen, hheader]
  generalize halloc : (match (dp.get st (wrapUint64 ((decoded.length : Int) + (key.length : Int) +
    c.AddFilterKeyExtraBytes))).1 with
    | Except.error _ => ((makeByteSlice 0 (wrapUint64 ((decoded.length : Int) +
        (key.length : Int) + c.AddFilterKeyExtraBytes)), wrapInt64 ((wrapUint64
        ((decoded.length : Int) + (key.length : Int) + c.AddFilterKeyExtraBytes) : Nat) : Int),
        (dp.get st (wrapUint64 ((decoded.length : Int) + (key.length : Int) +
          c.AddFilterKeyExtraBytes))).2) : ByteSlice × Int × FilterState)
    | Except.ok body => (body, 0, { (dp.get st (wrapUint64 ((decoded.length : Int) +
        (key.length : Int) + c.AddFilterKeyExtraBytes))).2 with
        slicesToBeReleased := (dp.get st (wrapUint64 ((decoded.length : Int) +
          (key.length : Int) + c.AddFilterKeyExtraBytes))).2.slicesToBeReleased ++ [body] })) = alloc
  obtain ⟨body, hdec, hlen, hidx⟩ := Snappy.Decode_index snappy alloc.1 incomingBody decoded
    hheader hblock
  simp only [hdec]
  have hlt : ((decoded.length : Int) - 1).toNat < decoded.length := by omega
  have hb : body.indexInt ((decoded.length : Int) - 1) = some last := by
    unfold ByteSlice.indexInt ByteSlice.index
    rw [if_pos h0, hlen, if_pos hlt, hidx _ hlt]
    exact hi
  simp only [hb, ne_eq, hne, not_false_eq_true, if_true]
  exact ⟨_, rfl, rfl, rfl⟩

/-- C20: when the body has to be processed (the key-only flag is clear and the data type
has the JSON bit or the XATTR bit), and the body, which is the decoded block for a Snappy
data type and the value of the event otherwise, has a last byte that is not the closing
brace, ProcessUprEventForFiltering returns ErrorInvalidInput with a nil body, whatever the
data pool does. -/
theorem ProcessUprEventForFiltering_rejects_body_without_closing_brace (c : FilterBase)
    (snappy : Snappy) (uprEvent : UprEvent) (dp : DataPoolIface) (flags : Nat)
    (st : FilterState) (body : List Nat) (last : Nat)
    (hflag : flags &&& c.FilterFlagKeyOnly = 0)
    (htype : uprEvent.DataType &&& XattrDataType > 0 ∨
      uprEvent.DataType &&& JSONDataType > 0)
    (hbody : if uprEvent.DataType &&& SnappyDataType > 0 then
        snappy.header uprEvent.Value = Except.ok body.length ∧
          snappy.block uprEvent.Value = Except.ok body
      else uprEvent.Value = body)
    (hlast : body.getLast? = some last) (hne : last ≠ 125) :
    ∃ r, ProcessUprEventForFiltering c snappy (some uprEvent) (some dp) flags st = some r ∧
      r.err = some Error.ErrorInvalidInput ∧ r.body = none := by
  by_cases hc : uprEvent.DataType &&& SnappyDataType > 0
  · rw [if_pos hc] at hbody
    obtain ⟨r, hr, -, herr⟩ := decompressSnappyBody_not_json c snappy dp uprEvent.Value
      uprEvent.Key body st last hbody.1 hbody.2 hlast hne
    refine ⟨_, ProcessUprEventForFiltering_of_body_error c snappy uprEvent dp flags st r hflag
      htype (by rw [if_pos hc]; exact hr) (by rw [herr]; simp), herr, rfl⟩
  · rw [if_neg hc] at hbody
    subst hbody
    have hprep := getBodySlice_not_json c dp uprEvent.Value uprEvent.Key st last hlast hne
    refine ⟨_, ProcessUprEventForFiltering_of_body_error c snappy uprEvent dp flags st _ hflag
      htype (by rw [if_neg hc]; exact hprep) (by simp), rfl, rfl⟩

theorem ProcessUprEventForFiltering_rejects_body_without_closing_brace_witness :
    ∃ r, ProcessUprEventForFiltering
        ⟨20971520, 10, 10, 1, 2, 4, [], 0, [], 0, [], fun _ _ _ _ _ _ _ => none,
          fun _ _ _ _ _ => none⟩
        ⟨fun _ => Except.ok 3, fun _ => Except.ok [123, 125, 10]⟩
        (some ⟨3, [107], [9, 9]⟩) (some ⟨fun _ size => Except.ok (List.replicate size 0, size)⟩)
        0 ⟨[], 0⟩ = some r ∧
      r.err = some Error.ErrorInvalidInput ∧ r.body = none :=
  ProcessUprEventForFiltering_rejects_body_without_closing_brace
    ⟨20971520, 10, 10, 1, 2, 4, [], 0, [], 0, [], fun _ _ _ _ _ _ _ => none,
      fun _ _ _ _ _ => none⟩
    ⟨fun _ => Except.ok 3, fun _ => Except.ok [123, 125, 10]⟩
    ⟨3, [107], [9, 9]⟩ ⟨fun _ size => Except.ok (List.replicate size 0, size)⟩
    0 ⟨[], 0⟩ [123, 125, 10] 10 (by decide) (by decide)
    (by rw [if_pos (by decide)]; exact ⟨rfl, rfl⟩) (by decide) (by decide)

/-! ## An xattr section larger than the maximum document size -/

theorem processXattribute_of_oversized (c : FilterBase) (dp : DataPoolIface)
    (body : ByteSlice) (key : List Nat) (shouldSkipInsert : Bool) (st : FilterState)
    (endBodyPos : Int) (b0 b1 b2 b3 : Nat) (tail : List Nat)
    (harr : body.array = b0 :: b1 :: b2 :: b3 :: tail)
    (hbig : b3 + b2 * 2 ^ 8 + b1 * 2 ^ 16 + b0 * 2 ^ 24 > c.MaxDocSizeByte) :
    processXattribute c dp body key shouldSkipInsert st endBodyPos =
      some ⟨none, some (Error.xattrSizeInvalid key
        (b3 + b2 * 2 ^ 8 + b1 * 2 ^ 16 + b0 * 2 ^ 24)), 0, endBodyPos, st⟩ := by
  have hu : Uint32 body 0 4 = some (b3 + b2 * 2 ^ 8 + b1 * 2 ^ 16 + b0 * 2 ^ 24) := by
    simp [Uint32, ByteSlice.slice, ByteSlice.cap, ByteSlice.index, harr]
  unfold processXattribute
  simp only [hu, hbig, if_true]

theorem ProcessUprEventForFiltering_of_xattr_error (c : FilterBase) (snappy : Snappy)
    (uprEvent : UprEvent) (dp : DataPoolIface) (flags : Nat) (st : FilterState)
    (r x : BodyResult) (b : ByteSlice) (hflag : flags &&& c.FilterFlagKeyOnly = 0)
    (htype : uprEvent.DataType &&& XattrDataType > 0)
    (hprep : (if uprEvent.DataType &&& SnappyDataType > 0 then
        decompressSnappyBody c snappy dp uprEvent.Value uprEvent.Key st
      else getBodySlice c dp uprEvent.Value uprEvent.Key st) = some r)
    (herr : r.err = none) (hb : r.body = some b)
    (hxattr : processXattribute c dp b uprEvent.Key
      (decide (flags &&& c.FilterFlagSkipXattr > 0)) r.state r.endBodyPos = some x)
    (hxerr : x.err ≠ none) :
    ∃ res, ProcessUprEventForFiltering c snappy (some uprEvent) (some dp) flags st = some res ∧
      res.err = some Error.ErrorFilterParsingError ∧ res.releaseFunc = true ∧
      res.body = none ∧ res.state = x.state := by
  unfold ProcessUprEventForFiltering
  have hneed : (decide (flags &&& c.FilterFlagKeyOnly = 0 ∧
      ((decide (uprEvent.DataType &&& XattrDataType > 0) : Bool) = true ∨
        uprEvent.DataType &&& JSONDataType > 0))) = true := by
    rw [decide_eq_true_iff]
    exact ⟨hflag, Or.inl (decide_eq_true htype)⟩
  have hprep' : (if (decide (uprEvent.DataType &&& SnappyDataType > 0)) = true then
        decompressSnappyBody c snappy dp uprEvent.Value uprEvent.Key st
      else getBodySlice c dp uprEvent.Value uprEvent.Key st) = some r := by
    by_cases hc : uprEvent.DataType &&& SnappyDataType > 0
    · rw [if_pos hc] at hprep
      rw [if_pos (decide_eq_true hc)]
      exact hprep
    · rw [if_neg hc] at hprep
      rw [if_neg (by simp [hc])]
      exact hprep
  simp only [hneed, if_true]
  simp only [hprep', herr, ne_eq, not_true_eq_false, if_false,
    decide_eq_true htype, and_self, hb, hxattr, hxerr, not_false_eq_true, if_true]
  exact ⟨_, rfl, rfl, rfl, rfl, rfl⟩

theorem getBodySlice_of_pool (c : FilterBase) (dp : DataPoolIface)
    (incomingBody key : List Nat) (st : FilterState) (array : List Nat) (len : Nat)
    (hlast : incomingBody.getLast? = some 125)
    (hpool : dp.GetByteSlice st.poolCalls (wrapUint64 ((incomingBody.length : Int) +
      (key.length : Int) + c.AddFilterKeyExtraBytes)) = Except.ok (array, len)) :
    getBodySlice c dp incomingBody key st =
      some ⟨some ⟨incomingBody.take (min len incomingBody.length) ++
          array.drop (min len incomingBody.length), len, SliceOrigin.pool st.poolCalls⟩,
        none, 0, (incomingBody.length : Int) - 1,
        ⟨st.slicesToBeReleased ++ [⟨array, len, SliceOrigin.pool st.poolCalls⟩],
          st.poolCalls + 1⟩⟩ := by
  obtain ⟨h0, hi⟩ := getLast_index incomingBody 125 hlast
  unfold getBodySlice
  simp only [h0, if_true, hi, ne_eq, not_true_eq_false, if_false, DataPoolIface.get, hpool,
    ByteSlice.copyAt]
  simp

theorem Snappy.Decode_array (snappy : Snappy) (dst : ByteSlice) (src decoded : List Nat)
    (hheader : snappy.header src = Except.ok decoded.length)
    (hblock : snappy.block src = Except.ok decoded) :
    ∃ body tail, snappy.Decode dst src = Except.ok body ∧ body.len = decoded.length ∧
      body.array = decoded ++ tail := by
  unfold Snappy.Decode
  simp only [hheader, hblock, ne_eq, not_true_eq_false, if_false]
  by_cases hd : decoded.length ≤ dst.len
  · rw [if_pos hd]
    exact ⟨_, _, rfl, rfl, rfl⟩
  · rw [if_neg hd]
    exact ⟨_, [], rfl, rfl, by simp⟩

theorem decompressSnappyBody_of_json (c : FilterBase) (snappy : Snappy) (dp : DataPoolIface)
    (incomingBody key decoded : List Nat) (st : FilterState)
    (hheader : snappy.header incomingBody = Except.ok decoded.length)
    (hblock : snappy.block incomingBody = Except.ok decoded)
    (hlast : decoded.getLast? = some 125) :
    ∃ r body tail, decompressSnappyBody c snappy dp incomingBody key st = some r ∧
      r.err = none ∧ r.body = some body ∧ body.array = decoded ++ tail ∧
      body.len = decoded.length := by
  obtain ⟨h0, hi⟩ := getLast_index decoded 125 hlast
  unfold decompressSnappyBody
  simp only [Snappy.DecodedLen, hheader]
  generalize halloc : (match (dp.get st (wrapUint64 ((decoded.length : Int) + (key.length : Int) +
    c.AddFilterKeyExtraBytes))).1 with
    | Except.error _ => ((makeByteSlice 0 (wrapUint64 ((decoded.length : Int) +
        (key.length : Int) + c.AddFilterKeyExtraBytes)), wrapInt64 ((wrapUint64
        ((decoded.length : Int) + (key.length : Int) + c.AddFilterKeyExtraBytes) : Nat) : Int),
        (dp.get st (wrapUint64 ((decoded.length : Int) + (key.length : Int) +
          c.AddFilterKeyExtraBytes))).2) : ByteSlice × Int × FilterState)
    | Except.ok body => (body, 0, { (dp.get st (wrapUint64 ((decoded.length : Int) +
        (key.length : Int) + c.AddFilterKeyExtraBytes))).2 with
        slicesToBeReleased := (dp.get st (wrapUint64 ((decoded.length : Int) +
          (key.length : Int) + c.AddFilterKeyExtraBytes))).2.slicesToBeReleased ++ [body] })) = alloc
  obtain ⟨body, tail, hdec, hlen, harr⟩ := Snappy.Decode_array snappy alloc.1 incomingBody
    decoded hheader hblock
  simp only [hdec]
  have hlt : ((decoded.length : Int) - 1).toNat < decoded.length := by omega
  have hb : body.indexInt ((decoded.length : Int) - 1) = some 125 := by
    unfold ByteSlice.indexInt ByteSlice.index
    rw [if_pos h0, hlen, if_pos hlt, harr, List.getElem?_append_left hlt]
    exact hi
  simp only [hb, ne_eq, not_true_eq_false, if_false]
  exact ⟨_, body, tail, rfl, rfl, rfl, harr, hlen⟩

/-- C19, on the code: for an event with the XATTR data type whose value starts with a size
above the maximum document size, ProcessUprEventForFiltering returns ErrorInvalidInput when
the value does not end with a closing brace, returns the key as the body and no error when
the key-only flag is set, and panics when the data pool fails to supply the slice for the
body, where the size is read from the empty slice of the fallback. -/
theorem ProcessUprEventForFiltering_oversized_xattr_other_outcomes :
    (ProcessUprEventForFiltering
        ⟨20971520, 10, 10, 1, 2, 4, [], 0, [], 0, [120], fun _ _ _ _ _ _ _ => none,
          fun _ _ _ _ _ => none⟩
        ⟨fun _ => Except.ok 0, fun _ => Except.ok []⟩
        (some ⟨4, [107], [255, 255, 255, 255, 120]⟩)
        (some ⟨fun _ size => Except.ok (List.replicate size 0, size)⟩) 0 ⟨[], 0⟩ =
      some ⟨none, some Error.ErrorInvalidInput, true, 0, ⟨[], 0⟩⟩) ∧
    (ProcessUprEventForFiltering
        ⟨20971520, 10, 10, 1, 2, 4, [], 0, [], 0, [120], fun _ _ _ _ _ _ _ => none,
          fun _ _ _ _ _ => none⟩
        ⟨fun _ => Except.ok 0, fun _ => Except.ok []⟩
        (some ⟨4, [107], [255, 255, 255, 255, 125]⟩)
        (some ⟨fun _ _ => Except.error (Error.external "pool")⟩) 4 ⟨[], 0⟩ =
      some ⟨some ⟨[123, 34, 120, 34, 58, 34, 107, 34, 125], 9, SliceOrigin.heap⟩, none, true, 9,
        ⟨[], 1⟩⟩) ∧
    ProcessUprEventForFiltering
        ⟨20971520, 10, 10, 1, 2, 4, [], 0, [], 0, [120], fun _ _ _ _ _ _ _ => none,
          fun _ _ _ _ _ => none⟩
        ⟨fun _ => Except.ok 0, fun _ => Except.ok []⟩
        (some ⟨4, [107], [255, 255, 255, 255, 125]⟩)
        (some ⟨fun _ _ => Except.error (Error.external "pool")⟩) 0 ⟨[], 0⟩ = none := by
  refine ⟨by decide, by decide, by decide⟩

/-- C19, amended: a body whose first four bytes give, in big-endian order, a size above
MaxDocSizeByte makes processXattribute return an error, the same whatever follows the four
bytes; and ProcessUprEventForFiltering, on an event with the XATTR data type and such a
body, returns ErrorFilterParsingError, a nil body and a release function that is not nil,
provided that the key-only flag is clear, that the body (the decoded block for a Snappy
data type, the value otherwise) ends with a closing brace, and, for a value that is not
compressed, that the data pool supplies a slice of at least four bytes for it. -/
theorem oversized_xattr_is_a_parse_error (c : FilterBase) (snappy : Snappy)
    (dp : DataPoolIface) (b0 b1 b2 b3 : Nat) (rest : List Nat)
    (hbig : b3 + b2 * 2 ^ 8 + b1 * 2 ^ 16 + b0 * 2 ^ 24 > c.MaxDocSizeByte) :
    (∀ (body : ByteSlice) (tail key : List Nat) (shouldSkipInsert : Bool) (st : FilterState)
        (endBodyPos : Int), body.array = b0 :: b1 :: b2 :: b3 :: tail →
        processXattribute c dp body key shouldSkipInsert st endBodyPos =
          some ⟨none, some (Error.xattrSizeInvalid key
            (b3 + b2 * 2 ^ 8 + b1 * 2 ^ 16 + b0 * 2 ^ 24)), 0, endBodyPos, st⟩) ∧
    (∀ (uprEvent : UprEvent) (flags : Nat) (st : FilterState),
        flags &&& c.FilterFlagKeyOnly = 0 →
        uprEvent.DataType &&& XattrDataType > 0 →
        (b0 :: b1 :: b2 :: b3 :: rest).getLast? = some 125 →
        (if uprEvent.DataType &&& SnappyDataType > 0 then
          snappy.header uprEvent.Value = Except.ok (b0 :: b1 :: b2 :: b3 :: rest).length ∧
            snappy.block uprEvent.Value = Except.ok (b0 :: b1 :: b2 :: b3 :: rest)
        else uprEvent.Value = b0 :: b1 :: b2 :: b3 :: rest ∧
          ∃ array len, dp.GetByteSlice st.poolCalls
            (wrapUint64 ((uprEvent.Value.length : Int) + (uprEvent.Key.length : Int) +
              c.AddFilterKeyExtraBytes)) = Except.ok (array, len) ∧ 4 ≤ len) →
        ∃ r, ProcessUprEventForFiltering c snappy (some uprEvent) (some dp) flags st = some r ∧
          r.err = some Error.ErrorFilterParsingError ∧ r.releaseFunc = true ∧
          r.body = none) := by
  refine ⟨fun body tail key skip st endBodyPos harr =>
    processXattribute_of_oversized c dp body key skip st endBodyPos b0 b1 b2 b3 tail harr hbig,
    ?_⟩
  intro uprEvent flags st hflag htype hlast hbody
  by_cases hc : uprEvent.DataType &&& SnappyDataType > 0
  · rw [if_pos hc] at hbody
    obtain ⟨r, body, tail, hr, herr, hb, harr, -⟩ := decompressSnappyBody_of_json c snappy dp
      uprEvent.Value uprEvent.Key _ st hbody.1 hbody.2 hlast
    have hx := processXattribute_of_oversized c dp body uprEvent.Key
      (decide (flags &&& c.FilterFlagSkipXattr > 0)) r.state r.endBodyPos b0 b1 b2 b3
      (rest ++ tail) (by rw [harr]; rfl) hbig
    obtain ⟨res, h1, h2, h3, h4, -⟩ := ProcessUprEventForFiltering_of_xattr_error c snappy
      uprEvent dp flags st r _ body hflag htype (by rw [if_pos hc]; exact hr) herr hb hx
      (by simp)
    exact ⟨res, h1, h2, h3, h4⟩
  · rw [if_neg hc] at hbody
    obtain ⟨hval, array, len, hpool, hlen⟩ := hbody
    obtain ⟨r, body, hr, herr, hb, harr⟩ : ∃ r body,
        getBodySlice c dp uprEvent.Value uprEvent.Key st = some r ∧ r.err = none ∧
        r.body = some body ∧
        body.array = uprEvent.Value.take (min len uprEvent.Value.length) ++
          array.drop (min len uprEvent.Value.length) :=
      ⟨_, _, getBodySlice_of_pool c dp uprEvent.Value uprEvent.Key st array len
        (by rw [hval]; exact hlast) hpool, rfl, rfl, rfl⟩
    have hmin : ∃ m, min len uprEvent.Value.length = m + 4 := by
      have : uprEvent.Value.length = rest.length + 4 := by rw [hval]; simp
      exact ⟨min len uprEvent.Value.length - 4, by omega⟩
    obtain ⟨m, hm⟩ := hmin
    have hx := processXattribute_of_oversized c dp body
      uprEvent.Key (decide (flags &&& c.FilterFlagSkipXattr > 0)) r.state r.endBodyPos
      b0 b1 b2 b3 (rest.take m ++ array.drop (m + 4)) (by rw [harr, hm, hval]; rfl) hbig
    obtain ⟨res, h1, h2, h3, h4, -⟩ := ProcessUprEventForFiltering_of_xattr_error c snappy
      uprEvent dp flags st r _ body hflag htype (by rw [if_neg hc]; exact hr) herr hb hx
      (by simp)
    exact ⟨res, h1, h2, h3, h4⟩

theorem oversized_xattr_is_a_parse_error_witness :
    ∃ r, ProcessUprEventForFiltering
        ⟨20971520, 10, 10, 1, 2, 4, [], 0, [], 0, [120], fun _ _ _ _ _ _ _ => none,
          fun _ _ _ _ _ => none⟩
        ⟨fun _ => Except.ok 0, fun _ => Except.ok []⟩
        (some ⟨4, [107], [255, 255, 255, 255, 125]⟩)
        (some ⟨fun _ size => Except.ok (List.replicate size 0, size)⟩) 0 ⟨[], 0⟩ = some r ∧
      r.err = some Error.ErrorFilterParsingError ∧ r.releaseFunc = true ∧ r.body = none :=
  (oversized_xattr_is_a_parse_error
    ⟨20971520, 10, 10, 1, 2, 4, [], 0, [], 0, [120], fun _ _ _ _ _ _ _ => none,
      fun _ _ _ _ _ => none⟩
    ⟨fun _ => Except.ok 0, fun _ => Except.ok []⟩
    ⟨fun _ size => Except.ok (List.replicate size 0, size)⟩ 255 255 255 255 [125]
    (by decide)).2 ⟨4, [107], [255, 255, 255, 255, 125]⟩ 0 ⟨[], 0⟩ (by decide) (by decide)
    (by decide) (by
      rw [if_neg (by decide)]
      exact ⟨rfl, List.replicate 16 0, 16, rfl, by decide⟩)

/-! ## getBodySlice when the data pool fails -/

theorem getBodySlice_of_pool_error (c : FilterBase) (dp : DataPoolIface)
    (incomingBody key : List Nat) (st : FilterState) (e : Error)
    (hlast : incomingBody.getLast? = some 125)
    (hpool : dp.GetByteSlice st.poolCalls (wrapUint64 ((incomingBody.length : Int) +
      (key.length : Int) + c.AddFilterKeyExtraBytes)) = Except.error e) :
    getBodySlice c dp incomingBody key st =
      some ⟨some (makeByteSlice 0 (wrapUint64 ((incomingBody.length : Int) +
          (key.length : Int) + c.AddFilterKeyExtraBytes))),
        none,
        wrapInt64 ((wrapUint64 ((incomingBody.length : Int) + (key.length : Int) +
          c.AddFilterKeyExtraBytes) : Nat) : Int),
        (incomingBody.length : Int) - 1,
        ⟨st.slicesToBeReleased ++ [makeByteSlice 0 (wrapUint64 ((incomingBody.length : Int) +
          (key.length : Int) + c.AddFilterKeyExtraBytes))], st.poolCalls + 1⟩⟩ := by
  obtain ⟨h0, hi⟩ := getLast_index incomingBody 125 hlast
  unfold getBodySlice
  simp only [h0, if_true, hi, ne_eq, not_true_eq_false, if_false, DataPoolIface.get, hpool,
    ByteSlice.copyAt]
  simp [makeByteSlice]

/-- C30, on the code: when the data pool fails to supply the slice, getBodySlice returns
without error the slice of the fallback, of length 0 and of capacity bodySize, to which
`copy` has copied nothing: the body returned has no byte, and its backing array holds
zeros, whereas the incoming body has at least its closing brace; the last-body position
returned is len(incomingBody) - 1. -/
theorem getBodySlice_fallback_returns_empty_body (c : FilterBase) (dp : DataPoolIface)
    (incomingBody key : List Nat) (st : FilterState) (e : Error)
    (hlast : incomingBody.getLast? = some 125)
    (hpool : dp.GetByteSlice st.poolCalls (wrapUint64 ((incomingBody.length : Int) +
      (key.length : Int) + c.AddFilterKeyExtraBytes)) = Except.error e) :
    ∃ r body, getBodySlice c dp incomingBody key st = some r ∧ r.err = none ∧
      r.body = some body ∧ body.len = 0 ∧ body.bytes = [] ∧
      body.bytes.take incomingBody.length ≠ incomingBody ∧
      (∀ (i b : Nat), body.array[i]? = some b → b = 0) ∧
      r.endBodyPos = (incomingBody.length : Int) - 1 := by
  refine ⟨_, _, getBodySlice_of_pool_error c dp incomingBody key st e hlast hpool, rfl, rfl,
    rfl, ?_, ?_, ?_, rfl⟩
  · simp [ByteSlice.bytes, makeByteSlice]
  · intro h
    have hb : (makeByteSlice 0 (wrapUint64 ((incomingBody.length : Int) +
        (key.length : Int) + c.AddFilterKeyExtraBytes))).bytes = [] := by
      simp [ByteSlice.bytes, makeByteSlice]
    rw [hb] at h
    simp only [List.take_nil] at h
    rw [← h] at hlast
    cases hlast
  · intro i b hb
    simp only [makeByteSlice, List.getElem?_replicate] at hb
    split at hb
    · injection hb with hb
      exact hb.symm
    · cases hb

theorem getBodySlice_fallback_returns_empty_body_witness :
    ∃ r body, getBodySlice
        ⟨20971520, 10, 10, 1, 2, 4, [], 0, [], 0, [120], fun _ _ _ _ _ _ _ => none,
          fun _ _ _ _ _ => none⟩
        ⟨fun _ _ => Except.error (Error.external "pool")⟩ [123, 125] [107] ⟨[], 0⟩ = some r ∧
      r.err = none ∧ r.body = some body ∧ body.len = 0 ∧ body.bytes = [] ∧
      r.endBodyPos = 1 :=
  let ⟨r, body, h1, h2, h3, h4, h5, _, _, h8⟩ := getBodySlice_fallback_returns_empty_body
    ⟨20971520, 10, 10, 1, 2, 4, [], 0, [], 0, [120], fun _ _ _ _ _ _ _ => none,
      fun _ _ _ _ _ => none⟩
    ⟨fun _ _ => Except.error (Error.external "pool")⟩ [123, 125] [107] ⟨[], 0⟩
    (Error.external "pool") (by decide) rfl
  ⟨r, body, h1, h2, h3, h4, h5, h8⟩

/-! ## ProcessUprEventForFiltering on malformed values -/

theorem getBodySlice_of_empty (c : FilterBase) (dp : DataPoolIface) (key : List Nat)
    (st : FilterState) : getBodySlice c dp [] key st = none := by
  simp [getBodySlice]

theorem ProcessUprEventForFiltering_of_body_panic (c : FilterBase) (snappy : Snappy)
    (uprEvent : UprEvent) (dp : DataPoolIface) (flags : Nat) (st : FilterState)
    (hflag : flags &&& c.FilterFlagKeyOnly = 0)
    (htype : uprEvent.DataType &&& XattrDataType > 0 ∨
      uprEvent.DataType &&& JSONDataType > 0)
    (hprep : (if uprEvent.DataType &&& SnappyDataType > 0 then
        decompressSnappyBody c snappy dp uprEvent.Value uprEvent.Key st
      else getBodySlice c dp uprEvent.Value uprEvent.Key st) = none) :
    ProcessUprEventForFiltering c snappy (some uprEvent) (some dp) flags st = none := by
  unfold ProcessUprEventForFiltering
  have hneed : (decide (flags &&& c.FilterFlagKeyOnly = 0 ∧
      ((decide (uprEvent.DataType &&& XattrDataType > 0) : Bool) = true ∨
        uprEvent.DataType &&& JSONDataType > 0))) = true := by
    rw [decide_eq_true_iff]
    refine ⟨hflag, ?_⟩
    rcases htype with h | h
    · exact Or.inl (decide_eq_true h)
    · exact Or.inr h
  have hprep' : (if (decide (uprEvent.DataType &&& SnappyDataType > 0)) = true then
        decompressSnappyBody c snappy dp uprEvent.Value uprEvent.Key st
      else getBodySlice c dp uprEvent.Value uprEvent.Key st) = none := by
    by_cases hc : uprEvent.DataType &&& SnappyDataType > 0
    · rw [if_pos hc] at hprep
      rw [if_pos (decide_eq_true hc)]
      exact hprep
    · rw [if_neg hc] at hprep
      rw [if_neg (by simp [hc])]
      exact hprep
  simp only [hneed, if_true]
  simp only [hprep']

/-- C27, on the code: for an event whose value is empty, whose data type has the JSON bit
or the XATTR bit and not the Snappy bit, filtered with the key-only flag clear,
ProcessUprEventForFiltering panics: getBodySlice reads the byte at position
len(incomingBody) - 1, which is -1, before any other check. -/
theorem ProcessUprEventForFiltering_panics_on_empty_value (c : FilterBase) (snappy : Snappy)
    (dp : DataPoolIface) (dataType : Nat) (key : List Nat) (flags : Nat) (st : FilterState)
    (hflag : flags &&& c.FilterFlagKeyOnly = 0)
    (htype : dataType &&& XattrDataType > 0 ∨ dataType &&& JSONDataType > 0)
    (hraw : ¬ dataType &&& SnappyDataType > 0) :
    ProcessUprEventForFiltering c snappy (some ⟨dataType, key, []⟩) (some dp) flags st =
      none :=
  ProcessUprEventForFiltering_of_body_panic c snappy ⟨dataType, key, []⟩ dp flags st hflag
    htype (by rw [if_neg hraw]; exact getBodySlice_of_empty c dp key st)

theorem ProcessUprEventForFiltering_panics_on_empty_value_witness :
    ProcessUprEventForFiltering
        ⟨20971520, 10, 10, 1, 2, 4, [], 0, [], 0, [120], fun _ _ _ _ _ _ _ => none,
          fun _ _ _ _ _ => none⟩
        ⟨fun _ => Except.ok 0, fun _ => Except.ok []⟩
        (some ⟨1, [107], []⟩)
        (some ⟨fun _ size => Except.ok (List.replicate size 0, size)⟩) 0 ⟨[], 0⟩ = none :=
  ProcessUprEventForFiltering_panics_on_empty_value
    ⟨20971520, 10, 10, 1, 2, 4, [], 0, [], 0, [120], fun _ _ _ _ _ _ _ => none,
      fun _ _ _ _ _ => none⟩
    ⟨fun _ => Except.ok 0, fun _ => Except.ok []⟩
    ⟨fun _ size => Except.ok (List.replicate size 0, size)⟩ 1 [107] 0 ⟨[], 0⟩
    (by decide) (by decide) (by decide)

/-- Another value on which ProcessUprEventForFiltering panics, with a data pool that
supplies zeroed slices of the size asked for and the flag that skips the xattributes: an
XATTR value whose size field, 100, is below the maximum document size and above the number
of bytes present; the slice expression that skips the xattributes is out of range. -/
theorem ProcessUprEventForFiltering_panics_on_malformed_xattr :
    ProcessUprEventForFiltering
        ⟨20971520, 10, 10, 1, 2, 4, [], 0, [], 0, [120], fun _ _ _ _ _ _ _ => none,
          fun _ _ _ _ _ => none⟩
        ⟨fun _ => Except.ok 0, fun _ => Except.ok []⟩
        (some ⟨4, [107], [0, 0, 0, 100, 123, 125]⟩)
        (some ⟨fun _ size => Except.ok (List.replicate size 0, size)⟩) 1 ⟨[], 0⟩ = none := by
  decide

/-! ## The release function -/

theorem ProcessUprEventForFiltering_of_json_skip_key (c : FilterBase) (snappy : Snappy)
    (uprEvent : UprEvent) (dp : DataPoolIface) (flags : Nat) (st : FilterState)
    (r : BodyResult) (hflag : flags &&& c.FilterFlagKeyOnly = 0)
    (hjson : uprEvent.DataType &&& JSONDataType > 0)
    (hx : ¬ uprEvent.DataType &&& XattrDataType > 0)
    (hskip : flags &&& c.FilterFlagSkipKey > 0)
    (hprep : (if uprEvent.DataType &&& SnappyDataType > 0 then
        decompressSnappyBody c snappy dp uprEvent.Value uprEvent.Key st
      else getBodySlice c dp uprEvent.Value uprEvent.Key st) = some r)
    (herr : r.err = none) :
    ProcessUprEventForFiltering c snappy (some uprEvent) (some dp) flags st =
      some ⟨r.body, none, true, r.dpFailedCnt, r.state⟩ := by
  unfold ProcessUprEventForFiltering
  have hneed : (decide (flags &&& c.FilterFlagKeyOnly = 0 ∧
      ((decide (uprEvent.DataType &&& XattrDataType > 0) : Bool) = true ∨
        uprEvent.DataType &&& JSONDataType > 0))) = true := by
    rw [decide_eq_true_iff]
    exact ⟨hflag, Or.inr hjson⟩
  have hprep' : (if (decide (uprEvent.DataType &&& SnappyDataType > 0)) = true then
        decompressSnappyBody c snappy dp uprEvent.Value uprEvent.Key st
      else getBodySlice c dp uprEvent.Value uprEvent.Key st) = some r := by
    by_cases hc : uprEvent.DataType &&& SnappyDataType > 0
    · rw [if_pos hc] at hprep
      rw [if_pos (decide_eq_true hc)]
      exact hprep
    · rw [if_neg hc] at hprep
      rw [if_neg (by simp [hc])]
      exact hprep
  simp only [hneed, if_true]
  simp only [hprep', herr, ne_eq, not_true_eq_false, if_false, decide_eq_false hx,
    Bool.false_eq_true, and_false, decide_eq_true hskip, not_true_eq_false]

/-- C23, on the code: when the data pool fails to supply the slice for the body of a value
that is not compressed, getBodySlice appends the slice of its fallback, which `make`
allocated, to slicesToBeReleased all the same, so that the release function returned puts
to the pool a slice that the pool never handed out.  Stated for a JSON value that ends
with a closing brace, filtered with the key-only flag clear and the skip-key flag set. -/
theorem releaseFunc_puts_back_slice_not_from_pool (c : FilterBase) (snappy : Snappy)
    (uprEvent : UprEvent) (dp : DataPoolIface) (flags : Nat) (st : FilterState) (e : Error)
    (hflag : flags &&& c.FilterFlagKeyOnly = 0)
    (hjson : uprEvent.DataType &&& JSONDataType > 0)
    (hx : ¬ uprEvent.DataType &&& XattrDataType > 0)
    (hraw : ¬ uprEvent.DataType &&& SnappyDataType > 0)
    (hskip : flags &&& c.FilterFlagSkipKey > 0)
    (hlast : uprEvent.Value.getLast? = some 125)
    (hpool : dp.GetByteSlice st.poolCalls (wrapUint64 ((uprEvent.Value.length : Int) +
      (uprEvent.Key.length : Int) + c.AddFilterKeyExtraBytes)) = Except.error e) :
    ∃ r, ProcessUprEventForFiltering c snappy (some uprEvent) (some dp) flags st = some r ∧
      r.err = none ∧ r.releaseFunc = true ∧
      (releaseFunc r.state).1 = st.slicesToBeReleased ++
        [makeByteSlice 0 (wrapUint64 ((uprEvent.Value.length : Int) +
          (uprEvent.Key.length : Int) + c.AddFilterKeyExtraBytes))] ∧
      ∃ s ∈ (releaseFunc r.state).1, s.origin = SliceOrigin.heap := by
  have hprep := getBodySlice_of_pool_error c dp uprEvent.Value uprEvent.Key st e hlast hpool
  have hres := ProcessUprEventForFiltering_of_json_skip_key c snappy uprEvent dp flags st _
    hflag hjson hx hskip (by rw [if_neg hraw]; exact hprep) rfl
  refine ⟨_, hres, rfl, rfl, rfl, ?_⟩
  exact ⟨_, List.mem_append_right _ (List.mem_singleton_self _), rfl⟩

theorem releaseFunc_puts_back_slice_not_from_pool_witness :
    ∃ r, ProcessUprEventForFiltering
        ⟨20971520, 10, 10, 1, 2, 4, [], 0, [], 0, [120], fun _ _ _ _ _ _ _ => none,
          fun _ _ _ _ _ => none⟩
        ⟨fun _ => Except.ok 0, fun _ => Except.ok []⟩
        (some ⟨1, [107], [123, 125]⟩)
        (some ⟨fun _ _ => Except.error (Error.external "pool")⟩) 2 ⟨[], 0⟩ = some r ∧
      r.err = none ∧ r.releaseFunc = true ∧
      (releaseFunc r.state).1 = [makeByteSlice 0 13] :=
  let ⟨r, h1, h2, h3, h4, _⟩ := releaseFunc_puts_back_slice_not_from_pool
    ⟨20971520, 10, 10, 1, 2, 4, [], 0, [], 0, [120], fun _ _ _ _ _ _ _ => none,
      fun _ _ _ _ _ => none⟩
    ⟨fun _ => Except.ok 0, fun _ => Except.ok []⟩
    ⟨1, [107], [123, 125]⟩ ⟨fun _ _ => Except.error (Error.external "pool")⟩ 2 ⟨[], 0⟩
    (Error.external "pool") (by decide) (by decide) (by decide) (by decide) (by decide)
    (by decide) rfl
  ⟨r, h1, h2, h3, h4⟩

theorem ProcessUprEventForFiltering_releaseFunc (c : FilterBase) (snappy : Snappy)
    (uprEvent : UprEvent) (dp : DataPoolIface) (flags : Nat) (st : FilterState)
    (r : FilterResult)
    (h : ProcessUprEventForFiltering c snappy (some uprEvent) (some dp) flags st = some r) :
    r.releaseFunc = true ∧ (releaseFunc r.state).2.slicesToBeReleased = [] := by
  refine ⟨?_, rfl⟩
  unfold ProcessUprEventForFiltering at h
  simp only at h
  repeat' split at h
  all_goals (cases h <;> rfl)

/-! ## A value that is an xattr section and no document -/

theorem xattrEntries_getLast (entries : List (List Nat × List Nat)) (hne : entries ≠ []) :
    (xattrEntries entries).getLast? = some 0 := by
  induction entries with
  | nil => exact absurd rfl hne
  | cons e rest ih =>
    cases rest with
    | nil =>
      rw [xattrEntries, xattrEntries, List.append_nil, xattrEntry,
        List.getLast?_append_of_ne_nil _ (by simp)]
      rfl
    | cons e' rest' =>
      have h := ih (by simp)
      have hne' : xattrEntries (e' :: rest') ≠ [] := by
        intro hnil
        rw [hnil] at h
        cases h
      rw [xattrEntries, List.getLast?_append_of_ne_nil _ hne']
      exact h

theorem xattrSection_getLast (entries : List (List Nat × List Nat)) :
    (xattrSection entries).getLast? = some 0 := by
  cases entries with
  | nil => simp [xattrSection, xattrEntries, uint32Bytes]
  | cons e rest =>
    have h := xattrEntries_getLast (e :: rest) (by simp)
    have hne : xattrEntries (e :: rest) ≠ [] := by
      intro hnil
      rw [hnil] at h
      cases h
    rw [xattrSection, List.getLast?_append_of_ne_nil _ hne]
    exact h

/-- C21, on the code: the value made of the xattr section with the one xattribute k = v,
followed by no document, is rejected with ErrorInvalidInput by ProcessUprEventForFiltering
for an event with the XATTR data type. -/
theorem ProcessUprEventForFiltering_rejects_xattr_without_document :
    xattrSection [([107], [118])] = [0, 0, 0, 8, 0, 0, 0, 4, 107, 0, 118, 0] ∧
    ProcessUprEventForFiltering
        ⟨20971520, 10, 10, 1, 2, 4, [], 0, [], 0, [120], fun _ _ _ _ _ _ _ => none,
          fun _ _ _ _ _ => none⟩
        ⟨fun _ => Except.ok 0, fun _ => Except.ok []⟩
        (some ⟨4, [100], xattrSection [([107], [118])]⟩)
        (some ⟨fun _ size => Except.ok (List.replicate size 0, size)⟩) 0 ⟨[], 0⟩ =
      some ⟨none, some Error.ErrorInvalidInput, true, 0, ⟨[], 0⟩⟩ := by
  refine ⟨by decide, by decide⟩

/-- C21, amended: for an event with the XATTR data type whose body (the decoded block for
a Snappy data type, the value otherwise) is a well-formed xattr section followed by a
document of zero bytes, filtered with the key-only flag clear, ProcessUprEventForFiltering
returns ErrorInvalidInput and a nil body: the last byte of the body is the NUL byte that
ends the section (or the last byte of its size when it has no xattribute), not a closing
brace. -/
theorem ProcessUprEventForFiltering_xattr_without_document (c : FilterBase)
    (snappy : Snappy) (uprEvent : UprEvent) (dp : DataPoolIface) (flags : Nat)
    (st : FilterState) (entries : List (List Nat × List Nat))
    (hflag : flags &&& c.FilterFlagKeyOnly = 0)
    (htype : uprEvent.DataType &&& XattrDataType > 0)
    (hbody : if uprEvent.DataType &&& SnappyDataType > 0 then
        snappy.header uprEvent.Value = Except.ok (xattrSection entries).length ∧
          snappy.block uprEvent.Value = Except.ok (xattrSection entries)
      else uprEvent.Value = xattrSection entries) :
    ∃ r, ProcessUprEventForFiltering c snappy (some uprEvent) (some dp) flags st = some r ∧
      r.err = some Error.ErrorInvalidInput ∧ r.body = none ∧ r.releaseFunc = true := by
  have hlast := xattrSection_getLast entries
  by_cases hc : uprEvent.DataType &&& SnappyDataType > 0
  · rw [if_pos hc] at hbody
    obtain ⟨r, hr, -, herr⟩ := decompressSnappyBody_not_json c snappy dp uprEvent.Value
      uprEvent.Key (xattrSection entries) st 0 hbody.1 hbody.2 hlast (by decide)
    have hres := ProcessUprEventForFiltering_of_body_error c snappy uprEvent dp flags st r
      hflag (Or.inl htype) (by rw [if_pos hc]; exact hr) (by rw [herr]; simp)
    exact ⟨_, hres, herr, rfl, rfl⟩
  · rw [if_neg hc] at hbody
    have hprep := getBodySlice_not_json c dp uprEvent.Value uprEvent.Key st 0
      (by rw [hbody]; exact hlast) (by decide)
    have hres := ProcessUprEventForFiltering_of_body_error c snappy uprEvent dp flags st _
      hflag (Or.inl htype) (by rw [if_neg hc]; exact hprep) (by simp)
    exact ⟨_, hres, rfl, rfl, rfl⟩

theorem ProcessUprEventForFiltering_xattr_without_document_witness :
    ∃ r, ProcessUprEventForFiltering
        ⟨20971520, 10, 10, 1, 2, 4, [], 0, [], 0, [120], fun _ _ _ _ _ _ _ => none,
          fun _ _ _ _ _ => none⟩
        ⟨fun _ => Except.ok 0, fun _ => Except.ok []⟩
        (some ⟨4, [100], xattrSection []⟩)
        (some ⟨fun _ size => Except.ok (List.replicate size 0, size)⟩) 0 ⟨[], 0⟩ = some r ∧
      r.err = some Error.ErrorInvalidInput ∧ r.body = none ∧ r.releaseFunc = true :=
  ProcessUprEventForFiltering_xattr_without_document
    ⟨20971520, 10, 10, 1, 2, 4, [], 0, [], 0, [120], fun _ _ _ _ _ _ _ => none,
      fun _ _ _ _ _ => none⟩
    ⟨fun _ => Except.ok 0, fun _ => Except.ok []⟩
    ⟨4, [100], xattrSection []⟩ ⟨fun _ size => Except.ok (List.replicate size 0, size)⟩
    0 ⟨[], 0⟩ [] (by decide) (by decide) (by rw [if_neg (by decide)])

/-! ## Filtering on the key only -/

theorem ProcessUprEventForFiltering_of_key_only (c : FilterBase) (snappy : Snappy)
    (uprEvent : UprEvent) (dp : DataPoolIface) (flags : Nat) (st : FilterState)
    (hkey : flags &&& c.FilterFlagKeyOnly ≠ 0) :
    ProcessUprEventForFiltering c snappy (some uprEvent) (some dp) flags st =
      if flags &&& c.FilterFlagSkipKey > 0 then
        some ⟨none, some Error.FilterForcePassThrough, true, 0, st⟩
      else
        match processKeyOnlyForFiltering c dp uprEvent.Key st with
        | none => none
        | some k =>
          some ⟨some k.1, none, true, if k.2.1 > 0 then wrapInt64 (0 + k.2.1) else 0, k.2.2⟩ := by
  unfold ProcessUprEventForFiltering
  have hneed : (decide (flags &&& c.FilterFlagKeyOnly = 0 ∧
      ((decide (uprEvent.DataType &&& XattrDataType > 0) : Bool) = true ∨
        uprEvent.DataType &&& JSONDataType > 0))) = false := by
    rw [decide_eq_false_iff_not]
    exact fun h => hkey h.1
  simp only [hneed, Bool.false_eq_true, if_false, ne_eq, not_true_eq_false, false_and,
    not_false_eq_true, if_true]
  by_cases hs : flags &&& c.FilterFlagSkipKey > 0
  · simp only [decide_eq_true hs, not_true_eq_false, if_false, if_pos hs]
  · simp only [decide_eq_false hs, Bool.false_eq_true, not_false_eq_true, if_true, if_neg hs]

/-- C22: with the key-only flag set, ProcessUprEventForFiltering does not look at the
value (nor at the data type, 0 included): two events with the same key give the same
result, panics included, whatever their values; a result returned carries
FilterForcePassThrough when the skip-key flag is also set and no error otherwise, hence
never ErrorInvalidInput nor ErrorFilterParsingError; and the call returns exactly when the
skip-key flag is set or the construction of the body from the key returns. -/
theorem key_only_filtering_ignores_value (c : FilterBase) (snappy : Snappy)
    (dp : DataPoolIface) (dataType : Nat) (key value1 value2 : List Nat) (flags : Nat)
    (st : FilterState) (hkey : flags &&& c.FilterFlagKeyOnly ≠ 0) :
    ProcessUprEventForFiltering c snappy (some ⟨dataType, key, value1⟩) (some dp) flags st =
        ProcessUprEventForFiltering c snappy (some ⟨dataType, key, value2⟩) (some dp) flags st ∧
      (∀ r, ProcessUprEventForFiltering c snappy (some ⟨dataType, key, value1⟩) (some dp)
          flags st = some r →
        r.err = (if flags &&& c.FilterFlagSkipKey > 0 then some Error.FilterForcePassThrough
          else none) ∧
        r.err ≠ some Error.ErrorInvalidInput ∧ r.err ≠ some Error.ErrorFilterParsingError) ∧
      ((∃ r, ProcessUprEventForFiltering c snappy (some ⟨dataType, key, value1⟩) (some dp)
          flags st = some r) ↔
        (flags &&& c.FilterFlagSkipKey > 0 ∨
          processKeyOnlyForFiltering c dp key st ≠ none)) := by
  have h1 := ProcessUprEventForFiltering_of_key_only c snappy ⟨dataType, key, value1⟩ dp
    flags st hkey
  have h2 := ProcessUprEventForFiltering_of_key_only c snappy ⟨dataType, key, value2⟩ dp
    flags st hkey
  refine ⟨h1.trans h2.symm, ?_, ?_⟩
  · intro r hr
    rw [h1] at hr
    by_cases hs : flags &&& c.FilterFlagSkipKey > 0
    · rw [if_pos hs] at hr
      injection hr with hr
      subst hr
      simp [hs]
    · rw [if_neg hs] at hr
      cases hk : processKeyOnlyForFiltering c dp key st with
      | none => simp only [hk] at hr; cases hr
      | some k =>
        simp only [hk] at hr
        injection hr with hr
        subst hr
        simp [hs]
  · rw [h1]
    by_cases hs : flags &&& c.FilterFlagSkipKey > 0
    · simp [hs]
    · rw [if_neg hs]
      cases hk : processKeyOnlyForFiltering c dp key st with
      | none => simp [hs]
      | some k => simp [hs]

theorem key_only_filtering_ignores_value_witness :
    ProcessUprEventForFiltering
        ⟨20971520, 10, 10, 1, 2, 4, [], 0, [], 0, [120], fun _ _ _ _ _ _ _ => none,
          fun _ _ _ _ _ => none⟩
        ⟨fun _ => Except.ok 0, fun _ => Except.ok []⟩
        (some ⟨0, [107], []⟩) (some ⟨fun _ _ => Except.error (Error.external "pool")⟩)
        4 ⟨[], 0⟩ =
      ProcessUprEventForFiltering
        ⟨20971520, 10, 10, 1, 2, 4, [], 0, [], 0, [120], fun _ _ _ _ _ _ _ => none,
          fun _ _ _ _ _ => none⟩
        ⟨fun _ => Except.ok 0, fun _ => Except.ok []⟩
        (some ⟨0, [107], [255, 0, 1]⟩) (some ⟨fun _ _ => Except.error (Error.external "pool")⟩)
        4 ⟨[], 0⟩ :=
  (key_only_filtering_ignores_value
    ⟨20971520, 10, 10, 1, 2, 4, [], 0, [], 0, [120], fun _ _ _ _ _ _ _ => none,
      fun _ _ _ _ _ => none⟩
    ⟨fun _ => Except.ok 0, fun _ => Except.ok []⟩
    ⟨fun _ _ => Except.error (Error.external "pool")⟩ 0 [107] [] [255, 0, 1] 4 ⟨[], 0⟩
    (by decide)).1

theorem processKeyOnlyForFiltering_of_pool_error (c : FilterBase) (dp : DataPoolIface)
    (key : List Nat) (st : FilterState) (e : Error)
    (hpool : dp.GetByteSlice st.poolCalls (wrapUint64 ((key.length : Int) + 2)) =
      Except.error e) :
    processKeyOnlyForFiltering c dp key st =
      some (⟨[123, 34] ++ c.ExternalKeyKey ++ [34, 58, 34] ++ key ++ [34, 125],
          ([123, 34] ++ c.ExternalKeyKey ++ [34, 58, 34] ++ key ++ [34, 125]).length,
          SliceOrigin.heap⟩,
        ((([123, 34] ++ c.ExternalKeyKey ++ [34, 58, 34] ++ key ++ [34, 125]).length : Nat) : Int),
        ⟨st.slicesToBeReleased, st.poolCalls + 1⟩) := by
  unfold processKeyOnlyForFiltering
  simp only [DataPoolIface.get, hpool]

/-! ## The HELO round trip -/

theorem featureWord_value (v : Nat) (h : v < 65536) : v / 256 % 256 * 256 + v % 256 = v := by
  omega

/-- C28: for feature codes that are three different `uint16` values and compression types
None and Snappy that differ, and for requested features whose compression type is None or
Snappy, ComposeHELORequest returns a request, and SendHELOWithFeatures, when the server
answers with status SUCCESS and the body of the request, returns the requested features and
no error. -/
theorem HELO_round_trip (c : HeloConstants) (userAgent : String) (f : HELOFeatures)
    (hcodes : c.HELO_FEATURE_TCP_NO_DELAY < 65536 ∧ c.HELO_FEATURE_XATTR < 65536 ∧
      c.HELO_FEATURE_SNAPPY < 65536)
    (hdistinct : c.HELO_FEATURE_TCP_NO_DELAY ≠ c.HELO_FEATURE_XATTR ∧
      c.HELO_FEATURE_TCP_NO_DELAY ≠ c.HELO_FEATURE_SNAPPY ∧
      c.HELO_FEATURE_XATTR ≠ c.HELO_FEATURE_SNAPPY)
    (hnone : c.CompressionTypeNone ≠ c.CompressionTypeSnappy)
    (hknown : f.CompressionType = c.CompressionTypeNone ∨
      f.CompressionType = c.CompressionTypeSnappy) :
    ∃ heloReq, ComposeHELORequest c userAgent f = some heloReq ∧
      SendHELOWithFeatures c (fun req => Except.ok ⟨SUCCESS, req.Body⟩) userAgent f =
        some (f, none) := by
  have hreq := ComposeHELORequest_of_known_compression c userAgent f hnone hknown
  refine ⟨_, hreq, ?_⟩
  obtain ⟨h1, h2, h3⟩ := hcodes
  obtain ⟨d1, d2, d3⟩ := hdistinct
  have w1 := featureWord_value _ h1
  have w2 := featureWord_value _ h2
  have w3 := featureWord_value _ h3
  have d3' : c.HELO_FEATURE_SNAPPY ≠ c.HELO_FEATURE_XATTR := fun e => d3 e.symm
  have hn' : c.CompressionTypeSnappy ≠ c.CompressionTypeNone := fun e => hnone e.symm
  unfold SendHELOWithFeatures
  rw [hreq]
  obtain ⟨x, ct⟩ := f
  simp only at hknown ⊢
  rcases hknown with h | h <;> subst h <;> cases x <;>
    simp [SendHELOWithFeatures.loop, Uint16, featureWord, w1, w2, w3, d1, d2, d3, d3', hnone,
      hn', SUCCESS]

theorem HELO_round_trip_witness :
    ∃ heloReq, ComposeHELORequest ⟨3, 6, 10, 1, 2⟩ "xdcr" ⟨true, 2⟩ = some heloReq ∧
      SendHELOWithFeatures ⟨3, 6, 10, 1, 2⟩ (fun req => Except.ok ⟨SUCCESS, req.Body⟩) "xdcr"
        ⟨true, 2⟩ = some (⟨true, 2⟩, none) :=
  HELO_round_trip ⟨3, 6, 10, 1, 2⟩ "xdcr" ⟨true, 2⟩ (by decide) (by decide) (by decide)
    (by decide)

/-! ## HandleDataTypeConversionAfterUnmarshalling applied twice -/

theorem GoMap.WF_delete {κ α : Type} [DecidableEq κ] (m : GoMap κ α) (k : κ)
    (hwf : m.WF) : (GoMap.delete m k).WF := by
  unfold GoMap.WF GoMap.delete at *
  exact List.Nodup.sublist (List.Sublist.map _ (List.filter_sublist _)) hwf

theorem GoMap.WF_delete_fold {κ α β : Type} [DecidableEq κ] (l : List (κ × β))
    (m : GoMap κ α) (hwf : m.WF) :
    GoMap.WF (l.foldl (fun vs problematic => GoMap.delete vs problematic.1) m) := by
  induction l generalizing m with
  | nil => exact hwf
  | cons e l ih => exact ih _ (GoMap.WF_delete m e.1 hwf)

theorem HandleDataTypeConversionAfterUnmarshalling.WF_result (s s' : Settings)
    (hwf : s.Values.WF) (h : s.HandleDataTypeConversionAfterUnmarshalling = some s') :
    s'.Values.WF := by
  unfold Settings.HandleDataTypeConversionAfterUnmarshalling at h
  simp only at h
  cases hf : s.Values.foldlM
      (HandleDataTypeConversionAfterUnmarshalling.step (s.configMapRetriever ()))
      (s.Values, []) with
  | none => rw [hf] at h; cases h
  | some st' =>
    rw [hf] at h
    have hkeys := HandleDataTypeConversionAfterUnmarshalling.fold_keys _ _ _ _ hf
      (fun e he => by
        obtain ⟨k, v⟩ := e
        rw [GoMap.get_of_mem s.Values hwf k v he]
        simp)
    have hwf' : GoMap.WF st'.1 := by
      unfold GoMap.WF
      rw [hkeys]
      exact hwf
    simp only at h
    split at h
    · injection h with h
      subst h
      exact GoMap.WF_delete_fold _ _ hwf'
    · injection h with h
      subst h
      exact hwf'

/-- C29, on the code: with the schema of one integer setting n, a first pass converts the
value float64 5 of n to the int 5 and a second pass removes n, so that two passes do not
leave what one pass leaves. -/
theorem HandleDataTypeConversionAfterUnmarshalling_second_pass_drops_int :
    ∃ s1 s2, Settings.HandleDataTypeConversionAfterUnmarshalling
        ⟨[("n", Value.float64 (Float64.finite 5 0))], fun _ => [("n", ⟨Value.int 0, none⟩)]⟩ =
          some s1 ∧
      s1.HandleDataTypeConversionAfterUnmarshalling = some s2 ∧
      s1.Values = [("n", Value.int 5)] ∧ s2.Values = [] :=
  ⟨_, _, rfl, rfl, by decide, by decide⟩

/-- C29, amended: provided no schema default is the nil interface, two passes of
HandleDataTypeConversionAfterUnmarshalling return, and they leave the Values of one pass
without the keys whose schema default is of kind int: such a key holds an int after the
first pass, which the second pass, that converts from float64 only, takes for a value of an
unexpected type and removes; the other keys left by the first pass keep their values. -/
theorem HandleDataTypeConversionAfterUnmarshalling_twice (s : Settings) (hwf : s.Values.WF)
    (hdef : ∀ k c, (s.configMapRetriever ()).get k = some c → c.defaultValue ≠ Value.nil) :
    ∃ s1 s2, s.HandleDataTypeConversionAfterUnmarshalling = some s1 ∧
      s1.HandleDataTypeConversionAfterUnmarshalling = some s2 ∧
      ∀ k, s2.Values.get k =
        match (s.configMapRetriever ()).get k with
        | none => none
        | some c =>
          if reflectKindOf c.defaultValue = some Kind.Int then none else s1.Values.get k := by
  obtain ⟨s1, hs1, hcfg1, hget1⟩ := HandleDataTypeConversionAfterUnmarshalling.spec s hwf
    (fun e _ => conversionOf_ne_none _ hdef e.1 e.2)
  have hwf1 := HandleDataTypeConversionAfterUnmarshalling.WF_result s s1 hwf hs1
  obtain ⟨s2, hs2, -, hget2⟩ := HandleDataTypeConversionAfterUnmarshalling.spec s1 hwf1
    (fun e _ => conversionOf_ne_none _ (by rw [hcfg1]; exact hdef) e.1 e.2)
  refine ⟨s1, s2, hs1, hs2, ?_⟩
  intro k
  rw [hget2 k, hcfg1]
  cases hc : (s.configMapRetriever ()).get k with
  | none =>
    cases h1 : s1.Values.get k with
    | none => rfl
    | some v => simp [conversionOf, hc, Conversion.result]
  | some c =>
    have hne := conversionOf_ne_none _ hdef k
    cases hk : reflectKindOf c.defaultValue with
    | none =>
      have := hne Value.nil
      simp [conversionOf, hc, hk] at this
    | some kind =>
      cases h1 : s1.Values.get k with
      | none => cases kind <;> simp
      | some v =>
        have hv := hget1 k
        rw [h1] at hv
        cases h0 : s.Values.get k with
        | none => rw [h0] at hv; cases hv
        | some v0 =>
          rw [h0] at hv
          simp only at hv
          cases kind <;> simp [conversionOf, hc, hk, Conversion.result] at hv ⊢
          cases v0 <;> simp [Conversion.result] at hv
          subst hv
          rfl

theorem HandleDataTypeConversionAfterUnmarshalling_twice_witness :
    ∃ s1 s2, Settings.HandleDataTypeConversionAfterUnmarshalling
        ⟨[("n", Value.float64 (Float64.finite 5 0)), ("b", Value.bool true)],
          fun _ => [("n", ⟨Value.int 3, none⟩), ("b", ⟨Value.bool false, none⟩)]⟩ = some s1 ∧
      s1.HandleDataTypeConversionAfterUnmarshalling = some s2 ∧
      ∀ k, s2.Values.get k =
        match GoMap.get [("n", (⟨Value.int 3, none⟩ : SettingsConfig)),
            ("b", ⟨Value.bool false, none⟩)] k with
        | none => none
        | some c =>
          if reflectKindOf c.defaultValue = some Kind.Int then none else s1.Values.get k :=
  HandleDataTypeConversionAfterUnmarshalling_twice
    ⟨[("n", Value.float64 (Float64.finite 5 0)), ("b", Value.bool true)],
      fun _ => [("n", ⟨Value.int 3, none⟩), ("b", ⟨Value.bool false, none⟩)]⟩
    (by decide)
    (by
      intro k c hc
      simp only [GoMap.get] at hc
      split at hc
      · cases hc; simp
      · split at hc
        · cases hc; simp
        · cases hc)

/-! ## The first tick -/

theorem StatsState.processRawStats_of_parts (s : StatsState) (E : GoMap String Var)
    (r : GoMap String Var × List Int) (m : GoMap String LeafVar)
    (hexp : s.expvar_stats_map = some E)
    (hloop : processRawStats.registries s.formatFloat (some s.nextOverview) s.nextRegistries
      (E, s.counters ++ [0, 0, 0]) = Except.ok r)
    (hcalc : StatsState.processCalculatedStats
      ⟨s.stats_mgr, s.nextRegistries, [], [], s.update_interval, r.2, some E, s.formatFloat⟩
      s.getOverviewRegistry
      (s.nextOverview.foldl (fun m e => publishMetricToMap m e.1 e.2 false) []) =
        Except.ok m) :
    s.processRawStats = Except.ok
      ⟨s.stats_mgr, s.nextRegistries, [], [], s.update_interval, r.2,
        some (r.1.set OVERVIEW_METRICS_KEY (Var.map m)), s.formatFloat⟩ := by
  unfold StatsState.processRawStats
  simp only [StatsState.processTimeSample_init]
  have hexp' : (s.initOverviewRegistry).expvar_stats_map = some E := by
    rw [StatsState.initOverviewRegistry_eq]
    exact hexp
  rw [hexp']
  simp only [StatsState.getOverviewRegistry, GoMap.get_set_self]
  have hloop' := hloop
  unfold StatsState.nextRegistries StatsState.nextOverview at hloop'
  rw [hloop']
  simp only [Option.getD_some]
  have hcalc' := hcalc
  unfold StatsState.nextRegistries StatsState.nextOverview at hcalc'
  simp only [StatsState.getOverviewRegistry, hexp] at hcalc' ⊢
  rw [hcalc']
  rfl

theorem processRawStats.metric_ok (formatFloat : FloatExpr → String) (ov : Registry)
    (st : GoMap String LeafVar × List Int) (e : String × Metric)
    (hov : ∀ ref, e.2 = Metric.counter ref → ∀ u, ov.get e.1 ≠ some (Metric.histogram u)) :
    ∃ st', processRawStats.metric formatFloat (some ov) none st e = Except.ok st' := by
  obtain ⟨n, metric⟩ := e
  cases metric with
  | histogram updates => exact ⟨_, rfl⟩
  | counter ref =>
    simp only [processRawStats.metric, processRawStats.check]
    cases hg : GoMap.get ov n with
    | none => exact ⟨_, rfl⟩
    | some m =>
      cases m with
      | histogram u => exact absurd hg (hov ref rfl u)
      | counter o => exact ⟨_, rfl⟩

theorem processRawStats.each_ok (formatFloat : FloatExpr → String) (ov : Registry)
    (registry : List (String × Metric)) (st : GoMap String LeafVar × List Int)
    (hov : ∀ m ∈ registry, ∀ ref, m.2 = Metric.counter ref →
      ∀ u, ov.get m.1 ≠ some (Metric.histogram u)) :
    ∃ st', processRawStats.each formatFloat (some ov) none registry st = Except.ok st' := by
  induction registry generalizing st with
  | nil => exact ⟨_, rfl⟩
  | cons e rest ih =>
    obtain ⟨st1, h1⟩ := processRawStats.metric_ok formatFloat ov st e
      (hov e (List.mem_cons_self _ _))
    obtain ⟨st2, h2⟩ := ih st1 (fun m hm => hov m (List.mem_cons_of_mem _ hm))
    refine ⟨st2, ?_⟩
    simp only [processRawStats.each, h1]
    exact h2

theorem processRawStats.registries_ok (formatFloat : FloatExpr → String) (ov : Registry)
    (regs : List (String × Registry)) (st : GoMap String Var × List Int)
    (hwf : GoMap.WF regs)
    (hfresh : ∀ e ∈ regs, e.1 ≠ OVERVIEW_METRICS_KEY → st.1.get e.1 = none)
    (hov : ∀ e ∈ regs, e.1 ≠ OVERVIEW_METRICS_KEY → ∀ m ∈ e.2, ∀ ref,
      m.2 = Metric.counter ref → ∀ u, ov.get m.1 ≠ some (Metric.histogram u)) :
    ∃ st', processRawStats.registries formatFloat (some ov) regs st = Except.ok st' := by
  induction regs generalizing st with
  | nil => exact ⟨_, rfl⟩
  | cons e rest ih =>
    obtain ⟨rn0, reg0⟩ := e
    have hw : rn0 ∉ rest.map Prod.fst ∧ GoMap.WF rest := by
      simpa [GoMap.WF] using hwf
    simp only [processRawStats.registries]
    by_cases hn : rn0 = OVERVIEW_METRICS_KEY
    · rw [if_neg (by simp [hn])]
      exact ih st hw.2 (fun e he => hfresh e (List.mem_cons_of_mem _ he))
        (fun e he => hov e (List.mem_cons_of_mem _ he))
    · rw [if_pos hn, hfresh (rn0, reg0) (List.mem_cons_self _ _) hn]
      obtain ⟨r, hr⟩ := processRawStats.each_ok formatFloat ov reg0 ([], st.2)
        (hov (rn0, reg0) (List.mem_cons_self _ _) hn)
      rw [hr]
      refine ih _ hw.2 (fun e he hne => ?_) (fun e he => hov e (List.mem_cons_of_mem _ he))
      have hrn : rn0 ≠ e.1 := by
        intro hh
        exact hw.1 (List.mem_map.mpr ⟨e, he, hh.symm⟩)
      rw [GoMap.get_set_ne _ _ _ _ hrn]
      exact hfresh e (List.mem_cons_of_mem _ he) hne

theorem StatsState.processCalculatedStats_of_zero_old (s : StatsState)
    (ov oldSample : Registry) (m0 : GoMap String LeafVar) (dwRef drRef oldDw oldDr : Nat)
    (hov : s.getOverviewRegistry = some ov)
    (hdw : ov.get DOCS_WRITTEN_METRIC = some (Metric.counter dwRef))
    (hdr : ov.get DATA_REPLICATED_METRIC = some (Metric.counter drRef))
    (holdDw : oldSample.get DOCS_WRITTEN_METRIC = some (Metric.counter oldDw))
    (holdDr : oldSample.get DATA_REPLICATED_METRIC = some (Metric.counter oldDr))
    (hzero : Counter.Count s.counters oldDw = 0)
    (hrange : wrapInt64 (Counter.Count s.counters dwRef) = Counter.Count s.counters dwRef)
    (hcl : s.stats_mgr.calculateChangesLeft (Counter.Count s.counters dwRef) ≠ none) :
    ∃ m, s.processCalculatedStats (some oldSample) m0 = Except.ok m ∧
      m.get RATE_REPLICATED = some (LeafVar.float
        (FloatExpr.perSecond (Counter.Count s.counters dwRef) s.update_interval)) := by
  unfold StatsState.processCalculatedStats
  simp only [hov, Registry.counterCount, hdw, hdr, holdDw, holdDr, hzero, sub_zero, hrange]
  cases hc : s.stats_mgr.calculateChangesLeft (Counter.Count s.counters dwRef) with
  | none => exact absurd hc hcl
  | some res =>
    obtain ⟨changes_left_val, err⟩ := res
    simp only
    refine ⟨_, rfl, ?_⟩
    rw [GoMap.get_set_ne _ _ _ _ (by decide), GoMap.get_set_self]

theorem StatsState.nextOverview_histogram (s : StatsState) (n : String) (u : List Int)
    (h : GoMap.get s.nextOverview n = some (Metric.histogram u)) :
    n = DOCS_LATENCY_METRIC := by
  unfold StatsState.nextOverview at h
  simp only [GoMap.get] at h
  split_ifs at h with c1 c2 c3 c4
  all_goals first
    | exact c4.symm
    | cases h

/-- C25, on the code: without an Overview registry from an earlier initialisation, and
with one that has no docs_written counter, processRawStats panics, on the nil old sample
in the first case and on the type assertion of the missing counter in the second. -/
theorem processRawStats_panics_without_old_sample :
    (StatsState.mk ⟨[], [], []⟩ [("xmem1", [("docs_written", Metric.counter 0)])]
        [] [] 1000000000 [5] (some []) (fun _ => "")).processRawStats =
      Except.error Panic.nilDereference ∧
    (StatsState.mk ⟨[], [], []⟩
        [("xmem1", [("docs_written", Metric.counter 0)]), ("Overview", [])]
        [] [] 1000000000 [5] (some []) (fun _ => "")).processRawStats =
      Except.error Panic.typeAssertion :=
  ⟨rfl, rfl⟩

theorem processRawStats_returns_of_zero_old (s : StatsState) (E : GoMap String Var) (old : Registry)
    (oldDw oldDr : Nat) (hwf : GoMap.WF s.registries)
    (hexp : s.expvar_stats_map = some E)
    (hfresh : ∀ e ∈ s.registries, e.1 ≠ OVERVIEW_METRICS_KEY → E.get e.1 = none)
    (hnames : ∀ e ∈ s.registries, e.1 ≠ OVERVIEW_METRICS_KEY → ∀ m ∈ e.2, ∀ ref,
      m.2 = Metric.counter ref → m.1 ≠ DOCS_LATENCY_METRIC)
    (hrefs : ∀ e ∈ s.registries, e.1 ≠ OVERVIEW_METRICS_KEY → ∀ m ∈ e.2, ∀ ref,
      m.2 = Metric.counter ref → ref < s.counters.length)
    (hcl : ∀ d, s.stats_mgr.calculateChangesLeft d ≠ none)
    (hold : s.getOverviewRegistry = some old)
    (holdDw : old.get DOCS_WRITTEN_METRIC = some (Metric.counter oldDw))
    (holdDr : old.get DATA_REPLICATED_METRIC = some (Metric.counter oldDr))
    (hlen : oldDw < s.counters.length)
    (hzero : Counter.Count s.counters oldDw = 0) :
    ∃ s' docs_written E' overview_map, s.processRawStats = Except.ok s' ∧
      Registry.counterCount s'.counters s'.getOverviewRegistry DOCS_WRITTEN_METRIC =
        Except.ok docs_written ∧
      s'.expvar_stats_map = some E' ∧
      E'.get OVERVIEW_METRICS_KEY = some (Var.map overview_map) ∧
      overview_map.get RATE_REPLICATED =
        some (LeafVar.float (FloatExpr.perSecond docs_written s.update_interval)) := by
  have hmem : ∀ e ∈ s.nextRegistries, e.1 ≠ OVERVIEW_METRICS_KEY → e ∈ s.registries := by
    intro e he hne
    unfold StatsState.nextRegistries at he
    rcases GoMap.mem_set _ _ _ _ he with h1 | h1
    · exact absurd (by rw [h1]) hne
    · rcases GoMap.mem_set _ _ _ _ h1 with h2 | h2
      · exact absurd (by rw [h2]) hne
      · exact h2
  have hwf' : GoMap.WF s.nextRegistries := GoMap.WF_set _ _ _ (GoMap.WF_set _ _ _ hwf)
  obtain ⟨r, hr⟩ := processRawStats.registries_ok s.formatFloat s.nextOverview
    s.nextRegistries (E, s.counters ++ [0, 0, 0]) hwf'
    (fun e he hne => hfresh e (hmem e he hne) hne)
    (fun e he hne m hm ref href u hu =>
      hnames e (hmem e he hne) hne m hm ref href (StatsState.nextOverview_histogram s _ u hu))
  obtain ⟨hgetDw, hinj⟩ := processRawStats.overview_inj s.counters.length
    (processTimeSample.loop s.endtime_map s.starttime_map []) DOCS_WRITTEN_METRIC
    s.counters.length (Or.inl ⟨rfl, rfl⟩)
  obtain ⟨hgetDr, -⟩ := processRawStats.overview_inj s.counters.length
    (processTimeSample.loop s.endtime_map s.starttime_map []) DATA_REPLICATED_METRIC
    (s.counters.length + 1) (Or.inr (Or.inl ⟨rfl, rfl⟩))
  obtain ⟨-, k2, k3, -⟩ := processRawStats.registries_spec s.formatFloat s.nextOverview
    DOCS_WRITTEN_METRIC s.counters.length s.counters.length (s.counters ++ [0, 0, 0])
    hgetDw hinj s.nextRegistries (E, s.counters ++ [0, 0, 0]) r
    (fun e he hne => hrefs e (hmem e he hne) hne)
    (by simp only [List.length_append, List.length_cons, List.length_nil]; omega)
    (by
      simp only [Counter.Count_append_new _ _ (le_refl _)]
      decide)
    (fun _ _ => rfl) hr
  have hz : Counter.Count r.2 oldDw = 0 := by
    rw [k3 oldDw hlen, Counter.Count_append_old _ _ hlen]
    exact hzero
  obtain ⟨m, hm, hrate⟩ := StatsState.processCalculatedStats_of_zero_old
    ⟨s.stats_mgr, s.nextRegistries, [], [], s.update_interval, r.2, some E, s.formatFloat⟩
    s.nextOverview old
    (s.nextOverview.foldl (fun m e => publishMetricToMap m e.1 e.2 false) [])
    s.counters.length (s.counters.length + 1) oldDw oldDr
    (GoMap.get_set_self _ _ _) hgetDw hgetDr holdDw holdDr hz k2 (hcl _)
  have hres := StatsState.processRawStats_of_parts s E r m hexp hr (by rw [hold]; exact hm)
  refine ⟨_, Counter.Count r.2 s.counters.length, _, m, hres, ?_, rfl, ?_, hrate⟩
  · have hov : StatsState.getOverviewRegistry
        ⟨s.stats_mgr, s.nextRegistries, [], [], s.update_interval, r.2,
          some (r.1.set OVERVIEW_METRICS_KEY (Var.map m)), s.formatFloat⟩ =
        some s.nextOverview := GoMap.get_set_self _ _ _
    have hgetDw' : GoMap.get s.nextOverview DOCS_WRITTEN_METRIC =
        some (Metric.counter s.counters.length) := hgetDw
    rw [hov]
    simp only [Registry.counterCount, hgetDw']
  · exact GoMap.get_set_self _ _ _

/-! ## GetServerVBucketsMap -/

theorem GetServerVBucketsMap.servers_of_strings (servers : List String) :
    GetServerVBucketsMap.servers (servers.map JsonValue.string) = some servers := by
  induction servers with
  | nil => rfl
  | cons s rest ih => simp [GetServerVBucketsMap.servers, ih]

theorem masterServer_ne_none_iff (servers : List String) (entry : JsonValue) :
    masterServer servers entry ≠ none ↔
      ∃ indexInt, masterIndex entry = some indexInt ∧ 0 ≤ indexInt ∧
        indexInt < (servers.length : Int) := by
  unfold masterServer
  cases hm : masterIndex entry with
  | none => simp
  | some indexInt =>
    simp only [Option.some.injEq, exists_eq_left']
    by_cases hr : 0 ≤ indexInt ∧ indexInt < (servers.length : Int)
    · rw [if_pos hr]
      have hlt : indexInt.toNat < servers.length := by omega
      simp [List.getElem?_eq_getElem hlt, hr]
    · rw [if_neg hr]
      simp only [ne_eq, not_true_eq_false, false_iff]
      exact hr

theorem GetServerVBucketsMap.loop_step_some (servers : List String) (entry : JsonValue)
    (rest : List JsonValue) (vbno : Nat) (m : GoMap String (List Nat)) (server : String)
    (h : masterServer servers entry = some server) :
    GetServerVBucketsMap.loop servers (entry :: rest) vbno m =
      GetServerVBucketsMap.loop servers rest (vbno + 1)
        (m.set server ((m.get server).getD [] ++ [vbno % 65536])) := by
  unfold masterServer at h
  cases entry with
  | array items =>
    cases items with
    | nil => simp [masterIndex] at h
    | cons first tail =>
      cases first with
      | number f =>
        simp only [masterIndex] at h
        by_cases hr : 0 ≤ f.toInt ∧ f.toInt < (servers.length : Int)
        · rw [if_pos hr] at h
          have hlt : f.toInt.toNat < servers.length := by omega
          have hget : servers.getD f.toInt.toNat "" = server := by
            rw [List.getD_eq_getElem?_getD, h]
            rfl
          simp only [GetServerVBucketsMap.loop]
          rw [if_neg (by omega), if_neg (by omega), hget]
        · rw [if_neg hr] at h
          cases h
      | null => simp [masterIndex] at h
      | bool b => simp [masterIndex] at h
      | string s => simp [masterIndex] at h
      | array a => simp [masterIndex] at h
      | object o => simp [masterIndex] at h
  | null => simp [masterIndex] at h
  | bool b => simp [masterIndex] at h
  | number f => simp [masterIndex] at h
  | string s => simp [masterIndex] at h
  | object o => simp [masterIndex] at h

theorem GetServerVBucketsMap.loop_step_none (servers : List String) (entry : JsonValue)
    (rest : List JsonValue) (vbno : Nat) (m : GoMap String (List Nat))
    (h : masterServer servers entry = none) :
    ∃ err, GetServerVBucketsMap.loop servers (entry :: rest) vbno m = Except.error err := by
  unfold masterServer at h
  cases entry with
  | array items =>
    cases items with
    | nil => exact ⟨_, rfl⟩
    | cons first tail =>
      cases first with
      | number f =>
        simp only [masterIndex] at h
        by_cases hr : 0 ≤ f.toInt ∧ f.toInt < (servers.length : Int)
        · rw [if_pos hr] at h
          have hlt : f.toInt.toNat < servers.length := by omega
          rw [List.getElem?_eq_getElem hlt] at h
          cases h
        · simp only [GetServerVBucketsMap.loop]
          by_cases hge : f.toInt ≥ (servers.length : Int)
          · rw [if_pos hge]
            exact ⟨_, rfl⟩
          · rw [if_neg hge, if_pos (by omega)]
            exact ⟨_, rfl⟩
      | null => exact ⟨_, rfl⟩
      | bool b => exact ⟨_, rfl⟩
      | string s => exact ⟨_, rfl⟩
      | array a => exact ⟨_, rfl⟩
      | object o => exact ⟨_, rfl⟩
  | null => exact ⟨_, rfl⟩
  | bool b => exact ⟨_, rfl⟩
  | number f => exact ⟨_, rfl⟩
  | string s => exact ⟨_, rfl⟩
  | object o => exact ⟨_, rfl⟩

theorem GetServerVBucketsMap.loop_ok (servers : List String) (rest : List JsonValue)
    (vbno : Nat) (m : GoMap String (List Nat))
    (hall : ∀ entry ∈ rest, masterServer servers entry ≠ none) :
    ∃ m', GetServerVBucketsMap.loop servers rest vbno m = Except.ok m' ∧
      (m.WF → m'.WF) ∧
      ∀ server, m'.get server =
        if ownedVBuckets servers server rest vbno = [] then m.get server
        else some ((m.get server).getD [] ++ ownedVBuckets servers server rest vbno) := by
  induction rest generalizing vbno m with
  | nil => exact ⟨m, rfl, id, fun server => by simp [ownedVBuckets]⟩
  | cons entry rest ih =>
    cases hs : masterServer servers entry with
    | none => exact absurd hs (hall entry (List.mem_cons_self _ _))
    | some srv =>
      rw [GetServerVBucketsMap.loop_step_some servers entry rest vbno m srv hs]
      obtain ⟨m', hm', hwf', hget'⟩ := ih (vbno + 1)
        (GoMap.set m srv ((GoMap.get m srv).getD [] ++ [vbno % 65536]))
        (fun e he => hall e (List.mem_cons_of_mem _ he))
      refine ⟨m', hm', fun hwf => hwf' (GoMap.WF_set _ _ _ hwf), ?_⟩
      intro server
      rw [hget' server]
      by_cases hsrv : srv = server
      · subst hsrv
        simp only [GoMap.get_set_self, ownedVBuckets, hs, if_true, Option.getD_some]
        by_cases ho : ownedVBuckets servers srv rest (vbno + 1) = []
        · simp [ho]
        · simp [ho, List.append_assoc]
      · have hne : ¬ (some srv = some server) := fun h => hsrv (Option.some.inj h)
        simp only [GoMap.get_set_ne _ _ _ _ hsrv, ownedVBuckets, hs, hne, if_false,
          List.nil_append]

theorem GetServerVBucketsMap.loop_error (servers : List String) (rest : List JsonValue)
    (vbno : Nat) (m : GoMap String (List Nat))
    (hsome : ∃ entry ∈ rest, masterServer servers entry = none) :
    ∃ err, GetServerVBucketsMap.loop servers rest vbno m = Except.error err := by
  induction rest generalizing vbno m with
  | nil =>
    obtain ⟨e, he, _⟩ := hsome
    cases he
  | cons entry rest ih =>
    cases hs : masterServer servers entry with
    | none => exact GetServerVBucketsMap.loop_step_none servers entry rest vbno m hs
    | some srv =>
      rw [GetServerVBucketsMap.loop_step_some servers entry rest vbno m srv hs]
      obtain ⟨e, he, hnone⟩ := hsome
      rcases List.mem_cons.mp he with h | h
      · subst h
        rw [hs] at hnone
        cases hnone
      · exact ih _ _ ⟨e, h, hnone⟩

theorem ownedVBuckets_mem (servers : List String) (server : String) (rest : List JsonValue)
    (vbno : Nat) (hlen : vbno + rest.length ≤ 65536) (n : Nat) :
    n ∈ ownedVBuckets servers server rest vbno ↔
      ∃ j entry, rest[j]? = some entry ∧ n = vbno + j ∧
        masterServer servers entry = some server := by
  induction rest generalizing vbno with
  | nil => simp [ownedVBuckets]
  | cons e rest ih =>
    have hlen' : vbno + 1 + rest.length ≤ 65536 := by
      simp only [List.length_cons] at hlen
      omega
    have hmod : vbno % 65536 = vbno := by
      simp only [List.length_cons] at hlen
      omega
    simp only [ownedVBuckets, List.mem_append, ih (vbno + 1) hlen', hmod]
    constructor
    · rintro (h | ⟨j, entry, hj, hn, hm⟩)
      · by_cases hc : masterServer servers e = some server
        · rw [if_pos hc] at h
          simp only [List.mem_singleton] at h
          exact ⟨0, e, by simp, by omega, hc⟩
        · rw [if_neg hc] at h
          cases h
      · exact ⟨j + 1, entry, by simpa using hj, by omega, hm⟩
    · rintro ⟨j, entry, hj, hn, hm⟩
      cases j with
      | zero =>
        simp only [List.getElem?_cons_zero, Option.some.injEq] at hj
        subst hj
        left
        rw [if_pos hm]
        simp [hn]
      | succ j =>
        right
        exact ⟨j, entry, by simpa using hj, by omega, hm⟩

theorem ownedVBuckets_sorted (servers : List String) (server : String)
    (rest : List JsonValue) (vbno : Nat) (hlen : vbno + rest.length ≤ 65536) :
    (ownedVBuckets servers server rest vbno).Pairwise (· < ·) := by
  induction rest generalizing vbno with
  | nil => simp [ownedVBuckets]
  | cons e rest ih =>
    have hlen' : vbno + 1 + rest.length ≤ 65536 := by
      simp only [List.length_cons] at hlen
      omega
    have hmod : vbno % 65536 = vbno := by
      simp only [List.length_cons] at hlen
      omega
    have ih' := ih (vbno + 1) hlen'
    simp only [ownedVBuckets, hmod]
    by_cases hc : masterServer servers e = some server
    · rw [if_pos hc]
      simp only [List.singleton_append, List.pairwise_cons]
      refine ⟨fun n hn => ?_, ih'⟩
      obtain ⟨j, _, _, hj, _⟩ := (ownedVBuckets_mem servers server rest (vbno + 1) hlen' n).mp hn
      omega
    · rw [if_neg hc]
      simpa using ih'

/-- C24, amended: for a bucket info whose server list holds the names S and whose vBucket
map M has at most 65536 entries, GetServerVBucketsMap succeeds exactly when every entry of M is
a list that starts with a number whose conversion to int is an index of S (it fails for an
empty entry and for a master index that is negative or at least len(S)); and when it
succeeds, the map returned holds no server twice, every vBucket number i below len(M) is
in the list of the server S[int(M[i][0])], every number in the list of a server is the
number of a vBucket of M whose master is that server, and every list is in strictly
increasing order. -/
theorem GetServerVBucketsMap_owner_lists (keys : BucketInfoKeys)
    (bucketInfo vbucketServerMap : GoMap String JsonValue) (servers : List String)
    (vbucketMap : List JsonValue)
    (h1 : bucketInfo.get keys.VBucketServerMapKey = some (JsonValue.object vbucketServerMap))
    (h2 : GoMap.get vbucketServerMap keys.ServerListKey =
      some (JsonValue.array (servers.map JsonValue.string)))
    (h3 : GoMap.get vbucketServerMap keys.VBucketMapKey = some (JsonValue.array vbucketMap))
    (hlen : vbucketMap.length ≤ 65536) :
    ((∃ m, GetServerVBucketsMap keys bucketInfo = Except.ok m) ↔
      ∀ entry ∈ vbucketMap, ∃ indexInt, masterIndex entry = some indexInt ∧ 0 ≤ indexInt ∧
        indexInt < (servers.length : Int)) ∧
    ∀ m, GetServerVBucketsMap keys bucketInfo = Except.ok m →
      m.WF ∧
      (∀ (i : Nat) entry, vbucketMap[i]? = some entry →
        ∃ server l, masterServer servers entry = some server ∧
          m.get server = some l ∧ i ∈ l) ∧
      (∀ server l, m.get server = some l →
        l.Pairwise (· < ·) ∧
        ∀ n ∈ l, ∃ entry, vbucketMap[n]? = some entry ∧
          masterServer servers entry = some server) := by
  have hrun : GetServerVBucketsMap keys bucketInfo =
      GetServerVBucketsMap.loop servers vbucketMap 0 [] := by
    unfold GetServerVBucketsMap
    simp only [h1, h2, h3, GetServerVBucketsMap.servers_of_strings]
  rw [hrun]
  have hlen0 : 0 + vbucketMap.length ≤ 65536 := by omega
  by_cases hall : ∀ entry ∈ vbucketMap, masterServer servers entry ≠ none
  · obtain ⟨m', hm', hwf', hget'⟩ := GetServerVBucketsMap.loop_ok servers vbucketMap 0 [] hall
    refine ⟨⟨fun _ entry he => (masterServer_ne_none_iff servers entry).mp (hall entry he),
      fun _ => ⟨m', hm'⟩⟩, ?_⟩
    intro m hm
    rw [hm'] at hm
    injection hm with hm
    subst hm
    refine ⟨hwf' (by simp [GoMap.WF]), ?_, ?_⟩
    · intro i entry hi
      cases hs : masterServer servers entry with
      | none => exact absurd hs (hall entry (List.mem_iff_getElem?.mpr ⟨i, hi⟩))
      | some server =>
        have hmem : i ∈ ownedVBuckets servers server vbucketMap 0 :=
          (ownedVBuckets_mem servers server vbucketMap 0 hlen0 i).mpr
            ⟨i, entry, hi, by omega, hs⟩
        have hne : ownedVBuckets servers server vbucketMap 0 ≠ [] := by
          intro hnil
          rw [hnil] at hmem
          cases hmem
        refine ⟨server, _, rfl, ?_, hmem⟩
        rw [hget' server, if_neg hne]
        simp [GoMap.get]
    · intro server l hl
      rw [hget' server] at hl
      by_cases hne : ownedVBuckets servers server vbucketMap 0 = []
      · rw [if_pos hne] at hl
        simp [GoMap.get] at hl
      · rw [if_neg hne] at hl
        simp only [GoMap.get, Option.getD_none, List.nil_append, Option.some.injEq] at hl
        subst hl
        refine ⟨ownedVBuckets_sorted servers server vbucketMap 0 hlen0, fun n hn => ?_⟩
        obtain ⟨j, entry, hj, hnj, hm⟩ :=
          (ownedVBuckets_mem servers server vbucketMap 0 hlen0 n).mp hn
        have hjn : j = n := by omega
        subst hjn
        exact ⟨entry, hj, hm⟩
  · have hsome : ∃ entry ∈ vbucketMap, masterServer servers entry = none := by
      by_contra hcon
      exact hall (fun entry he hnone => hcon ⟨entry, he, hnone⟩)
    obtain ⟨err, herr⟩ := GetServerVBucketsMap.loop_error servers vbucketMap 0 [] hsome
    refine ⟨⟨fun ⟨m, hm⟩ => ?_, fun hidx => ?_⟩, fun m hm => ?_⟩
    · rw [herr] at hm
      cases hm
    · exact absurd (fun entry he => (masterServer_ne_none_iff servers entry).mpr
        (hidx entry he)) hall
    · rw [herr] at hm
      cases hm

theorem GetServerVBucketsMap_owner_lists_witness :
    GetServerVBucketsMap ⟨"vBucketServerMap", "serverList", "vBucketMap"⟩
        [("vBucketServerMap", JsonValue.object
          [("serverList", JsonValue.array [JsonValue.string "a:11210",
              JsonValue.string "b:11210"]),
           ("vBucketMap", JsonValue.array
             [JsonValue.array [JsonValue.number (Float64.finite 1 0),
                JsonValue.number (Float64.finite 0 0)],
              JsonValue.array [JsonValue.number (Float64.finite 0 0)],
              JsonValue.array [JsonValue.number (Float64.finite 1 0)]])])] =
      Except.ok [("b:11210", [0, 2]), ("a:11210", [1])] ∧
    ((∃ m, GetServerVBucketsMap ⟨"vBucketServerMap", "serverList", "vBucketMap"⟩
        [("vBucketServerMap", JsonValue.object
          [("serverList", JsonValue.array [JsonValue.string "a:11210",
              JsonValue.string "b:11210"]),
           ("vBucketMap", JsonValue.array
             [JsonValue.array [JsonValue.number (Float64.finite 1 0),
                JsonValue.number (Float64.finite 0 0)],
              JsonValue.array [JsonValue.number (Float64.finite 0 0)],
              JsonValue.array [JsonValue.number (Float64.finite 1 0)]])])] = Except.ok m) ↔
      ∀ entry ∈ [JsonValue.array [JsonValue.number (Float64.finite 1 0),
                JsonValue.number (Float64.finite 0 0)],
              JsonValue.array [JsonValue.number (Float64.finite 0 0)],
              JsonValue.array [JsonValue.number (Float64.finite 1 0)]],
        ∃ indexInt, masterIndex entry = some indexInt ∧ 0 ≤ indexInt ∧
          indexInt < ((["a:11210", "b:11210"] : List String).length : Int)) :=
  ⟨rfl, (GetServerVBucketsMap_owner_lists ⟨"vBucketServerMap", "serverList", "vBucketMap"⟩
    [("vBucketServerMap", JsonValue.object
          [("serverList", JsonValue.array [JsonValue.string "a:11210",
              JsonValue.string "b:11210"]),
           ("vBucketMap", JsonValue.array
             [JsonValue.array [JsonValue.number (Float64.finite 1 0),
                JsonValue.number (Float64.finite 0 0)],
              JsonValue.array [JsonValue.number (Float64.finite 0 0)],
              JsonValue.array [JsonValue.number (Float64.finite 1 0)]])])]
    [("serverList", JsonValue.array [JsonValue.string "a:11210",
              JsonValue.string "b:11210"]),
           ("vBucketMap", JsonValue.array
             [JsonValue.array [JsonValue.number (Float64.finite 1 0),
                JsonValue.number (Float64.finite 0 0)],
              JsonValue.array [JsonValue.number (Float64.finite 0 0)],
              JsonValue.array [JsonValue.number (Float64.finite 1 0)]])]
    ["a:11210", "b:11210"]
    [JsonValue.array [JsonValue.number (Float64.finite 1 0),
                JsonValue.number (Float64.finite 0 0)],
              JsonValue.array [JsonValue.number (Float64.finite 0 0)],
              JsonValue.array [JsonValue.number (Float64.finite 1 0)]]
    rfl rfl rfl (by decide)).1⟩

/-! ## convertByteIndexToRuneIndex -/

theorem utf8EncodeAll_length_ge (runes : List Nat) :
    runes.length ≤ (utf8EncodeAll runes).length := by
  induction runes with
  | nil => simp [utf8EncodeAll]
  | cons r rest ih =>
    have := utf8Encode_length_pos r
    simp only [utf8EncodeAll, List.length_cons, List.length_append]
    omega

theorem runeOffsets_keys_ge (rest : List Nat) (byteIndex runeIndex : Nat) (e : Int × Int)
    (he : e ∈ runeOffsets rest byteIndex runeIndex) : (byteIndex : Int) ≤ e.1 := by
  induction rest generalizing byteIndex runeIndex with
  | nil =>
    simp only [runeOffsets, List.mem_singleton] at he
    rw [he]
  | cons r rest ih =>
    simp only [runeOffsets, List.mem_cons] at he
    rcases he with he | he
    · rw [he]
    · have := ih _ _ he
      push_cast at this
      omega

theorem runeOffsets_get_before (rest : List Nat) (byteIndex runeIndex : Nat) (b : Int)
    (hb : b < (byteIndex : Int)) : GoMap.get (runeOffsets rest byteIndex runeIndex) b = none := by
  rw [GoMap.get_eq_none_iff]
  intro hmem
  obtain ⟨e, he, hk⟩ := List.mem_map.mp hmem
  have := runeOffsets_keys_ge rest byteIndex runeIndex e he
  rw [hk] at this
  omega

theorem runeOffsets_get (rest : List Nat) (byteIndex runeIndex : Nat) (b r : Int) :
    GoMap.get (runeOffsets rest byteIndex runeIndex) b = some r ↔
      ∃ k, k ≤ rest.length ∧
        b = (byteIndex : Int) + ((utf8EncodeAll (rest.take k)).length : Int) ∧
        r = (runeIndex : Int) + (k : Int) := by
  induction rest generalizing byteIndex runeIndex with
  | nil =>
    simp only [runeOffsets, GoMap.get, List.length_nil, Nat.le_zero_eq, List.take_nil,
      utf8EncodeAll]
    constructor
    · intro h
      split at h
      · rename_i hb
        injection h with h
        exact ⟨0, rfl, by simp [← hb], by simp [← h]⟩
      · cases h
    · rintro ⟨k, hk, hb, hr⟩
      subst hk
      simp only [Nat.cast_zero, add_zero] at hb hr
      rw [if_pos hb.symm, hr]
  | cons x rest ih =>
    have hpos := utf8Encode_length_pos x
    simp only [runeOffsets, GoMap.get]
    by_cases hb : (byteIndex : Int) = b
    · rw [if_pos hb]
      constructor
      · intro h
        injection h with h
        exact ⟨0, by simp, by simp [← hb, utf8EncodeAll], by simp [← h]⟩
      · rintro ⟨k, hk, hbk, hr⟩
        cases k with
        | zero => simp at hr; rw [hr]
        | succ k =>
          exfalso
          simp only [List.take_succ_cons, utf8EncodeAll, List.length_append,
            Nat.cast_add] at hbk
          omega
    · rw [if_neg hb, ih]
      constructor
      · rintro ⟨k, hk, hbk, hr⟩
        refine ⟨k + 1, by simp [hk], ?_, ?_⟩
        · simp only [List.take_succ_cons, utf8EncodeAll, List.length_append, Nat.cast_add]
          push_cast at hbk
          omega
        · push_cast at hr ⊢
          omega
      · rintro ⟨k, hk, hbk, hr⟩
        cases k with
        | zero =>
          exfalso
          simp [utf8EncodeAll] at hbk
          exact hb hbk.symm
        | succ k =>
          refine ⟨k, by simpa using hk, ?_, ?_⟩
          · simp only [List.take_succ_cons, utf8EncodeAll, List.length_append,
              Nat.cast_add] at hbk
            push_cast
            omega
          · push_cast at hr ⊢
            omega

theorem convertByteIndexToRuneIndex.buildIndexMap_spec (rest : List Nat) (pre : List Nat)
    (fuel runeIndex : Nat) (m : GoMap Int Int)
    (hscalar : ∀ r ∈ rest, IsScalarValue r) (hfuel : rest.length < fuel) :
    ∃ m', convertByteIndexToRuneIndex.buildIndexMap (pre ++ utf8EncodeAll rest) fuel
        pre.length runeIndex m = some m' ∧
      ∀ b, m'.get b =
        match GoMap.get (runeOffsets rest pre.length runeIndex) b with
        | some r => some r
        | none => m.get b := by
  induction rest generalizing pre fuel runeIndex m with
  | nil =>
    cases fuel with
    | zero => omega
    | succ fuel =>
      simp only [convertByteIndexToRuneIndex.buildIndexMap, utf8EncodeAll, List.append_nil,
        lt_self_iff_false, if_false]
      refine ⟨_, rfl, fun b => ?_⟩
      simp only [runeOffsets, GoMap.get]
      by_cases hb : (pre.length : Int) = b
      · rw [if_pos hb, ← hb, GoMap.get_set_self]
      · rw [if_neg hb, GoMap.get_set_ne _ _ _ _ hb]
  | cons x rest ih =>
    cases fuel with
    | zero => omega
    | succ fuel =>
      have hpos := utf8Encode_length_pos x
      have hlt : pre.length < (pre ++ utf8EncodeAll (x :: rest)).length := by
        simp only [utf8EncodeAll, List.length_append]
        omega
      have hdrop : (pre ++ utf8EncodeAll (x :: rest)).drop pre.length =
          utf8Encode x ++ utf8EncodeAll rest := by
        simp [utf8EncodeAll]
      simp only [convertByteIndexToRuneIndex.buildIndexMap, hlt, if_true, hdrop,
        utf8DecodeRuneSize_encode x _ (hscalar x (List.mem_cons_self _ _))]
      have hkey : pre ++ utf8EncodeAll (x :: rest) =
          (pre ++ utf8Encode x) ++ utf8EncodeAll rest := by
        simp [utf8EncodeAll]
      have hlen : pre.length + (utf8Encode x).length = (pre ++ utf8Encode x).length := by
        simp
      rw [hkey, hlen]
      obtain ⟨m', hm', hget'⟩ := ih (pre ++ utf8Encode x) fuel (runeIndex + 1)
        (GoMap.set m (pre.length : Int) (runeIndex : Int))
        (fun r hr => hscalar r (List.mem_cons_of_mem _ hr))
        (by simp only [List.length_cons] at hfuel; omega)
      refine ⟨m', hm', fun b => ?_⟩
      rw [hget' b]
      simp only [runeOffsets, GoMap.get, ← hlen]
      by_cases hb : (pre.length : Int) = b
      · rw [if_pos hb]
        have hnone := runeOffsets_get_before rest (pre.length + (utf8Encode x).length)
          (runeIndex + 1) b (by push_cast; omega)
        rw [hnone, ← hb, GoMap.get_set_self]
      · rw [if_neg hb, GoMap.get_set_ne _ _ _ _ hb]

theorem convertByteIndexToRuneIndex.convert_ok (key : List Nat) (indexMap : GoMap Int Int)
    (matchList acc : List (List Int))
    (h : ∀ m ∈ matchList, ∃ b0 b1 c0 c1, m = [b0, b1] ∧ indexMap.get b0 = some c0 ∧
      indexMap.get b1 = some c1) :
    ∃ converted, convertByteIndexToRuneIndex.convert key indexMap matchList acc =
        some (some (acc ++ converted), none) ∧
      List.Forall₂ (fun m c => ∃ b0 b1 c0 c1, m = [b0, b1] ∧ c = [c0, c1] ∧
        indexMap.get b0 = some c0 ∧ indexMap.get b1 = some c1) matchList converted := by
  induction matchList generalizing acc with
  | nil => exact ⟨[], by simp [convertByteIndexToRuneIndex.convert], List.Forall₂.nil⟩
  | cons m rest ih =>
    obtain ⟨b0, b1, c0, c1, hm, h0, h1⟩ := h m (List.mem_cons_self _ _)
    obtain ⟨converted, hc, hall⟩ := ih (acc ++ [[c0, c1]])
      (fun m' hm' => h m' (List.mem_cons_of_mem _ hm'))
    refine ⟨[c0, c1] :: converted, ?_, List.Forall₂.cons ⟨b0, b1, c0, c1, hm, rfl, h0, h1⟩ hall⟩
    subst hm
    simp only [convertByteIndexToRuneIndex.convert, List.getElem?_cons_zero,
      List.getElem?_cons_succ, h0, h1, hc]
    simp

theorem convertByteIndexToRuneIndex.convert_err (key : List Nat) (indexMap : GoMap Int Int)
    (matchList acc : List (List Int)) (hpairs : ∀ m ∈ matchList, m.length = 2)
    (hbad : ∃ m ∈ matchList, ∃ b ∈ m, indexMap.get b = none) :
    ∃ err, convertByteIndexToRuneIndex.convert key indexMap matchList acc =
      some (none, some err) := by
  induction matchList generalizing acc with
  | nil =>
    obtain ⟨m, hm, _⟩ := hbad
    cases hm
  | cons m rest ih =>
    have hlen := hpairs m (List.mem_cons_self _ _)
    obtain ⟨b0, b1, hm⟩ : ∃ b0 b1, m = [b0, b1] := by
      match m, hlen with
      | [b0, b1], _ => exact ⟨b0, b1, rfl⟩
    subst hm
    simp only [convertByteIndexToRuneIndex.convert, List.getElem?_cons_zero,
      List.getElem?_cons_succ]
    cases h0 : GoMap.get indexMap b0 with
    | none => exact ⟨_, rfl⟩
    | some c0 =>
      simp only
      cases h1 : GoMap.get indexMap b1 with
      | none => exact ⟨_, rfl⟩
      | some c1 =>
        simp only
        refine ih _ (fun m' hm' => hpairs m' (List.mem_cons_of_mem _ hm')) ?_
        obtain ⟨m', hm', b, hb, hnone⟩ := hbad
        rcases List.mem_cons.mp hm' with hh | hh
        · subst hh
          simp only [List.mem_cons, List.mem_singleton, List.not_mem_nil, or_false] at hb
          rcases hb with hb | hb
          · rw [hb, h0] at hnone; cases hnone
          · rw [hb, h1] at hnone; cases hnone
        · exact ⟨m', hh, b, hb, hnone⟩

theorem convertByteIndexToRuneIndex.indexMap_of_text (runes : List Nat)
    (hscalar : ∀ r ∈ runes, IsScalarValue r) :
    ∃ indexMap, convertByteIndexToRuneIndex.buildIndexMap (utf8EncodeAll runes)
        ((utf8EncodeAll runes).length + 1) 0 0 [] = some indexMap ∧
      (∀ (b : Int) (k : Nat), RuneStart runes b k → indexMap.get b = some (k : Int)) ∧
      (∀ b, (∀ k, ¬ RuneStart runes b k) → indexMap.get b = none) := by
  obtain ⟨m', hm', hget⟩ := convertByteIndexToRuneIndex.buildIndexMap_spec runes [] 
    ((utf8EncodeAll runes).length + 1) 0 [] hscalar
    (by have := utf8EncodeAll_length_ge runes; omega)
  simp only [List.nil_append, List.length_nil] at hm' hget
  refine ⟨m', hm', ?_, ?_⟩
  · intro b k hk
    have h := (runeOffsets_get runes 0 0 b (k : Int)).mpr
      ⟨k, hk.1, by simpa using hk.2, by simp⟩
    rw [hget b, h]
  · intro b hno
    rw [hget b]
    cases hg : GoMap.get (runeOffsets runes 0 0) b with
    | none => simp [GoMap.get]
    | some r =>
      obtain ⟨k, hk, hb, _⟩ := (runeOffsets_get runes 0 0 b r).mp hg
      exact absurd ⟨hk, by simpa using hb⟩ (hno k)

theorem convertByteIndexToRuneIndex.rel_of_indexMap (runes : List Nat)
    (indexMap : GoMap Int Int)
    (hstart : ∀ (b : Int) (k : Nat), RuneStart runes b k → indexMap.get b = some (k : Int))
    (matchList converted : List (List Int))
    (hall : ∀ m ∈ matchList, ∃ (b0 b1 : Int) (k0 k1 : Nat), m = [b0, b1] ∧
      RuneStart runes b0 k0 ∧ RuneStart runes b1 k1)
    (hrel : List.Forall₂ (fun m c => ∃ b0 b1 c0 c1, m = [b0, b1] ∧ c = [c0, c1] ∧
      indexMap.get b0 = some c0 ∧ indexMap.get b1 = some c1) matchList converted) :
    List.Forall₂ (fun m c => ∃ (b0 b1 : Int) (k0 k1 : Nat), m = [b0, b1] ∧
      c = [(k0 : Int), (k1 : Int)] ∧ RuneStart runes b0 k0 ∧ RuneStart runes b1 k1)
      matchList converted := by
  induction hrel with
  | nil => exact List.Forall₂.nil
  | cons hhead _ ih =>
    refine List.Forall₂.cons ?_ (ih (fun m hmem => hall m (List.mem_cons_of_mem _ hmem)))
    obtain ⟨b0, b1, c0, c1, hmeq, hceq, h0, h1⟩ := hhead
    obtain ⟨b0', b1', k0, k1, hmeq', hk0, hk1⟩ := hall _ (List.mem_cons_self _ _)
    rw [hmeq] at hmeq'
    injection hmeq' with e0 e1
    injection e1 with e1 _
    subst e0 e1
    have hc0 := hstart b0 k0 hk0
    have hc1 := hstart b1 k1 hk1
    rw [h0] at hc0
    rw [h1] at hc1
    injection hc0 with hc0
    injection hc1 with hc1
    subst hc0 hc1
    exact ⟨b0, b1, k0, k1, hmeq, hceq, hk0, hk1⟩

/-- C26: for a key that is the UTF-8 encoding of a text, and a list of matches, the call
returns the list unchanged when the key or the list is empty; otherwise, when every match
is a pair of byte indices that are starts of runes of the key or its length, it returns,
in the same order, the pairs of the numbers of runes before these indices; and when every
match is a pair and some index of some match is neither, it returns an error. -/
theorem convertByteIndexToRuneIndex_on_valid_key (runes : List Nat)
    (matchList : List (List Int)) (hscalar : ∀ r ∈ runes, IsScalarValue r) :
    (runes = [] ∨ matchList = [] →
      convertByteIndexToRuneIndex (utf8EncodeAll runes) matchList =
        some (some matchList, none)) ∧
    (runes ≠ [] → matchList ≠ [] →
      (∀ m ∈ matchList, ∃ (b0 b1 : Int) (k0 k1 : Nat), m = [b0, b1] ∧
        RuneStart runes b0 k0 ∧ RuneStart runes b1 k1) →
      ∃ converted, convertByteIndexToRuneIndex (utf8EncodeAll runes) matchList =
          some (some converted, none) ∧
        List.Forall₂ (fun m c => ∃ (b0 b1 : Int) (k0 k1 : Nat), m = [b0, b1] ∧
          c = [(k0 : Int), (k1 : Int)] ∧ RuneStart runes b0 k0 ∧ RuneStart runes b1 k1)
          matchList converted) ∧
    (runes ≠ [] → matchList ≠ [] → (∀ m ∈ matchList, m.length = 2) →
      (∃ m ∈ matchList, ∃ b ∈ m, ∀ k, ¬ RuneStart runes b k) →
      ∃ err, convertByteIndexToRuneIndex (utf8EncodeAll runes) matchList =
        some (none, some err)) := by
  obtain ⟨indexMap, hbuild, hstart, hnot⟩ :=
    convertByteIndexToRuneIndex.indexMap_of_text runes hscalar
  have hne : runes ≠ [] → matchList ≠ [] →
      ¬ ((utf8EncodeAll runes).length = 0 ∨ matchList.length = 0) := by
    intro hr hm hcon
    rcases hcon with h | h
    · have := utf8EncodeAll_length_ge runes
      have hpos : 0 < runes.length := List.length_pos.mpr hr
      omega
    · exact hm (List.length_eq_zero.mp h)
  refine ⟨?_, ?_, ?_⟩
  · intro h
    unfold convertByteIndexToRuneIndex
    rw [if_pos]
    rcases h with h | h
    · left; rw [h]; rfl
    · right; rw [h]; rfl
  · intro hr hm hall
    unfold convertByteIndexToRuneIndex
    rw [if_neg (hne hr hm)]
    simp only [hbuild]
    obtain ⟨converted, hc, hrel⟩ := convertByteIndexToRuneIndex.convert_ok
      (utf8EncodeAll runes) indexMap matchList [] (fun m hmem => by
        obtain ⟨b0, b1, k0, k1, hmeq, h0, h1⟩ := hall m hmem
        exact ⟨b0, b1, k0, k1, hmeq, hstart b0 k0 h0, hstart b1 k1 h1⟩)
    refine ⟨converted, by simpa using hc, ?_⟩
    exact convertByteIndexToRuneIndex.rel_of_indexMap runes indexMap hstart matchList
      converted hall hrel
  · intro hr hm hpairs hbad
    unfold convertByteIndexToRuneIndex
    rw [if_neg (hne hr hm)]
    simp only [hbuild]
    obtain ⟨m, hmem, b, hb, hno⟩ := hbad
    exact convertByteIndexToRuneIndex.convert_err (utf8EncodeAll runes) indexMap matchList []
      hpairs ⟨m, hmem, b, hb, hnot b hno⟩

theorem convertByteIndexToRuneIndex_on_valid_key_witness :
    convertByteIndexToRuneIndex (utf8EncodeAll [233, 97]) [[0, 2], [2, 3]] =
      some (some [[0, 1], [1, 2]], none) ∧
    (∃ err, convertByteIndexToRuneIndex (utf8EncodeAll [233, 97]) [[0, 1]] =
      some (none, some err)) := by
  have h := convertByteIndexToRuneIndex_on_valid_key [233, 97] [[0, 1]]
    (by decide)
  exact ⟨by decide, h.2.2 (by decide) (by decide) (by decide)
    ⟨[0, 1], by decide, 1, by decide, fun k hk => by
      have h1 := hk.1
      have h2 := hk.2
      have hk3 : k = 0 ∨ k = 1 ∨ k = 2 := by
        simp only [List.length_cons, List.length_nil] at h1
        omega
      rcases hk3 with e | e | e <;> subst e <;> revert h2 <;> decide⟩⟩

/-! ## ExponentialBackoffExecutor with the largest maxRetries -/

theorem ExponentialBackoffExecutor.loop_of_max_int {σ : Type} (name : String)
    (factor : Int) (op : σ → Option Error × σ) (hfail : ∀ state, (op state).1 ≠ none)
    (fuel : Nat) (i : Int) (hi : i ≤ 2 ^ 63 - 1) (state : σ) (waitTime : Int)
    (opErr : Option Error) (invocations : Nat) (sleeps : List Int) :
    ExponentialBackoffExecutor.loop name (2 ^ 63 - 1) factor op fuel i state waitTime opErr
      invocations sleeps = none := by
  induction fuel generalizing i state waitTime opErr invocations sleeps with
  | zero =>
    unfold ExponentialBackoffExecutor.loop
    rw [if_pos hi]
  | succ fuel ih =>
    have hwrap : wrapInt64 (i + 1) ≤ 2 ^ 63 - 1 := by
      unfold wrapInt64
      omega
    unfold ExponentialBackoffExecutor.loop
    rw [if_pos hi]
    cases hop : op state with
    | mk e state' =>
      cases e with
      | none =>
        have := hfail state
        rw [hop] at this
        exact absurd rfl this
      | some e =>
        simp only
        split_ifs
        · exact ih _ hwrap _ _ _ _ _
        · exact ih _ hwrap _ _ _ _ _

/-- C18, on the code: with maxRetries the largest int, 2^63 - 1, the test i <= maxRetries
holds for every value of the loop counter, so with an operation that fails at every
invocation the loop has not ended after any number of iterations, and the call does not
return: the operation is invoked more than maxRetries + 1 times and no error is
returned. -/
theorem ExponentialBackoffExecutor_never_gives_up_at_max_int :
    (∀ fuel : Nat, ExponentialBackoffExecutor.loop "op" (2 ^ 63 - 1) 2
      (fun n : Nat => (some (Error.external "busy"), n + 1)) fuel 0 0 10 none 0 [] = none) ∧
    ExponentialBackoffExecutor "op" 10 (2 ^ 63 - 1) 2
      (fun n : Nat => (some (Error.external "busy"), n + 1)) 0 = none :=
  ⟨fun fuel => ExponentialBackoffExecutor.loop_of_max_int "op" 2 _
      (fun _ h => by cases h) fuel 0 (by decide) 0 10 none 0 [],
    ExponentialBackoffExecutor.loop_of_max_int "op" 2 _
      (fun _ h => by cases h) _ 0 (by decide) 0 10 none 0 []⟩

/-! ## GetServerVBucketsMap with more than 65536 vBuckets -/

theorem ownedVBuckets_of_same_master (servers : List String) (server : String)
    (entry : JsonValue) (h : masterServer servers entry = some server) (n vbno : Nat) :
    ownedVBuckets servers server (List.replicate n entry) vbno =
      (List.range' vbno n).map (· % 65536) := by
  induction n generalizing vbno with
  | zero => rfl
  | succ n ih =>
    rw [List.replicate_succ, ownedVBuckets, if_pos h, ih (vbno + 1), List.range'_succ,
      List.map_cons]
    rfl

/-- C24, on the code: for a bucket info with the one server a:11210 and a vBucket map of
65537 entries that all name it as the master, GetServerVBucketsMap succeeds and the list of
the server holds the number 0 twice, at the positions 0 and 65536, and does not hold the
vBucket number 65536: the number is stored as uint16(vbno). -/
theorem GetServerVBucketsMap_wraps_vbucket_number :
    ∃ m l, GetServerVBucketsMap ⟨"vBucketServerMap", "serverList", "vBucketMap"⟩
        [("vBucketServerMap", JsonValue.object
          [("serverList", JsonValue.array [JsonValue.string "a:11210"]),
           ("vBucketMap", JsonValue.array
             (List.replicate 65537
               (JsonValue.array [JsonValue.number (Float64.finite 0 0)])))])] =
        Except.ok m ∧
      m.get "a:11210" = some l ∧ l.length = 65537 ∧ l[0]? = some 0 ∧ l[65536]? = some 0 ∧
      65536 ∉ l := by
  have hmaster : masterServer ["a:11210"]
      (JsonValue.array [JsonValue.number (Float64.finite 0 0)]) = some "a:11210" := by
    decide
  have hrun : GetServerVBucketsMap ⟨"vBucketServerMap", "serverList", "vBucketMap"⟩
        [("vBucketServerMap", JsonValue.object
          [("serverList", JsonValue.array [JsonValue.string "a:11210"]),
           ("vBucketMap", JsonValue.array
             (List.replicate 65537
               (JsonValue.array [JsonValue.number (Float64.finite 0 0)])))])] =
      GetServerVBucketsMap.loop ["a:11210"] (List.replicate 65537
        (JsonValue.array [JsonValue.number (Float64.finite 0 0)])) 0 [] := rfl
  obtain ⟨m, hm, _, hget⟩ := GetServerVBucketsMap.loop_ok ["a:11210"]
    (List.replicate 65537 (JsonValue.array [JsonValue.number (Float64.finite 0 0)])) 0 []
    (fun entry he => by
      rw [List.eq_of_mem_replicate he, hmaster]
      exact fun h => by cases h)
  have hl := hget "a:11210"
  rw [ownedVBuckets_of_same_master _ _ _ hmaster] at hl
  have hne : List.map (· % 65536) (List.range' 0 65537) ≠ [] := by
    intro h
    have := congrArg List.length h
    simp at this
  rw [if_neg hne] at hl
  refine ⟨m, _, hrun.trans hm, hl, ?_, ?_, ?_, ?_⟩
  · simp [GoMap.get]
  · simp [GoMap.get, List.getElem?_range']
  · simp [GoMap.get, List.getElem?_range']
  · simp only [GoMap.get, Option.getD_none, List.nil_append, List.mem_map, List.mem_range',
      not_exists, not_and]
    intro x _ hx
    omega

/-! ## The first tick, with and without the old sample -/

theorem StatsState.processCalculatedStats_old_count (s : StatsState)
    (oldSample : Option Registry) (m r : GoMap String LeafVar)
    (h : s.processCalculatedStats oldSample m = Except.ok r) :
    ∃ v, Registry.counterCount s.counters oldSample DOCS_WRITTEN_METRIC = Except.ok v := by
  unfold StatsState.processCalculatedStats at h
  cases h1 : Registry.counterCount s.counters s.getOverviewRegistry DOCS_WRITTEN_METRIC with
  | error p => rw [h1] at h; cases h
  | ok docs_written =>
    rw [h1] at h
    simp only at h
    cases h2 : s.stats_mgr.calculateChangesLeft docs_written with
    | none => rw [h2] at h; cases h
    | some cl =>
      rw [h2] at h
      simp only at h
      cases h3 : Registry.counterCount s.counters oldSample DOCS_WRITTEN_METRIC with
      | error p => rw [h3] at h; cases h
      | ok v => exact ⟨v, rfl⟩

theorem processRawStats_panics_of_no_old_counter (s : StatsState)
    (h : s.getOverviewRegistry = none ∨ ∃ old, s.getOverviewRegistry = some old ∧
      ∀ ref, old.get DOCS_WRITTEN_METRIC ≠ some (Metric.counter ref)) :
    ∃ p, s.processRawStats = Except.error p := by
  cases hr : s.processRawStats with
  | error p => exact ⟨p, rfl⟩
  | ok s' =>
    exfalso
    obtain ⟨ov1, ov, expvar0, r, m, _, _, _, _, _, _, hcnt, hcalc, _⟩ :=
      StatsState.processRawStats_inv s s' hr
    obtain ⟨v, hv⟩ := StatsState.processCalculatedStats_old_count _ _ _ _ hcalc
    rcases h with h | ⟨old, hold, hno⟩
    · rw [h] at hv
      cases hv
    · rw [hold] at hv
      unfold Registry.counterCount at hv
      simp only at hv
      cases hg : GoMap.get old DOCS_WRITTEN_METRIC with
      | none => cases hv
      | some metric =>
        cases metric with
        | counter ref => exact hno ref hg
        | histogram sample => cases hv

/-- C25, amended: at a tick for which the Overview registry of the earlier initialisation
is present and holds docs_written and data_replicated counters, the first one at 0 (the
registry that Attach installs), and for which nothing is published yet for the part
registries, processRawStats returns, provided that no part counter has the name of the
latency histogram and that the computation of changes_left does not panic; the old value
is then 0 and the rate_replicated published in the Overview map is docs_written divided by
the interval in seconds, docs_written being the count of the new Overview counter.  And
at a tick without an Overview registry from an earlier initialisation, or with one that
holds no counter under docs_written, processRawStats panics. -/
theorem processRawStats_first_tick (s : StatsState) :
    (∀ (E : GoMap String Var) (old : Registry) (oldDw oldDr : Nat),
      GoMap.WF s.registries →
      s.expvar_stats_map = some E →
      (∀ e ∈ s.registries, e.1 ≠ OVERVIEW_METRICS_KEY → E.get e.1 = none) →
      (∀ e ∈ s.registries, e.1 ≠ OVERVIEW_METRICS_KEY → ∀ m ∈ e.2, ∀ ref,
        m.2 = Metric.counter ref → m.1 ≠ DOCS_LATENCY_METRIC) →
      (∀ e ∈ s.registries, e.1 ≠ OVERVIEW_METRICS_KEY → ∀ m ∈ e.2, ∀ ref,
        m.2 = Metric.counter ref → ref < s.counters.length) →
      (∀ d, s.stats_mgr.calculateChangesLeft d ≠ none) →
      s.getOverviewRegistry = some old →
      old.get DOCS_WRITTEN_METRIC = some (Metric.counter oldDw) →
      old.get DATA_REPLICATED_METRIC = some (Metric.counter oldDr) →
      oldDw < s.counters.length →
      Counter.Count s.counters oldDw = 0 →
      ∃ s' docs_written E' overview_map, s.processRawStats = Except.ok s' ∧
        Registry.counterCount s'.counters s'.getOverviewRegistry DOCS_WRITTEN_METRIC =
          Except.ok docs_written ∧
        s'.expvar_stats_map = some E' ∧
        E'.get OVERVIEW_METRICS_KEY = some (Var.map overview_map) ∧
        overview_map.get RATE_REPLICATED =
          some (LeafVar.float (FloatExpr.perSecond docs_written s.update_interval))) ∧
    ((s.getOverviewRegistry = none ∨ ∃ old, s.getOverviewRegistry = some old ∧
        ∀ ref, old.get DOCS_WRITTEN_METRIC ≠ some (Metric.counter ref)) →
      ∃ p, s.processRawStats = Except.error p) :=
  ⟨fun E old oldDw oldDr hwf hexp hfresh hnames hrefs hcl hold holdDw holdDr hlen hzero =>
      processRawStats_returns_of_zero_old s E old oldDw oldDr hwf hexp hfresh hnames hrefs
        hcl hold holdDw holdDr hlen hzero,
    processRawStats_panics_of_no_old_counter s⟩

theorem processRawStats_first_tick_witness :
    ∃ s' docs_written E' overview_map,
      (StatsState.mk ⟨[], [], []⟩
        [("xmem1", [("docs_written", Metric.counter 0)]),
         ("Overview", [("docs_written", Metric.counter 1),
           ("data_replicated", Metric.counter 2), ("docs_filtered", Metric.counter 3)])]
        [] [] 1000000000 [5, 0, 0, 0] (some []) (fun _ => "")).processRawStats =
          Except.ok s' ∧
      Registry.counterCount s'.counters s'.getOverviewRegistry DOCS_WRITTEN_METRIC =
        Except.ok docs_written ∧
      s'.expvar_stats_map = some E' ∧
      E'.get OVERVIEW_METRICS_KEY = some (Var.map overview_map) ∧
      overview_map.get RATE_REPLICATED =
        some (LeafVar.float (FloatExpr.perSecond docs_written 1000000000)) :=
  (processRawStats_first_tick
    (StatsState.mk ⟨[], [], []⟩
        [("xmem1", [("docs_written", Metric.counter 0)]),
         ("Overview", [("docs_written", Metric.counter 1),
           ("data_replicated", Metric.counter 2), ("docs_filtered", Metric.counter 3)])]
        [] [] 1000000000 [5, 0, 0, 0] (some []) (fun _ => ""))).1
    [] [("docs_written", Metric.counter 1),
           ("data_replicated", Metric.counter 2), ("docs_filtered", Metric.counter 3)] 1 2
    (by decide) rfl (fun _ _ _ => rfl)
    (by
      intro e he hne m hm ref href
      simp only [List.mem_cons, List.mem_singleton, List.not_mem_nil, or_false] at he
      rcases he with he | he
      · subst he
        simp only [List.mem_singleton] at hm
        subst hm
        decide
      · subst he
        exact absurd rfl hne)
    (by
      intro e he hne m hm ref href
      simp only [List.mem_cons, List.mem_singleton, List.not_mem_nil, or_false] at he
      rcases he with he | he
      · subst he
        simp only [List.mem_singleton] at hm
        subst hm
        cases href
        decide
      · subst he
        exact absurd rfl hne)
    (by
      intro d
      simp [StatisticsManager.calculateChangesLeft, StatisticsManager.calculateTotalChanges,
        calculateTotalChanges.outer])
    rfl rfl rfl (by decide) (by decide)

/-! ## changes_left when a vBucket is missing from the stats map -/

theorem calculateTotalChanges.inner_ne_panic (stats_mgr : StatisticsManager)
    (highseqno_map : GoMap Nat Nat) (err : Option Error) (vbnos : List Nat) (total_doc : Nat)
    (hts : ∀ vbno ∈ vbnos, stats_mgr.current_vb_start_ts.get vbno ≠ none) :
    calculateTotalChanges.inner stats_mgr highseqno_map err vbnos total_doc ≠
      LoopStep.panic := by
  induction vbnos generalizing total_doc with
  | nil => simp [calculateTotalChanges.inner]
  | cons v vs ih =>
    unfold calculateTotalChanges.inner
    simp only
    cases err with
    | some e => simp
    | none =>
      cases hg : GoMap.get stats_mgr.current_vb_start_ts v with
      | none => exact absurd hg (hts v (List.mem_cons_self _ _))
      | some ts =>
        simp only
        exact ih _ (fun vb hvb => hts vb (List.mem_cons_of_mem _ hvb))

theorem calculateTotalChanges.outer_ne_panic (stats_mgr : StatisticsManager)
    (servers : List (String × List Nat)) (total_doc : Nat)
    (hts : ∀ e ∈ servers, ∀ vbno ∈ e.2, stats_mgr.current_vb_start_ts.get vbno ≠ none) :
    calculateTotalChanges.outer stats_mgr servers total_doc ≠ LoopStep.panic := by
  induction servers generalizing total_doc with
  | nil => simp [calculateTotalChanges.outer]
  | cons s servers ih =>
    obtain ⟨serverAddr, vbnos⟩ := s
    unfold calculateTotalChanges.outer
    simp only
    cases hinner : calculateTotalChanges.inner stats_mgr
        (stats_mgr.getHighSeqNos serverAddr vbnos).1
        (stats_mgr.getHighSeqNos serverAddr vbnos).2 vbnos total_doc with
    | next t => exact ih t (fun e he => hts e (List.mem_cons_of_mem _ he))
    | ret r => simp
    | panic =>
      exact absurd hinner (calculateTotalChanges.inner_ne_panic stats_mgr _ _ vbnos total_doc
        (hts (serverAddr, vbnos) (List.mem_cons_self _ _)))

theorem StatisticsManager.calculateChangesLeft_of_lookup_error
    (stats_mgr : StatisticsManager) (docs_written : Int) (e : String × List Nat)
    (he : e ∈ stats_mgr.active_vbs) (hne : e.2 ≠ [])
    (herr : (stats_mgr.getHighSeqNos e.1 e.2).2 ≠ none) :
    (∀ changes_left,
      stats_mgr.calculateChangesLeft docs_written ≠ some (changes_left, none)) ∧
    ((∀ e ∈ stats_mgr.active_vbs, ∀ vbno ∈ e.2,
        stats_mgr.current_vb_start_ts.get vbno ≠ none) →
      ∃ err, stats_mgr.calculateChangesLeft docs_written = some (0, some err)) := by
  have houter := calculateTotalChanges.outer_of_error stats_mgr stats_mgr.active_vbs 0
    e he hne herr
  unfold StatisticsManager.calculateChangesLeft StatisticsManager.calculateTotalChanges
  cases ho : calculateTotalChanges.outer stats_mgr stats_mgr.active_vbs 0 with
  | next t => exact absurd ho (houter t)
  | ret r =>
    have hr := calculateTotalChanges.outer_ret stats_mgr _ 0 r ho
    obtain ⟨x, e⟩ := r
    cases e with
    | none => exact absurd rfl hr
    | some err => exact ⟨by simp, fun _ => ⟨err, rfl⟩⟩
  | panic =>
    exact ⟨by simp, fun hts =>
      absurd ho (calculateTotalChanges.outer_ne_panic stats_mgr _ 0 hts)⟩

/-- C12, amended: when the stats map returned by a source server lacks the entry
vb_N:high_seqno of an active vBucket N of that server, the vBucket is not skipped:
getHighSeqNos returns an error and no map for the server, ParseHighSeqnoStat returns an
error, and calculateChangesLeft returns no value for the interval: in no case does it
return a value with a nil error, and when every active vBucket has a start timestamp it
returns 0 and an error. -/
theorem missing_high_seqno_fails_interval (stats_mgr : StatisticsManager)
    (docs_written : Int) (serverAddr : String) (vbnos : List Nat) (conn : Client)
    (hactive : (serverAddr, vbnos) ∈ stats_mgr.active_vbs)
    (hconn : stats_mgr.kv_mem_clients.get serverAddr = some conn)
    (vbno : Nat) (hv : vbno ∈ vbnos)
    (hmiss : (conn.StatsMap VBUCKET_SEQNO_STAT_NAME).1.get (highSeqnoStatKey vbno) = none)
    (highseqno_map : GoMap Nat Nat) :
    (stats_mgr.getHighSeqNos serverAddr vbnos).1 = [] ∧
    (stats_mgr.getHighSeqNos serverAddr vbnos).2 ≠ none ∧
    (ParseHighSeqnoStat vbnos (conn.StatsMap VBUCKET_SEQNO_STAT_NAME).1 highseqno_map).2
      ≠ none ∧
    (∀ changes_left,
      stats_mgr.calculateChangesLeft docs_written ≠ some (changes_left, none)) ∧
    ((∀ e ∈ stats_mgr.active_vbs, ∀ vb ∈ e.2,
        stats_mgr.current_vb_start_ts.get vb ≠ none) →
      ∃ err, stats_mgr.calculateChangesLeft docs_written = some (0, some err)) := by
  have hget := StatisticsManager.getHighSeqNos_missing stats_mgr serverAddr vbnos conn hconn
    vbno hv hmiss
  have hcl := StatisticsManager.calculateChangesLeft_of_lookup_error stats_mgr docs_written
    (serverAddr, vbnos) hactive (List.ne_nil_of_mem hv) hget.2
  exact ⟨hget.1, hget.2,
    ParseHighSeqnoStat.loop_of_missing_stat _ vbnos highseqno_map vbno hv hmiss,
    hcl.1, hcl.2⟩

/-- An instance of the amended C12: the server owns the vBuckets 0 and 1, both with a start
timestamp, and its stats map has the entry of vBucket 0 only. -/
theorem missing_high_seqno_fails_interval_witness :
    ∃ err, StatisticsManager.calculateChangesLeft
      { current_vb_start_ts := [(0, ⟨0, 0, 2, 0, 0⟩), (1, ⟨1, 0, 0, 0, 0⟩)],
        active_vbs := [("s", [0, 1])],
        kv_mem_clients := [("s", ⟨fun _ => ([("vb_0:high_seqno", "7")], none)⟩)] }
      3 = some (0, some err) :=
  (missing_high_seqno_fails_interval
    { current_vb_start_ts := [(0, ⟨0, 0, 2, 0, 0⟩), (1, ⟨1, 0, 0, 0, 0⟩)],
      active_vbs := [("s", [0, 1])],
      kv_mem_clients := [("s", ⟨fun _ => ([("vb_0:high_seqno", "7")], none)⟩)] }
    3 "s" [0, 1] ⟨fun _ => ([("vb_0:high_seqno", "7")], none)⟩
    (by decide) rfl 1 (by decide) (by decide) []).2.2.2.2 (by decide)

end Goxdcr
